import Mathlib

/-!
# File integrity monitor: scan and event engine (`syscheckd/create_db.c`)

A shallow embedding of the reconciliation pipeline of the file integrity
monitor: attribute comparison and event synthesis, the path-keyed entry store
with its inode index, the inode-collision resolver, the deletion handler, the
recursive checker and the scheduled scan. Two smaller functions of the agent
are embedded as well: the reader of MS SQL logs
(`logcollector/read_mssql_log.c`) and the memory report of the system
inventory (`data_provider/src/sysInfoLinux.cpp`).

Conventions of the embedding.

* C strings that may be `NULL` are `Option String`; character arrays are `String`.
* A function that dereferences a `NULL` string (`strcmp` on an absent
  permission) or that exhausts the recursion budget of the model halts with a
  `fim_halt` value; every function of the pipeline therefore returns an
  `Except fim_halt`.
* Global state (`syscheck.database`, `_base_line`, `_db_state`, and the two
  transports) is passed explicitly as a `fim_state`.
* The operating system (stat, readdir, hashing, user database, clock) and the
  configuration are read-only parameters.
-/

namespace Wazuh

/-! ## Option bits, modes, event kinds -/

/-- Modelled from the spec: the option masks of `syscheck.h`, which is not among the
sources. Each option is a single bit of the per-directory mask. -/
def CHECK_SIZE : Nat := 0o1
/-- Modelled from the spec: option bit of `syscheck.h` (permission). -/
def CHECK_PERM : Nat := 0o2
/-- Modelled from the spec: option bit of `syscheck.h` (owner). -/
def CHECK_OWNER : Nat := 0o4
/-- Modelled from the spec: option bit of `syscheck.h` (group). -/
def CHECK_GROUP : Nat := 0o10
/-- Modelled from the spec: option bit of `syscheck.h` (modification time). -/
def CHECK_MTIME : Nat := 0o20
/-- Modelled from the spec: option bit of `syscheck.h` (inode). -/
def CHECK_INODE : Nat := 0o40
/-- Modelled from the spec: option bit of `syscheck.h` (MD5). -/
def CHECK_MD5SUM : Nat := 0o100
/-- Modelled from the spec: option bit of `syscheck.h` (SHA-1). -/
def CHECK_SHA1SUM : Nat := 0o200
/-- Modelled from the spec: option bit of `syscheck.h` (SHA-256). -/
def CHECK_SHA256SUM : Nat := 0o400
/-- Modelled from the spec: option bit of `syscheck.h` (Windows attributes). -/
def CHECK_ATTRS : Nat := 0o10000
/-- Modelled from the spec: option bit of `syscheck.h` (content diff). -/
def CHECK_SEECHANGES : Nat := 0o20000
/-- Modelled from the spec: option bit of `syscheck.h` (follow symbolic links). -/
def CHECK_FOLLOW : Nat := 0o40000
/-- Modelled from the spec: option bit of `syscheck.h` (realtime mode). -/
def REALTIME_ACTIVE : Nat := 0o100000
/-- Modelled from the spec: option bit of `syscheck.h` (whodata mode). -/
def WHODATA_ACTIVE : Nat := 0o200000
/-- Modelled from the spec: option bit of `syscheck.h` (scheduled mode). -/
def SCHEDULED_ACTIVE : Nat := 0o400000

/-- The C test `mask & bit` used as a condition. -/
def has_opt (mask bit : Nat) : Bool := mask &&& bit != 0

/-- Modelled from the spec: `fim_event_mode` of `syscheck.h`; the three event-production modes. -/
inductive fim_event_mode where
  | FIM_SCHEDULED
  | FIM_REALTIME
  | FIM_WHODATA
  deriving DecidableEq, Repr

export fim_event_mode (FIM_SCHEDULED FIM_REALTIME FIM_WHODATA)

/-- Modelled from the spec: `fim_event_type` of `syscheck.h`; the order is the one of the
`FIM_EVENT_TYPE` table. -/
inductive fim_event_type where
  | FIM_ADD
  | FIM_DELETE
  | FIM_MODIFICATION
  deriving DecidableEq, Repr

export fim_event_type (FIM_ADD FIM_DELETE FIM_MODIFICATION)

/-- The table `FIM_EVENT_TYPE[]`. -/
def FIM_EVENT_TYPE : fim_event_type → String
  | FIM_ADD => "added"
  | FIM_DELETE => "deleted"
  | FIM_MODIFICATION => "modified"

/-- The table `FIM_EVENT_MODE[]`. -/
def FIM_EVENT_MODE : fim_event_mode → String
  | FIM_SCHEDULED => "scheduled"
  | FIM_REALTIME => "realtime"
  | FIM_WHODATA => "whodata"

/-- Modelled from the spec: the macro `FIM_MODE` of `syscheck.h`, the mode a directory is
configured for. -/
def FIM_MODE (opts : Nat) : fim_event_mode :=
  if has_opt opts WHODATA_ACTIVE then FIM_WHODATA
  else if has_opt opts REALTIME_ACTIVE then FIM_REALTIME
  else FIM_SCHEDULED

/-- Ways in which a run of the model stops without a result: the source would
dereference a null string, or the recursion budget of the model is used up. -/
inductive fim_halt where
  | null_string
  | out_of_fuel
  deriving DecidableEq, Repr

/-! ## Data model -/

/-- Modelled from the spec: `fim_file_data` (the `FileData` record of the data model); the
declaration lives in `syscheck.h`. Pointer fields are optional strings. -/
structure fim_file_data where
  size : Nat
  perm : Option String
  attributes : Option String
  uid : Option String
  gid : Option String
  user_name : Option String
  group_name : Option String
  mtime : Int
  inode : Nat
  hash_md5 : String
  hash_sha1 : String
  hash_sha256 : String
  mode : fim_event_mode
  last_event : Int
  dev : Nat
  scanned : Bool
  options : Nat
  checksum : String
  deriving DecidableEq, Repr

/-- Modelled from the spec: `fim_entry` restricted to files: a path and its data. -/
structure fim_entry where
  path : String
  data : fim_file_data
  deriving DecidableEq, Repr

/-- Modelled from the spec: `whodata_evt`, the audit context supplied by the whodata
collaborator; only the fields read by the engine. -/
structure whodata_evt where
  path : String
  user_id : Option String
  user_name : Option String
  process_name : Option String
  process_id : Int
  inode : Nat
  dev : Nat
  deriving DecidableEq, Repr

/-- The JSON object built by `fim_attributes_json`; a key that is not added
is `none`. -/
structure fim_attributes where
  type : String
  size : Option Nat
  perm : Option String
  uid : Option String
  gid : Option String
  user_name : Option String
  group_name : Option String
  inode : Option Nat
  mtime : Option Int
  hash_md5 : Option String
  hash_sha1 : Option String
  hash_sha256 : Option String
  checksum : Option String
  deriving DecidableEq, Repr

/-- The `data` object of the JSON event built by `fim_json_event`; a key that
is not added is `none`. -/
structure fim_event where
  path : String
  mode : String
  type : String
  timestamp : Int
  hard_links : Option (List String)
  attributes : fim_attributes
  changed_attributes : Option (List String)
  old_attributes : Option fim_attributes
  audit : Option whodata_evt
  content_changes : Option String
  tags : Option String
  deriving DecidableEq, Repr

/-- The fields of `struct stat` read by the engine. -/
structure stat_t where
  st_mode : Nat
  st_size : Nat
  st_mtime : Int
  st_uid : Nat
  st_gid : Nat
  st_ino : Nat
  st_dev : Nat
  deriving DecidableEq, Repr

/-- Modelled from the spec: `fim_element` of `syscheck.h`, the per-call context: the stat
result, the index of the configured directory, its option mask and the mode
that triggered the call. -/
structure fim_element where
  statbuf : stat_t
  index : Int
  configuration : Nat
  mode : fim_event_mode
  deriving DecidableEq, Repr

/-- The effect of `memset(&item, 0, sizeof(fim_element))`. -/
def fim_element_zero : fim_element :=
  { statbuf := { st_mode := 0, st_size := 0, st_mtime := 0, st_uid := 0, st_gid := 0,
                 st_ino := 0, st_dev := 0 },
    index := 0, configuration := 0, mode := FIM_SCHEDULED }

/-- File-type mask of `st_mode` (POSIX `S_IFMT`). -/
def S_IFMT : Nat := 0o170000
/-- Regular file (`S_IFREG`). -/
def FIM_REGULAR : Nat := 0o100000
/-- Symbolic link (`S_IFLNK`). -/
def FIM_LINK : Nat := 0o120000
/-- Directory (`S_IFDIR`). -/
def FIM_DIRECTORY : Nat := 0o040000
/-- The errno value of a missing file. -/
def ENOENT : Nat := 2
/-- The path separator of the POSIX build. -/
def PATH_SEP : Char := '/'

/-- Modelled from the spec: the configuration singleton `syscheck` (declared in
`syscheck.h`): per-directory tables and the global limits. A compiled regular
expression (`OSMatch`) is the predicate it decides. -/
structure syscheck_t where
  dir : List String
  symbolic_links : List (Option String)
  opts : List Nat
  recursion_level : List Int
  filerestrict : List (Option (String → Bool))
  tag : List (Option String)
  ignore : List String
  ignore_regex : List (String → Bool)
  file_limit_enabled : Bool
  file_limit : Int
  file_max_size : Nat

/-- The operating system and the collaborators the engine calls, as read-only
functions: `w_stat` (`Except` of the errno), `opendir`/`readdir`,
`agent_file_perm`, `get_user`, `get_group`, the file-hash primitive
`OS_MD5_SHA1_SHA256_File` (`none` on failure), `OS_SHA1_Str`, `fim_file_diff`,
`HasFilesystem` on the configured skip list, `IsLink` and `time(NULL)`. -/
structure os_t where
  w_stat : String → Except Nat stat_t
  readdir : String → Option (List String)
  agent_file_perm : Nat → String
  get_user : Nat → Option String
  get_group : Nat → Option String
  OS_MD5_SHA1_SHA256_File : String → Option (String × String × String)
  OS_SHA1_Str : String → String
  fim_file_diff : String → Option String
  HasFilesystem : String → Bool
  IsLink : String → Int
  time : Int

/-! ## The entry store (contract of section 4.3) -/

/-- The fallible operations of the store. -/
inductive fim_db_op where
  | op_get_path
  | op_insert
  | op_remove_path
  | op_data_exists
  | op_paths_from_inode
  | op_set_all_unscanned
  | op_file_is_scanned
  | op_set_scanned
  | op_get_not_scanned
  | op_count
  deriving DecidableEq, Repr

/-- Modelled from the spec: the abstract `EntryStore` (`fdb_t`, implemented in `db/fim_db_files.c`):
a path-keyed list of entries in insertion order, the `full` flag, and the set
of operations that currently return a hard failure. -/
structure fdb_t where
  entries : List fim_entry
  full : Bool
  failing : List fim_db_op
  deriving DecidableEq, Repr

/-- Store return code: success. -/
def FIMDB_OK : Int := 0
/-- Store return code: hard failure. -/
def FIMDB_ERR : Int := -1
/-- Store return code: insert refused, the store is at capacity. -/
def FIMDB_FULL : Int := -2

/-- Modelled from the spec: outcome of `remove(path) → Ok | NotFound | Err`. -/
inductive fim_db_remove_res where
  | Ok
  | NotFound
  | Err
  deriving DecidableEq, Repr

/-- Whether the store operation `op` returns a hard failure. -/
def fim_db_fails (db : fdb_t) (op : fim_db_op) : Bool := db.failing.contains op

/-- Modelled from the spec: `get(path) → Entry?`, path-keyed lookup (`NULL` also on failure). -/
def fim_db_get_path (db : fdb_t) (path : String) : Option fim_entry :=
  if fim_db_fails db .op_get_path then none
  else db.entries.find? (fun e => e.path == path)

/-- Modelled from the spec: `count() → usize`; negative on failure. -/
def fim_db_get_count_entries (db : fdb_t) : Int :=
  if fim_db_fails db .op_count then FIMDB_ERR else (db.entries.length : Int)

/-- Replace the data of the entry at `path`, or append a new entry. -/
def fim_db_upsert (entries : List fim_entry) (path : String) (data : fim_file_data) :
    List fim_entry :=
  if entries.any (fun e => e.path == path) then
    entries.map (fun e => if e.path == path then { e with data := data } else e)
  else entries ++ [{ path := path, data := data }]

/-- Modelled from the spec: `insert(path, new_data, old_data?) → Ok | Err`, an upsert. A path
without prior data is refused once the store has reached the configured
capacity, which raises the `full` flag. -/
def fim_db_insert (sys : syscheck_t) (db : fdb_t) (path : String) (new : fim_file_data)
    (saved : Option fim_file_data) : Int × fdb_t :=
  if fim_db_fails db .op_insert then (FIMDB_ERR, db)
  else if saved.isNone && sys.file_limit_enabled
      && decide ((db.entries.length : Int) ≥ sys.file_limit) then
    (FIMDB_FULL, { db with full := true })
  else (FIMDB_OK, { db with entries := fim_db_upsert db.entries path new })

/-- Modelled from the spec: `remove(path) → Ok | NotFound | Err`; a removal frees capacity and
clears the `full` flag. -/
def fim_db_remove_path (db : fdb_t) (path : String) : fim_db_remove_res × fdb_t :=
  if fim_db_fails db .op_remove_path then (.Err, db)
  else if db.entries.any (fun e => e.path == path) then
    (.Ok, { db with entries := db.entries.filter (fun e => e.path != path), full := false })
  else (.NotFound, db)

/-- Modelled from the spec: `data_exists(inode, dev) → 0 | 1 | Err`, the secondary-index probe. -/
def fim_db_data_exists (db : fdb_t) (inode dev : Nat) : Int :=
  if fim_db_fails db .op_data_exists then FIMDB_ERR
  else if db.entries.any (fun e => e.data.inode == inode && e.data.dev == dev) then 1 else 0

/-- Modelled from the spec: `paths_from_inode(inode, dev) → [path]`, all paths claiming that
inode and device, in store order (empty on failure). -/
def fim_db_get_paths_from_inode (db : fdb_t) (inode dev : Nat) : List String :=
  if fim_db_fails db .op_paths_from_inode then []
  else (db.entries.filter (fun e => e.data.inode == inode && e.data.dev == dev)).map
    (fun e => e.path)

/-- Push on `stack` the paths of `paths` that are not in `tree`, recording
them in `tree`; returns the number of paths pushed. -/
def fim_append_paths : List String → List String → List String → Nat × List String × List String
  | [], stack, tree => (0, stack, tree)
  | p :: ps, stack, tree =>
    if tree.contains p then fim_append_paths ps stack tree
    else
      let r := fim_append_paths ps (stack ++ [p]) (tree ++ [p])
      (r.1 + 1, r.2.1, r.2.2)

/-- Modelled from the spec: `append_paths_from_inode(inode, dev, stack, visited) → count_added`:
pushes onto the working stack the paths at that inode, skipping those already
in the visited set. -/
def fim_db_append_paths_from_inode (db : fdb_t) (inode dev : Nat) (stack tree : List String) :
    Nat × List String × List String :=
  fim_append_paths (fim_db_get_paths_from_inode db inode dev) stack tree

/-- Modelled from the spec: `set_all_unscanned()`, clears the scanned flag everywhere. -/
def fim_db_set_all_unscanned (db : fdb_t) : fdb_t :=
  if fim_db_fails db .op_set_all_unscanned then db
  else
    let clear := fun (e : fim_entry) => { e with data := { e.data with scanned := false } }
    { db with entries := db.entries.map clear }

/-- Modelled from the spec: `file_is_scanned(path) → bool | Err`; a path without entry is not
scanned. -/
def fim_db_file_is_scanned (db : fdb_t) (path : String) : Int :=
  if fim_db_fails db .op_file_is_scanned then FIMDB_ERR
  else match db.entries.find? (fun e => e.path == path) with
    | some e => if e.data.scanned then 1 else 0
    | none => 0

/-- Modelled from the spec: `set_scanned(path)`. -/
def fim_db_set_scanned (db : fdb_t) (path : String) : fdb_t :=
  if fim_db_fails db .op_set_scanned then db
  else
    let mark := fun (e : fim_entry) =>
      if e.path == path then { e with data := { e.data with scanned := true } } else e
    { db with entries := db.entries.map mark }

/-- Modelled from the spec: `not_scanned() → PathSet`, the paths whose scanned flag is clear
(`none` on failure). -/
def fim_db_get_not_scanned (db : fdb_t) : Option (List String) :=
  if fim_db_fails db .op_get_not_scanned then none
  else some ((db.entries.filter (fun e => !e.data.scanned)).map (fun e => e.path))

/-! ## Global state and transports -/

/-- Modelled from the spec: `fim_state_db` of `syscheck.h`, the capacity state (`DbState`). -/
inductive fim_state_db where
  | FIM_STATE_DB_EMPTY
  | FIM_STATE_DB_NORMAL
  | FIM_STATE_DB_80_PERCENTAGE
  | FIM_STATE_DB_90_PERCENTAGE
  | FIM_STATE_DB_FULL
  deriving DecidableEq, Repr

export fim_state_db (FIM_STATE_DB_EMPTY FIM_STATE_DB_NORMAL FIM_STATE_DB_80_PERCENTAGE
  FIM_STATE_DB_90_PERCENTAGE FIM_STATE_DB_FULL)

/-- A message handed to `send_syscheck_msg`: a file event (`fim_json_event`)
or a scan bracket (`fim_scan_info_json`). -/
inductive syscheck_msg where
  | event (e : fim_event)
  | scan_info (type : String) (timestamp : Int)
  deriving DecidableEq, Repr

/-- The JSON object of a capacity alert handed to `send_log_msg`. -/
structure fim_db_alert where
  file_limit : Int
  file_count : Int
  alert_type : String
  deriving DecidableEq, Repr

/-- The mutable globals of the engine: `syscheck.database`, `_base_line`,
`_db_state`, and what has been handed to the two transports, oldest first. -/
structure fim_state where
  database : fdb_t
  _base_line : Bool
  _db_state : fim_state_db
  sent : List syscheck_msg
  logged : List fim_db_alert
  deriving DecidableEq, Repr

/-- Modelled from the spec: the transport `send_syscheck_msg(event_json)`. -/
def send_syscheck_msg (m : syscheck_msg) (s : fim_state) : fim_state :=
  { s with sent := s.sent ++ [m] }

/-- Modelled from the spec: the transport `send_log_msg(text)`; the text is the prefix
`wazuh: FIM DB: ` followed by the alert object. -/
def send_log_msg (a : fim_db_alert) (s : fim_state) : fim_state :=
  { s with logged := s.logged ++ [a] }

/-! ## EventBuilder -/

/-- The test `strcmp(a, b) != 0`; undefined on a null operand. -/
def strcmp_ne (a b : Option String) : Except fim_halt Bool :=
  match a, b with
  | some x, some y => .ok (x != y)
  | _, _ => .error .null_string

/-- The test `a && b && strcmp(a, b) != 0`. -/
def both_differ (a b : Option String) : Bool :=
  match a, b with
  | some x, some y => x != y
  | _, _ => false

/-- The array item appended when `c` holds. -/
def changed_if (c : Bool) (name : String) : List String := if c then [name] else []

/-- `fim_json_compare_attrs` (POSIX build): the names of the attributes that
differ between the old and the new data, each gated by the old data's option
mask. -/
def fim_json_compare_attrs (old_data new_data : fim_file_data) : Except fim_halt (List String) :=
  let o := old_data.options
  (if has_opt o CHECK_PERM then strcmp_ne old_data.perm new_data.perm else .ok false).map
    fun perm_ne =>
      changed_if (has_opt o CHECK_SIZE && old_data.size != new_data.size) "size"
      ++ changed_if perm_ne "permission"
      ++ changed_if (has_opt o CHECK_OWNER && both_differ old_data.uid new_data.uid) "uid"
      ++ changed_if (has_opt o CHECK_OWNER && both_differ old_data.user_name new_data.user_name)
          "user_name"
      ++ changed_if (has_opt o CHECK_GROUP && both_differ old_data.gid new_data.gid) "gid"
      ++ changed_if (has_opt o CHECK_GROUP && both_differ old_data.group_name new_data.group_name)
          "group_name"
      ++ changed_if (has_opt o CHECK_MTIME && old_data.mtime != new_data.mtime) "mtime"
      ++ changed_if (has_opt o CHECK_INODE && old_data.inode != new_data.inode) "inode"
      ++ changed_if (has_opt o CHECK_MD5SUM && old_data.hash_md5 != new_data.hash_md5) "md5"
      ++ changed_if (has_opt o CHECK_SHA1SUM && old_data.hash_sha1 != new_data.hash_sha1) "sha1"
      ++ changed_if (has_opt o CHECK_SHA256SUM && old_data.hash_sha256 != new_data.hash_sha256)
          "sha256"

/-- `fim_attributes_json` (POSIX build). Adding a null string adds no key. -/
def fim_attributes_json (data : fim_file_data) : fim_attributes :=
  let o := data.options
  { type := "file",
    size := if has_opt o CHECK_SIZE then some data.size else none,
    perm := if has_opt o CHECK_PERM then data.perm else none,
    uid := if has_opt o CHECK_OWNER then data.uid else none,
    gid := if has_opt o CHECK_GROUP then data.gid else none,
    user_name := data.user_name,
    group_name := data.group_name,
    inode := if has_opt o CHECK_INODE then some data.inode else none,
    mtime := if has_opt o CHECK_MTIME then some data.mtime else none,
    hash_md5 := if has_opt o CHECK_MD5SUM then some data.hash_md5 else none,
    hash_sha1 := if has_opt o CHECK_SHA1SUM then some data.hash_sha1 else none,
    hash_sha256 := if has_opt o CHECK_SHA256SUM then some data.hash_sha256 else none,
    checksum := if data.checksum.data = [] then none else some data.checksum }

/-- The `hard_links` array of an event: the other paths at the inode of the
new data, present only when the store reports at least two paths. -/
def fim_hard_links (db : fdb_t) (file_name : String) (new_data : fim_file_data) :
    Option (List String) :=
  match fim_db_get_paths_from_inode db new_data.inode new_data.dev with
  | p0 :: p1 :: rest => some ((p0 :: p1 :: rest).filter (fun p => p != file_name))
  | _ => none

/-- `fim_json_event` (POSIX build): `.ok none` is the `NULL` return (no
event). `pos` indexes the tag table. -/
def fim_json_event (sys : syscheck_t) (db : fdb_t) (file_name : String)
    (old_data : Option fim_file_data) (new_data : fim_file_data) (pos : Int)
    (type : fim_event_type) (mode : fim_event_mode) (w_evt : Option whodata_evt)
    (diff : Option String) : Except fim_halt (Option fim_event) :=
  match old_data with
  | some od =>
    match fim_json_compare_attrs od new_data with
    | .error h => .error h
    | .ok changed_attributes =>
      if changed_attributes.length = 0 then .ok none
      else .ok (some
        { path := file_name,
          mode := FIM_EVENT_MODE mode,
          type := FIM_EVENT_TYPE type,
          timestamp := new_data.last_event,
          hard_links := fim_hard_links db file_name new_data,
          attributes := fim_attributes_json new_data,
          changed_attributes := some changed_attributes,
          old_attributes := some (fim_attributes_json od),
          audit := w_evt,
          content_changes := diff,
          tags := (sys.tag.get? pos.toNat).join })
  | none =>
    .ok (some
      { path := file_name,
        mode := FIM_EVENT_MODE mode,
        type := FIM_EVENT_TYPE type,
        timestamp := new_data.last_event,
        hard_links := fim_hard_links db file_name new_data,
        attributes := fim_attributes_json new_data,
        changed_attributes := none,
        old_attributes := none,
        audit := w_evt,
        content_changes := diff,
        tags := (sys.tag.get? pos.toNat).join })

/-- `fim_scan_info_json`. -/
def fim_scan_info_json (start : Bool) (timestamp : Int) : syscheck_msg :=
  .scan_info (if start then "scan_start" else "scan_end") timestamp

/-- Modelled from the spec: `fim_send_scan_info` (`run_check.c`): emits the scan bracket event
with the current time. -/
def fim_send_scan_info (os : os_t) (start : Bool) (s : fim_state) : fim_state :=
  send_syscheck_msg (fim_scan_info_json start os.time) s

/-! ## AttributeExtractor -/

/-- C `%d` of a size on a 64-bit target: the low 32 bits read as a signed int. -/
def fmt_d (n : Nat) : String :=
  if n % 2 ^ 32 < 2 ^ 31 then toString (n % 2 ^ 32) else "-" ++ toString (2 ^ 32 - n % 2 ^ 32)

/-- C `%u`: the low 32 bits read as an unsigned int. -/
def fmt_u (n : Int) : String := toString (n % 2 ^ 32).toNat

/-- C `%lu` of an `unsigned long`. -/
def fmt_lu (n : Nat) : String := toString (n % 2 ^ 64)

/-- The argument `p ? p : ""` of the checksum format. -/
def str_or_empty (p : Option String) : String := p.getD ""

/-- The string hashed by `fim_get_checksum`:
`"%d:%s:%s:%s:%s:%s:%s:%u:%lu:%s:%s:%s"`. -/
def fim_checksum_string (data : fim_file_data) : String :=
  String.intercalate ":"
    [fmt_d data.size, str_or_empty data.perm, str_or_empty data.attributes,
     str_or_empty data.uid, str_or_empty data.gid, str_or_empty data.user_name,
     str_or_empty data.group_name, fmt_u data.mtime, fmt_lu data.inode,
     data.hash_md5, data.hash_sha1, data.hash_sha256]

/-- `fim_get_checksum`: stores the SHA-1 of the canonical string. -/
def fim_get_checksum (os : os_t) (data : fim_file_data) : fim_file_data :=
  { data with checksum := os.OS_SHA1_Str (fim_checksum_string data) }

/-- `fim_get_data` (POSIX build): `none` is the `NULL` return. -/
def fim_get_data (sys : syscheck_t) (os : os_t) (file : String) (item : fim_element) :
    Option fim_file_data :=
  let c := item.configuration
  let st := item.statbuf
  let compute := (st.st_mode &&& S_IFMT == FIM_REGULAR) && decide (st.st_size > 0)
    && decide (st.st_size < sys.file_max_size)
    && (has_opt c CHECK_MD5SUM || has_opt c CHECK_SHA1SUM || has_opt c CHECK_SHA256SUM)
  let hashes := if compute then os.OS_MD5_SHA1_SHA256_File file
    else some ("d41d8cd98f00b204e9800998ecf8427e", "da39a3ee5e6b4b0d3255bfef95601890afd80709",
      "e3b0c44298fc1c149afbf4c8996fb92427ae41e4649b934ca495991b7852b855")
  match hashes with
  | none => none
  | some (md5, sha1, sha256) =>
    some (fim_get_checksum os
      { size := if has_opt c CHECK_SIZE then st.st_size else 0,
        perm := if has_opt c CHECK_PERM then some (os.agent_file_perm st.st_mode) else none,
        attributes := none,
        uid := if has_opt c CHECK_OWNER then some (toString st.st_uid) else none,
        gid := if has_opt c CHECK_GROUP then some (toString st.st_gid) else none,
        user_name := if has_opt c CHECK_OWNER then os.get_user st.st_uid else none,
        group_name := if has_opt c CHECK_GROUP then os.get_group st.st_gid else none,
        mtime := if has_opt c CHECK_MTIME then st.st_mtime else 0,
        inode := st.st_ino,
        hash_md5 := if has_opt c CHECK_MD5SUM then md5 else "",
        hash_sha1 := if has_opt c CHECK_SHA1SUM then sha1 else "",
        hash_sha256 := if has_opt c CHECK_SHA256SUM then sha256 else "",
        mode := item.mode,
        last_event := os.time,
        dev := st.st_dev,
        scanned := true,
        options := c,
        checksum := "" })

/-! ## ConfigResolver and policy filters

A `Char` of a path stands for one byte; the fixed-size path buffers of the
source are assumed large enough, so no truncation is modelled. -/

/-- `fim_get_real_path` (POSIX build). -/
def fim_get_real_path (sys : syscheck_t) (os : os_t) (position : Nat) : String :=
  if !has_opt (sys.opts.getD position 0) CHECK_FOLLOW then sys.dir.getD position ""
  else match (sys.symbolic_links.get? position).join with
    | some l => l
    | none => if os.IsLink (sys.dir.getD position "") == 0 then "" else sys.dir.getD position ""

/-- Modelled from the spec: `trail_path_separator(dest, src, n)` (`file_op.c`): writes into
`dest` the path `src` completed with a trailing separator; an empty `src`
leaves `dest` as it was. -/
def trail_path_separator (dest src : String) : String :=
  if src.data = [] then dest
  else if src.data.getLast? = some PATH_SEP then src
  else String.mk (src.data ++ [PATH_SEP])

/-- Modelled from the spec: `w_compare_str(lhs, rhs)` (`string_op.c`): the length of `lhs`
when it is a prefix of `rhs`, a negative value otherwise. -/
def w_compare_str (lhs rhs : String) : Int :=
  if lhs.data.isPrefixOf rhs.data then (lhs.data.length : Int) else -1

/-- One iteration of the loop of `fim_configuration_directory`; the state is
the buffer `full_entry` and the variables `top` and `position`. -/
def fim_configuration_directory_step (sys : syscheck_t) (os : os_t) (full_path : String)
    (acc : String × Int × Int) (it : Nat) : String × Int × Int :=
  let full_entry := trail_path_separator acc.1 (fim_get_real_path sys os it)
  let m := w_compare_str full_entry full_path
  if acc.2.1 < m && full_path.data.get? (m - 1).toNat == some PATH_SEP then
    (full_entry, m, (it : Int))
  else (full_entry, acc.2.1, acc.2.2)

/-- `fim_configuration_directory`: the position of the path in the table of
configured directories, `-1` if none. -/
def fim_configuration_directory (sys : syscheck_t) (os : os_t) (path : String) : Int :=
  if path.data = [] then -1
  else
    ((List.range sys.dir.length).foldl
      (fim_configuration_directory_step sys os (trail_path_separator "" path)) ("", 0, -1)).2.2

/-- `fim_check_depth` (POSIX build). -/
def fim_check_depth (sys : syscheck_t) (os : os_t) (path : String) (dir_position : Nat) : Int :=
  if sys.dir.get? dir_position = none ∧ (sys.symbolic_links.get? dir_position).join = none then -1
  else
    let parent_path_size := (fim_get_real_path sys os dir_position).data.length
    if parent_path_size > path.data.length then -1
    else
      (if parent_path_size = 1 then (0 : Int) else -1)
        + (((path.data.drop parent_path_size).filter (fun c => c == PATH_SEP)).length : Int)

/-- `fim_check_ignore`. -/
def fim_check_ignore (sys : syscheck_t) (file_name : String) : Int :=
  if sys.ignore.any
      (fun ig => (ig.data.map Char.toLower).isPrefixOf (file_name.data.map Char.toLower)) then 1
  else if sys.ignore_regex.any (fun re => re file_name) then 1
  else 0

/-- `fim_check_restrict`. -/
def fim_check_restrict (file_name : String) (restriction : Option (String → Bool)) : Int :=
  match restriction with
  | some re => if !re file_name then 1 else 0
  | none => 0

/-! ## Deletion handler -/

/-- `fim_delete_file_event`: `alert` is the test of the `alert` pointer. -/
def fim_delete_file_event (sys : syscheck_t) (os : os_t) (entry : fim_entry) (alert : Bool)
    (mode : fim_event_mode) (w_evt : Option whodata_evt) (s : fim_state) :
    Except fim_halt fim_state :=
  let pos := fim_configuration_directory sys os entry.path
  if pos = -1 then .ok s
  else if mode = FIM_REALTIME ∧ !has_opt (sys.opts.getD pos.toNat 0) REALTIME_ACTIVE then .ok s
  else if mode = FIM_WHODATA ∧ !has_opt (sys.opts.getD pos.toNat 0) WHODATA_ACTIVE then .ok s
  else
    match fim_db_remove_path s.database entry.path with
    | (.Err, _) => .ok s
    | (_, db) =>
      let s1 := { s with database := db }
      if alert then
        match fim_json_event sys db entry.path none entry.data pos FIM_DELETE mode w_evt none with
        | .error h => .error h
        | .ok (some json_event) => .ok (send_syscheck_msg (.event json_event) s1)
        | .ok none => .ok s1
      else .ok s1

/-! ## Reconciliation pipeline and inode-collision resolver -/

/-- Modelled from the spec: `fim_sanitize_state_t` of `syscheck.h`, the outcome of
`fim_process_file_from_db`. -/
inductive fim_sanitize_state_t where
  | FIM_FILE_UPDATED
  | FIM_FILE_DELETED
  | FIM_FILE_ADDED_PATHS
  | FIM_FILE_ERROR
  deriving DecidableEq, Repr

export fim_sanitize_state_t (FIM_FILE_UPDATED FIM_FILE_DELETED FIM_FILE_ADDED_PATHS FIM_FILE_ERROR)

/-- The type of the collision resolver as seen by its caller: inode and
device in, return code out. -/
abbrev fim_resolver := Nat → Nat → fim_state → Except fim_halt (Int × fim_state)

/-- The store update `fim_db_insert` applied to the global state. -/
def fim_state_insert (sys : syscheck_t) (path : String) (data : fim_file_data)
    (saved : Option fim_file_data) (s : fim_state) : Int × fim_state :=
  ((fim_db_insert sys s.database path data saved).1,
   { s with database := (fim_db_insert sys s.database path data saved).2 })

/-- `fim_update_db_data` (POSIX build), with the collision resolver as a
parameter. Returns the return code and the out-parameter `saved`. -/
def fim_update_db_data (resolve : fim_resolver) (sys : syscheck_t) (path : String)
    (data : fim_file_data) (event_mode : fim_event_mode) (s : fim_state) :
    Except fim_halt ((Int × Option fim_entry) × fim_state) :=
  let saved := fim_db_get_path s.database path
  if event_mode ≠ FIM_SCHEDULED then
    let r := fim_state_insert sys path data (saved.map (fun e => e.data)) s
    .ok ((r.1, saved), r.2)
  else
    match saved with
    | none =>
      let ex := fim_db_data_exists s.database data.inode data.dev
      if ex = FIMDB_ERR then .ok ((-1, saved), s)
      else if ex = 1 then
        match resolve data.inode data.dev s with
        | .error h => .error h
        | .ok (rc, s1) =>
          if rc ≠ 0 then .ok ((-1, saved), s1)
          else
            let r := fim_state_insert sys path data none s1
            .ok ((r.1, saved), r.2)
      else
        let r := fim_state_insert sys path data none s
        .ok ((r.1, saved), r.2)
    | some sv =>
      if data.checksum = sv.data.checksum then
        .ok ((0, saved), { s with database := fim_db_set_scanned s.database path })
      else if data.dev = sv.data.dev ∧ data.inode = sv.data.inode then
        let r := fim_state_insert sys path data (some sv.data) s
        .ok ((r.1, saved), r.2)
      else
        let ex := fim_db_data_exists s.database data.inode data.dev
        if ex = FIMDB_ERR then .ok ((-1, saved), s)
        else if ex = 0 then
          let r := fim_state_insert sys path data (some sv.data) s
          .ok ((r.1, saved), r.2)
        else
          match resolve data.inode data.dev s with
          | .error h => .error h
          | .ok (rc, s1) =>
            if rc ≠ 0 then .ok ((-1, saved), s1)
            else
              let r := fim_state_insert sys path data (some sv.data) s1
              .ok ((r.1, saved), r.2)

/-- `_fim_file`, with the collision resolver as a parameter: processes a
file, updates the store and returns the event (`none` for `NULL`). -/
def _fim_file (resolve : fim_resolver) (sys : syscheck_t) (os : os_t) (path : String)
    (item : fim_element) (w_evt : Option whodata_evt) (s : fim_state) :
    Except fim_halt (Option fim_event × fim_state) :=
  if item.mode = FIM_SCHEDULED ∧
      (fim_db_file_is_scanned s.database path = FIMDB_ERR
        ∨ fim_db_file_is_scanned s.database path = 1) then .ok (none, s)
  else
    match fim_get_data sys os path item with
    | none => .ok (none, s)
    | some new =>
      match fim_update_db_data resolve sys path new item.mode s with
      | .error h => .error h
      | .ok ((rc, saved), s1) =>
        if rc ≠ 0 then .ok (none, s1)
        else
          let alert_type := if saved.isNone then FIM_ADD else FIM_MODIFICATION
          let diff := if has_opt item.configuration CHECK_SEECHANGES then os.fim_file_diff path
            else none
          match fim_json_event sys s1.database path (saved.map (fun e => e.data)) new item.index
              alert_type item.mode w_evt diff with
          | .error h => .error h
          | .ok json_event => .ok (json_event, s1)

/-- `_fim_file_force_update`: updates the store with no further validation. -/
def _fim_file_force_update (sys : syscheck_t) (os : os_t) (path : String) (item : fim_element)
    (saved : fim_entry) (s : fim_state) : Except fim_halt (Option fim_event × fim_state) :=
  match fim_get_data sys os path item with
  | none => .ok (none, s)
  | some new =>
    let r := fim_state_insert sys path new (some saved.data) s
    if r.1 ≠ 0 then .ok (none, r.2)
    else
      let diff := if has_opt item.configuration CHECK_SEECHANGES then os.fim_file_diff path
        else none
      match fim_json_event sys r.2.database path (some saved.data) new item.index
          FIM_MODIFICATION item.mode none diff with
      | .error h => .error h
      | .ok json_event => .ok (json_event, r.2)

/-- The item prepared by `fim_process_file_from_db` before it processes the
file: scheduled mode, the configured directory of the path and its options. -/
def fim_db_item (sys : syscheck_t) (st : stat_t) (index : Int) : fim_element :=
  { statbuf := st, index := index, configuration := sys.opts.getD index.toNat 0,
    mode := FIM_SCHEDULED }

/-- `fim_process_file_from_db`, with the resolver used by the nested
`_fim_file` as a parameter. Returns the outcome, the stack, the visited
tree and the event. -/
def fim_process_file_from_db (resolve : fim_resolver) (sys : syscheck_t) (os : os_t)
    (path : String) (stack tree : List String) (s : fim_state) :
    Except fim_halt
      ((fim_sanitize_state_t × List String × List String × Option fim_event) × fim_state) :=
  match fim_db_get_path s.database path with
  | none => .ok ((FIM_FILE_ERROR, stack, tree, none), s)
  | some entry =>
    match os.w_stat entry.path with
    | .error errno =>
      if errno ≠ ENOENT then .ok ((FIM_FILE_ERROR, stack, tree, none), s)
      else
        let configuration := fim_configuration_directory sys os path
        if configuration = -1 then .ok ((FIM_FILE_ERROR, stack, tree, none), s)
        else
          match fim_db_remove_path s.database entry.path with
          | (.Err, _) => .ok ((FIM_FILE_ERROR, stack, tree, none), s)
          | (_, db) =>
            match fim_json_event sys db entry.path none entry.data configuration FIM_DELETE
                FIM_SCHEDULED none none with
            | .error h => .error h
            | .ok event => .ok ((FIM_FILE_DELETED, stack, tree, event), { s with database := db })
    | .ok st =>
      let ex := fim_db_data_exists s.database st.st_ino st.st_dev
      if (entry.data.dev = st.st_dev ∧ entry.data.inode = st.st_ino) ∨ (ex ≠ FIMDB_ERR ∧ ex = 0) then
        -- label `end`
        let index := fim_configuration_directory sys os entry.path
        if index = -1 then .ok ((FIM_FILE_ERROR, stack, tree, none), s)
        else
          match _fim_file resolve sys os entry.path (fim_db_item sys st index) none s with
          | .error h => .error h
          | .ok (event, s1) => .ok ((FIM_FILE_UPDATED, stack, tree, event), s1)
      else if ex = FIMDB_ERR then .ok ((FIM_FILE_ERROR, stack, tree, none), s)
      else
        let r := fim_db_append_paths_from_inode s.database st.st_ino st.st_dev stack tree
        if r.1 = 0 then
          let index := fim_configuration_directory sys os entry.path
          if index = -1 then .ok ((FIM_FILE_ERROR, r.2.1, r.2.2, none), s)
          else
            match _fim_file_force_update sys os path (fim_db_item sys st index) entry s with
            | .error h => .error h
            | .ok (event, s1) => .ok ((FIM_FILE_UPDATED, r.2.1, r.2.2, event), s1)
        else .ok ((FIM_FILE_ADDED_PATHS, r.2.1, r.2.2, none), s)

/-- Hand the event to the transport when there is one. -/
def fim_send_event (event : Option fim_event) (s : fim_state) : fim_state :=
  match event with
  | some e => send_syscheck_msg (.event e) s
  | none => s

/-- The loop of `fim_resolve_db_collision` on the working stack (top of the
stack last). Each iteration, and each nested resolution, uses one unit of
`fuel`. -/
def fim_resolve_loop (sys : syscheck_t) (os : os_t) :
    Nat → List String → List String → fim_state → Except fim_halt (Int × fim_state)
  | 0, stack, _, s => if stack = [] then .ok (0, s) else .error .out_of_fuel
  | fuel + 1, stack, tree, s =>
    match stack.getLast? with
    | none => .ok (0, s)
    | some current_path =>
      match fim_process_file_from_db
          (fun inode dev s0 =>
            fim_resolve_loop sys os fuel
              (fim_db_append_paths_from_inode s0.database inode dev [] []).2.1
              (fim_db_append_paths_from_inode s0.database inode dev [] []).2.2 s0)
          sys os current_path stack tree s with
      | .error h => .error h
      | .ok ((FIM_FILE_UPDATED, stack1, tree1, event), s1) =>
        fim_resolve_loop sys os fuel stack1.dropLast tree1 (fim_send_event event s1)
      | .ok ((FIM_FILE_DELETED, stack1, tree1, event), s1) =>
        fim_resolve_loop sys os fuel stack1.dropLast tree1 (fim_send_event event s1)
      | .ok ((FIM_FILE_ADDED_PATHS, stack1, tree1, event), s1) =>
        fim_resolve_loop sys os fuel stack1 tree1 (fim_send_event event s1)
      | .ok ((FIM_FILE_ERROR, _, _, _), s1) => .ok (-1, s1)

/-- `fim_resolve_db_collision`: seeds the stack with the paths at the inode
and runs the loop; `0` if the collision was solved, `-1` on error. -/
def fim_resolve_db_collision (sys : syscheck_t) (os : os_t) (fuel : Nat) : fim_resolver :=
  fun inode dev s =>
    fim_resolve_loop sys os fuel
      (fim_db_append_paths_from_inode s.database inode dev [] []).2.1
      (fim_db_append_paths_from_inode s.database inode dev [] []).2.2 s

/-- `fim_file`: runs the pipeline and sends the event when the baseline is
set and `report` is true. -/
def fim_file (resolve : fim_resolver) (sys : syscheck_t) (os : os_t) (file : String)
    (item : fim_element) (w_evt : Option whodata_evt) (report : Bool) (s : fim_state) :
    Except fim_halt fim_state :=
  match _fim_file resolve sys os file item w_evt s with
  | .error h => .error h
  | .ok (some json_event, s1) =>
    if s1._base_line ∧ report then .ok (send_syscheck_msg (.event json_event) s1) else .ok s1
  | .ok (none, s1) => .ok s1

/-! ## Scanner -/

/-- The type of `fim_checker` as seen by `fim_directory`; the item is
updated in place by the callee. -/
abbrev fim_checker_t :=
  String → fim_element → Option whodata_evt → Bool → fim_state →
    Except fim_halt (fim_element × fim_state)

/-- The name built by `fim_directory` for a directory entry. -/
def fim_directory_name (dir d_name : String) : String :=
  if dir.data.getLast? = some PATH_SEP then String.mk (dir.data ++ d_name.data)
  else String.mk (dir.data ++ [PATH_SEP] ++ d_name.data)

/-- The `readdir` loop of `fim_directory`. -/
def fim_directory_loop (checker : fim_checker_t) (dir : String) (w_evt : Option whodata_evt)
    (report : Bool) : List String → fim_element → fim_state →
    Except fim_halt (fim_element × fim_state)
  | [], item, s => .ok (item, s)
  | d_name :: rest, item, s =>
    if d_name = "." ∨ d_name = ".." then fim_directory_loop checker dir w_evt report rest item s
    else
      match checker (fim_directory_name dir d_name) item w_evt report s with
      | .error h => .error h
      | .ok (item1, s1) => fim_directory_loop checker dir w_evt report rest item1 s1

/-- `fim_directory`, with the checker it recurses into as a parameter. -/
def fim_directory (checker : fim_checker_t) (os : os_t) (dir : String) (item : fim_element)
    (w_evt : Option whodata_evt) (report : Bool) (s : fim_state) :
    Except fim_halt (fim_element × fim_state) :=
  match os.readdir dir with
  | none => .ok (item, s)
  | some names => fim_directory_loop checker dir w_evt report names item s

/-- The body of `fim_checker` (POSIX build); `checker` is the function itself
one directory level down. -/
def fim_checker_body (checker : fim_checker_t) (resolve : fim_resolver) (sys : syscheck_t)
    (os : os_t) : fim_checker_t :=
  fun path item w_evt report s =>
    let node := fim_configuration_directory sys os path
    if item.mode = FIM_SCHEDULED ∧ (node < 0 ∨ item.index ≠ node) then .ok (item, s)
    else if item.mode ≠ FIM_SCHEDULED ∧ node < 0 then .ok (item, s)
    else if item.mode ≠ FIM_SCHEDULED ∧ item.mode ≠ FIM_MODE (sys.opts.getD node.toNat 0) then
      .ok (item, s)
    else
      let depth := fim_check_depth sys os path node.toNat
      if depth > sys.recursion_level.getD node.toNat 0 then .ok (item, s)
      else
        let item1 := { item with index := node, configuration := sys.opts.getD node.toNat 0 }
        match os.w_stat path with
        | .error errno =>
          if errno ≠ ENOENT then .ok (item1, s)
          else
            match fim_db_get_path s.database path with
            | some saved_entry =>
              match fim_delete_file_event sys os saved_entry true item1.mode w_evt s with
              | .error h => .error h
              | .ok s1 => .ok (item1, s1)
            | none => .ok (item1, s)
        | .ok st =>
          let item2 := { item1 with statbuf := st }
          if os.HasFilesystem path then .ok (item2, s)
          else if st.st_mode &&& S_IFMT = FIM_LINK ∨ st.st_mode &&& S_IFMT = FIM_REGULAR then
            if fim_check_ignore sys path = 1 then .ok (item2, s)
            else if fim_check_restrict path ((sys.filerestrict.get? node.toNat).join) = 1 then
              .ok (item2, s)
            else
              match fim_file resolve sys os path item2 w_evt report s with
              | .error h => .error h
              | .ok s1 => .ok (item2, s1)
          else if st.st_mode &&& S_IFMT = FIM_DIRECTORY then
            if depth = sys.recursion_level.getD node.toNat 0 then .ok (item2, s)
            else fim_directory checker os path item2 w_evt report s
          else .ok (item2, s)

/-- `fim_checker`: the recursion through `fim_directory` uses one unit of
`fuel` per directory level. -/
def fim_checker (resolve : fim_resolver) (sys : syscheck_t) (os : os_t) : Nat → fim_checker_t
  | 0 => fim_checker_body (fun _ _ _ _ _ => .error .out_of_fuel) resolve sys os
  | fuel + 1 => fim_checker_body (fim_checker resolve sys os fuel) resolve sys os

/-- Modelled from the spec: `delete_not_scanned(PathSet)` (`fim_db_delete_not_scanned`), the
end-of-scan sweep: each listed path that still has an entry is handed to the
deletion handler, with an alert, in scheduled mode. -/
def fim_db_delete_not_scanned (sys : syscheck_t) (os : os_t) :
    List String → fim_state → Except fim_halt fim_state
  | [], s => .ok s
  | path :: rest, s =>
    match fim_db_get_path s.database path with
    | none => fim_db_delete_not_scanned sys os rest s
    | some entry =>
      match fim_delete_file_event sys os entry true FIM_SCHEDULED none s with
      | .error h => .error h
      | .ok s1 => fim_db_delete_not_scanned sys os rest s1

/-- `check_deleted_files`. -/
def check_deleted_files (sys : syscheck_t) (os : os_t) (s : fim_state) :
    Except fim_halt fim_state :=
  match fim_db_get_not_scanned s.database with
  | none => .ok s
  | some file => if file = [] then .ok s else fim_db_delete_not_scanned sys os file s

/-! ## DbStateMonitor

The thresholds `file_limit * 0.9` and `file_limit * 0.8` are products in
IEEE-754 binary64. A product is represented exactly by its numerator over
`2 ^ 53`. -/

/-- Significand of the binary64 constant `0.9`, which is `DBL_0_9 / 2 ^ 53`. -/
def DBL_0_9 : Nat := 8106479329266893
/-- Significand of the binary64 constant `0.8`, which is `DBL_0_8 / 2 ^ 53`. -/
def DBL_0_8 : Nat := 7205759403792794

/-- Number of binary digits of `n` (at most `fuel`). -/
def bit_length_aux : Nat → Nat → Nat
  | 0, _ => 0
  | fuel + 1, n => if n = 0 then 0 else bit_length_aux fuel (n / 2) + 1

/-- Number of binary digits of `n`. -/
def bit_length (n : Nat) : Nat := bit_length_aux n n

/-- The binary64 product of the integer `limit` by the constant `m / 2 ^ 53`,
rounded to nearest, ties to even; the result is the numerator over `2 ^ 53`. -/
def double_mul_nat (limit m : Nat) : Nat :=
  if bit_length (limit * m) - 53 = 0 then limit * m
  else
    (if limit * m % 2 ^ (bit_length (limit * m) - 53) > 2 ^ (bit_length (limit * m) - 53 - 1)
        ∨ (limit * m % 2 ^ (bit_length (limit * m) - 53) = 2 ^ (bit_length (limit * m) - 53 - 1)
          ∧ limit * m / 2 ^ (bit_length (limit * m) - 53) % 2 = 1)
      then limit * m / 2 ^ (bit_length (limit * m) - 53) + 1
      else limit * m / 2 ^ (bit_length (limit * m) - 53)) * 2 ^ (bit_length (limit * m) - 53)

/-- The binary64 product `file_limit * c` for an `int` limit of either sign. -/
def double_mul (limit : Int) (m : Nat) : Int :=
  if limit < 0 then -((double_mul_nat limit.natAbs m : Nat) : Int)
  else ((double_mul_nat limit.natAbs m : Nat) : Int)

/-- The comparison `nodes_count < file_limit * c` of an `int` with a double. -/
def count_lt_limit_times (nodes_count limit : Int) (m : Nat) : Bool :=
  decide (nodes_count * 2 ^ 53 < double_mul limit m)

/-- `fim_check_db_state`: checks the capacity state and sends an alert when
the band of the count changes. -/
def fim_check_db_state (sys : syscheck_t) (s : fim_state) : fim_state :=
  let nodes_count := fim_db_get_count_entries s.database
  let limit := sys.file_limit
  let lt90 := count_lt_limit_times nodes_count limit DBL_0_9
  let lt80 := count_lt_limit_times nodes_count limit DBL_0_8
  let alert : fim_state :=
    if nodes_count ≥ limit then
      send_log_msg { file_limit := limit, file_count := nodes_count, alert_type := "full" }
        { s with _db_state := FIM_STATE_DB_FULL }
    else if !lt90 then
      send_log_msg
        { file_limit := limit, file_count := nodes_count, alert_type := "90_percentage" }
        { s with _db_state := FIM_STATE_DB_90_PERCENTAGE }
    else if !lt80 then
      send_log_msg
        { file_limit := limit, file_count := nodes_count, alert_type := "80_percentage" }
        { s with _db_state := FIM_STATE_DB_80_PERCENTAGE }
    else if nodes_count > 0 then
      send_log_msg { file_limit := limit, file_count := nodes_count, alert_type := "normal" }
        { s with _db_state := FIM_STATE_DB_NORMAL }
    else
      send_log_msg { file_limit := limit, file_count := nodes_count, alert_type := "normal" }
        { s with _db_state := FIM_STATE_DB_EMPTY }
  if nodes_count < 0 then s
  else
    match s._db_state with
    | FIM_STATE_DB_FULL => if nodes_count ≥ limit then s else alert
    | FIM_STATE_DB_90_PERCENTAGE => if nodes_count < limit ∧ !lt90 then s else alert
    | FIM_STATE_DB_80_PERCENTAGE => if lt90 ∧ !lt80 then s else alert
    | FIM_STATE_DB_NORMAL =>
      if nodes_count = 0 then { s with _db_state := FIM_STATE_DB_EMPTY }
      else if lt80 then s
      else alert
    | FIM_STATE_DB_EMPTY =>
      if nodes_count = 0 then s
      else if lt80 then { s with _db_state := FIM_STATE_DB_NORMAL }
      else alert

/-- One traversal of the configured directories by `fim_scan`, from index
`it`; with `stop_when_full` the loop ends as soon as the store is full. -/
def fim_scan_dirs (resolve : fim_resolver) (sys : syscheck_t) (os : os_t) (fuel : Nat)
    (report stop_when_full : Bool) : List Nat → fim_state → Except fim_halt fim_state
  | [], s => .ok s
  | it :: rest, s =>
    if stop_when_full ∧ s.database.full then .ok s
    else
      match fim_checker resolve sys os fuel (fim_get_real_path sys os it)
          { fim_element_zero with mode := FIM_SCHEDULED, index := (it : Int) } none report s with
      | .error h => .error h
      | .ok (_, s1) => fim_scan_dirs resolve sys os fuel report stop_when_full rest s1

/-- `fim_scan` (POSIX build): one scheduled scan. `fuel` bounds the directory
depth of the traversal and the work of the collision resolver. -/
def fim_scan (sys : syscheck_t) (os : os_t) (fuel : Nat) (s : fim_state) :
    Except fim_halt fim_state :=
  let s1 := fim_send_scan_info os true s
  let s2 := { s1 with database := fim_db_set_all_unscanned s1.database }
  match fim_scan_dirs (fim_resolve_db_collision sys os fuel) sys os fuel true false
      (List.range sys.dir.length) s2 with
  | .error h => .error h
  | .ok s3 =>
    let nodes_count := if sys.file_limit_enabled then fim_db_get_count_entries s3.database else 0
    match check_deleted_files sys os s3 with
    | .error h => .error h
    | .ok s4 =>
      match (if sys.file_limit_enabled ∧ nodes_count ≥ sys.file_limit then
          fim_scan_dirs (fim_resolve_db_collision sys os fuel) sys os fuel false true
            (List.range sys.dir.length) s4
        else .ok s4) with
      | .error h => .error h
      | .ok s5 =>
        let s6 := if sys.file_limit_enabled then fim_check_db_state sys s5 else s5
        .ok (fim_send_scan_info os false { s6 with _base_line := true })

/-! ## Specification-side definitions -/

/-- Agreement of two records on every attribute selected by the option mask
of the first. -/
def fim_data_agree (a b : fim_file_data) : Prop :=
  (has_opt a.options CHECK_SIZE = true → a.size = b.size)
  ∧ (has_opt a.options CHECK_PERM = true → a.perm = b.perm)
  ∧ (has_opt a.options CHECK_OWNER = true → a.uid = b.uid ∧ a.user_name = b.user_name)
  ∧ (has_opt a.options CHECK_GROUP = true → a.gid = b.gid ∧ a.group_name = b.group_name)
  ∧ (has_opt a.options CHECK_MTIME = true → a.mtime = b.mtime)
  ∧ (has_opt a.options CHECK_INODE = true → a.inode = b.inode)
  ∧ (has_opt a.options CHECK_MD5SUM = true → a.hash_md5 = b.hash_md5)
  ∧ (has_opt a.options CHECK_SHA1SUM = true → a.hash_sha1 = b.hash_sha1)
  ∧ (has_opt a.options CHECK_SHA256SUM = true → a.hash_sha256 = b.hash_sha256)

instance fim_data_agree_decidable (a b : fim_file_data) : Decidable (fim_data_agree a b) := by
  unfold fim_data_agree
  infer_instance

/-- The names `fim_json_compare_attrs` can report, in the order of its tests. -/
def fim_attr_names : List String :=
  ["size", "permission", "uid", "user_name", "gid", "group_name", "mtime", "inode", "md5",
   "sha1", "sha256"]

/-- The condition under which an attribute name is reported: its option bit
is set in the old record and the two values differ; for the owner and group
attributes both values must be present. -/
def fim_attr_changed (o n : fim_file_data) (name : String) : Bool :=
  if name = "size" then has_opt o.options CHECK_SIZE && o.size != n.size
  else if name = "permission" then has_opt o.options CHECK_PERM && o.perm != n.perm
  else if name = "uid" then
    has_opt o.options CHECK_OWNER && (o.uid.isSome && n.uid.isSome && o.uid != n.uid)
  else if name = "user_name" then
    has_opt o.options CHECK_OWNER
      && (o.user_name.isSome && n.user_name.isSome && o.user_name != n.user_name)
  else if name = "gid" then
    has_opt o.options CHECK_GROUP && (o.gid.isSome && n.gid.isSome && o.gid != n.gid)
  else if name = "group_name" then
    has_opt o.options CHECK_GROUP
      && (o.group_name.isSome && n.group_name.isSome && o.group_name != n.group_name)
  else if name = "mtime" then has_opt o.options CHECK_MTIME && o.mtime != n.mtime
  else if name = "inode" then has_opt o.options CHECK_INODE && o.inode != n.inode
  else if name = "md5" then has_opt o.options CHECK_MD5SUM && o.hash_md5 != n.hash_md5
  else if name = "sha1" then has_opt o.options CHECK_SHA1SUM && o.hash_sha1 != n.hash_sha1
  else if name = "sha256" then has_opt o.options CHECK_SHA256SUM && o.hash_sha256 != n.hash_sha256
  else false

/-- The order in which the specification enumerates the attribute names. -/
def fim_attr_names_claimed : List String :=
  ["size", "permission", "mtime", "inode", "md5", "sha1", "sha256", "uid", "user_name", "gid",
   "group_name"]

/-- The condition of the specification: the option bit is set and the two
values differ. -/
def fim_attr_changed_claimed (o n : fim_file_data) (name : String) : Bool :=
  if name = "size" then has_opt o.options CHECK_SIZE && o.size != n.size
  else if name = "permission" then has_opt o.options CHECK_PERM && o.perm != n.perm
  else if name = "uid" then has_opt o.options CHECK_OWNER && o.uid != n.uid
  else if name = "user_name" then has_opt o.options CHECK_OWNER && o.user_name != n.user_name
  else if name = "gid" then has_opt o.options CHECK_GROUP && o.gid != n.gid
  else if name = "group_name" then has_opt o.options CHECK_GROUP && o.group_name != n.group_name
  else if name = "mtime" then has_opt o.options CHECK_MTIME && o.mtime != n.mtime
  else if name = "inode" then has_opt o.options CHECK_INODE && o.inode != n.inode
  else if name = "md5" then has_opt o.options CHECK_MD5SUM && o.hash_md5 != n.hash_md5
  else if name = "sha1" then has_opt o.options CHECK_SHA1SUM && o.hash_sha1 != n.hash_sha1
  else if name = "sha256" then has_opt o.options CHECK_SHA256SUM && o.hash_sha256 != n.hash_sha256
  else false

/-- A record that monitors every attribute, used to instantiate the theorems. -/
def sample_data : fim_file_data :=
  { size := 10, perm := some "rw-r--r--", attributes := none, uid := some "0", gid := some "0",
    user_name := some "root", group_name := some "root", mtime := 100, inode := 100,
    hash_md5 := "d41d8cd98f00b204e9800998ecf8427e",
    hash_sha1 := "da39a3ee5e6b4b0d3255bfef95601890afd80709",
    hash_sha256 := "e3b0c44298fc1c149afbf4c8996fb92427ae41e4649b934ca495991b7852b855",
    mode := FIM_SCHEDULED, last_event := 0, dev := 1, scanned := false,
    options := 0o777, checksum := "c0" }

/-- A configuration with the single monitored directory `/m`. -/
def sample_sys : syscheck_t :=
  { dir := ["/m"], symbolic_links := [none], opts := [0o777], recursion_level := [16],
    filerestrict := [none], tag := [none], ignore := [], ignore_regex := [],
    file_limit_enabled := false, file_limit := 0, file_max_size := 1024 }

/-- An empty store on which no operation fails. -/
def empty_db : fdb_t := { entries := [], full := false, failing := [] }

/-- Old record of the counterexample to the claimed attribute list: the
owner is monitored and the user name is unknown. -/
def c2_old : fim_file_data :=
  { sample_data with options := CHECK_OWNER ||| CHECK_MTIME, uid := some "0", user_name := none,
                     mtime := 1 }

/-- New record of the counterexample: the user name is now known, the uid and
the modification time have changed. -/
def c2_new : fim_file_data :=
  { c2_old with uid := some "1000", user_name := some "bob", mtime := 2 }

/-- The store is keyed by path: no two entries share a path. -/
def fim_db_keyed (db : fdb_t) : Prop := (db.entries.map (fun e => e.path)).Nodup

instance fim_db_keyed_decidable (db : fdb_t) : Decidable (fim_db_keyed db) := by
  unfold fim_db_keyed
  infer_instance

/-- The stat result of the sample file `/m/a`: a regular file of 20 bytes. -/
def sample_stat : stat_t :=
  { st_mode := 0o100644, st_size := 20, st_mtime := 200, st_uid := 0, st_gid := 0,
    st_ino := 100, st_dev := 1 }

/-- A sample system: the directory `/m` holding the regular file `/m/a`. -/
def sample_os : os_t :=
  { w_stat := fun p =>
      if p = "/m/a" then .ok sample_stat
      else if p = "/m" then
        .ok { st_mode := 0o040755, st_size := 0, st_mtime := 0, st_uid := 0, st_gid := 0,
              st_ino := 2, st_dev := 1 }
      else .error ENOENT,
    readdir := fun p => if p = "/m" then some [".", "..", "a"] else none,
    agent_file_perm := fun _ => "rw-r--r--",
    get_user := fun _ => some "root",
    get_group := fun _ => some "root",
    OS_MD5_SHA1_SHA256_File := fun _ => some ("m", "s1", "s256"),
    OS_SHA1_Str := fun s => s,
    fim_file_diff := fun _ => none,
    HasFilesystem := fun _ => false,
    IsLink := fun _ => 1,
    time := 1000 }

/-- The item with which the sample file is processed in a scheduled scan. -/
def sample_item : fim_element :=
  { statbuf := sample_stat, index := 0, configuration := 0o777, mode := FIM_SCHEDULED }

/-- The record extracted from the sample file. -/
def sample_new : fim_file_data :=
  { size := 20, perm := some "rw-r--r--", attributes := none, uid := some "0", gid := some "0",
    user_name := some "root", group_name := some "root", mtime := 200, inode := 100,
    hash_md5 := "m", hash_sha1 := "s1", hash_sha256 := "s256", mode := FIM_SCHEDULED,
    last_event := 1000, dev := 1, scanned := true, options := 0o777,
    checksum := "20:rw-r--r--::0:0:root:root:200:100:m:s1:s256" }

/-- A state with the given entries, the baseline established and nothing sent. -/
def sample_state (entries : List fim_entry) : fim_state :=
  { database := { entries := entries, full := false, failing := [] }, _base_line := true,
    _db_state := FIM_STATE_DB_NORMAL, sent := [], logged := [] }

/-- The path exists on disk with the given inode and device. -/
def fim_on_disk (os : os_t) (path : String) (inode dev : Nat) : Bool :=
  match os.w_stat path with
  | .ok st => st.st_ino == inode && st.st_dev == dev
  | .error _ => false

/-- Invariant I2: whenever two different paths are stored with the same
non-zero inode and the same device, every path stored with that inode and
device exists on disk with that inode and device. -/
def fim_inode_unique (os : os_t) (db : fdb_t) : Prop :=
  ∀ e1 ∈ db.entries, ∀ e2 ∈ db.entries,
    e1.path ≠ e2.path → e1.data.inode = e2.data.inode → e1.data.dev = e2.data.dev →
    e1.data.inode ≠ 0 →
    ∀ e ∈ db.entries, e.data.inode = e1.data.inode → e.data.dev = e1.data.dev →
      fim_on_disk os e.path e.data.inode e.data.dev = true

instance fim_inode_unique_decidable (os : os_t) (db : fdb_t) :
    Decidable (fim_inode_unique os db) := by
  unfold fim_inode_unique
  infer_instance

/-- The path, inode and device of every entry, in store order. -/
def fim_db_ids (db : fdb_t) : List (String × Nat × Nat) :=
  db.entries.map (fun e => (e.path, e.data.inode, e.data.dev))

/-- The kind and the path of a message handed to the transport. -/
def syscheck_msg_kind : syscheck_msg → String × String
  | .event e => (e.type, e.path)
  | .scan_info type _ => (type, "")

/-- Inode-reuse scenario: on disk only `/m/x` exists, with inode 200. -/
def c8_os : os_t :=
  { sample_os with
    w_stat := fun p =>
      if p = "/m/x" then
        .ok { st_mode := 0o100644, st_size := 10, st_mtime := 100, st_uid := 0, st_gid := 0,
              st_ino := 200, st_dev := 1 }
      else .error ENOENT }

/-- The item with which `/m/x` is processed when only the size is monitored. -/
def c8_item : fim_element :=
  { statbuf := { st_mode := 0o100644, st_size := 10, st_mtime := 100, st_uid := 0, st_gid := 0,
                 st_ino := 200, st_dev := 1 },
    index := 0, configuration := CHECK_SIZE, mode := FIM_SCHEDULED }

/-- A file system with `/m/p` at inode 5 of device 1 and `/m/q` at inode 5 of
device 2. -/
def c10_os : os_t :=
  { sample_os with
    w_stat := fun p =>
      if p = "/m/p" then .ok { sample_stat with st_ino := 5, st_dev := 1 }
      else if p = "/m/q" then .ok { sample_stat with st_ino := 5, st_dev := 2 }
      else .error ENOENT }

/-- The store holds `/m/q` with the checksum of its current content, at
inode 5 of device 1. -/
def c10_state : fim_state :=
  sample_state
    [{ path := "/m/q",
       data := { sample_new with
                 inode := 5, dev := 1, scanned := false,
                 checksum := "20:rw-r--r--::0:0:root:root:200:5:m:s1:s256" } }]

/-- Inode-reuse scenario with every attribute monitored: the store holds
`/m/x` at inode 100 and `/m/y` at inode 200. -/
def c8_state_all : fim_state :=
  sample_state [{ path := "/m/x", data := sample_data },
                { path := "/m/y", data := { sample_data with inode := 200 } }]

/-! ## The traversal as a list of visits

The control flow of `fim_checker` does not depend on the store: the
traversal of a directory tree can be described by the list of the paths at
which the store is consulted, in order. -/

/-- What `fim_checker` does at a path, apart from recursing: it hands a file
to `fim_file`, or it finds the path missing (`ENOENT`) and looks it up in the
store. The item is the one in use at that point. -/
inductive fim_visit where
  | file (path : String) (item : fim_element)
  | missing (path : String) (item : fim_element)
  deriving DecidableEq, Repr

/-- The type of the traversal function: the updated item and the visits. -/
abbrev fim_walker_t := String → fim_element → Except fim_halt (fim_element × List fim_visit)

/-- The visits of the `readdir` loop of `fim_directory`. -/
def fim_walk_loop (walker : fim_walker_t) (dir : String) :
    List String → fim_element → Except fim_halt (fim_element × List fim_visit)
  | [], item => .ok (item, [])
  | d_name :: rest, item =>
    if d_name = "." ∨ d_name = ".." then fim_walk_loop walker dir rest item
    else
      match walker (fim_directory_name dir d_name) item with
      | .error h => .error h
      | .ok (item1, vs1) =>
        match fim_walk_loop walker dir rest item1 with
        | .error h => .error h
        | .ok (item2, vs2) => .ok (item2, vs1 ++ vs2)

/-- The visits of `fim_checker_body`: the same tests in the same order, with
the accesses to the store replaced by the record of a visit. -/
def fim_walk_body (walker : fim_walker_t) (sys : syscheck_t) (os : os_t) : fim_walker_t :=
  fun path item =>
    let node := fim_configuration_directory sys os path
    if item.mode = FIM_SCHEDULED ∧ (node < 0 ∨ item.index ≠ node) then .ok (item, [])
    else if item.mode ≠ FIM_SCHEDULED ∧ node < 0 then .ok (item, [])
    else if item.mode ≠ FIM_SCHEDULED ∧ item.mode ≠ FIM_MODE (sys.opts.getD node.toNat 0) then
      .ok (item, [])
    else
      let depth := fim_check_depth sys os path node.toNat
      if depth > sys.recursion_level.getD node.toNat 0 then .ok (item, [])
      else
        let item1 := { item with index := node, configuration := sys.opts.getD node.toNat 0 }
        match os.w_stat path with
        | .error errno =>
          if errno ≠ ENOENT then .ok (item1, [])
          else .ok (item1, [.missing path item1])
        | .ok st =>
          let item2 := { item1 with statbuf := st }
          if os.HasFilesystem path then .ok (item2, [])
          else if st.st_mode &&& S_IFMT = FIM_LINK ∨ st.st_mode &&& S_IFMT = FIM_REGULAR then
            if fim_check_ignore sys path = 1 then .ok (item2, [])
            else if fim_check_restrict path ((sys.filerestrict.get? node.toNat).join) = 1 then
              .ok (item2, [])
            else .ok (item2, [.file path item2])
          else if st.st_mode &&& S_IFMT = FIM_DIRECTORY then
            if depth = sys.recursion_level.getD node.toNat 0 then .ok (item2, [])
            else
              match os.readdir path with
              | none => .ok (item2, [])
              | some names => fim_walk_loop walker path names item2
          else .ok (item2, [])

/-- The visits of `fim_checker` with the given fuel. -/
def fim_walk (sys : syscheck_t) (os : os_t) : Nat → fim_walker_t
  | 0 => fim_walk_body (fun _ _ => .error .out_of_fuel) sys os
  | fuel + 1 => fim_walk_body (fim_walk sys os fuel) sys os

/-- What `fim_checker` does with the store at one visit. -/
def fim_run_visit (resolve : fim_resolver) (sys : syscheck_t) (os : os_t)
    (w_evt : Option whodata_evt) (report : Bool) : fim_visit → fim_state →
    Except fim_halt fim_state
  | .file path item, s => fim_file resolve sys os path item w_evt report s
  | .missing path item, s =>
    match fim_db_get_path s.database path with
    | some saved_entry => fim_delete_file_event sys os saved_entry true item.mode w_evt s
    | none => .ok s

/-- The visits run in order. -/
def fim_run_visits (resolve : fim_resolver) (sys : syscheck_t) (os : os_t)
    (w_evt : Option whodata_evt) (report : Bool) : List fim_visit → fim_state →
    Except fim_halt fim_state
  | [], s => .ok s
  | v :: vs, s =>
    match fim_run_visit resolve sys os w_evt report v s with
    | .error h => .error h
    | .ok s1 => fim_run_visits resolve sys os w_evt report vs s1

/-- The visits of one traversal of the configured directories by `fim_scan`. -/
def fim_scan_walk (sys : syscheck_t) (os : os_t) (fuel : Nat) :
    List Nat → Except fim_halt (List fim_visit)
  | [] => .ok []
  | it :: rest =>
    match fim_walk sys os fuel (fim_get_real_path sys os it)
        { fim_element_zero with mode := FIM_SCHEDULED, index := (it : Int) } with
    | .error h => .error h
    | .ok (_, vs1) =>
      match fim_scan_walk sys os fuel rest with
      | .error h => .error h
      | .ok vs2 => .ok (vs1 ++ vs2)

/-- A result of the checker and a result of the traversal are related when
the checker's result is the run of the traversal's visits from `s`. -/
def fim_walk_rel (resolve : fim_resolver) (sys : syscheck_t) (os : os_t)
    (w_evt : Option whodata_evt) (report : Bool) (s : fim_state)
    (a : Except fim_halt (fim_element × fim_state))
    (b : Except fim_halt (fim_element × List fim_visit)) : Prop :=
  ∀ item1 s1, a = .ok (item1, s1) ↔
    ∃ vs, b = .ok (item1, vs) ∧ fim_run_visits resolve sys os w_evt report vs s = .ok s1

/-- What the traversal of a scheduled scan guarantees about a visit: the
item is in scheduled mode; a file visit carries the stat result of the path
and the index and options of its configured directory; a missing path does
not exist on disk. -/
def fim_visit_ok (sys : syscheck_t) (os : os_t) : fim_visit → Prop
  | .file path item =>
    os.w_stat path = .ok item.statbuf ∧ 0 ≤ fim_configuration_directory sys os path
      ∧ item = fim_db_item sys item.statbuf (fim_configuration_directory sys os path)
  | .missing path item => item.mode = FIM_SCHEDULED ∧ os.w_stat path = .error ENOENT

/-- A result of the traversal is good when its item is in scheduled mode and
its visits are as the traversal of a scheduled scan guarantees. -/
def fim_walk_good (sys : syscheck_t) (os : os_t)
    (b : Except fim_halt (fim_element × List fim_visit)) : Prop :=
  ∀ item1 vs, b = .ok (item1, vs) →
    item1.mode = FIM_SCHEDULED ∧ ∀ v ∈ vs, fim_visit_ok sys os v

/-! ## Stores that agree with the file system -/

/-- The record without what a rescan of an unchanged file rewrites: the
scanned flag and the time of the last event. -/
def fim_data_norm (d : fim_file_data) : fim_file_data :=
  { d with scanned := false, last_event := 0 }

/-- The entry with its scanned flag cleared. -/
def fim_unscan (e : fim_entry) : fim_entry :=
  { e with data := { e.data with scanned := false } }

/-- The entry with its scanned flag set when its path is selected. -/
def fim_mark (P : String → Bool) (e : fim_entry) : fim_entry :=
  if P e.path then { e with data := { e.data with scanned := true } } else e

/-- The state in which the entries at the selected paths are marked scanned. -/
def fim_mark_state (P : String → Bool) (s : fim_state) : fim_state :=
  { s with database := { s.database with entries := s.database.entries.map (fim_mark P) } }

/-- The stored entry is what extraction yields for its path now, up to the
scanned flag and the time of the event: the path exists, lies under a
configured directory, and `fim_get_data` returns the stored record for it in
scheduled mode. -/
def fim_entry_fresh (sys : syscheck_t) (os : os_t) (e : fim_entry) : Prop :=
  ∃ st d, os.w_stat e.path = .ok st ∧ 0 ≤ fim_configuration_directory sys os e.path
    ∧ fim_get_data sys os e.path
        (fim_db_item sys st (fim_configuration_directory sys os e.path)) = some d
    ∧ fim_data_norm d = fim_data_norm e.data

/-- No store operation fails, the store is keyed by path and every stored
entry is what extraction yields now. -/
def fim_store_fresh (sys : syscheck_t) (os : os_t) (s : fim_state) : Prop :=
  s.database.failing = [] ∧ fim_db_keyed s.database
    ∧ ∀ e ∈ s.database.entries, fim_entry_fresh sys os e

/-- A visit adds nothing to the store in the state: the file is stored, or
its attributes cannot be extracted, or the store is at its capacity. -/
def fim_visit_settled (sys : syscheck_t) (os : os_t) (s : fim_state) : fim_visit → Prop
  | .file path item =>
    (∃ e ∈ s.database.entries, e.path = path) ∨ fim_get_data sys os path item = none
      ∨ (sys.file_limit_enabled = true ∧ (s.database.entries.length : Int) ≥ sys.file_limit)
  | .missing _ _ => True

/-- Every entry stored for the path is marked scanned. -/
def fim_scanned_at (s : fim_state) (path : String) : Prop :=
  ∀ e ∈ s.database.entries, e.path = path → e.data.scanned = true

/-- The effect of a visit of a scheduled scan on a store that agrees with the
file system: the store still agrees, the entries are the same up to their
scanned flags except for at most one new entry, for the visited file, which
is added only if the visit was not settled; an event is sent only for a new
entry, with the baseline set and `report` true; the visit is settled
afterwards, scanned entries stay scanned and the visited file is scanned. -/
def fim_visit_effect (sys : syscheck_t) (os : os_t) (report : Bool) (v : fim_visit)
    (s s1 : fim_state) : Prop :=
  fim_store_fresh sys os s1
    ∧ s1._base_line = s._base_line
    ∧ (∃ extra, s1.database.entries.map fim_unscan = s.database.entries.map fim_unscan ++ extra
        ∧ extra.length ≤ 1
        ∧ (∀ x ∈ extra, ∃ item, v = .file x.path item)
        ∧ (fim_visit_settled sys os s v → extra = [])
        ∧ ((extra = [] ∨ s._base_line = false ∨ report = false) → s1.sent = s.sent))
    ∧ fim_visit_settled sys os s1 v
    ∧ (∀ q, fim_scanned_at s q → fim_scanned_at s1 q)
    ∧ (∀ p item, v = .file p item → fim_scanned_at s1 p)

/-- The state of the engine at start: an empty store, no baseline, nothing
sent. -/
def initial_state : fim_state :=
  { database := empty_db, _base_line := false, _db_state := FIM_STATE_DB_EMPTY, sent := [],
    logged := [] }

/-- The sample configuration with `/m` also monitored in real time. -/
def c6_sys : syscheck_t := { sample_sys with opts := [0o777 ||| REALTIME_ACTIVE] }

/-- The sample system after `/m/a` was removed. -/
def c6_os : os_t :=
  { sample_os with
    w_stat := fun p =>
      if p = "/m" then
        .ok { st_mode := 0o040755, st_size := 0, st_mtime := 0, st_uid := 0, st_gid := 0,
              st_ino := 2, st_dev := 1 }
      else .error ENOENT,
    readdir := fun p => if p = "/m" then some [".", ".."] else none }

/-- The item of a real-time event. -/
def c6_item : fim_element := { fim_element_zero with mode := FIM_REALTIME }

/-- The band of a count `n` for the capacity `limit`, in exact arithmetic, as
the transition table of the capacity state machine names it: `Full` from the
capacity on, `Warn90` from nine tenths of it, `Warn80` from four fifths of
it, `Normal` for another positive count, `Empty` for zero. -/
def fim_db_in_band (limit n : Int) : fim_state_db → Prop
  | FIM_STATE_DB_FULL => limit ≤ n
  | FIM_STATE_DB_90_PERCENTAGE => 9 * limit ≤ 10 * n ∧ n < limit
  | FIM_STATE_DB_80_PERCENTAGE => 4 * limit ≤ 5 * n ∧ 10 * n < 9 * limit
  | FIM_STATE_DB_NORMAL => 0 < n ∧ 5 * n < 4 * limit
  | FIM_STATE_DB_EMPTY => n = 0

instance fim_db_in_band_decidable (limit n : Int) (st : fim_state_db) :
    Decidable (fim_db_in_band limit n st) := by
  cases st <;> unfold fim_db_in_band <;> infer_instance

/-- Successive calls of `fim_check_db_state`, the store being replaced
before each call by the next store of the list. -/
def fim_check_db_run (sys : syscheck_t) : List fdb_t → fim_state → fim_state
  | [], s => s
  | db :: rest, s => fim_check_db_run sys rest (fim_check_db_state sys { s with database := db })

/-- A store with `n` entries on which no operation fails. -/
def fim_db_of_count (n : Nat) : fdb_t :=
  { entries := List.replicate n { path := "/m/a", data := sample_data }, full := false,
    failing := [] }

/-- The sample configuration with the capacity 10. -/
def c11_sys : syscheck_t := { sample_sys with file_limit_enabled := true, file_limit := 10 }

/-- The state that the transition table gives to a count `n` for the
capacity `limit` when an alert is due: the band of the count, in exact
arithmetic. -/
def fim_db_band_of (limit n : Int) : fim_state_db :=
  if limit ≤ n then FIM_STATE_DB_FULL
  else if 9 * limit ≤ 10 * n then FIM_STATE_DB_90_PERCENTAGE
  else if 4 * limit ≤ 5 * n then FIM_STATE_DB_80_PERCENTAGE
  else if 0 < n then FIM_STATE_DB_NORMAL
  else FIM_STATE_DB_EMPTY

/-- The alert type announced for a state. -/
def fim_db_alert_type : fim_state_db → String
  | FIM_STATE_DB_FULL => "full"
  | FIM_STATE_DB_90_PERCENTAGE => "90_percentage"
  | FIM_STATE_DB_80_PERCENTAGE => "80_percentage"
  | FIM_STATE_DB_NORMAL => "normal"
  | FIM_STATE_DB_EMPTY => "normal"

/-- The rows of the transition table without alert, in exact arithmetic: the
next state when the call returns without alert, `none` when an alert is
due. -/
def fim_db_quiet (limit n : Int) : fim_state_db → Option fim_state_db
  | FIM_STATE_DB_FULL => if limit ≤ n then some FIM_STATE_DB_FULL else none
  | FIM_STATE_DB_90_PERCENTAGE =>
    if n < limit ∧ 9 * limit ≤ 10 * n then some FIM_STATE_DB_90_PERCENTAGE else none
  | FIM_STATE_DB_80_PERCENTAGE =>
    if 10 * n < 9 * limit ∧ 4 * limit ≤ 5 * n then some FIM_STATE_DB_80_PERCENTAGE else none
  | FIM_STATE_DB_NORMAL =>
    if n = 0 then some FIM_STATE_DB_EMPTY
    else if 5 * n < 4 * limit then some FIM_STATE_DB_NORMAL
    else none
  | FIM_STATE_DB_EMPTY =>
    if n = 0 then some FIM_STATE_DB_EMPTY
    else if 5 * n < 4 * limit then some FIM_STATE_DB_NORMAL
    else none

/-- The capacity check as the transition table describes it, in exact
arithmetic: nothing on a failed count, the next state without alert on a
quiet row, and otherwise the band of the count with one alert for it. -/
def fim_db_table (sys : syscheck_t) (s : fim_state) : fim_state :=
  if fim_db_get_count_entries s.database < 0 then s
  else
    match fim_db_quiet sys.file_limit (fim_db_get_count_entries s.database) s._db_state with
    | some st => { s with _db_state := st }
    | none =>
      send_log_msg
        { file_limit := sys.file_limit, file_count := fim_db_get_count_entries s.database,
          alert_type := fim_db_alert_type
            (fim_db_band_of sys.file_limit (fim_db_get_count_entries s.database)) }
        { s with _db_state :=
            fim_db_band_of sys.file_limit (fim_db_get_count_entries s.database) }

/-- What a state reached along a rising sequence of counts says about the
counts still to come: the lower bound of its band. -/
def fim_db_floor (limit : Int) (st : fim_state_db) (m : Int) : Prop :=
  match st with
  | FIM_STATE_DB_FULL => limit ≤ m
  | FIM_STATE_DB_90_PERCENTAGE => 9 * limit ≤ 10 * m
  | FIM_STATE_DB_80_PERCENTAGE => 4 * limit ≤ 5 * m
  | FIM_STATE_DB_NORMAL => True
  | FIM_STATE_DB_EMPTY => True

/-- What a state reached along a falling sequence of counts says about the
counts still to come: the upper bound of its band. -/
def fim_db_ceil (limit : Int) (st : fim_state_db) (m : Int) : Prop :=
  match st with
  | FIM_STATE_DB_FULL => True
  | FIM_STATE_DB_90_PERCENTAGE => m < limit
  | FIM_STATE_DB_80_PERCENTAGE => 10 * m < 9 * limit
  | FIM_STATE_DB_NORMAL => 5 * m < 4 * limit
  | FIM_STATE_DB_EMPTY => m ≤ 0

/-- The alert types that can still be emitted along a rising sequence of
counts, in order. -/
def fim_db_alerts_up : fim_state_db → List String
  | FIM_STATE_DB_FULL => []
  | FIM_STATE_DB_90_PERCENTAGE => ["full"]
  | FIM_STATE_DB_80_PERCENTAGE => ["90_percentage", "full"]
  | FIM_STATE_DB_NORMAL => ["80_percentage", "90_percentage", "full"]
  | FIM_STATE_DB_EMPTY => ["80_percentage", "90_percentage", "full"]

/-- The alert types that can still be emitted along a falling sequence of
counts, in order. -/
def fim_db_alerts_down : fim_state_db → List String
  | FIM_STATE_DB_FULL => ["90_percentage", "80_percentage", "normal"]
  | FIM_STATE_DB_90_PERCENTAGE => ["80_percentage", "normal"]
  | FIM_STATE_DB_80_PERCENTAGE => ["normal"]
  | FIM_STATE_DB_NORMAL => []
  | FIM_STATE_DB_EMPTY => []

/-! ## ConfigResolver: specification side -/

/-- The real path of the configured directory `j`, completed with a trailing
separator; empty when the real path is empty. -/
def fim_dir_entry (sys : syscheck_t) (os : os_t) (j : Nat) : String :=
  trail_path_separator "" (fim_get_real_path sys os j)

/-- The configured directory `j` claims the path: its real path, completed
with a trailing separator, is not empty and is a prefix of the path completed
with a trailing separator. -/
def fim_dir_match (sys : syscheck_t) (os : os_t) (path : String) (j : Nat) : Prop :=
  (fim_dir_entry sys os j).data ≠ []
    ∧ (fim_dir_entry sys os j).data.isPrefixOf (trail_path_separator "" path).data = true

instance fim_dir_match_decidable (sys : syscheck_t) (os : os_t) (path : String) (j : Nat) :
    Decidable (fim_dir_match sys os path j) := by
  unfold fim_dir_match
  infer_instance

/-- The state of the loop of `fim_configuration_directory` after the first
`k` directories: the buffer can no longer win, and either no directory
claimed the path, or `position` is the first of the directories with the
longest completed real path among those that claim it, and `top` is that
length. -/
def fim_dir_loop_inv (sys : syscheck_t) (os : os_t) (path : String) (k : Nat)
    (acc : String × Int × Int) : Prop :=
  w_compare_str acc.1 (trail_path_separator "" path) ≤ acc.2.1
    ∧ ((acc.2.2 = -1 ∧ acc.2.1 = 0 ∧ ∀ j < k, ¬ fim_dir_match sys os path j)
      ∨ ∃ i < k, acc.2.2 = (i : Int) ∧ fim_dir_match sys os path i
          ∧ acc.2.1 = ((fim_dir_entry sys os i).data.length : Int)
          ∧ (∀ j < k, fim_dir_match sys os path j →
              (fim_dir_entry sys os j).data.length ≤ (fim_dir_entry sys os i).data.length)
          ∧ (∀ j < i, fim_dir_match sys os path j →
              (fim_dir_entry sys os j).data.length < (fim_dir_entry sys os i).data.length))

/-! ## Recursion depth and extraction: sample data -/

/-- The number of path separators in a list of characters. -/
def fim_count_sep (l : List Char) : Int := ((l.filter (fun c => c == PATH_SEP)).length : Int)

/-- A configuration that monitors the file-system root `/` with recursion
level 0. -/
def c19_sys : syscheck_t := { sample_sys with dir := ["/"], recursion_level := [0] }

/-- A file system whose root directory holds the regular file `/f`. -/
def c19_os : os_t :=
  { sample_os with
    w_stat := fun p =>
      if p = "/f" then .ok sample_stat
      else if p = "/" then
        .ok { st_mode := 0o040755, st_size := 0, st_mtime := 0, st_uid := 0, st_gid := 0,
              st_ino := 2, st_dev := 1 }
      else .error ENOENT,
    readdir := fun p => if p = "/" then some [".", "..", "f"] else none }

/-- The record extracted from the sample file when only the size is
monitored. -/
def c20_new : fim_file_data :=
  { size := 20, perm := none, attributes := none, uid := none, gid := none, user_name := none,
    group_name := none, mtime := 0, inode := 100, hash_md5 := "", hash_sha1 := "",
    hash_sha256 := "", mode := FIM_SCHEDULED, last_event := 1000, dev := 1, scanned := true,
    options := CHECK_SIZE, checksum := "20:::::::0:100:::" }

/-! ## Extraction, events and the deletion handler: specification side and sample data -/

/-- The canonical string of a record as the specification words it:
`size:perm:attributes:uid:gid:user_name:group_name:mtime:inode:md5:sha1:sha256`,
the numbers in decimal and an absent string as the empty string. -/
def fim_canonical_string (data : fim_file_data) : String :=
  String.intercalate ":"
    [toString data.size, data.perm.getD "", data.attributes.getD "", data.uid.getD "",
     data.gid.getD "", data.user_name.getD "", data.group_name.getD "", toString data.mtime,
     toString data.inode, data.hash_md5, data.hash_sha1, data.hash_sha256]

/-- A regular file of 3,000,000,000 bytes, processed with every check of the
sample options. -/
def c22_item : fim_element :=
  { sample_item with statbuf := { sample_stat with st_size := 3000000000 } }

/-- A store in which `/m/a`, `/m/b` and `/m/c` share the inode of the sample
record. -/
def c23_db : fdb_t :=
  { entries := [{ path := "/m/b", data := sample_new }, { path := "/m/a", data := sample_new },
      { path := "/m/c", data := sample_new }],
    full := false, failing := [] }

/-- The added event of the sample file. -/
def c24_event : fim_event :=
  { path := "/m/a", mode := "scheduled", type := "added", timestamp := 1000,
    hard_links := none, attributes := fim_attributes_json sample_new,
    changed_attributes := none, old_attributes := none, audit := none,
    content_changes := none, tags := none }

/-- The entry of the sample file in the store. -/
def c25_entry : fim_entry := { path := "/m/a", data := sample_new }

/-- A system on which the file-hash primitive fails. -/
def c27_os : os_t := { sample_os with OS_MD5_SHA1_SHA256_File := fun _ => none }

/-! ## The unresolvable collision loop: sample data -/

/-- A configuration that monitors the size and the modification time of the
files of `/m`, not their inode. -/
def c30_sys : syscheck_t := { sample_sys with opts := [CHECK_SIZE ||| CHECK_MTIME] }

/-- The record stored for `/m/a` with all checks, under the inode 5; the file
on disk has the inode 100. -/
def c30_old : fim_file_data := { sample_new with inode := 5, scanned := false }

/-- A state whose store holds `/m/a` under the inode 5 and `/m/b` under the
inode 100, the inode of `/m/a` on disk. -/
def c30_state : fim_state :=
  sample_state [{ path := "/m/a", data := c30_old }, { path := "/m/b", data := sample_new }]

/-- The record stored for `/m/a` with the size and the time monitored only,
under the inode 5. -/
def c30_old_size : fim_file_data :=
  { size := 20, perm := none, attributes := none, uid := none, gid := none, user_name := none,
    group_name := none, mtime := 200, inode := 5, hash_md5 := "", hash_sha1 := "",
    hash_sha256 := "", mode := FIM_SCHEDULED, last_event := 900, dev := 1, scanned := false,
    options := CHECK_SIZE ||| CHECK_MTIME, checksum := "20:::::::200:5:::" }

/-- The same store with the records taken under the options of `c30_sys`. -/
def c30_state_size : fim_state :=
  sample_state [{ path := "/m/a", data := c30_old_size },
    { path := "/m/b", data := { c30_old_size with inode := 100 } }]

/-! ## The refill pass: sample data -/

/-- The sample configuration with the capacity 1. -/
def c29_sys : syscheck_t := { sample_sys with file_limit_enabled := true, file_limit := 1 }

/-- A state whose store holds one entry, for the file `/m/gone`, which is no
longer on disk. -/
def c29_state : fim_state :=
  sample_state [{ path := "/m/gone", data := { sample_data with inode := 7 } }]

/-- The state of the sample scan after the first traversal: the new file
`/m/a` was refused and the store is marked full. -/
def c29_pass1 : fim_state :=
  { c29_state with
    database := { c29_state.database with full := true },
    sent := [fim_scan_info_json true 1000] }

/-- The state of the sample scan after the sweep: the entry of `/m/gone` is
removed, its deleted event is sent and the store is no longer marked full. -/
def c29_swept : fim_state :=
  { c29_state with
    database := empty_db,
    sent := [fim_scan_info_json true 1000,
      .event { path := "/m/gone", mode := "scheduled", type := "deleted", timestamp := 0,
               hard_links := none,
               attributes := fim_attributes_json { sample_data with inode := 7 },
               changed_attributes := none, old_attributes := none, audit := none,
               content_changes := none, tags := none }] }

/-! ## Log collector: `read_mssql_log` -/

/-- Size of the line buffers of the log readers (`OS_MAXSTR` of the shared
headers). -/
def OS_MAXSTR : Nat := 65536
/-- Room kept for the header of a log message (`OS_LOG_HEADER` of the shared
headers). -/
def OS_LOG_HEADER : Nat := 256

/-- The locals of `read_mssql_log` that live across the iterations of its
loop: the saved message `buffer` (a C string, empty when its first byte is
the terminator), `need_clear`, `lines`, and the messages pushed to the queue,
oldest first. -/
structure mssql_state where
  buffer : List Char
  need_clear : Bool
  lines : Nat
  queue : List String
  deriving DecidableEq, Repr

/-- `__send_mssql_msg`: pushes the message unless it is to be dropped. -/
def __send_mssql_msg (drop_it : Int) (buffer : List Char) (st : mssql_state) : mssql_state :=
  if drop_it = 0 then { st with queue := st.queue ++ [String.mk buffer] } else st

/-- The C string left by `*strrchr(str, c) = 0`: what precedes the last
occurrence of `c`. -/
def cut_at_last (c : Char) (str : List Char) : List Char :=
  ((str.reverse.dropWhile (fun x => x != c)).drop 1).reverse

/-- The test of `read_mssql_log` for the first line of a message, a line that
starts with a time stamp such as `2009-03-25 04:47:30.01 Server`. A byte past
the end of the string reads as the terminator. -/
def mssql_header (str : List Char) (str_len : Nat) : Bool :=
  decide (str_len > 19) && str.getD 4 (Char.ofNat 0) == '-' && str.getD 7 (Char.ofNat 0) == '-'
    && str.getD 10 (Char.ofNat 0) == ' ' && str.getD 13 (Char.ofNat 0) == ':'
    && str.getD 16 (Char.ofNat 0) == ':' && (str.getD 0 (Char.ofNat 0)).isDigit
    && (str.getD 1 (Char.ofNat 0)).isDigit && (str.getD 2 (Char.ofNat 0)).isDigit
    && (str.getD 3 (Char.ofNat 0)).isDigit

/-- One iteration of the loop of `read_mssql_log` (POSIX build) on the line
`line` returned by `fgets`, its newline included. -/
def read_mssql_log_line (drop_it : Int) (st0 : mssql_state) (line : List Char) : mssql_state :=
  let st := { st0 with lines := st0.lines + 1 }
  let str_len := if line.length ≥ OS_MAXSTR + 1 - 2 then OS_MAXSTR + 1 - 10 else line.length
  let has_newline := line.contains '\n'
  let str := if has_newline then cut_at_last '\n' line else line
  if has_newline ∧ st.need_clear then { st with need_clear := false }
  else
    let st1 := if has_newline then st else { st with need_clear := true }
    if mssql_header str str_len then
      if st1.buffer = [] then { st1 with buffer := str.take (str_len + 2) }
      else { __send_mssql_msg drop_it st1.buffer st1 with buffer := str.take (str_len + 2) }
    else if str_len > 2 ∧ st1.buffer ≠ [] then
      -- `p` is advanced past the leading spaces and tabs of `str` and not used again
      if OS_MAXSTR + 1 - st1.buffer.length > str_len + 256 then
        { st1 with buffer := st1.buffer ++ [' '] ++ str.take (str_len + 3) }
      else st1
    else st1

/-- The loop of `read_mssql_log` on the lines that `fgets` returns: a line is
read before the count of lines is compared with `maximum_lines`. -/
def read_mssql_log_loop (maximum_lines : Nat) (drop_it : Int) :
    List (List Char) → mssql_state → mssql_state
  | [], st => st
  | line :: rest, st =>
    if maximum_lines = 0 ∨ st.lines < maximum_lines then
      read_mssql_log_loop maximum_lines drop_it rest (read_mssql_log_line drop_it st line)
    else st

/-- `read_mssql_log` (POSIX build) on a file whose unread part is `file`, one
string for each call of `fgets`: the messages pushed to the queue. -/
def read_mssql_log (maximum_lines : Nat) (drop_it : Int) (file : List String) : List String :=
  let st := read_mssql_log_loop maximum_lines drop_it (file.map (fun l => l.data))
    { buffer := [], need_clear := false, lines := 0, queue := [] }
  (if st.buffer ≠ [] then __send_mssql_msg drop_it st.buffer st else st).queue

/-- The continuation line as the comment of the source words it: the line
without its leading spaces and tabs. -/
def mssql_strip (str : List Char) : List Char :=
  str.dropWhile (fun c => c == ' ' || c == '\t')

/-! ## System inventory: `SysInfo::getMemory` -/

/-- The value of a C `int` after an arithmetic result wraps to 32 bits. -/
def int32_wrap (x : Int) : Int := (x + 2 ^ 31) % 2 ^ 32 - 2 ^ 31

/-- `std::stoi` of the C++ library: leading white space, an optional sign and
decimal digits; `none` when it throws (no digit, or a value out of the range
of `int`). -/
def stoi (s : String) : Option Int :=
  let l := s.data.dropWhile Char.isWhitespace
  let neg := l.head? == some '-'
  let l1 := if l.head? == some '-' || l.head? == some '+' then l.drop 1 else l
  let ds := l1.takeWhile Char.isDigit
  if ds = [] then none
  else
    let n : Int := ds.foldl (fun a c => 10 * a + ((c.toNat - 48 : Nat) : Int)) 0
    let v := if neg then -n else n
    if v < -(2 ^ 31) ∨ v > 2 ^ 31 - 1 then none else some v

/-- `SysInfo::getMemory` on the map `systemInfo` read from the memory-info
file: the values of `ram_total`, `ram_free` and `ram_usage`, in `int`
arithmetic; `none` when `std::stoi` throws. -/
def getMemory (systemInfo : List (String × String)) : Option (Int × Int × Int) :=
  let memTotal : Option Int :=
    match systemInfo.lookup "MemTotal" with
    | some v => stoi v
    | none => some 1
  let memFree : Option Int :=
    match systemInfo.lookup "MemFree" with
    | some v => stoi v
    | none => some 0
  match memTotal, memFree with
  | some memTotal, some memFree =>
    let ramTotal := if memTotal = 0 then 1 else memTotal
    some (ramTotal, memFree,
      int32_wrap (100 - int32_wrap (Int.tdiv (int32_wrap (100 * memFree)) ramTotal)))
  | _, _ => none

/-! ## Checker filters: sample data -/

/-- A configuration with the directory `/m` and, nested in it, the separately
configured path `/m/a`. -/
def c32_sys : syscheck_t :=
  { sample_sys with dir := ["/m", "/m/a"], symbolic_links := [none, none], opts := [0o777, 0o777],
                    recursion_level := [16, 16], filerestrict := [none, none],
                    tag := [none, none] }

/-! ## Up-to-date entries and collisions before insert: specification side and sample data -/

/-- The attributes of a record that enter its checksum, in the order of the
format of `fim_get_checksum`. -/
def fim_checksum_fields (d : fim_file_data) :
    Nat × Option String × Option String × Option String × Option String × Option String
      × Option String × Int × Nat × String × String × String :=
  (d.size, d.perm, d.attributes, d.uid, d.gid, d.user_name, d.group_name, d.mtime, d.inode,
    d.hash_md5, d.hash_sha1, d.hash_sha256)

/-- A state whose store holds the sample file as it is on disk, not yet
scanned. -/
def c34_state : fim_state :=
  sample_state [{ path := "/m/a", data := { sample_new with scanned := false } }]

/-- The record stored for the sample file when it was on the device 2. -/
def c35_old : fim_file_data := { sample_new with dev := 2, scanned := false, last_event := 900 }

/-- A state whose store holds `/m/a` as it was on the device 2. -/
def c35_state : fim_state := sample_state [{ path := "/m/a", data := c35_old }]

/-- A state whose store holds `/m/a` as it was on the device 2 and `/m/b`
under the inode and the device that `/m/a` has on disk. -/
def c31_state : fim_state :=
  sample_state [{ path := "/m/a", data := c35_old }, { path := "/m/b", data := sample_new }]

/-- A state whose store holds `/m/b` under the inode and the device of
`/m/a`, and no entry for `/m/a`. -/
def c31_state_new : fim_state := sample_state [{ path := "/m/b", data := sample_new }]

/-- The state left by the collision resolver run on `c31_state_new` for the
inode of `/m/a`: `/m/b` is not on disk, its entry is removed and its deleted
event is sent. -/
def c31_resolved : fim_state :=
  { c31_state_new with
    database := empty_db,
    sent := [.event { path := "/m/b", mode := "scheduled", type := "deleted", timestamp := 1000,
                      hard_links := none, attributes := fim_attributes_json sample_new,
                      changed_attributes := none, old_attributes := none, audit := none,
                      content_changes := none, tags := none }] }

/-! ## Checksum wrap-around and the add scenario at capacity: sample data -/

/-- The stat result of `/m/a` after it grew by 2^32 bytes and its
modification time advanced by 2^32 seconds. -/
def c3_stat : stat_t := { sample_stat with st_size := 10 + 2 ^ 32, st_mtime := 100 + 2 ^ 32 }

/-- The sample system with `/m/a` as described by `c3_stat`. -/
def c3_os : os_t :=
  { sample_os with w_stat := fun p => if p = "/m/a" then .ok c3_stat else sample_os.w_stat p }

/-- The record stored for `/m/a` when it had 10 bytes and the modification
time 100, with the size and the time monitored. -/
def c3_old : fim_file_data :=
  { c30_old_size with size := 10, mtime := 100, inode := 100, checksum := "10:::::::100:100:::" }

/-- The item with which `/m/a` is processed under `c30_sys`. -/
def c3_item : fim_element :=
  { statbuf := c3_stat, index := 0, configuration := CHECK_SIZE ||| CHECK_MTIME,
    mode := FIM_SCHEDULED }

/-- A state whose store holds `/m/a` as recorded by `c3_old`. -/
def c3_state : fim_state := sample_state [{ path := "/m/a", data := c3_old }]

/-- The record extracted from `/m/a` under `c3_os`. -/
def c3_new : fim_file_data :=
  { c3_old with size := 10 + 2 ^ 32, mtime := 100 + 2 ^ 32, last_event := 1000, scanned := true }

/-- The stat result of `/m/a` after it grew by 2^32 bytes, the modification
time unchanged. -/
def c34_stat : stat_t := { sample_stat with st_size := 10 + 2 ^ 32, st_mtime := 100 }

/-- The sample system with `/m/a` as described by `c34_stat`. -/
def c34_os : os_t :=
  { sample_os with w_stat := fun p => if p = "/m/a" then .ok c34_stat else sample_os.w_stat p }

/-- The item with which `/m/a` is processed under `c30_sys` and `c34_os`. -/
def c34_item : fim_element :=
  { statbuf := c34_stat, index := 0, configuration := CHECK_SIZE ||| CHECK_MTIME,
    mode := FIM_SCHEDULED }

/-- The record extracted from `/m/a` under `c34_os`. -/
def c34_new : fim_file_data :=
  { c3_old with size := 10 + 2 ^ 32, last_event := 1000, scanned := true }

/-- A state whose store holds one entry, for the file `/m/b`. -/
def c4_state_one : fim_state :=
  sample_state [{ path := "/m/b", data := { sample_data with inode := 7 } }]

/-- A state whose store holds two entries, for the files `/m/b` and `/m/c`. -/
def c4_state_two : fim_state :=
  sample_state [{ path := "/m/b", data := { sample_data with inode := 7 } },
    { path := "/m/c", data := { sample_data with inode := 8 } }]

/-- The sample configuration with the capacity 3. -/
def c4_sys : syscheck_t := { sample_sys with file_limit_enabled := true, file_limit := 3 }

/-! ## Capacity alerts along a monotone sequence of counts: specification side -/

/-- Some count of the sequence lies in the band `Warn80` of the capacity. -/
def fim_db_seen_80 (limit : Int) (counts : List Int) : Bool :=
  counts.any (fun n => decide (4 * limit ≤ 5 * n ∧ 10 * n < 9 * limit))

/-- Some count of the sequence lies in the band `Warn90` of the capacity. -/
def fim_db_seen_90 (limit : Int) (counts : List Int) : Bool :=
  counts.any (fun n => decide (9 * limit ≤ 10 * n ∧ n < limit))

/-- Some positive count of the sequence is at or above the capacity. -/
def fim_db_seen_full (limit : Int) (counts : List Int) : Bool :=
  counts.any (fun n => decide (limit ≤ n ∧ 0 < n))

/-- Some count of the sequence that is not negative lies below four fifths
of the capacity. -/
def fim_db_seen_normal (limit : Int) (counts : List Int) : Bool :=
  counts.any (fun n => decide (0 ≤ n ∧ 5 * n < 4 * limit))

/-- The alert of the given type when the condition holds, no alert otherwise. -/
def fim_db_alert_if (b : Bool) (type : String) : List String := if b then [type] else []

/-- The alert types expected along a rising sequence of counts from the
state `st`: the bands above the state that contain a count of the sequence,
in rising order. -/
def fim_db_alerts_rising_from (limit : Int) (counts : List Int) : fim_state_db → List String
  | FIM_STATE_DB_FULL => []
  | FIM_STATE_DB_90_PERCENTAGE => fim_db_alert_if (fim_db_seen_full limit counts) "full"
  | FIM_STATE_DB_80_PERCENTAGE =>
    fim_db_alert_if (fim_db_seen_90 limit counts) "90_percentage"
      ++ fim_db_alert_if (fim_db_seen_full limit counts) "full"
  | _ =>
    fim_db_alert_if (fim_db_seen_80 limit counts) "80_percentage"
      ++ fim_db_alert_if (fim_db_seen_90 limit counts) "90_percentage"
      ++ fim_db_alert_if (fim_db_seen_full limit counts) "full"

/-- The alert types expected along a falling sequence of counts from the
state `st`: the bands below the state that contain a count of the sequence,
in falling order, `normal` standing for the counts below four fifths of the
capacity. -/
def fim_db_alerts_falling_from (limit : Int) (counts : List Int) : fim_state_db → List String
  | FIM_STATE_DB_FULL =>
    fim_db_alert_if (fim_db_seen_90 limit counts) "90_percentage"
      ++ fim_db_alert_if (fim_db_seen_80 limit counts) "80_percentage"
      ++ fim_db_alert_if (fim_db_seen_normal limit counts) "normal"
  | FIM_STATE_DB_90_PERCENTAGE =>
    fim_db_alert_if (fim_db_seen_80 limit counts) "80_percentage"
      ++ fim_db_alert_if (fim_db_seen_normal limit counts) "normal"
  | FIM_STATE_DB_80_PERCENTAGE => fim_db_alert_if (fim_db_seen_normal limit counts) "normal"
  | _ => []

/-- The states that a run can be in for the capacity `c`: with the capacity
zero only `Empty` and `Full`. -/
def fim_db_state_ok (c : Int) (st : fim_state_db) : Prop :=
  0 < c ∨ st = FIM_STATE_DB_EMPTY ∨ st = FIM_STATE_DB_FULL

/-! ## The refill pass after a checksum wrap-around: sample data -/

/-- A configuration that monitors the size and the modification time of the
files of `/m`, with the capacity 3. -/
def c29_sys_wrap : syscheck_t :=
  { sample_sys with opts := [CHECK_SIZE ||| CHECK_MTIME], file_limit_enabled := true,
                    file_limit := 3 }

/-- A file system in which `/m/a` and `/m/c` are hard links of one file of
10 + 2^32 bytes, inode 5 of device 1, and `/m/b` is a file with inode 5 of
device 2. -/
def c29_os_wrap : os_t :=
  { sample_os with
    w_stat := fun p =>
      if p = "/m/a" ∨ p = "/m/c" then
        .ok { sample_stat with st_size := 10 + 2 ^ 32, st_mtime := 100, st_ino := 5, st_dev := 1 }
      else if p = "/m/b" then .ok { sample_stat with st_ino := 5, st_dev := 2 }
      else sample_os.w_stat p,
    readdir := fun p => if p = "/m" then some [".", "..", "a", "b", "c"] else none }

/-- The record stored for `/m/a` when it had 10 bytes on device 2. -/
def c29_old_wrap : fim_file_data :=
  { c3_old with inode := 5, dev := 2, checksum := "10:::::::100:5:::" }

/-- A store at the capacity 3: `/m/a` as it was with 10 bytes on device 2,
`/m/c` under the inode 9, and `/m/z`, which is no longer on disk. -/
def c29_state_wrap : fim_state :=
  sample_state
    [{ path := "/m/a", data := c29_old_wrap },
     { path := "/m/c",
       data := { c3_old with size := 10 + 2 ^ 32, inode := 9,
                             checksum := "10:::::::100:9:::" } },
     { path := "/m/z", data := { c3_old with inode := 7, checksum := "10:::::::100:7:::" } }]

/-- The record extracted from `/m/a` and from `/m/c` under `c29_os_wrap`. -/
def c29_new_wrap : fim_file_data :=
  { c3_old with size := 10 + 2 ^ 32, inode := 5, dev := 1, last_event := 1000, scanned := true,
                checksum := "10:::::::100:5:::" }

/-- The `modified` event of `/m/a` in the wrap-around scan, with the given
hard links. -/
def c29_event_wrap (hard_links : Option (List String)) : fim_event :=
  { path := "/m/a", mode := "scheduled", type := "modified", timestamp := 1000,
    hard_links := hard_links, attributes := fim_attributes_json c29_new_wrap,
    changed_attributes := some ["size"],
    old_attributes := some (fim_attributes_json c29_old_wrap), audit := none,
    content_changes := none, tags := none }

/-- The state of the wrap-around scan after the first traversal: `/m/a` is
only marked scanned, `/m/c` is updated, the new file `/m/b` was refused and
the store is marked full. -/
def c29_pass1_wrap : fim_state :=
  { c29_state_wrap with
    database :=
      { entries :=
          [{ path := "/m/a", data := { c29_old_wrap with scanned := true } },
           { path := "/m/c", data := c29_new_wrap },
           { path := "/m/z",
             data := { c3_old with inode := 7, checksum := "10:::::::100:7:::" } }],
        full := true, failing := [] },
    sent := [fim_scan_info_json true 1000, .event (c29_event_wrap none)] }

/-- The state of the wrap-around scan after the sweep: the entry of `/m/z`
is removed, its deleted event is sent and the store is no longer marked
full. -/
def c29_swept_wrap : fim_state :=
  { c29_pass1_wrap with
    database :=
      { entries :=
          [{ path := "/m/a", data := { c29_old_wrap with scanned := true } },
           { path := "/m/c", data := c29_new_wrap }],
        full := false, failing := [] },
    sent := c29_pass1_wrap.sent ++
      [.event { path := "/m/z", mode := "scheduled", type := "deleted", timestamp := 900,
                hard_links := none,
                attributes := fim_attributes_json
                  { c3_old with inode := 7, checksum := "10:::::::100:7:::" },
                changed_attributes := none, old_attributes := none, audit := none,
                content_changes := none, tags := none }] }

/-- The state of the wrap-around scan after the repeated traversal: the
entry of `/m/a` is updated by the collision resolver, whose event is sent,
and `/m/b` is stored. -/
def c29_refilled_wrap : fim_state :=
  { c29_swept_wrap with
    database :=
      { entries :=
          [{ path := "/m/a", data := c29_new_wrap }, { path := "/m/c", data := c29_new_wrap },
           { path := "/m/b",
             data := { c3_old with size := 20, mtime := 200, inode := 5, dev := 2,
                                   last_event := 1000, scanned := true,
                                   checksum := "20:::::::200:5:::" } }],
        full := false, failing := [] },
    sent := c29_swept_wrap.sent ++ [.event (c29_event_wrap (some ["/m/c"]))] }

/-- The sample configuration with the capacity 2. -/
def c29_sys_two : syscheck_t := { sample_sys with file_limit_enabled := true, file_limit := 2 }

/-- The sample system with a second regular file, `/m/c`. -/
def c29_os_two : os_t :=
  { sample_os with
    w_stat := fun p =>
      if p = "/m/c" then .ok { sample_stat with st_ino := 101 } else sample_os.w_stat p,
    readdir := fun p => if p = "/m" then some [".", "..", "a", "c"] else none }

/-- A store at the capacity 2: `/m/a` as it is on disk and `/m/gone`, which
is no longer on disk. -/
def c29_state_two : fim_state :=
  sample_state [{ path := "/m/a", data := { sample_new with scanned := false } },
    { path := "/m/gone", data := { sample_data with inode := 7 } }]

/-- The state of that scan after the first traversal: `/m/a` is marked
scanned, the new file `/m/c` was refused and the store is marked full. -/
def c29_pass1_two : fim_state :=
  { c29_state_two with
    database :=
      { entries := [{ path := "/m/a", data := sample_new },
          { path := "/m/gone", data := { sample_data with inode := 7 } }],
        full := true, failing := [] },
    sent := [fim_scan_info_json true 1000] }

/-- The state of that scan after the sweep: the entry of `/m/gone` is
removed, its deleted event is sent and the store is no longer marked full. -/
def c29_swept_two : fim_state :=
  { c29_pass1_two with
    database := { entries := [{ path := "/m/a", data := sample_new }], full := false,
                  failing := [] },
    sent := [fim_scan_info_json true 1000,
      .event { path := "/m/gone", mode := "scheduled", type := "deleted", timestamp := 0,
               hard_links := none,
               attributes := fim_attributes_json { sample_data with inode := 7 },
               changed_attributes := none, old_attributes := none, audit := none,
               content_changes := none, tags := none }] }

/-! ## Inode uniqueness through the collision resolver: specification side -/

/-- The stored entry can be relied on by the collision resolver: its path
lies under a configured directory; if it is marked scanned, the path is on
disk under the stored inode and device; and if the path is on disk, its
attributes can be extracted, and their checksum equals the stored one only
if the stored inode and device are those on disk. -/
def fim_entry_sound (sys : syscheck_t) (os : os_t) (e : fim_entry) : Prop :=
  fim_configuration_directory sys os e.path ≠ -1
    ∧ (e.data.scanned = true → fim_on_disk os e.path e.data.inode e.data.dev = true)
    ∧ ∀ st, os.w_stat e.path = .ok st →
        ∃ d, fim_get_data sys os e.path
              (fim_db_item sys st (fim_configuration_directory sys os e.path)) = some d
          ∧ (d.checksum = e.data.checksum →
              e.data.inode = st.st_ino ∧ e.data.dev = st.st_dev)

/-- No store operation fails, the store is keyed by path and every stored
entry can be relied on by the collision resolver. -/
def fim_db_sound (sys : syscheck_t) (os : os_t) (db : fdb_t) : Prop :=
  db.failing = [] ∧ fim_db_keyed db ∧ ∀ e ∈ db.entries, fim_entry_sound sys os e

/-- Invariant I2 on the list of the paths, inodes and devices of a store. -/
def fim_ids_unique (os : os_t) (ids : List (String × Nat × Nat)) : Prop :=
  ∀ a ∈ ids, ∀ b ∈ ids, a.1 ≠ b.1 → a.2 = b.2 → a.2.1 ≠ 0 →
    ∀ c ∈ ids, c.2 = a.2 → fim_on_disk os c.1 c.2.1 c.2.2 = true

/-- The list `ids1` is `ids` after the path `p` was stored under the inode
and device `x`. -/
def fim_ids_upsert (ids ids1 : List (String × Nat × Nat)) (p : String) (x : Nat × Nat) : Prop :=
  (∀ a ∈ ids1, (a ∈ ids ∧ a.1 ≠ p) ∨ a = (p, x))
    ∧ (∀ a ∈ ids, a.1 ≠ p → a ∈ ids1) ∧ (p, x) ∈ ids1

/-- The invariant of the loop of the collision resolver run for the inode and
device `x`: the working stack and the visited tree have no repetition; the
paths of the stack are visited and stored; a visited path that left the
stack is on disk under its stored inode and device; a stored path that is
not on disk under its stored inode and device and was not visited shares
them with no other path, unless the inode is zero; and a path stored under
`x` is visited or on disk under `x`. -/
def fim_resolve_inv (os : os_t) (x : Nat × Nat) (stack tree : List String)
    (ids : List (String × Nat × Nat)) : Prop :=
  stack.Nodup ∧ tree.Nodup
    ∧ (∀ p ∈ stack, p ∈ tree ∧ ∃ a ∈ ids, a.1 = p)
    ∧ (∀ a ∈ ids, a.1 ∈ tree → a.1 ∉ stack → fim_on_disk os a.1 a.2.1 a.2.2 = true)
    ∧ (∀ a ∈ ids, fim_on_disk os a.1 a.2.1 a.2.2 = false → a.1 ∉ tree →
        ∀ b ∈ ids, b.1 ≠ a.1 → b.2 = a.2 → a.2.1 = 0)
    ∧ (∀ a ∈ ids, a.2 = x → a.1 ∈ tree ∨ fim_on_disk os a.1 a.2.1 a.2.2 = true)

/-- The record extracted from a file of the sample system that has the given
inode on device 1, with its checksum. -/
def c10_record (inode : Nat) (checksum : String) : fim_file_data :=
  { sample_new with inode := inode, checksum := checksum }

/-- A file system in which `/m/p` and `/m/r` are hard links of one file,
inode 5, and `/m/q` has the inode 6. -/
def c10_os_swap : os_t :=
  { sample_os with
    w_stat := fun p =>
      if p = "/m/p" ∨ p = "/m/r" then .ok { sample_stat with st_ino := 5 }
      else if p = "/m/q" then .ok { sample_stat with st_ino := 6 }
      else .error ENOENT }

/-- A store in which `/m/q` and `/m/r` are stored under the inode of each
other, not yet scanned. -/
def c10_state_swap : fim_state :=
  sample_state
    [{ path := "/m/q",
       data := { c10_record 5 "20:rw-r--r--::0:0:root:root:200:5:m:s1:s256" with
                 scanned := false } },
     { path := "/m/r",
       data := { c10_record 6 "20:rw-r--r--::0:0:root:root:200:6:m:s1:s256" with
                 scanned := false } }]

/-- The item with which `/m/p` is processed in a scheduled scan. -/
def c10_item : fim_element := { sample_item with statbuf := { sample_stat with st_ino := 5 } }

/-- What `_fim_file` returns for `/m/p` on `c10_state_swap`, the state as it
was if it does not return. -/
def c10_result_swap : Option fim_event × fim_state :=
  match _fim_file (fim_resolve_db_collision sample_sys c10_os_swap 4) sample_sys c10_os_swap
      "/m/p" c10_item none c10_state_swap with
  | .ok r => r
  | .error _ => (none, c10_state_swap)

/-- A store in which `/m/q` is stored under the inode 5 and marked scanned,
while it has the inode 6 on disk. -/
def c10_state_scanned : fim_state :=
  sample_state
    [{ path := "/m/q", data := c10_record 5 "20:rw-r--r--::0:0:root:root:200:5:m:s1:s256" }]

/-- The file system of `c10_os_swap` in which the hash primitive fails on
`/m/q`. -/
def c10_os_hash : os_t :=
  { c10_os_swap with
    OS_MD5_SHA1_SHA256_File := fun f => if f = "/m/q" then none else some ("m", "s1", "s256") }

/-- A store in which `/m/q` is stored under the inode 5, not yet scanned,
while it has the inode 6 on disk. -/
def c10_state_stale : fim_state :=
  sample_state
    [{ path := "/m/q",
       data := { c10_record 5 "20:rw-r--r--::0:0:root:root:200:5:m:s1:s256" with
                 scanned := false } }]

/-- A file system in which `/m/f` has the inode 5, `/m/u` and `/m/p` are hard
links of one file, inode 6, and `/x/w`, outside the monitored directory, has
the inode 7. -/
def c10_os_outside : os_t :=
  { sample_os with
    w_stat := fun p =>
      if p = "/m/f" then .ok { sample_stat with st_ino := 5 }
      else if p = "/m/u" ∨ p = "/m/p" then .ok { sample_stat with st_ino := 6 }
      else if p = "/x/w" then .ok { sample_stat with st_ino := 7 }
      else .error ENOENT }

/-- A store in which `/m/u` is stored under the inode 5, `/x/w` under the
inode 6 and `/m/p` under the inode 7, none scanned. -/
def c10_state_outside : fim_state :=
  sample_state
    [{ path := "/m/u",
       data := { c10_record 5 "20:rw-r--r--::0:0:root:root:200:5:m:s1:s256" with
                 scanned := false } },
     { path := "/x/w",
       data := { c10_record 6 "20:rw-r--r--::0:0:root:root:200:6:m:s1:s256" with
                 scanned := false } },
     { path := "/m/p",
       data := { c10_record 7 "20:rw-r--r--::0:0:root:root:200:7:m:s1:s256" with
                 scanned := false } }]

/-- The sample system with a string hash under which every checksum string
has the same digest. -/
def c3_os_collide : os_t := { sample_os with OS_SHA1_Str := fun _ => "0" }

/-- A state whose store holds `/m/a` as it was with 10 bytes, under the
digest of `c3_os_collide`. -/
def c3_state_collide : fim_state :=
  sample_state [{ path := "/m/a", data := { sample_data with checksum := "0" } }]

/-- A state whose store holds `/m/a` as it was with 10 bytes, already marked
scanned. -/
def c3_state_scanned : fim_state :=
  sample_state [{ path := "/m/a", data := { sample_data with scanned := true } }]

/-- The record stored for `/m/a` when it was empty, with the size and the
modification time monitored. -/
def c3_old_empty : fim_file_data :=
  { sample_data with size := 0, options := (CHECK_SIZE ||| CHECK_MTIME) }

/-- A state whose store holds `/m/a` as recorded by `c3_old_empty`. -/
def c3_state_empty_file : fim_state := sample_state [{ path := "/m/a", data := c3_old_empty }]

/-- The item with which `/m/a` is processed when only the modification time
is monitored. -/
def c3_item_mtime : fim_element := { sample_item with configuration := CHECK_MTIME }

/-! # Theorems -/

theorem both_differ_self (a : Option String) : both_differ a a = false := by
  cases a <;> simp [both_differ]

theorem compare_attrs_agree (a b : fim_file_data)
    (hperm : has_opt a.options CHECK_PERM = true → a.perm ≠ none)
    (h : fim_data_agree a b) : fim_json_compare_attrs a b = .ok [] := by
  obtain ⟨h1, h2, h3, h4, h5, h6, h7, h8, h9⟩ := h
  unfold fim_json_compare_attrs
  have e1 : (has_opt a.options CHECK_SIZE && a.size != b.size) = false := by
    cases hc : has_opt a.options CHECK_SIZE <;> simp [h1, hc]
  have e3 : (has_opt a.options CHECK_OWNER && both_differ a.uid b.uid) = false := by
    cases hc : has_opt a.options CHECK_OWNER
    · simp
    · rw [← (h3 hc).1]; simp [both_differ_self]
  have e4 : (has_opt a.options CHECK_OWNER && both_differ a.user_name b.user_name) = false := by
    cases hc : has_opt a.options CHECK_OWNER
    · simp
    · rw [← (h3 hc).2]; simp [both_differ_self]
  have e5 : (has_opt a.options CHECK_GROUP && both_differ a.gid b.gid) = false := by
    cases hc : has_opt a.options CHECK_GROUP
    · simp
    · rw [← (h4 hc).1]; simp [both_differ_self]
  have e6 : (has_opt a.options CHECK_GROUP && both_differ a.group_name b.group_name) = false := by
    cases hc : has_opt a.options CHECK_GROUP
    · simp
    · rw [← (h4 hc).2]; simp [both_differ_self]
  have e7 : (has_opt a.options CHECK_MTIME && a.mtime != b.mtime) = false := by
    cases hc : has_opt a.options CHECK_MTIME <;> simp [h5, hc]
  have e8 : (has_opt a.options CHECK_INODE && a.inode != b.inode) = false := by
    cases hc : has_opt a.options CHECK_INODE <;> simp [h6, hc]
  have e9 : (has_opt a.options CHECK_MD5SUM && a.hash_md5 != b.hash_md5) = false := by
    cases hc : has_opt a.options CHECK_MD5SUM <;> simp [h7, hc]
  have e10 : (has_opt a.options CHECK_SHA1SUM && a.hash_sha1 != b.hash_sha1) = false := by
    cases hc : has_opt a.options CHECK_SHA1SUM <;> simp [h8, hc]
  have e11 : (has_opt a.options CHECK_SHA256SUM && a.hash_sha256 != b.hash_sha256) = false := by
    cases hc : has_opt a.options CHECK_SHA256SUM <;> simp [h9, hc]
  have e2 : (if has_opt a.options CHECK_PERM = true then strcmp_ne a.perm b.perm else .ok false)
      = .ok false := by
    cases hc : has_opt a.options CHECK_PERM
    · simp
    · have hp := hperm hc
      have hq := h2 hc
      rw [← hq]
      cases hperm' : a.perm with
      | none => exact absurd hperm' hp
      | some p => simp [strcmp_ne]
  simp only [e1, e2, e3, e4, e5, e6, e7, e8, e9, e10, e11, changed_if]
  rfl

/-- C1 (no-diff suppression): if the old record carries its permission
whenever `CHECK_PERM` is set and the two records agree on every attribute
whose option bit is set, `fim_json_compare_attrs` yields the empty list and
`fim_json_event` returns no event, whatever the other arguments are. -/
theorem C1_no_diff_suppression (sys : syscheck_t) (db : fdb_t) (file_name : String)
    (a b : fim_file_data) (pos : Int) (type : fim_event_type) (mode : fim_event_mode)
    (w_evt : Option whodata_evt) (diff : Option String)
    (hperm : has_opt a.options CHECK_PERM = true → a.perm ≠ none)
    (h : fim_data_agree a b) :
    fim_json_compare_attrs a b = .ok []
      ∧ fim_json_event sys db file_name (some a) b pos type mode w_evt diff = .ok none := by
  have hc := compare_attrs_agree a b hperm h
  refine ⟨hc, ?_⟩
  simp [fim_json_event, hc]

/-- Witness of C1: two records that differ only in the time of the event. -/
theorem C1_no_diff_suppression_witness :
    fim_json_compare_attrs sample_data { sample_data with last_event := 5 } = .ok []
      ∧ fim_json_event sample_sys empty_db "/m/a" (some sample_data)
          { sample_data with last_event := 5 } 0 FIM_MODIFICATION FIM_SCHEDULED none none
        = .ok none :=
  C1_no_diff_suppression sample_sys empty_db "/m/a" sample_data
    { sample_data with last_event := 5 } 0 FIM_MODIFICATION FIM_SCHEDULED none none
    (by decide) (by decide)

theorem both_differ_eq (a b : Option String) :
    both_differ a b = (a.isSome && b.isSome && a != b) := by
  cases a <;> cases b <;> simp [both_differ, bne]

theorem strcmp_ne_some (a b : Option String) (ha : a ≠ none) (hb : b ≠ none) :
    strcmp_ne a b = .ok (a != b) := by
  cases a <;> cases b <;> simp_all [strcmp_ne, bne]

theorem filter_cons_changed_if (f : String → Bool) (a : String) (l : List String) :
    (a :: l).filter f = changed_if (f a) a ++ l.filter f := by
  cases h : f a <;> simp [List.filter_cons, changed_if, h]

theorem filter_attr_names (f : String → Bool) :
    fim_attr_names.filter f =
      changed_if (f "size") "size" ++ changed_if (f "permission") "permission"
      ++ changed_if (f "uid") "uid" ++ changed_if (f "user_name") "user_name"
      ++ changed_if (f "gid") "gid" ++ changed_if (f "group_name") "group_name"
      ++ changed_if (f "mtime") "mtime" ++ changed_if (f "inode") "inode"
      ++ changed_if (f "md5") "md5" ++ changed_if (f "sha1") "sha1"
      ++ changed_if (f "sha256") "sha256" := by
  simp only [fim_attr_names, filter_cons_changed_if, List.filter_nil, List.append_nil,
    List.append_assoc]

theorem compare_attrs_eq_filter (o n : fim_file_data)
    (hperm : has_opt o.options CHECK_PERM = true → o.perm ≠ none ∧ n.perm ≠ none) :
    fim_json_compare_attrs o n = .ok (fim_attr_names.filter (fim_attr_changed o n)) := by
  have e2 : (if has_opt o.options CHECK_PERM = true then strcmp_ne o.perm n.perm else .ok false)
      = .ok (has_opt o.options CHECK_PERM && o.perm != n.perm) := by
    cases hc : has_opt o.options CHECK_PERM
    · simp
    · simp [strcmp_ne_some _ _ (hperm hc).1 (hperm hc).2]
  rw [filter_attr_names]
  unfold fim_json_compare_attrs
  simp only [e2, both_differ_eq]
  simp [fim_attr_changed, Except.map]

theorem fim_attr_changed_mem (o n : fim_file_data) (name : String)
    (h : fim_attr_changed o n name = true) : name ∈ fim_attr_names := by
  unfold fim_attr_changed at h
  by_cases h1 : name = "size"
  · rw [h1]; decide
  rw [if_neg h1] at h
  by_cases h2 : name = "permission"
  · rw [h2]; decide
  rw [if_neg h2] at h
  by_cases h3 : name = "uid"
  · rw [h3]; decide
  rw [if_neg h3] at h
  by_cases h4 : name = "user_name"
  · rw [h4]; decide
  rw [if_neg h4] at h
  by_cases h5 : name = "gid"
  · rw [h5]; decide
  rw [if_neg h5] at h
  by_cases h6 : name = "group_name"
  · rw [h6]; decide
  rw [if_neg h6] at h
  by_cases h7 : name = "mtime"
  · rw [h7]; decide
  rw [if_neg h7] at h
  by_cases h8 : name = "inode"
  · rw [h8]; decide
  rw [if_neg h8] at h
  by_cases h9 : name = "md5"
  · rw [h9]; decide
  rw [if_neg h9] at h
  by_cases h10 : name = "sha1"
  · rw [h10]; decide
  rw [if_neg h10] at h
  by_cases h11 : name = "sha256"
  · rw [h11]; decide
  rw [if_neg h11] at h
  exact absurd h (by decide)

/-- C2 (amended): when the permission strings are present whenever
`CHECK_PERM` is set in the old record, `fim_json_compare_attrs` returns a list
that is a sublist of size, permission, uid, user_name, gid, group_name, mtime,
inode, md5, sha1, sha256 (in this order), without duplicates, and that
contains a name exactly when its option bit is set in the old record and the
two values differ, the owner and group attributes being reported only when
both values are present. -/
theorem C2_changed_attributes (o n : fim_file_data)
    (hperm : has_opt o.options CHECK_PERM = true → o.perm ≠ none ∧ n.perm ≠ none) :
    ∃ l, fim_json_compare_attrs o n = .ok l
      ∧ l.Sublist fim_attr_names ∧ l.Nodup
      ∧ ∀ name, name ∈ l ↔ fim_attr_changed o n name = true := by
  refine ⟨fim_attr_names.filter (fim_attr_changed o n), compare_attrs_eq_filter o n hperm,
    List.filter_sublist _, List.Nodup.filter _ (by decide), ?_⟩
  intro name
  rw [List.mem_filter]
  exact ⟨fun h => h.2, fun h => ⟨fim_attr_changed_mem o n name h, h⟩⟩

/-- Witness of C2 (amended) on the records of the counterexample. -/
theorem C2_changed_attributes_witness :
    ∃ l, fim_json_compare_attrs c2_old c2_new = .ok l
      ∧ l.Sublist fim_attr_names ∧ l.Nodup
      ∧ ∀ name, name ∈ l ↔ fim_attr_changed c2_old c2_new name = true :=
  C2_changed_attributes c2_old c2_new (by decide)

/-- C2 (counterexample): with the owner and the modification time monitored,
an unknown user name that becomes known, and a changed uid and mtime, the
source reports `uid` then `mtime`; the claimed list is `mtime`, `uid`,
`user_name`: the user name differs but is not reported, and the order is not
the claimed one. -/
theorem C2_counterexample :
    fim_json_compare_attrs c2_old c2_new = .ok ["uid", "mtime"]
      ∧ fim_attr_names_claimed.filter (fim_attr_changed_claimed c2_old c2_new)
          = ["mtime", "uid", "user_name"]
      ∧ has_opt c2_old.options CHECK_OWNER = true
      ∧ c2_old.user_name ≠ c2_new.user_name := by
  refine ⟨by rfl, by rfl, by decide, by decide⟩

theorem fim_db_fails_nil (db : fdb_t) (h : db.failing = []) (op : fim_db_op) :
    fim_db_fails db op = false := by
  simp [fim_db_fails, h]

theorem fim_db_get_path_path (db : fdb_t) (path : String) (e : fim_entry)
    (h : fim_db_get_path db path = some e) : e.path = path := by
  unfold fim_db_get_path at h
  split at h
  · cases h
  · have := List.find?_some h
    simpa using this

theorem fim_db_get_path_find (db : fdb_t) (path : String) (e : fim_entry)
    (h : fim_db_get_path db path = some e) :
    db.entries.find? (fun e => e.path == path) = some e := by
  unfold fim_db_get_path at h
  split at h
  · cases h
  · exact h

theorem fim_db_get_path_mem (db : fdb_t) (path : String) (e : fim_entry)
    (h : fim_db_get_path db path = some e) : e ∈ db.entries :=
  List.mem_of_find?_eq_some (fim_db_get_path_find db path e h)

theorem fim_db_file_is_scanned_of_get (db : fdb_t) (path : String) (e : fim_entry)
    (hf : db.failing = []) (h : fim_db_get_path db path = some e) :
    fim_db_file_is_scanned db path = if e.data.scanned then 1 else 0 := by
  simp [fim_db_file_is_scanned, fim_db_fails_nil db hf, fim_db_get_path_find db path e h]

theorem find_upsert_of_mem (entries : List fim_entry) (path : String) (d : fim_file_data)
    (h : entries.any (fun e => e.path == path) = true) :
    (fim_db_upsert entries path d).find? (fun e => e.path == path)
      = some { path := path, data := d } := by
  unfold fim_db_upsert
  rw [if_pos h]
  induction entries with
  | nil => simp at h
  | cons a l ih =>
    by_cases ha : a.path = path
    · simp [List.find?, ha]
    · have hl : l.any (fun e => e.path == path) = true := by
        simpa [ha] using h
      have hb : (a.path == path) = false := by simpa using ha
      simp only [List.map_cons, hb, Bool.false_eq_true, ↓reduceIte, List.find?_cons]
      exact ih hl

theorem any_of_get_path (db : fdb_t) (path : String) (e : fim_entry)
    (h : fim_db_get_path db path = some e) :
    db.entries.any (fun e => e.path == path) = true := by
  rw [List.any_eq_true]
  exact ⟨e, fim_db_get_path_mem db path e h, by simp [fim_db_get_path_path db path e h]⟩

theorem fim_get_data_fields (sys : syscheck_t) (os : os_t) (file : String) (item : fim_element)
    (new : fim_file_data) (h : fim_get_data sys os file item = some new) :
    new.size = (if has_opt item.configuration CHECK_SIZE then item.statbuf.st_size else 0)
      ∧ new.perm = (if has_opt item.configuration CHECK_PERM
          then some (os.agent_file_perm item.statbuf.st_mode) else none)
      ∧ new.mtime = (if has_opt item.configuration CHECK_MTIME then item.statbuf.st_mtime else 0)
      ∧ new.inode = item.statbuf.st_ino ∧ new.dev = item.statbuf.st_dev
      ∧ new.options = item.configuration ∧ new.scanned = true ∧ new.mode = item.mode
      ∧ new.last_event = os.time := by
  unfold fim_get_data at h
  simp only at h
  split at h
  · cases h
  · rename_i md5 sha1 sha256 _
    injection h with h
    subst h
    simp [fim_get_checksum]

theorem fim_json_event_modified (sys : syscheck_t) (db : fdb_t) (file_name : String)
    (od nd : fim_file_data) (pos : Int) (type : fim_event_type) (mode : fim_event_mode)
    (w_evt : Option whodata_evt) (diff : Option String) (l : List String)
    (hl : fim_json_compare_attrs od nd = .ok l) (hne : l ≠ []) :
    ∃ ev, fim_json_event sys db file_name (some od) nd pos type mode w_evt diff = .ok (some ev)
      ∧ ev.path = file_name ∧ ev.type = FIM_EVENT_TYPE type ∧ ev.mode = FIM_EVENT_MODE mode
      ∧ ev.changed_attributes = some l
      ∧ ev.old_attributes = some (fim_attributes_json od)
      ∧ ev.attributes = fim_attributes_json nd := by
  have hlen : l.length ≠ 0 := by
    intro h0
    exact hne (List.length_eq_zero.mp h0)
  simp [fim_json_event, hl, hlen]

theorem fim_state_insert_saved (sys : syscheck_t) (path : String) (d sd : fim_file_data)
    (s : fim_state) (hf : s.database.failing = []) :
    fim_state_insert sys path d (some sd) s
      = (0, { s with database :=
          { s.database with entries := fim_db_upsert s.database.entries path d } }) := by
  simp [fim_state_insert, fim_db_insert, fim_db_fails_nil _ hf, FIMDB_OK]

/-- C3 (amended, modify scenario): in scheduled mode, for a path whose stored record
is not yet scanned, monitors size and mtime, and whose on-disk size and mtime
differ from the stored ones while inode and device are unchanged, `_fim_file`
replaces the stored record by the extracted data and returns one event of
type `modified` whose changed attributes contain `size` and `mtime` and whose
old attributes carry the stored size. The store is assumed not to fail, the
path is scanned under the option mask it was stored with, and the new
checksum differs from the stored one. -/
theorem C3_modify_scenario (resolve : fim_resolver) (sys : syscheck_t) (os : os_t)
    (path : String) (item : fim_element) (w_evt : Option whodata_evt) (s : fim_state)
    (sv : fim_entry) (new : fim_file_data)
    (hmode : item.mode = FIM_SCHEDULED)
    (hfail : s.database.failing = [])
    (hsaved : fim_db_get_path s.database path = some sv)
    (hunscanned : sv.data.scanned = false)
    (hcfg : item.configuration = sv.data.options)
    (hsize_opt : has_opt sv.data.options CHECK_SIZE = true)
    (hmtime_opt : has_opt sv.data.options CHECK_MTIME = true)
    (hperm : has_opt sv.data.options CHECK_PERM = true → sv.data.perm ≠ none)
    (hnew : fim_get_data sys os path item = some new)
    (hsize : item.statbuf.st_size ≠ sv.data.size)
    (hmtime : item.statbuf.st_mtime ≠ sv.data.mtime)
    (hino : item.statbuf.st_ino = sv.data.inode)
    (hdev : item.statbuf.st_dev = sv.data.dev)
    (hsum : new.checksum ≠ sv.data.checksum) :
    ∃ ev l s1,
      _fim_file resolve sys os path item w_evt s = .ok (some ev, s1)
      ∧ s1 = { s with database :=
          { s.database with entries := fim_db_upsert s.database.entries path new } }
      ∧ fim_db_get_path s1.database path = some { path := path, data := new }
      ∧ ev.path = path ∧ ev.type = "modified"
      ∧ ev.changed_attributes = some l ∧ "size" ∈ l ∧ "mtime" ∈ l
      ∧ ev.old_attributes.bind (fun a => a.size) = some sv.data.size := by
  obtain ⟨fsize, fperm, fmtime, fino, fdev, fopts, -, -, -⟩ :=
    fim_get_data_fields sys os path item new hnew
  rw [hcfg] at fsize fperm fmtime fopts
  rw [hsize_opt] at fsize
  rw [hmtime_opt] at fmtime
  simp only [↓reduceIte] at fsize fmtime
  have hp : has_opt sv.data.options CHECK_PERM = true → sv.data.perm ≠ none ∧ new.perm ≠ none := by
    intro hc
    refine ⟨hperm hc, ?_⟩
    rw [fperm, hc]
    simp
  have hcmp := compare_attrs_eq_filter sv.data new hp
  have hm1 : "size" ∈ fim_attr_names.filter (fim_attr_changed sv.data new) := by
    rw [List.mem_filter]
    refine ⟨by decide, ?_⟩
    have : sv.data.size ≠ new.size := by rw [fsize]; exact fun h => hsize h.symm
    simp [fim_attr_changed, hsize_opt, this]
  have hm2 : "mtime" ∈ fim_attr_names.filter (fim_attr_changed sv.data new) := by
    rw [List.mem_filter]
    refine ⟨by decide, ?_⟩
    have : sv.data.mtime ≠ new.mtime := by rw [fmtime]; exact fun h => hmtime h.symm
    simp [fim_attr_changed, hmtime_opt, this]
  have hne : fim_attr_names.filter (fim_attr_changed sv.data new) ≠ [] :=
    List.ne_nil_of_mem hm1
  have hscan : fim_db_file_is_scanned s.database path = 0 := by
    rw [fim_db_file_is_scanned_of_get _ _ _ hfail hsaved, hunscanned]
    simp
  have hupd : fim_update_db_data resolve sys path new item.mode s
      = .ok ((0, some sv), { s with database :=
          { s.database with entries := fim_db_upsert s.database.entries path new } }) := by
    unfold fim_update_db_data
    simp only [hmode, hsaved, ne_eq, not_true_eq_false, ↓reduceIte, hsum, fdev, fino, hdev, hino,
      and_self, fim_state_insert_saved sys path new sv.data s hfail]
  obtain ⟨ev, hev, hpath, htype, -, hchg, hold, -⟩ :=
    fim_json_event_modified sys
      ({ s.database with entries := fim_db_upsert s.database.entries path new }) path sv.data new
      item.index FIM_MODIFICATION item.mode w_evt
      (if has_opt item.configuration CHECK_SEECHANGES then os.fim_file_diff path else none)
      _ hcmp hne
  refine ⟨ev, _, _, ?_, rfl, ?_, hpath, htype, hchg, hm1, hm2, ?_⟩
  · rw [hmode] at hupd hev
    unfold _fim_file
    simp only [hmode, hscan, hnew, hupd, true_and]
    simp [FIMDB_ERR, hev]
  · simp only [fim_db_get_path, fim_db_fails, hfail]
    simpa using find_upsert_of_mem _ path new (any_of_get_path _ _ _ hsaved)
  · simp [hold, fim_attributes_json, hsize_opt]

theorem any_false_of_get_path_none (db : fdb_t) (path : String) (hf : db.failing = [])
    (h : fim_db_get_path db path = none) :
    db.entries.any (fun e => e.path == path) = false := by
  simp only [fim_db_get_path, fim_db_fails_nil db hf, Bool.false_eq_true, ↓reduceIte] at h
  rw [List.find?_eq_none] at h
  rw [List.any_eq_false]
  intro x hx
  simpa using h x hx

theorem fim_json_event_some (sys : syscheck_t) (db : fdb_t) (file_name : String)
    (od : Option fim_file_data) (nd : fim_file_data) (pos : Int) (type : fim_event_type)
    (mode : fim_event_mode) (w_evt : Option whodata_evt) (diff : Option String) (ev : fim_event)
    (h : fim_json_event sys db file_name od nd pos type mode w_evt diff = .ok (some ev)) :
    ev.path = file_name ∧ ev.type = FIM_EVENT_TYPE type ∧ ev.mode = FIM_EVENT_MODE mode
      ∧ ev.attributes = fim_attributes_json nd := by
  unfold fim_json_event at h
  cases od with
  | none =>
    simp only [Except.ok.injEq, Option.some.injEq] at h
    subst h
    exact ⟨rfl, rfl, rfl, rfl⟩
  | some o =>
    simp only at h
    split at h
    · cases h
    · split at h
      · cases h
      · simp only [Except.ok.injEq, Option.some.injEq] at h
        subst h
        exact ⟨rfl, rfl, rfl, rfl⟩

theorem fim_json_event_none_old (sys : syscheck_t) (db : fdb_t) (file_name : String)
    (nd : fim_file_data) (pos : Int) (type : fim_event_type)
    (mode : fim_event_mode) (w_evt : Option whodata_evt) (diff : Option String) :
    ∃ ev, fim_json_event sys db file_name none nd pos type mode w_evt diff = .ok (some ev)
      ∧ ev.path = file_name ∧ ev.type = FIM_EVENT_TYPE type ∧ ev.mode = FIM_EVENT_MODE mode
      ∧ ev.attributes = fim_attributes_json nd ∧ ev.old_attributes = none
      ∧ ev.changed_attributes = none :=
  ⟨_, rfl, rfl, rfl, rfl, rfl, rfl, rfl⟩

theorem fim_update_db_data_saved (resolve : fim_resolver) (sys : syscheck_t) (path : String)
    (data : fim_file_data) (mode : fim_event_mode) (s s1 : fim_state) (rc : Int)
    (saved : Option fim_entry)
    (h : fim_update_db_data resolve sys path data mode s = .ok ((rc, saved), s1)) :
    saved = fim_db_get_path s.database path := by
  unfold fim_update_db_data at h
  simp only at h
  split at h
  · simp only [Except.ok.injEq, Prod.mk.injEq] at h
    exact h.1.2.symm
  · split at h
    · rename_i heq
      split at h
      · simp only [Except.ok.injEq, Prod.mk.injEq] at h
        exact h.1.2.symm
      · split at h
        · split at h
          · cases h
          · split at h
            · simp only [Except.ok.injEq, Prod.mk.injEq] at h
              exact h.1.2.symm
            · simp only [Except.ok.injEq, Prod.mk.injEq] at h
              exact h.1.2.symm
        · simp only [Except.ok.injEq, Prod.mk.injEq] at h
          exact h.1.2.symm
    · rename_i sv heq
      split at h
      · simp only [Except.ok.injEq, Prod.mk.injEq] at h
        exact h.1.2.symm
      · split at h
        · simp only [Except.ok.injEq, Prod.mk.injEq] at h
          exact h.1.2.symm
        · split at h
          · simp only [Except.ok.injEq, Prod.mk.injEq] at h
            exact h.1.2.symm
          · split at h
            · simp only [Except.ok.injEq, Prod.mk.injEq] at h
              exact h.1.2.symm
            · split at h
              · cases h
              · split at h
                · simp only [Except.ok.injEq, Prod.mk.injEq] at h
                  exact h.1.2.symm
                · simp only [Except.ok.injEq, Prod.mk.injEq] at h
                  exact h.1.2.symm

theorem _fim_file_event_type (resolve : fim_resolver) (sys : syscheck_t) (os : os_t)
    (path : String) (item : fim_element) (w_evt : Option whodata_evt) (s s1 : fim_state)
    (ev : fim_event) (h : _fim_file resolve sys os path item w_evt s = .ok (some ev, s1)) :
    ev.path = path ∧ ev.mode = FIM_EVENT_MODE item.mode
      ∧ ev.type = (if (fim_db_get_path s.database path).isNone then "added" else "modified") := by
  unfold _fim_file at h
  split at h
  · cases h
  · split at h
    · cases h
    · split at h
      · cases h
      · rename_i new _ rc saved s2 hupd
        have hs := fim_update_db_data_saved _ _ _ _ _ _ _ _ _ hupd
        split at h
        · cases h
        · subst hs
          cases hg : fim_db_get_path s.database path with
          | none =>
            rw [hg] at h
            simp only [Option.isNone_none, ↓reduceIte] at h
            split at h
            · cases h
            · rename_i je hje
              simp only [Except.ok.injEq, Prod.mk.injEq] at h
              rw [h.1] at hje
              obtain ⟨h1, h2, h3, -⟩ := fim_json_event_some _ _ _ _ _ _ _ _ _ _ _ hje
              exact ⟨h1, h3, by rw [h2]; rfl⟩
          | some e =>
            rw [hg] at h
            simp only [Option.isNone_some, Bool.false_eq_true, ↓reduceIte] at h
            split at h
            · cases h
            · rename_i je hje
              simp only [Except.ok.injEq, Prod.mk.injEq] at h
              rw [h.1] at hje
              obtain ⟨h1, h2, h3, -⟩ := fim_json_event_some _ _ _ _ _ _ _ _ _ _ _ hje
              exact ⟨h1, h3, by rw [h2]; rfl⟩

theorem fim_db_file_is_scanned_none (db : fdb_t) (path : String) (hf : db.failing = [])
    (h : fim_db_get_path db path = none) : fim_db_file_is_scanned db path = 0 := by
  simp only [fim_db_get_path, fim_db_fails_nil db hf, Bool.false_eq_true, ↓reduceIte] at h
  simp [fim_db_file_is_scanned, fim_db_fails_nil db hf, h]

/-- C4 (amended, add scenario): in scheduled mode with the baseline
established, for a path without stored entry whose attributes are extracted
and whose inode and device are not in the store, when the store is below its
capacity (or the capacity limit is disabled), `fim_file` with `report` set
appends the extracted data to the store (one entry more) and hands exactly
one event to the transport, of type `added`, mode `scheduled` and that path;
and whenever `_fim_file` returns an event, its type is `added` exactly when
no entry was stored for the path and `modified` otherwise. The store is
assumed not to fail. -/
theorem C4_add_scenario (resolve : fim_resolver) (sys : syscheck_t) (os : os_t)
    (path : String) (item : fim_element) (w_evt : Option whodata_evt) (s : fim_state)
    (new : fim_file_data)
    (hmode : item.mode = FIM_SCHEDULED)
    (hfail : s.database.failing = [])
    (hbase : s._base_line = true)
    (hnone : fim_db_get_path s.database path = none)
    (hnew : fim_get_data sys os path item = some new)
    (hfree : fim_db_data_exists s.database item.statbuf.st_ino item.statbuf.st_dev = 0)
    (hcap : ¬(sys.file_limit_enabled = true
      ∧ (s.database.entries.length : Int) ≥ sys.file_limit)) :
    (∃ ev s1, fim_file resolve sys os path item w_evt true s = .ok s1
        ∧ s1.database.entries = s.database.entries ++ [{ path := path, data := new }]
        ∧ s1.database.entries.length = s.database.entries.length + 1
        ∧ s1.sent = s.sent ++ [.event ev]
        ∧ ev.type = "added" ∧ ev.mode = "scheduled" ∧ ev.path = path)
    ∧ (∀ (r : fim_resolver) (p : String) (it : fim_element) (w : Option whodata_evt)
        (t t1 : fim_state) (e : fim_event),
        _fim_file r sys os p it w t = .ok (some e, t1) →
          (e.type = "added" ↔ fim_db_get_path t.database p = none)
          ∧ (e.type = "modified" ↔ fim_db_get_path t.database p ≠ none)) := by
  constructor
  · obtain ⟨-, -, -, fino, fdev, -, -, -, -⟩ := fim_get_data_fields sys os path item new hnew
    have hins : fim_state_insert sys path new none s
        = (0, { s with database := { s.database with
            entries := s.database.entries ++ [{ path := path, data := new }] } }) := by
      have hany := any_false_of_get_path_none _ _ hfail hnone
      have hc : (sys.file_limit_enabled && decide ((s.database.entries.length : Int)
          ≥ sys.file_limit)) = false := by
        rw [Bool.and_eq_false_iff]
        by_cases he : sys.file_limit_enabled = true
        · right
          simpa using fun h => hcap ⟨he, h⟩
        · left
          simpa using he
      simp only [fim_state_insert, fim_db_insert, fim_db_fails_nil _ hfail, Bool.false_eq_true,
        ↓reduceIte, Option.isSome_none, Option.isNone_none, Bool.true_and, hc, fim_db_upsert,
        hany, FIMDB_OK]
    have hupd : fim_update_db_data resolve sys path new FIM_SCHEDULED s
        = .ok ((0, none), { s with database := { s.database with
            entries := s.database.entries ++ [{ path := path, data := new }] } }) := by
      unfold fim_update_db_data
      simp only [hnone, ne_eq, not_true_eq_false, ↓reduceIte, fino, fdev, hfree, hins]
      simp [FIMDB_ERR]
    obtain ⟨ev, hev, hpath, htype, hm, -⟩ := fim_json_event_none_old sys
      ({ s.database with entries := s.database.entries ++ [{ path := path, data := new }] })
      path new item.index FIM_ADD FIM_SCHEDULED w_evt
      (if has_opt item.configuration CHECK_SEECHANGES then os.fim_file_diff path else none)
    have hfile : _fim_file resolve sys os path item w_evt s
        = .ok (some ev, { s with database := { s.database with
            entries := s.database.entries ++ [{ path := path, data := new }] } }) := by
      unfold _fim_file
      simp only [hmode, fim_db_file_is_scanned_none _ _ hfail hnone, hnew, hupd, true_and]
      simp [FIMDB_ERR, hev]
    refine ⟨ev, send_syscheck_msg (.event ev) { s with database := { s.database with
      entries := s.database.entries ++ [{ path := path, data := new }] } },
      ?_, rfl, ?_, rfl, htype, hm, hpath⟩
    · unfold fim_file
      simp only [hfile]
      simp [hbase]
    · simp [send_syscheck_msg]
  · intro r p it w t t1 e h
    obtain ⟨-, -, h3⟩ := _fim_file_event_type r sys os p it w t t1 e h
    cases hg : fim_db_get_path t.database p <;> simp [h3, hg]

theorem length_filter_path_ne (l : List fim_entry) (path : String)
    (hk : (l.map (fun e => e.path)).Nodup) (hm : ∃ e ∈ l, e.path = path) :
    (l.filter (fun e => e.path != path)).length + 1 = l.length := by
  induction l with
  | nil => obtain ⟨e, he, -⟩ := hm; cases he
  | cons a l ih =>
    rw [List.map_cons, List.nodup_cons] at hk
    by_cases ha : a.path = path
    · have hall : ∀ x ∈ l, (x.path != path) = true := by
        intro x hx
        have : x.path ≠ a.path := by
          intro h
          exact hk.1 (h ▸ List.mem_map_of_mem (fun e => e.path) hx)
        simpa [ha] using this
      have : (a.path != path) = false := by simp [ha]
      rw [List.filter_cons, this]
      simp [List.filter_eq_self.mpr hall]
    · have hm' : ∃ e ∈ l, e.path = path := by
        obtain ⟨e, he, hp⟩ := hm
        rcases List.mem_cons.mp he with h | h
        · exact absurd (h ▸ hp) ha
        · exact ⟨e, h, hp⟩
      have : (a.path != path) = true := by simpa using ha
      rw [List.filter_cons, this]
      simp [ih hk.2 hm']

theorem fim_delete_file_event_scheduled (sys : syscheck_t) (os : os_t) (entry : fim_entry)
    (w_evt : Option whodata_evt) (s : fim_state)
    (hpos : fim_configuration_directory sys os entry.path ≠ -1)
    (hfail : s.database.failing = [])
    (hmem : s.database.entries.any (fun e => e.path == entry.path) = true) :
    ∃ ev, fim_delete_file_event sys os entry true FIM_SCHEDULED w_evt s
        = .ok (send_syscheck_msg (.event ev)
            { s with database := { s.database with
                entries := s.database.entries.filter (fun e => e.path != entry.path),
                full := false } })
      ∧ ev.path = entry.path ∧ ev.type = "deleted" ∧ ev.mode = "scheduled"
      ∧ ev.attributes = fim_attributes_json entry.data
      ∧ ev.old_attributes = none ∧ ev.changed_attributes = none := by
  obtain ⟨ev, hev, h1, h2, h3, h4, h5, h6⟩ := fim_json_event_none_old sys
    ({ s.database with entries := s.database.entries.filter (fun e => e.path != entry.path),
                       full := false })
    entry.path entry.data (fim_configuration_directory sys os entry.path) FIM_DELETE
    FIM_SCHEDULED w_evt none
  refine ⟨ev, ?_, h1, h2, h3, h4, h5, h6⟩
  unfold fim_delete_file_event
  simp only [hpos, ↓reduceIte, fim_db_remove_path, fim_db_fails_nil _ hfail, hmem,
    Bool.false_eq_true, reduceCtorEq, false_and, hev]

theorem fim_checker_eq_body (resolve : fim_resolver) (sys : syscheck_t) (os : os_t) (fuel : Nat) :
    ∃ checker, fim_checker resolve sys os fuel = fim_checker_body checker resolve sys os := by
  cases fuel with
  | zero => exact ⟨_, rfl⟩
  | succ n => exact ⟨_, rfl⟩

/-- C5 (delete scenario): in scheduled mode, when `fim_checker` is called
for a path of the directory being traversed, within its recursion level, that
no longer exists on disk (`ENOENT`) and has a stored entry, the entry is
removed from the store (one entry less) and exactly one event is sent, of
type `deleted` with that path, whose attributes are those of the entry that
was looked up. The store is keyed by path and assumed not to fail. -/
theorem C5_delete_scenario (resolve : fim_resolver) (sys : syscheck_t) (os : os_t) (fuel : Nat)
    (path : String) (item : fim_element) (w_evt : Option whodata_evt) (report : Bool)
    (s : fim_state) (entry : fim_entry)
    (hmode : item.mode = FIM_SCHEDULED)
    (hnode : 0 ≤ fim_configuration_directory sys os path)
    (hindex : item.index = fim_configuration_directory sys os path)
    (hdepth : fim_check_depth sys os path (fim_configuration_directory sys os path).toNat
      ≤ sys.recursion_level.getD (fim_configuration_directory sys os path).toNat 0)
    (hstat : os.w_stat path = .error ENOENT)
    (hfail : s.database.failing = [])
    (hkeyed : fim_db_keyed s.database)
    (hsaved : fim_db_get_path s.database path = some entry) :
    ∃ ev item1 s1,
      fim_checker resolve sys os fuel path item w_evt report s = .ok (item1, s1)
      ∧ s1.database.entries = s.database.entries.filter (fun e => e.path != path)
      ∧ s1.database.entries.length + 1 = s.database.entries.length
      ∧ fim_db_get_path s1.database path = none
      ∧ s1.sent = s.sent ++ [.event ev]
      ∧ ev.type = "deleted" ∧ ev.path = path ∧ ev.mode = "scheduled"
      ∧ ev.attributes = fim_attributes_json entry.data := by
  have hp := fim_db_get_path_path _ _ _ hsaved
  have hpos : fim_configuration_directory sys os entry.path ≠ -1 := by
    rw [hp]; omega
  have hany : s.database.entries.any (fun e => e.path == entry.path) = true := by
    rw [hp]; exact any_of_get_path _ _ _ hsaved
  obtain ⟨ev, hev, h1, h2, h3, h4, -, -⟩ :=
    fim_delete_file_event_scheduled sys os entry w_evt s hpos hfail hany
  rw [hp] at hev h1
  have hbody : ∀ checker, fim_checker_body checker resolve sys os path item w_evt report s
      = .ok ({ item with index := fim_configuration_directory sys os path,
                         configuration := sys.opts.getD
                           (fim_configuration_directory sys os path).toNat 0 },
        send_syscheck_msg (.event ev)
          { s with database := { s.database with
              entries := s.database.entries.filter (fun e => e.path != path),
              full := false } }) := by
    intro checker
    unfold fim_checker_body
    have h0 : ¬ fim_configuration_directory sys os path < 0 := by omega
    have hd : ¬ fim_check_depth sys os path (fim_configuration_directory sys os path).toNat
        > sys.recursion_level.getD (fim_configuration_directory sys os path).toNat 0 := by omega
    simp only [hmode, hindex, h0, ne_eq, not_true_eq_false, or_self, and_false, false_and,
      ↓reduceIte, hd, hstat, hsaved, hev]
  obtain ⟨checker, hc⟩ := fim_checker_eq_body resolve sys os fuel
  have hck := hbody checker
  rw [← hc] at hck
  refine ⟨ev, _, _, hck, rfl, ?_, ?_, rfl, h2, h1, h3, h4⟩
  · simpa [send_syscheck_msg] using length_filter_path_ne _ path hkeyed
      ⟨entry, fim_db_get_path_mem _ _ _ hsaved, hp⟩
  · simp [send_syscheck_msg, fim_db_get_path, fim_db_fails, hfail]

/-- Witness of C3: the stored size 10 becomes 20. -/
theorem C3_modify_scenario_witness :
    ∃ ev l s1,
      _fim_file (fun _ _ s => .ok (0, s)) sample_sys sample_os "/m/a" sample_item none
          (sample_state [{ path := "/m/a", data := sample_data }]) = .ok (some ev, s1)
      ∧ s1 = { sample_state [{ path := "/m/a", data := sample_data }] with database :=
          { (sample_state [{ path := "/m/a", data := sample_data }]).database with
            entries := fim_db_upsert
              (sample_state [{ path := "/m/a", data := sample_data }]).database.entries
              "/m/a" sample_new } }
      ∧ fim_db_get_path s1.database "/m/a" = some { path := "/m/a", data := sample_new }
      ∧ ev.path = "/m/a" ∧ ev.type = "modified"
      ∧ ev.changed_attributes = some l ∧ "size" ∈ l ∧ "mtime" ∈ l
      ∧ ev.old_attributes.bind (fun a => a.size) = some 10 :=
  C3_modify_scenario (fun _ _ s => .ok (0, s)) sample_sys sample_os "/m/a" sample_item none
    (sample_state [{ path := "/m/a", data := sample_data }])
    { path := "/m/a", data := sample_data } sample_new
    (by rfl) (by rfl) (by rfl) (by rfl) (by rfl) (by decide) (by decide) (by decide) (by rfl)
    (by decide) (by decide) (by rfl) (by rfl) (by decide)

/-- Witness of C4: with the capacity 3, the sample file is added to a store
that holds two other files; the store then holds three entries. -/
theorem C4_add_scenario_witness :
    (∃ ev s1, fim_file (fim_resolve_db_collision c4_sys sample_os 2) c4_sys sample_os "/m/a"
          sample_item none true c4_state_two = .ok s1
        ∧ s1.database.entries
          = c4_state_two.database.entries ++ [{ path := "/m/a", data := sample_new }]
        ∧ s1.database.entries.length = c4_state_two.database.entries.length + 1
        ∧ s1.sent = c4_state_two.sent ++ [.event ev]
        ∧ ev.type = "added" ∧ ev.mode = "scheduled" ∧ ev.path = "/m/a")
    ∧ (∀ (r : fim_resolver) (p : String) (it : fim_element) (w : Option whodata_evt)
        (t t1 : fim_state) (e : fim_event),
        _fim_file r c4_sys sample_os p it w t = .ok (some e, t1) →
          (e.type = "added" ↔ fim_db_get_path t.database p = none)
          ∧ (e.type = "modified" ↔ fim_db_get_path t.database p ≠ none)) :=
  C4_add_scenario (fim_resolve_db_collision c4_sys sample_os 2) c4_sys sample_os "/m/a"
    sample_item none c4_state_two sample_new (by rfl) (by rfl) (by rfl) (by rfl) (by rfl)
    (by rfl) (by decide)

/-- Witness of C5: the stored path `/m/b` is absent from the sample system. -/
theorem C5_delete_scenario_witness :
    ∃ ev item1 s1,
      fim_checker (fun _ _ s => .ok (0, s)) sample_sys sample_os 0 "/m/b" sample_item none true
          (sample_state [{ path := "/m/b", data := sample_data }]) = .ok (item1, s1)
      ∧ s1.database.entries
        = (sample_state [{ path := "/m/b", data := sample_data }]).database.entries.filter
            (fun e => e.path != "/m/b")
      ∧ s1.database.entries.length + 1
        = (sample_state [{ path := "/m/b", data := sample_data }]).database.entries.length
      ∧ fim_db_get_path s1.database "/m/b" = none
      ∧ s1.sent = (sample_state [{ path := "/m/b", data := sample_data }]).sent ++ [.event ev]
      ∧ ev.type = "deleted" ∧ ev.path = "/m/b" ∧ ev.mode = "scheduled"
      ∧ ev.attributes = fim_attributes_json sample_data :=
  C5_delete_scenario (fun _ _ s => .ok (0, s)) sample_sys sample_os 0 "/m/b" sample_item none
    true (sample_state [{ path := "/m/b", data := sample_data }])
    { path := "/m/b", data := sample_data }
    (by rfl) (by decide) (by decide) (by decide) (by rfl) (by rfl) (by decide) (by rfl)

/-- The update of the store by `fim_update_db_data` does not involve the
resolver when the stored entry has the identity of the new data or that
identity is free. -/
theorem fim_update_db_data_no_resolve (r1 r2 : fim_resolver) (sys : syscheck_t) (path : String)
    (data : fim_file_data) (s : fim_state) (entry : fim_entry)
    (hget : fim_db_get_path s.database path = some entry)
    (hid : (entry.data.dev = data.dev ∧ entry.data.inode = data.inode)
      ∨ fim_db_data_exists s.database data.inode data.dev = 0) :
    fim_update_db_data r1 sys path data FIM_SCHEDULED s
      = fim_update_db_data r2 sys path data FIM_SCHEDULED s := by
  unfold fim_update_db_data
  simp only [hget, ne_eq, not_true_eq_false, ↓reduceIte]
  by_cases hc : data.checksum = entry.data.checksum
  · simp only [hc, ↓reduceIte]
  · simp only [hc, ↓reduceIte]
    by_cases hsame : data.dev = entry.data.dev ∧ data.inode = entry.data.inode
    · simp only [hsame, and_self, ↓reduceIte]
    · have h0 : fim_db_data_exists s.database data.inode data.dev = 0 := by
        rcases hid with h | h
        · exact absurd ⟨h.1.symm, h.2.symm⟩ hsame
        · exact h
      simp only [hsame, ↓reduceIte, h0, FIMDB_ERR]

theorem _fim_file_no_resolve (r1 r2 : fim_resolver) (sys : syscheck_t) (os : os_t)
    (path : String) (item : fim_element) (w_evt : Option whodata_evt) (s : fim_state)
    (entry : fim_entry) (hmode : item.mode = FIM_SCHEDULED)
    (hget : fim_db_get_path s.database path = some entry)
    (hid : (entry.data.dev = item.statbuf.st_dev ∧ entry.data.inode = item.statbuf.st_ino)
      ∨ fim_db_data_exists s.database item.statbuf.st_ino item.statbuf.st_dev = 0) :
    _fim_file r1 sys os path item w_evt s = _fim_file r2 sys os path item w_evt s := by
  unfold _fim_file
  split
  · rfl
  · cases hnew : fim_get_data sys os path item with
    | none => rfl
    | some new =>
      obtain ⟨-, -, -, fino, fdev, -, -, -, -⟩ := fim_get_data_fields sys os path item new hnew
      simp only [hmode]
      rw [fim_update_db_data_no_resolve r1 r2 sys path new s entry hget
        (by rw [fino, fdev]; exact hid)]

/-- The outcome of `fim_process_file_from_db` does not depend on the resolver
handed to the nested `_fim_file`: the nested call never has to resolve a
collision. -/
theorem fim_process_file_from_db_indep (r1 r2 : fim_resolver) (sys : syscheck_t) (os : os_t)
    (path : String) (stack tree : List String) (s : fim_state) :
    fim_process_file_from_db r1 sys os path stack tree s
      = fim_process_file_from_db r2 sys os path stack tree s := by
  unfold fim_process_file_from_db
  cases hget : fim_db_get_path s.database path with
  | none => rfl
  | some entry =>
    have hp := fim_db_get_path_path _ _ _ hget
    simp only
    cases hst : os.w_stat entry.path with
    | error errno => rfl
    | ok st =>
      simp only
      split
      · rename_i hcond
        split
        · rfl
        · rw [_fim_file_no_resolve r1 r2 sys os entry.path (fim_db_item sys st _) none s entry rfl
            (by rw [hp]; exact hget)
            (by
              rcases hcond with h | h
              · exact Or.inl h
              · exact Or.inr h.2)]
      · rfl

theorem fim_append_paths_spec (ps : List String) :
    ∀ (stack tree : List String), ∃ new,
      fim_append_paths ps stack tree = (new.length, stack ++ new, tree ++ new)
      ∧ (∀ p ∈ new, p ∈ ps ∧ p ∉ tree) ∧ (tree.Nodup → (tree ++ new).Nodup) := by
  induction ps with
  | nil =>
    intro stack tree
    exact ⟨[], by simp [fim_append_paths], by simp, by simp⟩
  | cons p ps ih =>
    intro stack tree
    by_cases hp : tree.contains p = true
    · obtain ⟨new, h1, h2, h3⟩ := ih stack tree
      refine ⟨new, ?_, ?_, h3⟩
      · simp only [fim_append_paths, hp, ↓reduceIte, h1]
      · intro q hq
        exact ⟨List.mem_cons_of_mem _ (h2 q hq).1, (h2 q hq).2⟩
    · obtain ⟨new, h1, h2, h3⟩ := ih (stack ++ [p]) (tree ++ [p])
      have hpt : p ∉ tree := by simpa using hp
      refine ⟨p :: new, ?_, ?_, ?_⟩
      · simp only [fim_append_paths, hp, Bool.false_eq_true, ↓reduceIte, h1, List.length_cons,
          List.append_assoc, List.singleton_append]
      · intro q hq
        rcases List.mem_cons.mp hq with h | h
        · subst h
          exact ⟨List.mem_cons_self _ _, hpt⟩
        · have := h2 q h
          refine ⟨List.mem_cons_of_mem _ this.1, ?_⟩
          intro hqt
          exact this.2 (List.mem_append_left _ hqt)
      · intro hnd
        have : (tree ++ [p]).Nodup := by
          rw [List.nodup_append]
          refine ⟨hnd, by simp, ?_⟩
          intro a ha hb
          simp only [List.mem_singleton] at hb
          subst hb
          exact hpt ha
        simpa using h3 this

/-- The paths stored in the database. -/
theorem fim_db_get_paths_from_inode_subset (db : fdb_t) (inode dev : Nat) :
    ∀ p ∈ fim_db_get_paths_from_inode db inode dev, p ∈ db.entries.map (fun e => e.path) := by
  intro p hp
  unfold fim_db_get_paths_from_inode at hp
  split at hp
  · cases hp
  · rw [List.mem_map] at hp ⊢
    obtain ⟨e, he, rfl⟩ := hp
    exact ⟨e, (List.mem_filter.mp he).1, rfl⟩

theorem fim_db_upsert_paths (entries : List fim_entry) (path : String) (d : fim_file_data)
    (h : entries.any (fun e => e.path == path) = true) :
    (fim_db_upsert entries path d).map (fun e => e.path) = entries.map (fun e => e.path) := by
  unfold fim_db_upsert
  rw [if_pos h, List.map_map]
  apply List.map_congr_left
  intro e _
  simp only [Function.comp]
  split <;> rfl

theorem fim_state_insert_paths (sys : syscheck_t) (path : String) (d sd : fim_file_data)
    (s : fim_state) (h : s.database.entries.any (fun e => e.path == path) = true) :
    (fim_state_insert sys path d (some sd) s).2.database.entries.map (fun e => e.path)
      = s.database.entries.map (fun e => e.path) := by
  unfold fim_state_insert fim_db_insert
  split
  · rfl
  · simp only [Option.isNone_some, Bool.false_and, Bool.false_eq_true, ↓reduceIte]
    exact fim_db_upsert_paths _ _ _ h

theorem fim_db_set_scanned_paths (db : fdb_t) (path : String) :
    (fim_db_set_scanned db path).entries.map (fun e => e.path)
      = db.entries.map (fun e => e.path) := by
  unfold fim_db_set_scanned
  split
  · rfl
  · simp only [List.map_map]
    apply List.map_congr_left
    intro e _
    simp only [Function.comp]
    split <;> rfl

/-- The resolver that solves every collision at once, used where the resolver
is not reached. -/
theorem fim_update_db_data_paths (r : fim_resolver) (sys : syscheck_t) (path : String)
    (data : fim_file_data) (s s1 : fim_state) (entry : fim_entry) (res : Int × Option fim_entry)
    (hget : fim_db_get_path s.database path = some entry)
    (hid : (entry.data.dev = data.dev ∧ entry.data.inode = data.inode)
      ∨ fim_db_data_exists s.database data.inode data.dev = 0)
    (h : fim_update_db_data r sys path data FIM_SCHEDULED s = .ok (res, s1)) :
    s1.database.entries.map (fun e => e.path) = s.database.entries.map (fun e => e.path)
      ∧ s1.sent = s.sent := by
  have hany := any_of_get_path _ _ _ hget
  unfold fim_update_db_data at h
  simp only [hget, ne_eq, not_true_eq_false, ↓reduceIte] at h
  by_cases hc : data.checksum = entry.data.checksum
  · simp only [hc, ↓reduceIte, Except.ok.injEq, Prod.mk.injEq] at h
    rw [← h.2]
    exact ⟨fim_db_set_scanned_paths _ _, rfl⟩
  · simp only [hc, ↓reduceIte] at h
    by_cases hsame : data.dev = entry.data.dev ∧ data.inode = entry.data.inode
    · simp only [hsame, and_self, ↓reduceIte, Except.ok.injEq, Prod.mk.injEq] at h
      rw [← h.2]
      exact ⟨fim_state_insert_paths _ _ _ _ _ hany, rfl⟩
    · have h0 : fim_db_data_exists s.database data.inode data.dev = 0 := by
        rcases hid with h | h
        · exact absurd ⟨h.1.symm, h.2.symm⟩ hsame
        · exact h
      simp only [hsame, ↓reduceIte, h0, FIMDB_ERR] at h
      simp only [Int.reduceNeg, zero_eq_neg, one_ne_zero, ↓reduceIte, Except.ok.injEq,
        Prod.mk.injEq] at h
      rw [← h.2]
      exact ⟨fim_state_insert_paths _ _ _ _ _ hany, rfl⟩

theorem _fim_file_paths (r : fim_resolver) (sys : syscheck_t) (os : os_t)
    (path : String) (item : fim_element) (w_evt : Option whodata_evt) (s s1 : fim_state)
    (entry : fim_entry) (ev : Option fim_event) (hmode : item.mode = FIM_SCHEDULED)
    (hget : fim_db_get_path s.database path = some entry)
    (hid : (entry.data.dev = item.statbuf.st_dev ∧ entry.data.inode = item.statbuf.st_ino)
      ∨ fim_db_data_exists s.database item.statbuf.st_ino item.statbuf.st_dev = 0)
    (h : _fim_file r sys os path item w_evt s = .ok (ev, s1)) :
    s1.database.entries.map (fun e => e.path) = s.database.entries.map (fun e => e.path)
      ∧ s1.sent = s.sent := by
  unfold _fim_file at h
  split at h
  · simp only [Except.ok.injEq, Prod.mk.injEq] at h
    rw [← h.2]
    exact ⟨rfl, rfl⟩
  · cases hnew : fim_get_data sys os path item with
    | none =>
      simp only [hnew, Except.ok.injEq, Prod.mk.injEq] at h
      rw [← h.2]
      exact ⟨rfl, rfl⟩
    | some new =>
      obtain ⟨-, -, -, fino, fdev, -, -, -, -⟩ := fim_get_data_fields sys os path item new hnew
      simp only [hnew, hmode] at h
      cases hupd : fim_update_db_data r sys path new FIM_SCHEDULED s with
      | error e => simp [hupd] at h
      | ok res =>
        obtain ⟨res1, s2⟩ := res
        have hp := fim_update_db_data_paths r sys path new s s2 entry res1 hget
          (by rw [fino, fdev]; exact hid) hupd
        simp only [hupd] at h
        split at h
        · simp only [Except.ok.injEq, Prod.mk.injEq] at h
          rw [← h.2]
          exact hp
        · split at h
          · cases h
          · simp only [Except.ok.injEq, Prod.mk.injEq] at h
            rw [← h.2]
            exact hp

theorem fim_json_event_error (sys : syscheck_t) (db : fdb_t) (file_name : String)
    (od : Option fim_file_data) (nd : fim_file_data) (pos : Int) (type : fim_event_type)
    (mode : fim_event_mode) (w_evt : Option whodata_evt) (diff : Option String) (e : fim_halt)
    (h : fim_json_event sys db file_name od nd pos type mode w_evt diff = .error e) :
    e = .null_string := by
  unfold fim_json_event at h
  cases od with
  | none => simp at h
  | some o =>
    simp only at h
    cases hc : fim_json_compare_attrs o nd with
    | ok l =>
      simp only [hc] at h
      split at h <;> cases h
    | error e1 =>
      simp only [hc, Except.error.injEq] at h
      subst h
      unfold fim_json_compare_attrs at hc
      simp only [Except.map] at hc
      split at hc
      · rename_i heq
        split at heq
        · unfold strcmp_ne at heq
          split at heq
          · cases heq
          · simp only [Except.error.injEq] at heq hc
            rw [← hc, ← heq]
        · cases heq
      · cases hc

theorem fim_json_event_bind_ne (sys : syscheck_t) (db : fdb_t) (file_name : String)
    (od : Option fim_file_data) (nd : fim_file_data) (pos : Int) (type : fim_event_type)
    (mode : fim_event_mode) (w_evt : Option whodata_evt) (diff : Option String) (s : fim_state) :
    (match fim_json_event sys db file_name od nd pos type mode w_evt diff with
      | .error h => (.error h : Except fim_halt (Option fim_event × fim_state))
      | .ok json_event => .ok (json_event, s)) ≠ .error .out_of_fuel := by
  intro h
  split at h
  · rename_i e he
    simp only [Except.error.injEq] at h
    subst h
    have := fim_json_event_error _ _ _ _ _ _ _ _ _ _ _ he
    cases this
  · cases h

theorem fim_update_db_data_not_out_of_fuel (r : fim_resolver) (sys : syscheck_t)
    (path : String) (data : fim_file_data) (mode : fim_event_mode) (s : fim_state)
    (hr : ∀ i d t, r i d t ≠ .error .out_of_fuel) :
    fim_update_db_data r sys path data mode s ≠ .error .out_of_fuel := by
  unfold fim_update_db_data
  intro h
  simp only at h
  split at h
  · cases h
  · split at h
    · split at h
      · cases h
      · split at h
        · split at h
          · rename_i e he
            simp only [Except.error.injEq] at h
            subst h
            exact hr _ _ _ he
          · split at h <;> cases h
        · cases h
    · split at h
      · cases h
      · split at h
        · cases h
        · split at h
          · cases h
          · split at h
            · cases h
            · split at h
              · rename_i e he
                simp only [Except.error.injEq] at h
                subst h
                exact hr _ _ _ he
              · split at h <;> cases h

theorem _fim_file_not_out_of_fuel (r : fim_resolver) (sys : syscheck_t) (os : os_t)
    (path : String) (item : fim_element) (w_evt : Option whodata_evt) (s : fim_state)
    (hr : ∀ i d t, r i d t ≠ .error .out_of_fuel) :
    _fim_file r sys os path item w_evt s ≠ .error .out_of_fuel := by
  unfold _fim_file
  intro h
  split at h
  · cases h
  · split at h
    · cases h
    · split at h
      · rename_i e he
        simp only [Except.error.injEq] at h
        subst h
        exact fim_update_db_data_not_out_of_fuel r sys path _ _ s hr he
      · split at h
        · cases h
        · exact fim_json_event_bind_ne _ _ _ _ _ _ _ _ _ _ _ h

theorem _fim_file_force_update_not_out_of_fuel (sys : syscheck_t) (os : os_t)
    (path : String) (item : fim_element) (saved : fim_entry) (s : fim_state) :
    _fim_file_force_update sys os path item saved s ≠ .error .out_of_fuel := by
  unfold _fim_file_force_update
  intro h
  split at h
  · cases h
  · simp only at h
    split at h
    · cases h
    · split at h
      · rename_i e he
        simp only [Except.error.injEq] at h
        subst h
        have := fim_json_event_error _ _ _ _ _ _ _ _ _ _ _ he
        cases this
      · cases h

theorem fim_process_file_from_db_not_out_of_fuel (r : fim_resolver) (sys : syscheck_t)
    (os : os_t) (path : String) (stack tree : List String) (s : fim_state) :
    fim_process_file_from_db r sys os path stack tree s ≠ .error .out_of_fuel := by
  rw [fim_process_file_from_db_indep r (fun _ _ t => .ok (0, t))]
  unfold fim_process_file_from_db
  intro h
  split at h
  · cases h
  · split at h
    · split at h
      · cases h
      · simp only at h
        split at h
        · cases h
        · split at h
          · cases h
          · split at h
            · rename_i e he
              simp only [Except.error.injEq] at h
              subst h
              have := fim_json_event_error _ _ _ _ _ _ _ _ _ _ _ he
              cases this
            · cases h
    · simp only at h
      split at h
      · split at h
        · cases h
        · split at h
          · rename_i e he
            simp only [Except.error.injEq] at h
            subst h
            exact _fim_file_not_out_of_fuel _ sys os _ _ _ s (by intro i d t; simp) he
          · cases h
      · split at h
        · cases h
        · split at h
          · split at h
            · cases h
            · split at h
              · rename_i e he
                simp only [Except.error.injEq] at h
                subst h
                exact _fim_file_force_update_not_out_of_fuel sys os _ _ _ s he
              · cases h
          · cases h

theorem fim_db_remove_path_paths (db : fdb_t) (path : String) :
    ∀ p ∈ (fim_db_remove_path db path).2.entries.map (fun e => e.path),
      p ∈ db.entries.map (fun e => e.path) := by
  intro p hp
  unfold fim_db_remove_path at hp
  split at hp
  · exact hp
  · split at hp
    · simp only [List.mem_map] at hp ⊢
      obtain ⟨e, he, rfl⟩ := hp
      exact ⟨e, (List.mem_filter.mp he).1, rfl⟩
    · exact hp

theorem _fim_file_force_update_paths (sys : syscheck_t) (os : os_t) (path : String)
    (item : fim_element) (saved : fim_entry) (s s1 : fim_state) (ev : Option fim_event)
    (hany : s.database.entries.any (fun e => e.path == path) = true)
    (h : _fim_file_force_update sys os path item saved s = .ok (ev, s1)) :
    s1.database.entries.map (fun e => e.path) = s.database.entries.map (fun e => e.path) := by
  unfold _fim_file_force_update at h
  split at h
  · simp only [Except.ok.injEq, Prod.mk.injEq] at h
    rw [← h.2]
  · simp only at h
    split at h
    · simp only [Except.ok.injEq, Prod.mk.injEq] at h
      rw [← h.2]
      exact fim_state_insert_paths _ _ _ _ _ hany
    · split at h
      · cases h
      · simp only [Except.ok.injEq, Prod.mk.injEq] at h
        rw [← h.2]
        exact fim_state_insert_paths _ _ _ _ _ hany

/-- One step of the resolver on the top path of the stack: the stored paths
do not grow; unless paths are added the stack and the visited set are left as
they are; when paths are added, at least one is, each is a stored path that
was not yet visited, and the visited set stays free of duplicates. -/
theorem fim_process_file_from_db_step (r : fim_resolver) (sys : syscheck_t) (os : os_t)
    (path : String) (stack tree stack1 tree1 : List String) (s s1 : fim_state)
    (st : fim_sanitize_state_t) (ev : Option fim_event)
    (h : fim_process_file_from_db r sys os path stack tree s = .ok ((st, stack1, tree1, ev), s1)) :
    (∀ p ∈ s1.database.entries.map (fun e => e.path),
        p ∈ s.database.entries.map (fun e => e.path))
    ∧ (st ≠ FIM_FILE_ADDED_PATHS → stack1 = stack ∧ tree1 = tree)
    ∧ (st = FIM_FILE_ADDED_PATHS → ∃ new, new ≠ [] ∧ stack1 = stack ++ new ∧ tree1 = tree ++ new
        ∧ (∀ p ∈ new, p ∈ s.database.entries.map (fun e => e.path) ∧ p ∉ tree)
        ∧ (tree.Nodup → tree1.Nodup)) := by
  unfold fim_process_file_from_db at h
  cases hget : fim_db_get_path s.database path with
  | none =>
    simp only [hget, Except.ok.injEq, Prod.mk.injEq] at h
    obtain ⟨⟨h1, h2, h3, -⟩, h5⟩ := h
    subst h1 h2 h3 h5
    exact ⟨fun p hp => hp, fun _ => ⟨rfl, rfl⟩, fun hc => by cases hc⟩
  | some entry =>
    have hp := fim_db_get_path_path _ _ _ hget
    have hany := any_of_get_path _ _ _ hget
    simp only [hget] at h
    cases hst : os.w_stat entry.path with
    | error errno =>
      simp only [hst] at h
      split at h
      · simp only [Except.ok.injEq, Prod.mk.injEq] at h
        obtain ⟨⟨h1, h2, h3, -⟩, h5⟩ := h
        subst h1 h2 h3 h5
        exact ⟨fun p hp => hp, fun _ => ⟨rfl, rfl⟩, fun hc => by cases hc⟩
      · split at h
        · simp only [Except.ok.injEq, Prod.mk.injEq] at h
          obtain ⟨⟨h1, h2, h3, -⟩, h5⟩ := h
          subst h1 h2 h3 h5
          exact ⟨fun p hp => hp, fun _ => ⟨rfl, rfl⟩, fun hc => by cases hc⟩
        · split at h
          · simp only [Except.ok.injEq, Prod.mk.injEq] at h
            obtain ⟨⟨h1, h2, h3, -⟩, h5⟩ := h
            subst h1 h2 h3 h5
            exact ⟨fun p hp => hp, fun _ => ⟨rfl, rfl⟩, fun hc => by cases hc⟩
          · rename_i res db hrem
            split at h
            · cases h
            · simp only [Except.ok.injEq, Prod.mk.injEq] at h
              obtain ⟨⟨h1, h2, h3, -⟩, h5⟩ := h
              subst h1 h2 h3 h5
              refine ⟨?_, fun _ => ⟨rfl, rfl⟩, fun hc => by cases hc⟩
              have := fim_db_remove_path_paths s.database entry.path
              rw [hrem] at this
              exact this
    | ok stt =>
      simp only [hst] at h
      split at h
      · rename_i hcond
        split at h
        · simp only [Except.ok.injEq, Prod.mk.injEq] at h
          obtain ⟨⟨h1, h2, h3, -⟩, h5⟩ := h
          subst h1 h2 h3 h5
          exact ⟨fun p hp => hp, fun _ => ⟨rfl, rfl⟩, fun hc => by cases hc⟩
        · split at h
          · cases h
          · rename_i evv s2 hff
            simp only [Except.ok.injEq, Prod.mk.injEq] at h
            obtain ⟨⟨h1, h2, h3, -⟩, h5⟩ := h
            subst h1 h2 h3 h5
            refine ⟨?_, fun _ => ⟨rfl, rfl⟩, fun hc => by cases hc⟩
            have := _fim_file_paths r sys os entry.path (fim_db_item sys stt _) none s s2 entry evv
              rfl (by rw [hp]; exact hget)
              (by
                rcases hcond with h | h
                · exact Or.inl h
                · exact Or.inr h.2) hff
            rw [this.1]
            exact fun p hp => hp
      · split at h
        · simp only [Except.ok.injEq, Prod.mk.injEq] at h
          obtain ⟨⟨h1, h2, h3, -⟩, h5⟩ := h
          subst h1 h2 h3 h5
          exact ⟨fun p hp => hp, fun _ => ⟨rfl, rfl⟩, fun hc => by cases hc⟩
        · obtain ⟨new, hnew, hnew2, hnew3⟩ := fim_append_paths_spec
            (fim_db_get_paths_from_inode s.database stt.st_ino stt.st_dev) stack tree
          simp only [fim_db_append_paths_from_inode, hnew] at h
          split at h
          · rename_i h0
            have hnil : new = [] := List.length_eq_zero.mp h0
            subst hnil
            simp only [List.append_nil] at h
            split at h
            · simp only [Except.ok.injEq, Prod.mk.injEq] at h
              obtain ⟨⟨h1, h2, h3, -⟩, h5⟩ := h
              subst h1 h2 h3 h5
              exact ⟨fun p hp => hp, fun _ => ⟨rfl, rfl⟩, fun hc => by cases hc⟩
            · split at h
              · cases h
              · rename_i evv s2 hff
                simp only [Except.ok.injEq, Prod.mk.injEq] at h
                obtain ⟨⟨h1, h2, h3, -⟩, h5⟩ := h
                subst h1 h2 h3 h5
                refine ⟨?_, fun _ => ⟨rfl, rfl⟩, fun hc => by cases hc⟩
                rw [_fim_file_force_update_paths sys os path _ entry s s2 evv hany hff]
                exact fun p hp => hp
          · rename_i h0
            simp only [Except.ok.injEq, Prod.mk.injEq] at h
            obtain ⟨⟨h1, h2, h3, -⟩, h5⟩ := h
            subst h1 h2 h3 h5
            refine ⟨fun p hp => hp, fun hc => absurd rfl hc, fun _ => ⟨new, ?_, rfl, rfl, ?_, hnew3⟩⟩
            · intro hn
              exact h0 (by rw [hn]; rfl)
            · intro p hpn
              exact ⟨fim_db_get_paths_from_inode_subset _ _ _ p (hnew2 p hpn).1, (hnew2 p hpn).2⟩

theorem fim_send_event_paths (ev : Option fim_event) (s : fim_state) :
    (fim_send_event ev s).database = s.database := by
  cases ev <;> rfl

/-- The loop of the resolver does not run out of fuel when the fuel covers
twice the number of stored paths that are not yet visited plus the height of
the stack. -/
theorem fim_resolve_loop_terminates (sys : syscheck_t) (os : os_t) (P0 : List String) :
    ∀ (fuel : Nat) (stack tree : List String) (s : fim_state),
      tree.Nodup → (∀ p ∈ tree, p ∈ P0) →
      (∀ p ∈ s.database.entries.map (fun e => e.path), p ∈ P0) →
      2 * (P0.length - tree.length) + stack.length ≤ fuel →
      fim_resolve_loop sys os fuel stack tree s ≠ .error .out_of_fuel := by
  intro fuel
  induction fuel with
  | zero =>
    intro stack tree s _ _ _ hm
    have : stack = [] := List.length_eq_zero.mp (by omega)
    subst this
    simp [fim_resolve_loop]
  | succ n ih =>
    intro stack tree s hnd hsub hdb hm
    unfold fim_resolve_loop
    cases hlast : stack.getLast? with
    | none => simp
    | some current_path =>
      have hne : stack ≠ [] := by
        intro h
        rw [h] at hlast
        cases hlast
      have hlen : 1 ≤ stack.length := List.length_pos.mpr hne
      have htl : tree.length ≤ P0.length := (List.Nodup.subperm hnd hsub).length_le
      simp only
      cases hproc : fim_process_file_from_db
          (fun inode dev s0 =>
            fim_resolve_loop sys os n
              (fim_db_append_paths_from_inode s0.database inode dev [] []).2.1
              (fim_db_append_paths_from_inode s0.database inode dev [] []).2.2 s0)
          sys os current_path stack tree s with
      | error e =>
        simp only
        intro h
        simp only [Except.error.injEq] at h
        subst h
        exact fim_process_file_from_db_not_out_of_fuel _ _ _ _ _ _ _ hproc
      | ok res =>
        obtain ⟨⟨st, stack1, tree1, ev⟩, s1⟩ := res
        obtain ⟨hpaths, hkeep, hadd⟩ :=
          fim_process_file_from_db_step _ sys os current_path stack tree stack1 tree1 s s1 st ev
            hproc
        have hdb1 : ∀ p ∈ (fim_send_event ev s1).database.entries.map (fun e => e.path),
            p ∈ P0 := by
          rw [fim_send_event_paths]
          exact fun p hp => hdb p (hpaths p hp)
        cases st with
        | FIM_FILE_UPDATED =>
          obtain ⟨h1, h2⟩ := hkeep (by simp)
          subst h1 h2
          exact ih _ _ _ hnd hsub hdb1 (by rw [List.length_dropLast]; omega)
        | FIM_FILE_DELETED =>
          obtain ⟨h1, h2⟩ := hkeep (by simp)
          subst h1 h2
          exact ih _ _ _ hnd hsub hdb1 (by rw [List.length_dropLast]; omega)
        | FIM_FILE_ADDED_PATHS =>
          obtain ⟨new, hnew, h1, h2, hmem, hnd1⟩ := hadd rfl
          subst h1 h2
          have hsub1 : ∀ p ∈ tree ++ new, p ∈ P0 := by
            intro p hp
            rcases List.mem_append.mp hp with h | h
            · exact hsub p h
            · exact hdb p (hmem p h).1
          have htl1 : (tree ++ new).length ≤ P0.length :=
            (List.Nodup.subperm (hnd1 hnd) hsub1).length_le
          have hnl : 1 ≤ new.length := List.length_pos.mpr hnew
          exact ih _ _ _ (hnd1 hnd) hsub1 hdb1 (by
            simp only [List.length_append] at htl1 ⊢
            omega)
        | FIM_FILE_ERROR => simp

/-- More fuel does not change the outcome of a resolver loop that did not run
out of fuel. -/
theorem fim_resolve_loop_fuel_succ (sys : syscheck_t) (os : os_t) :
    ∀ (n : Nat) (stack tree : List String) (s : fim_state),
      fim_resolve_loop sys os n stack tree s ≠ .error .out_of_fuel →
      fim_resolve_loop sys os (n + 1) stack tree s = fim_resolve_loop sys os n stack tree s := by
  intro n
  induction n with
  | zero =>
    intro stack tree s h
    have hs : stack = [] := by
      by_contra hne
      exact h (by simp [fim_resolve_loop, hne])
    subst hs
    simp [fim_resolve_loop]
  | succ n ih =>
    intro stack tree s h
    rw [fim_resolve_loop.eq_def sys os (n + 1 + 1)]
    rw [fim_resolve_loop.eq_def sys os (n + 1)] at h ⊢
    simp only at h ⊢
    cases hlast : stack.getLast? with
    | none => rfl
    | some current_path =>
      simp only [hlast] at h ⊢
      rw [fim_process_file_from_db_indep
        (fun inode dev s0 =>
            fim_resolve_loop sys os (n + 1)
              (fim_db_append_paths_from_inode s0.database inode dev [] []).2.1
              (fim_db_append_paths_from_inode s0.database inode dev [] []).2.2 s0)
        (fun inode dev s0 =>
            fim_resolve_loop sys os n
              (fim_db_append_paths_from_inode s0.database inode dev [] []).2.1
              (fim_db_append_paths_from_inode s0.database inode dev [] []).2.2 s0)]
      cases hproc : fim_process_file_from_db
          (fun inode dev s0 =>
            fim_resolve_loop sys os n
              (fim_db_append_paths_from_inode s0.database inode dev [] []).2.1
              (fim_db_append_paths_from_inode s0.database inode dev [] []).2.2 s0)
          sys os current_path stack tree s with
      | error e => rfl
      | ok res =>
        obtain ⟨⟨st, stack1, tree1, ev⟩, s1⟩ := res
        simp only [hproc] at h ⊢
        cases st with
        | FIM_FILE_UPDATED => exact ih _ _ _ h
        | FIM_FILE_DELETED => exact ih _ _ _ h
        | FIM_FILE_ADDED_PATHS => exact ih _ _ _ h
        | FIM_FILE_ERROR => rfl

theorem fim_resolve_loop_fuel_le (sys : syscheck_t) (os : os_t) (n : Nat)
    (stack tree : List String) (s : fim_state)
    (h : fim_resolve_loop sys os n stack tree s ≠ .error .out_of_fuel) :
    ∀ m, n ≤ m → fim_resolve_loop sys os m stack tree s = fim_resolve_loop sys os n stack tree s := by
  intro m hm
  induction m with
  | zero =>
    have : n = 0 := by omega
    subst this
    rfl
  | succ m ih =>
    by_cases hmn : n = m + 1
    · subst hmn
      rfl
    · have hle : n ≤ m := by omega
      have := ih hle
      rw [fim_resolve_loop_fuel_succ sys os m stack tree s (by rw [this]; exact h), this]

/-- C9 (collision termination): for every store, filesystem, inode and
device, `fim_resolve_db_collision` terminates: with fuel for twice the number
of distinct stored paths the loop does not run out of fuel and more fuel
gives the same outcome; and each step of the loop either leaves the stack and
the visited set as they are (the caller then pops the top path or aborts) or
pushes at least one stored path that was not yet visited, the stored paths
never growing. -/
theorem C9_collision_termination (sys : syscheck_t) (os : os_t) (inode dev : Nat)
    (s : fim_state) (fuel : Nat)
    (hfuel : 2 * ((s.database.entries.map (fun e => e.path)).dedup).length ≤ fuel) :
    fim_resolve_db_collision sys os fuel inode dev s ≠ .error .out_of_fuel
    ∧ (∀ m, fuel ≤ m → fim_resolve_db_collision sys os m inode dev s
        = fim_resolve_db_collision sys os fuel inode dev s)
    ∧ (∀ (r : fim_resolver) (path : String) (stack tree stack1 tree1 : List String)
        (t t1 : fim_state) (st : fim_sanitize_state_t) (ev : Option fim_event),
        fim_process_file_from_db r sys os path stack tree t = .ok ((st, stack1, tree1, ev), t1) →
        (∀ p ∈ t1.database.entries.map (fun e => e.path),
            p ∈ t.database.entries.map (fun e => e.path))
        ∧ (st ≠ FIM_FILE_ADDED_PATHS → stack1 = stack ∧ tree1 = tree)
        ∧ (st = FIM_FILE_ADDED_PATHS → ∃ new, new ≠ [] ∧ stack1 = stack ++ new
            ∧ tree1 = tree ++ new
            ∧ (∀ p ∈ new, p ∈ t.database.entries.map (fun e => e.path) ∧ p ∉ tree)
            ∧ (tree.Nodup → tree1.Nodup))) := by
  obtain ⟨new, hnew, hmem, hnd⟩ := fim_append_paths_spec
    (fim_db_get_paths_from_inode s.database inode dev) [] []
  have hterm : fim_resolve_db_collision sys os fuel inode dev s ≠ .error .out_of_fuel := by
    unfold fim_resolve_db_collision
    simp only [fim_db_append_paths_from_inode, hnew, List.nil_append]
    apply fim_resolve_loop_terminates sys os ((s.database.entries.map (fun e => e.path)).dedup)
    · simpa using hnd List.nodup_nil
    · intro p hp
      rw [List.mem_dedup]
      exact fim_db_get_paths_from_inode_subset _ _ _ p (hmem p hp).1
    · intro p hp
      rw [List.mem_dedup]
      exact hp
    · have hsub : ∀ p ∈ new, p ∈ (s.database.entries.map (fun e => e.path)).dedup := by
        intro p hp
        rw [List.mem_dedup]
        exact fim_db_get_paths_from_inode_subset _ _ _ p (hmem p hp).1
      have hnn : new.Nodup := by simpa using hnd List.nodup_nil
      have := (List.Nodup.subperm hnn hsub).length_le
      omega
  refine ⟨hterm, ?_, ?_⟩
  · intro m hm
    unfold fim_resolve_db_collision at hterm ⊢
    exact fim_resolve_loop_fuel_le sys os fuel _ _ s hterm m hm
  · intro r path stack tree stack1 tree1 t t1 st ev h
    exact fim_process_file_from_db_step r sys os path stack tree stack1 tree1 t t1 st ev h

/-- Witness of C9: the resolver on the store of the inode-reuse scenario. -/
theorem C9_collision_termination_witness :
    fim_resolve_db_collision sample_sys c8_os 4 200 1 c8_state_all ≠ .error .out_of_fuel
    ∧ (∀ m, 4 ≤ m → fim_resolve_db_collision sample_sys c8_os m 200 1 c8_state_all
        = fim_resolve_db_collision sample_sys c8_os 4 200 1 c8_state_all)
    ∧ (∀ (r : fim_resolver) (path : String) (stack tree stack1 tree1 : List String)
        (t t1 : fim_state) (st : fim_sanitize_state_t) (ev : Option fim_event),
        fim_process_file_from_db r sample_sys c8_os path stack tree t
          = .ok ((st, stack1, tree1, ev), t1) →
        (∀ p ∈ t1.database.entries.map (fun e => e.path),
            p ∈ t.database.entries.map (fun e => e.path))
        ∧ (st ≠ FIM_FILE_ADDED_PATHS → stack1 = stack ∧ tree1 = tree)
        ∧ (st = FIM_FILE_ADDED_PATHS → ∃ new, new ≠ [] ∧ stack1 = stack ++ new
            ∧ tree1 = tree ++ new
            ∧ (∀ p ∈ new, p ∈ t.database.entries.map (fun e => e.path) ∧ p ∉ tree)
            ∧ (tree.Nodup → tree1.Nodup))) :=
  C9_collision_termination sample_sys c8_os 200 1 c8_state_all 4 (by decide)
theorem fim_inode_unique_iff_ids (os : os_t) (db : fdb_t) :
    fim_inode_unique os db ↔
      ∀ a ∈ fim_db_ids db, ∀ b ∈ fim_db_ids db, a.1 ≠ b.1 → a.2 = b.2 → a.2.1 ≠ 0 →
        ∀ c ∈ fim_db_ids db, c.2 = a.2 → fim_on_disk os c.1 c.2.1 c.2.2 = true := by
  unfold fim_inode_unique fim_db_ids
  constructor
  · intro h a ha b hb hab hid h0 c hc hca
    rw [List.mem_map] at ha hb hc
    obtain ⟨e1, he1, rfl⟩ := ha
    obtain ⟨e2, he2, rfl⟩ := hb
    obtain ⟨e, he, rfl⟩ := hc
    simp only [Prod.mk.injEq] at hid hca
    exact h e1 he1 e2 he2 hab hid.1 hid.2 h0 e he hca.1 hca.2
  · intro h e1 he1 e2 he2 hp hi hd h0 e he hei hed
    exact h _ (List.mem_map_of_mem _ he1) _ (List.mem_map_of_mem _ he2) hp
      (by simp [hi, hd]) h0 _ (List.mem_map_of_mem _ he) (by simp [hei, hed])

theorem fim_inode_unique_of_ids (os : os_t) (db db1 : fdb_t)
    (hids : fim_db_ids db1 = fim_db_ids db) (h : fim_inode_unique os db) :
    fim_inode_unique os db1 := by
  rw [fim_inode_unique_iff_ids] at h ⊢
  rw [hids]
  exact h

theorem fim_db_keyed_of_ids (db db1 : fdb_t)
    (hids : fim_db_ids db1 = fim_db_ids db) (h : fim_db_keyed db) : fim_db_keyed db1 := by
  unfold fim_db_keyed at h ⊢
  have e1 : db1.entries.map (fun e => e.path) = (fim_db_ids db1).map (fun a => a.1) := by
    simp [fim_db_ids, List.map_map, Function.comp]
  have e2 : db.entries.map (fun e => e.path) = (fim_db_ids db).map (fun a => a.1) := by
    simp [fim_db_ids, List.map_map, Function.comp]
  rw [e1, hids, ← e2]
  exact h

theorem fim_db_ids_set_scanned (db : fdb_t) (path : String) :
    fim_db_ids (fim_db_set_scanned db path) = fim_db_ids db := by
  unfold fim_db_set_scanned fim_db_ids
  split
  · rfl
  · simp only [List.map_map]
    apply List.map_congr_left
    intro e _
    simp only [Function.comp]
    split <;> rfl

theorem fim_db_keyed_unique (db : fdb_t) (h : fim_db_keyed db) (e1 e2 : fim_entry)
    (h1 : e1 ∈ db.entries) (h2 : e2 ∈ db.entries) (hp : e1.path = e2.path) : e1 = e2 :=
  List.inj_on_of_nodup_map h h1 h2 hp

theorem fim_db_ids_upsert_same (db : fdb_t) (path : String) (data : fim_file_data)
    (sv : fim_entry) (hk : fim_db_keyed db) (hget : fim_db_get_path db path = some sv)
    (hi : data.inode = sv.data.inode) (hd : data.dev = sv.data.dev) :
    (fim_db_upsert db.entries path data).map (fun e => (e.path, e.data.inode, e.data.dev))
      = fim_db_ids db := by
  unfold fim_db_upsert fim_db_ids
  rw [if_pos (any_of_get_path _ _ _ hget), List.map_map]
  apply List.map_congr_left
  intro e he
  simp only [Function.comp]
  split
  · rename_i hep
    have hep' : e.path = sv.path := by
      rw [fim_db_get_path_path _ _ _ hget]
      simpa using hep
    have := fim_db_keyed_unique db hk e sv he (fim_db_get_path_mem _ _ _ hget) hep'
    subst this
    simp [hi, hd]
  · rfl

theorem fim_db_upsert_mem (entries : List fim_entry) (path : String) (data : fim_file_data)
    (e : fim_entry) (h : e ∈ fim_db_upsert entries path data) :
    (e ∈ entries ∧ e.path ≠ path) ∨ (e.path = path ∧ e.data = data) := by
  unfold fim_db_upsert at h
  split at h
  · rw [List.mem_map] at h
    obtain ⟨a, ha, hae⟩ := h
    split at hae
    · rename_i hp
      right
      rw [← hae]
      exact ⟨by simpa using hp, rfl⟩
    · rename_i hp
      left
      rw [← hae]
      exact ⟨ha, by simpa using hp⟩
  · rename_i hany
    rw [List.mem_append] at h
    rcases h with h | h
    · left
      refine ⟨h, ?_⟩
      intro hp
      apply hany
      rw [List.any_eq_true]
      exact ⟨e, h, by simp [hp]⟩
    · right
      simp only [List.mem_singleton] at h
      subst h
      exact ⟨rfl, rfl⟩

theorem fim_db_upsert_keyed (entries : List fim_entry) (path : String) (data : fim_file_data)
    (h : (entries.map (fun e => e.path)).Nodup) :
    ((fim_db_upsert entries path data).map (fun e => e.path)).Nodup := by
  by_cases hany : entries.any (fun e => e.path == path) = true
  · rw [fim_db_upsert_paths _ _ _ hany]
    exact h
  · unfold fim_db_upsert
    rw [if_neg hany, List.map_append, List.nodup_append]
    refine ⟨h, by simp, ?_⟩
    intro a ha hb
    simp only [List.map_cons, List.map_nil, List.mem_singleton] at hb
    subst hb
    rw [List.mem_map] at ha
    obtain ⟨e, he, hep⟩ := ha
    apply hany
    rw [List.any_eq_true]
    exact ⟨e, he, by simp [hep]⟩

/-- Storing a path under an inode and device that no stored entry claims
keeps the invariant. -/
theorem fim_inode_unique_upsert_fresh (os : os_t) (db : fdb_t) (path : String)
    (data : fim_file_data) (h : fim_inode_unique os db)
    (hfresh : ∀ e ∈ db.entries, ¬(e.data.inode = data.inode ∧ e.data.dev = data.dev)) :
    fim_inode_unique os { db with entries := fim_db_upsert db.entries path data } := by
  intro e1 he1 e2 he2 hp hi hd h0 e he hei hed
  have m1 := fim_db_upsert_mem _ _ _ _ he1
  have m2 := fim_db_upsert_mem _ _ _ _ he2
  have m := fim_db_upsert_mem _ _ _ _ he
  -- neither of the two entries is the one just stored
  have k1 : e1 ∈ db.entries := by
    rcases m1 with h1 | h1
    · exact h1.1
    · exfalso
      rcases m2 with h2 | h2
      · exact hfresh e2 h2.1 ⟨by rw [← hi, h1.2], by rw [← hd, h1.2]⟩
      · exact hp (by rw [h1.1, h2.1])
  have k2 : e2 ∈ db.entries := by
    rcases m2 with h2 | h2
    · exact h2.1
    · exfalso
      exact hfresh e1 k1 ⟨by rw [hi, h2.2], by rw [hd, h2.2]⟩
  have k : e ∈ db.entries := by
    rcases m with h3 | h3
    · exact h3.1
    · exfalso
      exact hfresh e1 k1 ⟨by rw [← hei, h3.2], by rw [← hed, h3.2]⟩
  exact h e1 k1 e2 k2 hp hi hd h0 e k hei hed

theorem fim_db_data_exists_zero (db : fdb_t) (inode dev : Nat)
    (h : fim_db_data_exists db inode dev = 0) :
    ∀ e ∈ db.entries, ¬(e.data.inode = inode ∧ e.data.dev = dev) := by
  unfold fim_db_data_exists at h
  split at h
  · simp [FIMDB_ERR] at h
  · split at h
    · simp at h
    · rename_i hany
      intro e he hc
      apply hany
      rw [List.any_eq_true]
      exact ⟨e, he, by simp [hc.1, hc.2]⟩

theorem fim_db_data_exists_cases (db : fdb_t) (inode dev : Nat) :
    fim_db_data_exists db inode dev = FIMDB_ERR ∨ fim_db_data_exists db inode dev = 0
      ∨ fim_db_data_exists db inode dev = 1 := by
  unfold fim_db_data_exists
  split
  · exact Or.inl rfl
  · split
    · exact Or.inr (Or.inr rfl)
    · exact Or.inr (Or.inl rfl)

theorem fim_state_insert_good (os : os_t) (sys : syscheck_t) (path : String)
    (data : fim_file_data) (saved : Option fim_file_data) (s : fim_state)
    (hk : fim_db_keyed s.database) (hi : fim_inode_unique os s.database)
    (hcase : (∀ e ∈ s.database.entries, ¬(e.data.inode = data.inode ∧ e.data.dev = data.dev))
      ∨ (fim_db_upsert s.database.entries path data).map
          (fun e => (e.path, e.data.inode, e.data.dev)) = fim_db_ids s.database) :
    fim_db_keyed (fim_state_insert sys path data saved s).2.database
      ∧ fim_inode_unique os (fim_state_insert sys path data saved s).2.database := by
  unfold fim_state_insert fim_db_insert
  split
  · exact ⟨hk, hi⟩
  · split
    · exact ⟨fim_db_keyed_of_ids _ _ rfl hk, fim_inode_unique_of_ids os _ _ rfl hi⟩
    · rcases hcase with hf | hsame
      · exact ⟨fim_db_upsert_keyed _ _ _ hk, fim_inode_unique_upsert_fresh os _ _ _ hi hf⟩
      · exact ⟨fim_db_keyed_of_ids _ _ hsame hk, fim_inode_unique_of_ids os _ _ hsame hi⟩

theorem fim_update_db_data_good (os : os_t) (r : fim_resolver) (sys : syscheck_t)
    (path : String) (data : fim_file_data) (s s1 : fim_state) (res : Int × Option fim_entry)
    (hk : fim_db_keyed s.database) (hi : fim_inode_unique os s.database)
    (hnocol : fim_db_data_exists s.database data.inode data.dev ≠ 1
      ∨ ∃ sv, fim_db_get_path s.database path = some sv ∧ sv.data.inode = data.inode
          ∧ sv.data.dev = data.dev)
    (h : fim_update_db_data r sys path data FIM_SCHEDULED s = .ok (res, s1)) :
    fim_db_keyed s1.database ∧ fim_inode_unique os s1.database := by
  unfold fim_update_db_data at h
  simp only [ne_eq, not_true_eq_false, ↓reduceIte] at h
  cases hget : fim_db_get_path s.database path with
  | none =>
    simp only [hget] at h
    have hne1 : fim_db_data_exists s.database data.inode data.dev ≠ 1 := by
      rcases hnocol with h1 | ⟨sv, hsv, -⟩
      · exact h1
      · rw [hget] at hsv
        cases hsv
    rcases fim_db_data_exists_cases s.database data.inode data.dev with he | he | he
    · simp only [he, ↓reduceIte, Except.ok.injEq, Prod.mk.injEq] at h
      rw [← h.2]
      exact ⟨hk, hi⟩
    · simp only [he, FIMDB_ERR, Int.reduceNeg, zero_eq_neg, one_ne_zero, ↓reduceIte,
        zero_ne_one, Except.ok.injEq, Prod.mk.injEq] at h
      rw [← h.2]
      exact fim_state_insert_good os sys path data none s hk hi
        (Or.inl (fim_db_data_exists_zero _ _ _ he))
    · exact absurd he hne1
  | some sv =>
    simp only [hget] at h
    by_cases hc : data.checksum = sv.data.checksum
    · simp only [hc, ↓reduceIte, Except.ok.injEq, Prod.mk.injEq] at h
      rw [← h.2]
      exact ⟨fim_db_keyed_of_ids _ _ (fim_db_ids_set_scanned _ _) hk,
        fim_inode_unique_of_ids os _ _ (fim_db_ids_set_scanned _ _) hi⟩
    · simp only [hc, ↓reduceIte] at h
      by_cases hsame : data.dev = sv.data.dev ∧ data.inode = sv.data.inode
      · simp only [hsame, and_self, ↓reduceIte, Except.ok.injEq, Prod.mk.injEq] at h
        rw [← h.2]
        exact fim_state_insert_good os sys path data _ s hk hi
          (Or.inr (fim_db_ids_upsert_same _ _ _ sv hk hget hsame.2 hsame.1))
      · have hne1 : fim_db_data_exists s.database data.inode data.dev ≠ 1 := by
          rcases hnocol with h1 | ⟨sv1, hsv, h2, h3⟩
          · exact h1
          · rw [hget] at hsv
            cases hsv
            exact absurd ⟨h3.symm, h2.symm⟩ hsame
        simp only [hsame, ↓reduceIte] at h
        rcases fim_db_data_exists_cases s.database data.inode data.dev with he | he | he
        · simp only [he, ↓reduceIte, Except.ok.injEq, Prod.mk.injEq] at h
          rw [← h.2]
          exact ⟨hk, hi⟩
        · simp only [he, FIMDB_ERR, Int.reduceNeg, zero_eq_neg, one_ne_zero, ↓reduceIte,
            Except.ok.injEq, Prod.mk.injEq] at h
          rw [← h.2]
          exact fim_state_insert_good os sys path data _ s hk hi
            (Or.inl (fim_db_data_exists_zero _ _ _ he))
        · exact absurd he hne1

theorem fim_run_visits_append (resolve : fim_resolver) (sys : syscheck_t) (os : os_t)
    (w_evt : Option whodata_evt) (report : Bool) (vs1 vs2 : List fim_visit) (s s2 : fim_state) :
    fim_run_visits resolve sys os w_evt report (vs1 ++ vs2) s = .ok s2 ↔
      ∃ s1, fim_run_visits resolve sys os w_evt report vs1 s = .ok s1
        ∧ fim_run_visits resolve sys os w_evt report vs2 s1 = .ok s2 := by
  induction vs1 generalizing s with
  | nil => simp [fim_run_visits]
  | cons v vs ih =>
    simp only [List.cons_append, fim_run_visits]
    cases hv : fim_run_visit resolve sys os w_evt report v s with
    | error e => simp
    | ok s1 => exact ih s1

/-- A run of the `readdir` loop of `fim_directory` is a run of its visits,
provided this holds for the checker it recurses into. -/
theorem fim_directory_loop_walk (resolve : fim_resolver) (sys : syscheck_t) (os : os_t)
    (w_evt : Option whodata_evt) (report : Bool) (checker : fim_checker_t)
    (walker : fim_walker_t) (dir : String)
    (hrec : ∀ path item s item1 s1, checker path item w_evt report s = .ok (item1, s1) ↔
      ∃ vs, walker path item = .ok (item1, vs)
        ∧ fim_run_visits resolve sys os w_evt report vs s = .ok s1) :
    ∀ (names : List String) (item : fim_element) (s : fim_state) (item1 : fim_element)
      (s1 : fim_state),
      fim_directory_loop checker dir w_evt report names item s = .ok (item1, s1) ↔
        ∃ vs, fim_walk_loop walker dir names item = .ok (item1, vs)
          ∧ fim_run_visits resolve sys os w_evt report vs s = .ok s1 := by
  intro names
  induction names with
  | nil =>
    intro item s item1 s1
    simp only [fim_directory_loop, fim_walk_loop, Except.ok.injEq, Prod.mk.injEq]
    constructor
    · rintro ⟨rfl, rfl⟩
      exact ⟨[], ⟨rfl, rfl⟩, rfl⟩
    · rintro ⟨vs, ⟨rfl, rfl⟩, h⟩
      simp only [fim_run_visits, Except.ok.injEq] at h
      exact ⟨rfl, h⟩
  | cons d rest ih =>
    intro item s item1 s1
    unfold fim_directory_loop fim_walk_loop
    by_cases hd : d = "." ∨ d = ".."
    · simp only [hd, ↓reduceIte]
      exact ih item s item1 s1
    · simp only [hd, ↓reduceIte]
      constructor
      · intro h
        cases hc : checker (fim_directory_name dir d) item w_evt report s with
        | error e => simp [hc] at h
        | ok r =>
          obtain ⟨itemA, sA⟩ := r
          simp only [hc] at h
          obtain ⟨vsA, hwA, hrA⟩ := (hrec _ _ _ _ _).mp hc
          obtain ⟨vsB, hwB, hrB⟩ := (ih _ _ _ _).mp h
          refine ⟨vsA ++ vsB, ?_, ?_⟩
          · simp only [hwA, hwB]
          · rw [fim_run_visits_append]
            exact ⟨sA, hrA, hrB⟩
      · rintro ⟨vs, hw, hr⟩
        cases hwA : walker (fim_directory_name dir d) item with
        | error e => simp [hwA] at hw
        | ok r =>
          obtain ⟨itemA, vsA⟩ := r
          simp only [hwA] at hw
          cases hwB : fim_walk_loop walker dir rest itemA with
          | error e => simp [hwB] at hw
          | ok r2 =>
            obtain ⟨itemB, vsB⟩ := r2
            simp only [hwB, Except.ok.injEq, Prod.mk.injEq] at hw
            obtain ⟨rfl, rfl⟩ := hw
            rw [fim_run_visits_append] at hr
            obtain ⟨sA, hrA, hrB⟩ := hr
            have hc := (hrec _ _ _ _ _).mpr ⟨vsA, hwA, hrA⟩
            simp only [hc]
            exact (ih _ _ _ _).mpr ⟨vsB, hwB, hrB⟩

theorem fim_walk_rel_nil (resolve : fim_resolver) (sys : syscheck_t) (os : os_t)
    (w_evt : Option whodata_evt) (report : Bool) (s : fim_state) (item : fim_element) :
    fim_walk_rel resolve sys os w_evt report s (.ok (item, s)) (.ok (item, [])) := by
  intro item1 s1
  simp only [Except.ok.injEq, Prod.mk.injEq]
  constructor
  · rintro ⟨rfl, rfl⟩
    exact ⟨[], ⟨rfl, rfl⟩, rfl⟩
  · rintro ⟨vs, ⟨rfl, rfl⟩, h⟩
    simp only [fim_run_visits, Except.ok.injEq] at h
    exact ⟨rfl, h⟩

theorem fim_walk_rel_ite (resolve : fim_resolver) (sys : syscheck_t) (os : os_t)
    (w_evt : Option whodata_evt) (report : Bool) (s : fim_state) (c : Prop) [Decidable c]
    (a a1 : Except fim_halt (fim_element × fim_state))
    (b b1 : Except fim_halt (fim_element × List fim_visit))
    (h1 : c → fim_walk_rel resolve sys os w_evt report s a b)
    (h2 : ¬c → fim_walk_rel resolve sys os w_evt report s a1 b1) :
    fim_walk_rel resolve sys os w_evt report s (if c then a else a1) (if c then b else b1) := by
  by_cases hc : c
  · rw [if_pos hc, if_pos hc]
    exact h1 hc
  · rw [if_neg hc, if_neg hc]
    exact h2 hc

theorem fim_walk_rel_visit (resolve : fim_resolver) (sys : syscheck_t) (os : os_t)
    (w_evt : Option whodata_evt) (report : Bool) (s : fim_state) (item : fim_element)
    (v : fim_visit) :
    fim_walk_rel resolve sys os w_evt report s
      (match fim_run_visit resolve sys os w_evt report v s with
        | .error h => .error h
        | .ok s1 => .ok (item, s1))
      (.ok (item, [v])) := by
  intro item1 s1
  cases hv : fim_run_visit resolve sys os w_evt report v s with
  | error e =>
    constructor
    · intro h
      cases h
    · rintro ⟨vs, hvs, h⟩
      simp only [Except.ok.injEq, Prod.mk.injEq] at hvs
      obtain ⟨-, rfl⟩ := hvs
      simp [fim_run_visits, hv] at h
  | ok s2 =>
    simp only [Except.ok.injEq, Prod.mk.injEq]
    constructor
    · rintro ⟨rfl, rfl⟩
      exact ⟨[v], ⟨rfl, rfl⟩, by simp [fim_run_visits, hv]⟩
    · rintro ⟨vs, ⟨rfl, rfl⟩, h⟩
      simp only [fim_run_visits, hv, Except.ok.injEq] at h
      exact ⟨rfl, h⟩

/-- A run of `fim_checker_body` is a run of its visits, provided this holds
for the checker it recurses into. -/
theorem fim_checker_body_walk (resolve : fim_resolver) (sys : syscheck_t) (os : os_t)
    (w_evt : Option whodata_evt) (report : Bool) (checker : fim_checker_t)
    (walker : fim_walker_t)
    (hrec : ∀ path item s item1 s1, checker path item w_evt report s = .ok (item1, s1) ↔
      ∃ vs, walker path item = .ok (item1, vs)
        ∧ fim_run_visits resolve sys os w_evt report vs s = .ok s1)
    (path : String) (item : fim_element) (s : fim_state) :
    fim_walk_rel resolve sys os w_evt report s
      (fim_checker_body checker resolve sys os path item w_evt report s)
      (fim_walk_body walker sys os path item) := by
  unfold fim_checker_body fim_walk_body
  apply fim_walk_rel_ite
  · intro _; exact fim_walk_rel_nil _ _ _ _ _ _ _
  intro _
  apply fim_walk_rel_ite
  · intro _; exact fim_walk_rel_nil _ _ _ _ _ _ _
  intro _
  apply fim_walk_rel_ite
  · intro _; exact fim_walk_rel_nil _ _ _ _ _ _ _
  intro _
  apply fim_walk_rel_ite
  · intro _; exact fim_walk_rel_nil _ _ _ _ _ _ _
  intro _
  cases hst : os.w_stat path with
  | error errno =>
    apply fim_walk_rel_ite
    · intro _; exact fim_walk_rel_nil _ _ _ _ _ _ _
    intro _
    have := fim_walk_rel_visit resolve sys os w_evt report s
      { item with index := fim_configuration_directory sys os path,
                  configuration := sys.opts.getD (fim_configuration_directory sys os path).toNat 0 }
      (.missing path
        { item with index := fim_configuration_directory sys os path,
                    configuration := sys.opts.getD
                      (fim_configuration_directory sys os path).toNat 0 })
    intro item1 s1
    rw [← this item1 s1]
    simp only [fim_run_visit]
    cases fim_db_get_path s.database path <;> rfl
  | ok st =>
    apply fim_walk_rel_ite
    · intro _; exact fim_walk_rel_nil _ _ _ _ _ _ _
    intro _
    apply fim_walk_rel_ite
    · intro _
      apply fim_walk_rel_ite
      · intro _; exact fim_walk_rel_nil _ _ _ _ _ _ _
      intro _
      apply fim_walk_rel_ite
      · intro _; exact fim_walk_rel_nil _ _ _ _ _ _ _
      intro _
      exact fim_walk_rel_visit resolve sys os w_evt report s _ (.file path _)
    intro _
    apply fim_walk_rel_ite
    · intro _
      apply fim_walk_rel_ite
      · intro _; exact fim_walk_rel_nil _ _ _ _ _ _ _
      intro _
      unfold fim_directory
      cases hrd : os.readdir path with
      | none => exact fim_walk_rel_nil _ _ _ _ _ _ _
      | some names =>
        intro item1 s1
        exact fim_directory_loop_walk resolve sys os w_evt report checker walker path hrec
          names _ s item1 s1
    intro _
    exact fim_walk_rel_nil _ _ _ _ _ _ _

/-- A run of `fim_checker` is a run of the visits of the traversal. -/
theorem fim_checker_walk (resolve : fim_resolver) (sys : syscheck_t) (os : os_t)
    (w_evt : Option whodata_evt) (report : Bool) :
    ∀ (fuel : Nat) (path : String) (item : fim_element) (s : fim_state) (item1 : fim_element)
      (s1 : fim_state),
      fim_checker resolve sys os fuel path item w_evt report s = .ok (item1, s1) ↔
        ∃ vs, fim_walk sys os fuel path item = .ok (item1, vs)
          ∧ fim_run_visits resolve sys os w_evt report vs s = .ok s1 := by
  intro fuel
  induction fuel with
  | zero =>
    intro path item s item1 s1
    exact fim_checker_body_walk resolve sys os w_evt report _ _
      (by intro p i t i1 t1; simp) path item s item1 s1
  | succ n ih =>
    intro path item s item1 s1
    exact fim_checker_body_walk resolve sys os w_evt report _ _ ih path item s item1 s1

theorem fim_walk_good_nil (sys : syscheck_t) (os : os_t) (item : fim_element)
    (h : item.mode = FIM_SCHEDULED) : fim_walk_good sys os (.ok (item, [])) := by
  intro item1 vs hv
  simp only [Except.ok.injEq, Prod.mk.injEq] at hv
  obtain ⟨rfl, rfl⟩ := hv
  exact ⟨h, by simp⟩

theorem fim_walk_good_ite (sys : syscheck_t) (os : os_t) (c : Prop) [Decidable c]
    (b b1 : Except fim_halt (fim_element × List fim_visit))
    (h1 : c → fim_walk_good sys os b) (h2 : ¬c → fim_walk_good sys os b1) :
    fim_walk_good sys os (if c then b else b1) := by
  by_cases hc : c
  · rw [if_pos hc]
    exact h1 hc
  · rw [if_neg hc]
    exact h2 hc

theorem fim_walk_loop_good (sys : syscheck_t) (os : os_t) (walker : fim_walker_t) (dir : String)
    (hrec : ∀ path item, item.mode = FIM_SCHEDULED → fim_walk_good sys os (walker path item)) :
    ∀ (names : List String) (item : fim_element), item.mode = FIM_SCHEDULED →
      fim_walk_good sys os (fim_walk_loop walker dir names item) := by
  intro names
  induction names with
  | nil =>
    intro item hm
    exact fim_walk_good_nil sys os item hm
  | cons d rest ih =>
    intro item hm
    unfold fim_walk_loop
    apply fim_walk_good_ite
    · intro _
      exact ih item hm
    · intro _ item1 vs hv
      cases hA : walker (fim_directory_name dir d) item with
      | error e => simp [hA] at hv
      | ok r =>
        obtain ⟨itemA, vsA⟩ := r
        obtain ⟨hmA, hvA⟩ := hrec _ _ hm itemA vsA hA
        simp only [hA] at hv
        cases hB : fim_walk_loop walker dir rest itemA with
        | error e => simp [hB] at hv
        | ok r2 =>
          obtain ⟨itemB, vsB⟩ := r2
          obtain ⟨hmB, hvB⟩ := ih itemA hmA itemB vsB hB
          simp only [hB, Except.ok.injEq, Prod.mk.injEq] at hv
          obtain ⟨rfl, rfl⟩ := hv
          refine ⟨hmB, ?_⟩
          intro v hv
          rcases List.mem_append.mp hv with h | h
          · exact hvA v h
          · exact hvB v h

theorem fim_walk_body_good (sys : syscheck_t) (os : os_t) (walker : fim_walker_t)
    (hrec : ∀ path item, item.mode = FIM_SCHEDULED → fim_walk_good sys os (walker path item))
    (path : String) (item : fim_element) (hm : item.mode = FIM_SCHEDULED) :
    fim_walk_good sys os (fim_walk_body walker sys os path item) := by
  unfold fim_walk_body
  apply fim_walk_good_ite
  · intro _; exact fim_walk_good_nil sys os item hm
  intro hc1
  have hnode : 0 ≤ fim_configuration_directory sys os path := by
    by_contra hneg
    exact hc1 ⟨hm, Or.inl (by omega)⟩
  apply fim_walk_good_ite
  · intro _; exact fim_walk_good_nil sys os item hm
  intro _
  apply fim_walk_good_ite
  · intro _; exact fim_walk_good_nil sys os item hm
  intro _
  apply fim_walk_good_ite
  · intro _; exact fim_walk_good_nil sys os item hm
  intro _
  cases hst : os.w_stat path with
  | error errno =>
    apply fim_walk_good_ite
    · intro _; exact fim_walk_good_nil sys os _ hm
    intro he item1 vs hv
    simp only [Except.ok.injEq, Prod.mk.injEq] at hv
    obtain ⟨rfl, rfl⟩ := hv
    refine ⟨hm, ?_⟩
    intro v hv
    simp only [List.mem_singleton] at hv
    subst hv
    have : errno = ENOENT := by
      by_contra hne
      exact he hne
    subst this
    exact ⟨hm, hst⟩
  | ok st =>
    apply fim_walk_good_ite
    · intro _; exact fim_walk_good_nil sys os _ hm
    intro _
    apply fim_walk_good_ite
    · intro _
      apply fim_walk_good_ite
      · intro _; exact fim_walk_good_nil sys os _ hm
      intro _
      apply fim_walk_good_ite
      · intro _; exact fim_walk_good_nil sys os _ hm
      intro _ item1 vs hv
      simp only [Except.ok.injEq, Prod.mk.injEq] at hv
      obtain ⟨rfl, rfl⟩ := hv
      refine ⟨hm, ?_⟩
      intro v hv
      simp only [List.mem_singleton] at hv
      subst hv
      refine ⟨hst, hnode, ?_⟩
      simp only [fim_db_item, hm]
    intro _
    apply fim_walk_good_ite
    · intro _
      apply fim_walk_good_ite
      · intro _; exact fim_walk_good_nil sys os _ hm
      intro _
      cases hrd : os.readdir path with
      | none => exact fim_walk_good_nil sys os _ hm
      | some names => exact fim_walk_loop_good sys os walker path hrec names _ hm
    intro _
    exact fim_walk_good_nil sys os _ hm

/-- The visits of a traversal in scheduled mode are as `fim_visit_ok` says. -/
theorem fim_walk_is_good (sys : syscheck_t) (os : os_t) :
    ∀ (fuel : Nat) (path : String) (item : fim_element), item.mode = FIM_SCHEDULED →
      fim_walk_good sys os (fim_walk sys os fuel path item) := by
  intro fuel
  induction fuel with
  | zero =>
    intro path item hm
    exact fim_walk_body_good sys os _ (by intro p i _ i1 vs h; cases h) path item hm
  | succ n ih =>
    intro path item hm
    exact fim_walk_body_good sys os _ ih path item hm

theorem fim_run_visits_total (resolve : fim_resolver) (sys : syscheck_t) (os : os_t)
    (w_evt : Option whodata_evt) (report : Bool) (I : fim_state → Prop) (vs : List fim_visit)
    (hstep : ∀ v ∈ vs, ∀ s, I s →
      ∃ s1, fim_run_visit resolve sys os w_evt report v s = .ok s1 ∧ I s1) :
    ∀ s, I s → ∃ s1, fim_run_visits resolve sys os w_evt report vs s = .ok s1 ∧ I s1 := by
  induction vs with
  | nil =>
    intro s hI
    exact ⟨s, rfl, hI⟩
  | cons v vs ih =>
    intro s hI
    obtain ⟨s2, hv, hI2⟩ := hstep v (List.mem_cons_self _ _) s hI
    obtain ⟨s1, hr, hI1⟩ := ih (fun v1 hv1 => hstep v1 (List.mem_cons_of_mem _ hv1)) s2 hI2
    exact ⟨s1, by simp only [fim_run_visits, hv, hr], hI1⟩

/-- A traversal of the configured directories that runs through all of them
is the run of the visits of the traversal. -/
theorem fim_scan_dirs_walk (resolve : fim_resolver) (sys : syscheck_t) (os : os_t) (fuel : Nat)
    (report : Bool) :
    ∀ (dirs : List Nat) (s s1 : fim_state),
      fim_scan_dirs resolve sys os fuel report false dirs s = .ok s1 ↔
        ∃ vs, fim_scan_walk sys os fuel dirs = .ok vs
          ∧ fim_run_visits resolve sys os none report vs s = .ok s1 := by
  intro dirs
  induction dirs with
  | nil =>
    intro s s1
    simp only [fim_scan_dirs, fim_scan_walk, Except.ok.injEq]
    constructor
    · rintro rfl
      exact ⟨[], rfl, rfl⟩
    · rintro ⟨vs, rfl, h⟩
      simpa [fim_run_visits] using h
  | cons it rest ih =>
    intro s s1
    simp only [fim_scan_dirs, fim_scan_walk, Bool.false_eq_true, false_and, ↓reduceIte]
    constructor
    · intro h
      cases hc : fim_checker resolve sys os fuel (fim_get_real_path sys os it)
          { fim_element_zero with mode := FIM_SCHEDULED, index := (it : Int) } none report s with
      | error e => simp [hc] at h
      | ok r =>
        obtain ⟨itemA, sA⟩ := r
        simp only [hc] at h
        obtain ⟨vsA, hwA, hrA⟩ := (fim_checker_walk resolve sys os none report fuel _ _ _ _ _).mp hc
        obtain ⟨vsB, hwB, hrB⟩ := (ih _ _).mp h
        refine ⟨vsA ++ vsB, by simp only [hwA, hwB], ?_⟩
        rw [fim_run_visits_append]
        exact ⟨sA, hrA, hrB⟩
    · rintro ⟨vs, hw, hr⟩
      cases hwA : fim_walk sys os fuel (fim_get_real_path sys os it)
          { fim_element_zero with mode := FIM_SCHEDULED, index := (it : Int) } with
      | error e => simp [hwA] at hw
      | ok r =>
        obtain ⟨itemA, vsA⟩ := r
        simp only [hwA] at hw
        cases hwB : fim_scan_walk sys os fuel rest with
        | error e => simp [hwB] at hw
        | ok vsB =>
          simp only [hwB, Except.ok.injEq] at hw
          subst hw
          rw [fim_run_visits_append] at hr
          obtain ⟨sA, hrA, hrB⟩ := hr
          have hc := (fim_checker_walk resolve sys os none report fuel _ _ _ _ _).mpr
            ⟨vsA, hwA, hrA⟩
          simp only [hc]
          exact (ih _ _).mpr ⟨vsB, hwB, hrB⟩

theorem fim_scan_walk_good (sys : syscheck_t) (os : os_t) (fuel : Nat) :
    ∀ (dirs : List Nat) (vs : List fim_visit), fim_scan_walk sys os fuel dirs = .ok vs →
      ∀ v ∈ vs, fim_visit_ok sys os v := by
  intro dirs
  induction dirs with
  | nil =>
    intro vs h v hv
    simp only [fim_scan_walk, Except.ok.injEq] at h
    subst h
    cases hv
  | cons it rest ih =>
    intro vs h v hv
    simp only [fim_scan_walk] at h
    cases hwA : fim_walk sys os fuel (fim_get_real_path sys os it)
        { fim_element_zero with mode := FIM_SCHEDULED, index := (it : Int) } with
    | error e => simp [hwA] at h
    | ok r =>
      obtain ⟨itemA, vsA⟩ := r
      simp only [hwA] at h
      cases hwB : fim_scan_walk sys os fuel rest with
      | error e => simp [hwB] at h
      | ok vsB =>
        simp only [hwB, Except.ok.injEq] at h
        subst h
        rcases List.mem_append.mp hv with h1 | h1
        · exact (fim_walk_is_good sys os fuel _ _ rfl itemA vsA hwA).2 v h1
        · exact ih vsB hwB v h1

/-- Every traversal of the configured directories, whether or not it stops
when the store is full, returns and keeps an invariant that every visit of
the traversal keeps. -/
theorem fim_scan_dirs_total (resolve : fim_resolver) (sys : syscheck_t) (os : os_t) (fuel : Nat)
    (report stop : Bool) (I : fim_state → Prop) :
    ∀ (dirs : List Nat) (vs : List fim_visit), fim_scan_walk sys os fuel dirs = .ok vs →
      (∀ v ∈ vs, ∀ s, I s →
        ∃ s1, fim_run_visit resolve sys os none report v s = .ok s1 ∧ I s1) →
      ∀ s, I s → ∃ s1, fim_scan_dirs resolve sys os fuel report stop dirs s = .ok s1 ∧ I s1 := by
  intro dirs
  induction dirs with
  | nil =>
    intro vs _ _ s hI
    exact ⟨s, rfl, hI⟩
  | cons it rest ih =>
    intro vs hw hstep s hI
    simp only [fim_scan_walk] at hw
    cases hwA : fim_walk sys os fuel (fim_get_real_path sys os it)
        { fim_element_zero with mode := FIM_SCHEDULED, index := (it : Int) } with
    | error e => simp [hwA] at hw
    | ok r =>
      obtain ⟨itemA, vsA⟩ := r
      simp only [hwA] at hw
      cases hwB : fim_scan_walk sys os fuel rest with
      | error e => simp [hwB] at hw
      | ok vsB =>
        simp only [hwB, Except.ok.injEq] at hw
        subst hw
        simp only [fim_scan_dirs]
        split
        · exact ⟨s, rfl, hI⟩
        · obtain ⟨sA, hrA, hIA⟩ := fim_run_visits_total resolve sys os none report I vsA
            (fun v hv => hstep v (List.mem_append_left _ hv)) s hI
          have hc := (fim_checker_walk resolve sys os none report fuel _ _ _ _ _).mpr
            ⟨vsA, hwA, hrA⟩
          simp only [hc]
          exact ih vsB hwB (fun v hv => hstep v (List.mem_append_right _ hv)) sA hIA

theorem fim_db_get_path_of_mem (db : fdb_t) (path : String) (hf : db.failing = [])
    (h : ∃ e ∈ db.entries, e.path = path) :
    ∃ entry, fim_db_get_path db path = some entry ∧ entry ∈ db.entries ∧ entry.path = path := by
  obtain ⟨e, he, hp⟩ := h
  cases hfind : db.entries.find? (fun e => e.path == path) with
  | none =>
    rw [List.find?_eq_none] at hfind
    have := hfind e he
    simp [hp] at this
  | some entry =>
    have hg : fim_db_get_path db path = some entry := by
      simp [fim_db_get_path, fim_db_fails_nil db hf, hfind]
    exact ⟨entry, hg, fim_db_get_path_mem _ _ _ hg, fim_db_get_path_path _ _ _ hg⟩

theorem fim_db_get_path_none_of_not_mem (db : fdb_t) (path : String)
    (h : ¬ ∃ e ∈ db.entries, e.path = path) : fim_db_get_path db path = none := by
  unfold fim_db_get_path
  split
  · rfl
  · rw [List.find?_eq_none]
    intro e he hp
    exact h ⟨e, he, by simpa using hp⟩

theorem fim_db_data_exists_of_ok (db : fdb_t) (inode dev : Nat) (hf : db.failing = []) :
    fim_db_data_exists db inode dev = 0 ∨ fim_db_data_exists db inode dev = 1 := by
  unfold fim_db_data_exists
  rw [fim_db_fails_nil db hf]
  simp only [Bool.false_eq_true, ↓reduceIte]
  split
  · exact Or.inr rfl
  · exact Or.inl rfl

theorem fim_mark_path (P : String → Bool) (e : fim_entry) : (fim_mark P e).path = e.path := by
  unfold fim_mark
  split <;> rfl

theorem fim_unscan_mark (P : String → Bool) (e : fim_entry) :
    fim_unscan (fim_mark P e) = fim_unscan e := by
  unfold fim_mark
  split <;> rfl

theorem fim_mark_scanned (P : String → Bool) (e : fim_entry) (h : e.data.scanned = true) :
    fim_mark P e = e := by
  unfold fim_mark
  split
  · obtain ⟨p, d⟩ := e
    obtain ⟨a1, a2, a3, a4, a5, a6, a7, a8, a9, a10, a11, a12, a13, a14, a15, a16, a17, a18⟩ := d
    simp only at h
    subst h
    rfl
  · rfl

theorem fim_mark_state_none (s : fim_state) : fim_mark_state (fun _ => false) s = s := by
  obtain ⟨⟨entries, full, failing⟩, b, d, sent, logged⟩ := s
  have : (fim_mark fun _ => false) = id := by
    funext e
    simp [fim_mark]
  simp [fim_mark_state, this]

theorem fim_mark_mark (P Q : String → Bool) (e : fim_entry) :
    fim_mark P (fim_mark Q e) = fim_mark (fun p => Q p || P p) e := by
  unfold fim_mark
  cases hq : Q e.path <;> cases hp : P e.path <;> simp [hq, hp]

theorem fim_mark_state_mark (P Q : String → Bool) (s : fim_state) :
    fim_mark_state P (fim_mark_state Q s) = fim_mark_state (fun p => Q p || P p) s := by
  simp only [fim_mark_state, List.map_map]
  congr 2
  apply congrArg (fun f => List.map f s.database.entries)
  funext e
  exact fim_mark_mark P Q e

theorem fim_set_scanned_mark (s : fim_state) (path : String) (hf : s.database.failing = []) :
    { s with database := fim_db_set_scanned s.database path }
      = fim_mark_state (fun p => p == path) s := by
  simp only [fim_db_set_scanned, fim_db_fails_nil _ hf, Bool.false_eq_true, ↓reduceIte,
    fim_mark_state]
  rfl

theorem fim_unscan_fresh (sys : syscheck_t) (os : os_t) (e e1 : fim_entry)
    (h : fim_unscan e1 = fim_unscan e) (hf : fim_entry_fresh sys os e) :
    fim_entry_fresh sys os e1 := by
  have hp : e1.path = e.path := congrArg (fun x => x.path) h
  have hd : fim_data_norm e1.data = fim_data_norm e.data := by
    have := congrArg (fun x => fim_data_norm x.data) h
    simpa [fim_unscan, fim_data_norm] using this
  obtain ⟨st, d, h1, h2, h3, h4⟩ := hf
  rw [← hp] at h1 h2 h3
  exact ⟨st, d, h1, h2, h3, h4.trans hd.symm⟩

/-- A state whose entries are those of a state that agrees with the file
system, up to the scanned flags, agrees with the file system. -/
theorem fim_store_fresh_of_unscan (sys : syscheck_t) (os : os_t) (s s1 : fim_state)
    (hs : fim_store_fresh sys os s) (hf : s1.database.failing = [])
    (h : s1.database.entries.map fim_unscan = s.database.entries.map fim_unscan) :
    fim_store_fresh sys os s1 := by
  refine ⟨hf, ?_, ?_⟩
  · have hk := hs.2.1
    unfold fim_db_keyed at hk ⊢
    have e1 : s1.database.entries.map (fun e => e.path)
        = (s1.database.entries.map fim_unscan).map (fun e => e.path) := by
      rw [List.map_map]
      rfl
    have e2 : s.database.entries.map (fun e => e.path)
        = (s.database.entries.map fim_unscan).map (fun e => e.path) := by
      rw [List.map_map]
      rfl
    rw [e1, h, ← e2]
    exact hk
  · intro e1 he1
    have : fim_unscan e1 ∈ s.database.entries.map fim_unscan := by
      rw [← h]
      exact List.mem_map_of_mem _ he1
    obtain ⟨e, he, hee⟩ := List.mem_map.mp this
    exact fim_unscan_fresh sys os e e1 hee.symm (hs.2.2 e he)

theorem fim_mark_state_unscan (P : String → Bool) (s : fim_state) :
    (fim_mark_state P s).database.entries.map fim_unscan
      = s.database.entries.map fim_unscan := by
  simp only [fim_mark_state, List.map_map]
  apply List.map_congr_left
  intro e _
  exact fim_unscan_mark P e

theorem fim_mark_state_fresh (sys : syscheck_t) (os : os_t) (P : String → Bool) (s : fim_state)
    (hs : fim_store_fresh sys os s) : fim_store_fresh sys os (fim_mark_state P s) :=
  fim_store_fresh_of_unscan sys os s _ hs hs.1 (fim_mark_state_unscan P s)

theorem fim_mark_state_scanned_at (P : String → Bool) (s : fim_state) (q : String)
    (h : fim_scanned_at s q) : fim_scanned_at (fim_mark_state P s) q := by
  intro e1 he1 hp
  simp only [fim_mark_state, List.mem_map] at he1
  obtain ⟨e, he, rfl⟩ := he1
  rw [fim_mark_path] at hp
  rw [fim_mark_scanned P e (h e he hp)]
  exact h e he hp

theorem fim_mark_state_mem (P : String → Bool) (s : fim_state) (p : String)
    (h : ∃ e ∈ s.database.entries, e.path = p) :
    ∃ e ∈ (fim_mark_state P s).database.entries, e.path = p := by
  obtain ⟨e, he, hp⟩ := h
  exact ⟨fim_mark P e, List.mem_map_of_mem _ he, by rw [fim_mark_path, hp]⟩

theorem fim_data_norm_agree (a b : fim_file_data) (h : fim_data_norm b = fim_data_norm a) :
    fim_data_agree a b ∧ b.checksum = a.checksum ∧ b.options = a.options ∧ b.perm = a.perm
      ∧ b.inode = a.inode ∧ b.dev = a.dev := by
  have h1 : b.size = a.size := congrArg (fun x => x.size) h
  have h2 : b.perm = a.perm := congrArg (fun x => x.perm) h
  have h3 : b.uid = a.uid := congrArg (fun x => x.uid) h
  have h4 : b.user_name = a.user_name := congrArg (fun x => x.user_name) h
  have h5 : b.gid = a.gid := congrArg (fun x => x.gid) h
  have h6 : b.group_name = a.group_name := congrArg (fun x => x.group_name) h
  have h7 : b.mtime = a.mtime := congrArg (fun x => x.mtime) h
  have h8 : b.inode = a.inode := congrArg (fun x => x.inode) h
  have h9 : b.hash_md5 = a.hash_md5 := congrArg (fun x => x.hash_md5) h
  have h10 : b.hash_sha1 = a.hash_sha1 := congrArg (fun x => x.hash_sha1) h
  have h11 : b.hash_sha256 = a.hash_sha256 := congrArg (fun x => x.hash_sha256) h
  have h12 : b.checksum = a.checksum := congrArg (fun x => x.checksum) h
  have h13 : b.options = a.options := congrArg (fun x => x.options) h
  have h14 : b.dev = a.dev := congrArg (fun x => x.dev) h
  refine ⟨⟨?_, ?_, ?_, ?_, ?_, ?_, ?_, ?_, ?_⟩, h12, h13, h2, h8, h14⟩
  · exact fun _ => h1.symm
  · exact fun _ => h2.symm
  · exact fun _ => ⟨h3.symm, h4.symm⟩
  · exact fun _ => ⟨h5.symm, h6.symm⟩
  · exact fun _ => h7.symm
  · exact fun _ => h8.symm
  · exact fun _ => h9.symm
  · exact fun _ => h10.symm
  · exact fun _ => h11.symm

/-- What a stored entry and a visit of its path have in common: the visit
carries the stat result of the entry, and extraction for the visit yields the
stored record up to the scanned flag and the time of the event. -/
theorem fim_entry_fresh_visit (sys : syscheck_t) (os : os_t) (entry : fim_entry)
    (item : fim_element) (hf : fim_entry_fresh sys os entry)
    (hv : fim_visit_ok sys os (.file entry.path item)) :
    ∃ d, fim_get_data sys os entry.path item = some d
      ∧ fim_data_norm d = fim_data_norm entry.data
      ∧ item.mode = FIM_SCHEDULED
      ∧ (has_opt entry.data.options CHECK_PERM = true → entry.data.perm ≠ none) := by
  obtain ⟨st, d, h1, h2, h3, h4⟩ := hf
  obtain ⟨v1, v2, v3⟩ := hv
  rw [h1] at v1
  simp only [Except.ok.injEq] at v1
  rw [v1, ← v3] at h3
  have hmode : item.mode = FIM_SCHEDULED := congrArg (fun x => x.mode) v3
  refine ⟨d, h3, h4, hmode, ?_⟩
  obtain ⟨-, fperm, -, -, -, fopt, -, -, -⟩ := fim_get_data_fields _ _ _ _ _ h3
  obtain ⟨-, -, hopt, hperm, -, -⟩ := fim_data_norm_agree entry.data d h4
  intro hc
  rw [← hopt, fopt] at hc
  rw [← hperm, fperm, if_pos hc]
  simp

/-- In a store that agrees with the file system, processing a file that is
stored yields no event and changes the store at most by marking the path
scanned; the path is scanned afterwards. -/
theorem _fim_file_stored (r : fim_resolver) (sys : syscheck_t) (os : os_t) (path : String)
    (item : fim_element) (s : fim_state) (hs : fim_store_fresh sys os s)
    (hp : ∃ e ∈ s.database.entries, e.path = path)
    (hv : fim_visit_ok sys os (.file path item)) :
    ∃ P, _fim_file r sys os path item none s = .ok (none, fim_mark_state P s)
      ∧ fim_scanned_at (fim_mark_state P s) path := by
  obtain ⟨entry, hget, hmem, hpath⟩ := fim_db_get_path_of_mem _ _ hs.1 hp
  subst hpath
  obtain ⟨d, hgd, hnorm, hmode, hperm⟩ := fim_entry_fresh_visit sys os entry item
    (hs.2.2 entry hmem) hv
  obtain ⟨hagree, hck, -, -, -, -⟩ := fim_data_norm_agree entry.data d hnorm
  have hisc := fim_db_file_is_scanned_of_get _ _ _ hs.1 hget
  cases hsc : entry.data.scanned with
  | true =>
    refine ⟨fun _ => false, ?_, ?_⟩
    · rw [fim_mark_state_none]
      unfold _fim_file
      rw [hsc] at hisc
      simp [hisc, hmode]
    · rw [fim_mark_state_none]
      intro e he hpe
      rw [fim_db_keyed_unique _ hs.2.1 e entry he hmem hpe]
      exact hsc
  | false =>
    refine ⟨fun p => p == entry.path, ?_, ?_⟩
    · rw [hsc] at hisc
      have hupd : fim_update_db_data r sys entry.path d FIM_SCHEDULED s
          = .ok ((0, some entry), fim_mark_state (fun p => p == entry.path) s) := by
        unfold fim_update_db_data
        simp only [hget, ne_eq, not_true_eq_false, ↓reduceIte, hck]
        rw [fim_set_scanned_mark s entry.path hs.1]
      have hev : ∀ db pos ty diff, fim_json_event sys db entry.path (some entry.data) d pos ty
          FIM_SCHEDULED none diff = .ok none := by
        intro db pos ty diff
        simp [fim_json_event, compare_attrs_agree entry.data d hperm hagree]
      unfold _fim_file
      simp only [hisc, hmode, hgd, hupd, FIMDB_ERR]
      simp [hev]
    · intro e he hpe
      simp only [fim_mark_state, List.mem_map] at he
      obtain ⟨e0, he0, rfl⟩ := he
      rw [fim_mark_path] at hpe
      simp [fim_mark, hpe]

/-- In a store that agrees with the file system, the resolver step on a
stored path finds the file unchanged: no event, and the store changes at
most by a scanned mark. -/
theorem fim_process_file_from_db_fresh (r : fim_resolver) (sys : syscheck_t) (os : os_t)
    (path : String) (stack tree : List String) (s : fim_state)
    (hs : fim_store_fresh sys os s) (hp : ∃ e ∈ s.database.entries, e.path = path) :
    ∃ P, fim_process_file_from_db r sys os path stack tree s
      = .ok ((FIM_FILE_UPDATED, stack, tree, none), fim_mark_state P s) := by
  obtain ⟨entry, hget, hmem, hpath⟩ := fim_db_get_path_of_mem _ _ hs.1 hp
  obtain ⟨st, d, hst, hnode, hgd, hnorm⟩ := hs.2.2 entry hmem
  obtain ⟨-, -, -, fino, fdev, -, -, -, -⟩ := fim_get_data_fields _ _ _ _ _ hgd
  obtain ⟨-, -, -, -, hino, hdev⟩ := fim_data_norm_agree entry.data d hnorm
  have hv : fim_visit_ok sys os (.file entry.path
      (fim_db_item sys st (fim_configuration_directory sys os entry.path))) :=
    ⟨hst, hnode, rfl⟩
  obtain ⟨P, hfile, -⟩ := _fim_file_stored r sys os entry.path _ s hs ⟨entry, hmem, rfl⟩ hv
  have hne : fim_configuration_directory sys os entry.path ≠ -1 := by omega
  have hid : entry.data.dev = st.st_dev ∧ entry.data.inode = st.st_ino :=
    ⟨by rw [← hdev, fdev]; rfl, by rw [← hino, fino]; rfl⟩
  refine ⟨P, ?_⟩
  unfold fim_process_file_from_db
  simp only [hget, hst]
  rw [if_pos (Or.inl hid), if_neg hne, hfile]

theorem fim_resolve_loop_fresh (sys : syscheck_t) (os : os_t) :
    ∀ (fuel : Nat) (stack tree : List String) (s : fim_state),
      fim_store_fresh sys os s → (∀ p ∈ stack, ∃ e ∈ s.database.entries, e.path = p) →
      stack.length ≤ fuel →
      ∃ P, fim_resolve_loop sys os fuel stack tree s = .ok (0, fim_mark_state P s) := by
  intro fuel
  induction fuel with
  | zero =>
    intro stack tree s _ _ hl
    have : stack = [] := List.length_eq_zero.mp (by omega)
    subst this
    exact ⟨fun _ => false, by simp [fim_resolve_loop, fim_mark_state_none]⟩
  | succ n ih =>
    intro stack tree s hs hsub hl
    unfold fim_resolve_loop
    cases hlast : stack.getLast? with
    | none => exact ⟨fun _ => false, by simp [fim_mark_state_none]⟩
    | some cur =>
      have hmem : cur ∈ stack := List.mem_of_getLast?_eq_some hlast
      obtain ⟨Q, hQ⟩ := fim_process_file_from_db_fresh
        (fun inode dev s0 =>
            fim_resolve_loop sys os n
              (fim_db_append_paths_from_inode s0.database inode dev [] []).2.1
              (fim_db_append_paths_from_inode s0.database inode dev [] []).2.2 s0)
        sys os cur stack tree s hs (hsub cur hmem)
      simp only [hQ, fim_send_event]
      obtain ⟨P, hP⟩ := ih stack.dropLast tree (fim_mark_state Q s)
        (fim_mark_state_fresh sys os Q s hs)
        (fun p hp => fim_mark_state_mem Q s p (hsub p (List.mem_of_mem_dropLast hp)))
        (by rw [List.length_dropLast]; omega)
      exact ⟨fun p => Q p || P p, by rw [hP, fim_mark_state_mark]⟩

/-- In a store that agrees with the file system, with fuel for the number of
stored entries, the collision resolver returns `0`, sends nothing and changes
the store at most by scanned marks. -/
theorem fim_resolve_db_collision_fresh (sys : syscheck_t) (os : os_t) (fuel : Nat)
    (inode dev : Nat) (s : fim_state) (hs : fim_store_fresh sys os s)
    (hfuel : s.database.entries.length ≤ fuel) :
    ∃ P, fim_resolve_db_collision sys os fuel inode dev s = .ok (0, fim_mark_state P s) := by
  unfold fim_resolve_db_collision
  obtain ⟨new, hnew, hmem, hnd⟩ := fim_append_paths_spec
    (fim_db_get_paths_from_inode s.database inode dev) [] []
  simp only [fim_db_append_paths_from_inode, hnew, List.nil_append]
  have hsub : ∀ p ∈ new, ∃ e ∈ s.database.entries, e.path = p := by
    intro p hp
    have := fim_db_get_paths_from_inode_subset _ _ _ p (hmem p hp).1
    rw [List.mem_map] at this
    exact this
  have hlen : new.length ≤ s.database.entries.length := by
    have hnn : new.Nodup := by simpa using hnd List.nodup_nil
    have hsub2 : ∀ p ∈ new, p ∈ s.database.entries.map (fun e => e.path) :=
      fun p hp => fim_db_get_paths_from_inode_subset _ _ _ p (hmem p hp).1
    have := (List.Nodup.subperm hnn hsub2).length_le
    simpa using this
  exact fim_resolve_loop_fresh sys os _ new new s hs hsub (by omega)

/-- In a store that agrees with the file system, the update for a path that
is not stored is the insertion, after a collision was resolved by marking
entries scanned. -/
theorem fim_update_db_data_fresh_new (sys : syscheck_t) (os : os_t) (fuel : Nat)
    (path : String) (new : fim_file_data) (s : fim_state) (hs : fim_store_fresh sys os s)
    (hnone : fim_db_get_path s.database path = none)
    (hfuel : s.database.entries.length ≤ fuel) :
    ∃ P, fim_update_db_data (fim_resolve_db_collision sys os fuel) sys path new FIM_SCHEDULED s
      = .ok (((fim_state_insert sys path new none (fim_mark_state P s)).1, none),
          (fim_state_insert sys path new none (fim_mark_state P s)).2) := by
  unfold fim_update_db_data
  simp only [hnone, ne_eq, not_true_eq_false, ↓reduceIte]
  rcases fim_db_data_exists_of_ok s.database new.inode new.dev hs.1 with he | he
  · refine ⟨fun _ => false, ?_⟩
    rw [fim_mark_state_none]
    simp only [he, FIMDB_ERR, Int.reduceNeg, zero_eq_neg, one_ne_zero, ↓reduceIte, zero_ne_one]
  · obtain ⟨P, hres⟩ := fim_resolve_db_collision_fresh sys os fuel new.inode new.dev s hs hfuel
    refine ⟨P, ?_⟩
    simp only [he, FIMDB_ERR, Int.reduceNeg, ↓reduceIte]
    have hne : (1 : Int) ≠ -1 := by decide
    simp only [hne, ↓reduceIte, hres, not_true_eq_false]

theorem fim_state_insert_full (sys : syscheck_t) (path : String) (new : fim_file_data)
    (t : fim_state) (hf : t.database.failing = [])
    (hcap : sys.file_limit_enabled = true ∧ (t.database.entries.length : Int) ≥ sys.file_limit) :
    fim_state_insert sys path new none t
      = (FIMDB_FULL, { t with database := { t.database with full := true } }) := by
  simp [fim_state_insert, fim_db_insert, fim_db_fails_nil _ hf, hcap.1, hcap.2]

theorem fim_state_insert_new (sys : syscheck_t) (path : String) (new : fim_file_data)
    (t : fim_state) (hf : t.database.failing = [])
    (hcap : ¬ (sys.file_limit_enabled = true
      ∧ (t.database.entries.length : Int) ≥ sys.file_limit))
    (hnone : fim_db_get_path t.database path = none) :
    fim_state_insert sys path new none t
      = (0, { t with database := { t.database with
          entries := t.database.entries ++ [{ path := path, data := new }] } }) := by
  have hany := any_false_of_get_path_none _ _ hf hnone
  have hup : fim_db_upsert t.database.entries path new
      = t.database.entries ++ [{ path := path, data := new }] := by
    unfold fim_db_upsert
    rw [hany]
    simp
  have hc : (sys.file_limit_enabled
      && decide ((t.database.entries.length : Int) ≥ sys.file_limit)) = false := by
    cases hfl : sys.file_limit_enabled
    · rfl
    · simp only [Bool.true_and, decide_eq_false_iff_not]
      intro hge
      exact hcap ⟨hfl, hge⟩
  simp only [fim_state_insert, fim_db_insert, fim_db_fails_nil _ hf, Bool.false_eq_true,
    ↓reduceIte, Option.isNone_none, Bool.true_and, hc, hup, FIMDB_OK]

theorem fim_mark_state_get_none (P : String → Bool) (s : fim_state) (path : String)
    (h : ¬ ∃ e ∈ s.database.entries, e.path = path) :
    ¬ ∃ e ∈ (fim_mark_state P s).database.entries, e.path = path := by
  rintro ⟨e1, he1, hp⟩
  simp only [fim_mark_state, List.mem_map] at he1
  obtain ⟨e, he, rfl⟩ := he1
  rw [fim_mark_path] at hp
  exact h ⟨e, he, hp⟩

theorem fim_mark_state_length (P : String → Bool) (s : fim_state) :
    (fim_mark_state P s).database.entries.length = s.database.entries.length := by
  simp [fim_mark_state]

/-- The effect of a visit that changes the entries at most by scanned marks
and sends nothing. -/
theorem fim_visit_effect_marks (sys : syscheck_t) (os : os_t) (report : Bool) (v : fim_visit)
    (s s1 : fim_state) (hs : fim_store_fresh sys os s) (hf : s1.database.failing = [])
    (hmap : s1.database.entries.map fim_unscan = s.database.entries.map fim_unscan)
    (hb : s1._base_line = s._base_line) (hsent : s1.sent = s.sent)
    (hset : fim_visit_settled sys os s1 v)
    (hmono : ∀ q, fim_scanned_at s q → fim_scanned_at s1 q)
    (hsc : ∀ p item, v = .file p item → fim_scanned_at s1 p) :
    fim_visit_effect sys os report v s s1 :=
  ⟨fim_store_fresh_of_unscan sys os s s1 hs hf hmap, hb,
    ⟨[], by rw [hmap, List.append_nil], by simp, by simp, fun _ => rfl, fun _ => hsent⟩,
    hset, hmono, hsc⟩

/-- The effect of a visit that adds the entry of the visited file. -/
theorem fim_visit_effect_added (sys : syscheck_t) (os : os_t) (report : Bool) (path : String)
    (item : fim_element) (new : fim_file_data) (P : String → Bool) (s s1 : fim_state)
    (hs : fim_store_fresh sys os s) (hf : s1.database.failing = [])
    (hent : s1.database.entries
      = (fim_mark_state P s).database.entries ++ [{ path := path, data := new }])
    (hb : s1._base_line = s._base_line)
    (hsent : (s._base_line = false ∨ report = false) → s1.sent = s.sent)
    (hp : ¬ ∃ e ∈ s.database.entries, e.path = path)
    (hfresh : fim_entry_fresh sys os { path := path, data := new })
    (hnsc : new.scanned = true)
    (hnot : ¬ fim_visit_settled sys os s (.file path item)) :
    fim_visit_effect sys os report (.file path item) s s1 := by
  have ht := fim_mark_state_fresh sys os P s hs
  have hpt := fim_mark_state_get_none P s path hp
  refine ⟨⟨hf, ?_, ?_⟩, hb, ⟨[fim_unscan { path := path, data := new }], ?_, ?_, ?_, ?_, ?_⟩,
    ?_, ?_, ?_⟩
  · unfold fim_db_keyed
    rw [hent, List.map_append, List.nodup_append]
    refine ⟨ht.2.1, by simp, ?_⟩
    intro a ha hb
    simp only [List.map_cons, List.map_nil, List.mem_singleton] at hb
    subst hb
    obtain ⟨e, he, hpe⟩ := List.mem_map.mp ha
    exact hpt ⟨e, he, hpe⟩
  · intro e he
    rw [hent, List.mem_append] at he
    rcases he with he | he
    · exact ht.2.2 e he
    · rw [List.mem_singleton] at he
      subst he
      exact hfresh
  · rw [hent, List.map_append, fim_mark_state_unscan]
    rfl
  · simp
  · intro x hx
    rw [List.mem_singleton] at hx
    subst hx
    exact ⟨item, rfl⟩
  · intro hset
    exact absurd hset hnot
  · intro h
    rcases h with h | h
    · cases h
    · exact hsent h
  · left
    exact ⟨{ path := path, data := new }, by rw [hent]; simp, rfl⟩
  · intro q hq e he hpe
    rw [hent, List.mem_append] at he
    rcases he with he | he
    · exact fim_mark_state_scanned_at P s q hq e he hpe
    · rw [List.mem_singleton] at he
      subst he
      exact hnsc
  · intro p item1 hv e he hpe
    cases hv
    rw [hent, List.mem_append] at he
    rcases he with he | he
    · exact absurd ⟨e, he, hpe⟩ hpt
    · rw [List.mem_singleton] at he
      subst he
      exact hnsc

/-- The effect of `fim_file` in a scheduled scan on a store that agrees with
the file system, with fuel for the number of stored entries: it returns, and
its effect is that of a visit. -/
theorem fim_file_effect (sys : syscheck_t) (os : os_t) (fuel : Nat) (report : Bool)
    (path : String) (item : fim_element) (s : fim_state) (hs : fim_store_fresh sys os s)
    (hv : fim_visit_ok sys os (.file path item)) (hfuel : s.database.entries.length ≤ fuel) :
    ∃ s1, fim_file (fim_resolve_db_collision sys os fuel) sys os path item none report s
        = .ok s1
      ∧ fim_visit_effect sys os report (.file path item) s s1 := by
  by_cases hp : ∃ e ∈ s.database.entries, e.path = path
  · obtain ⟨P, hfile, hsc⟩ := _fim_file_stored (fim_resolve_db_collision sys os fuel) sys os
      path item s hs hp hv
    refine ⟨fim_mark_state P s, by simp [fim_file, hfile], ?_⟩
    refine fim_visit_effect_marks sys os report _ s _ hs hs.1 (fim_mark_state_unscan P s) rfl rfl
      (Or.inl (fim_mark_state_mem P s path hp)) (fim_mark_state_scanned_at P s) ?_
    intro p item1 h
    cases h
    exact hsc
  · have hnone := fim_db_get_path_none_of_not_mem _ _ hp
    have hisc := fim_db_file_is_scanned_none _ _ hs.1 hnone
    have hmode : item.mode = FIM_SCHEDULED := congrArg (fun x => x.mode) hv.2.2
    cases hgd : fim_get_data sys os path item with
    | none =>
      have hfile : _fim_file (fim_resolve_db_collision sys os fuel) sys os path item none s
          = .ok (none, s) := by
        unfold _fim_file
        simp [hisc, hmode, hgd, FIMDB_ERR]
      refine ⟨s, by simp [fim_file, hfile], ?_⟩
      refine fim_visit_effect_marks sys os report _ s s hs hs.1 rfl rfl rfl
        (Or.inr (Or.inl hgd)) (fun _ h => h) ?_
      intro p item1 h e he hpe
      cases h
      exact absurd ⟨e, he, hpe⟩ hp
    | some new =>
      obtain ⟨P, hupd⟩ := fim_update_db_data_fresh_new sys os fuel path new s hs hnone hfuel
      have ht := fim_mark_state_fresh sys os P s hs
      have hpt := fim_mark_state_get_none P s path hp
      have hnone_t := fim_db_get_path_none_of_not_mem _ _ hpt
      by_cases hcap : sys.file_limit_enabled = true
        ∧ ((fim_mark_state P s).database.entries.length : Int) ≥ sys.file_limit
      · rw [fim_state_insert_full sys path new _ ht.1 hcap] at hupd
        have hfile : _fim_file (fim_resolve_db_collision sys os fuel) sys os path item none s
            = .ok (none, { fim_mark_state P s with
                database := { (fim_mark_state P s).database with full := true } }) := by
          unfold _fim_file
          simp [hisc, hmode, hgd, hupd, FIMDB_ERR, FIMDB_FULL]
        refine ⟨{ fim_mark_state P s with
                database := { (fim_mark_state P s).database with full := true } },
          by simp only [fim_file, hfile], ?_⟩
        refine fim_visit_effect_marks sys os report _ s _ hs hs.1 (fim_mark_state_unscan P s)
          rfl rfl (Or.inr (Or.inr hcap)) (fim_mark_state_scanned_at P s) ?_
        intro p item1 h e he hpe
        cases h
        exact absurd ⟨e, he, hpe⟩ hpt
      · rw [fim_state_insert_new sys path new _ ht.1 hcap hnone_t] at hupd
        obtain ⟨ev, hev, -⟩ := fim_json_event_none_old sys
          { (fim_mark_state P s).database with
            entries := (fim_mark_state P s).database.entries ++ [{ path := path, data := new }] }
          path new item.index FIM_ADD FIM_SCHEDULED none
          (if has_opt item.configuration CHECK_SEECHANGES then os.fim_file_diff path else none)
        have hfile : _fim_file (fim_resolve_db_collision sys os fuel) sys os path item none s
            = .ok (some ev, { fim_mark_state P s with
                database := { (fim_mark_state P s).database with
                  entries := (fim_mark_state P s).database.entries
                    ++ [{ path := path, data := new }] } }) := by
          unfold _fim_file
          simp only [hisc, hmode, hgd, hupd, FIMDB_ERR]
          simp [hev]
        obtain ⟨-, -, -, -, -, -, fsc, -, -⟩ := fim_get_data_fields _ _ _ _ _ hgd
        have hfresh : fim_entry_fresh sys os { path := path, data := new } := by
          refine ⟨item.statbuf, new, hv.1, hv.2.1, ?_, rfl⟩
          have h3 := hv.2.2
          simp only at h3 ⊢
          rw [← h3]
          exact hgd
        have hnot : ¬ fim_visit_settled sys os s (.file path item) := by
          intro h
          rcases h with h | h | h
          · exact hp h
          · rw [hgd] at h
            cases h
          · rw [fim_mark_state_length] at hcap
            exact hcap h
        by_cases hsend : s._base_line = true ∧ report = true
        · refine ⟨send_syscheck_msg (.event ev) { fim_mark_state P s with
                database := { (fim_mark_state P s).database with
                  entries := (fim_mark_state P s).database.entries
                    ++ [{ path := path, data := new }] } }, ?_, ?_⟩
          · simp only [fim_file, hfile]
            rw [if_pos]
            exact hsend
          refine fim_visit_effect_added sys os report path item new P s _ hs hs.1 rfl rfl ?_ hp
            hfresh fsc hnot
          intro h
          rcases h with h | h
          · rw [hsend.1] at h
            cases h
          · rw [hsend.2] at h
            cases h
        · refine ⟨{ fim_mark_state P s with
                database := { (fim_mark_state P s).database with
                  entries := (fim_mark_state P s).database.entries
                    ++ [{ path := path, data := new }] } }, ?_, ?_⟩
          · simp only [fim_file, hfile]
            rw [if_neg]
            exact hsend
          · exact fim_visit_effect_added sys os report path item new P s _ hs hs.1 rfl rfl
              (fun _ => rfl) hp hfresh fsc hnot

/-- The effect of one visit of a scheduled scan on a store that agrees with
the file system, with fuel for the number of stored entries. -/
theorem fim_run_visit_effect (sys : syscheck_t) (os : os_t) (fuel : Nat) (report : Bool)
    (v : fim_visit) (s : fim_state) (hs : fim_store_fresh sys os s)
    (hv : fim_visit_ok sys os v) (hfuel : s.database.entries.length ≤ fuel) :
    ∃ s1, fim_run_visit (fim_resolve_db_collision sys os fuel) sys os none report v s = .ok s1
      ∧ fim_visit_effect sys os report v s s1 := by
  cases v with
  | file path item => exact fim_file_effect sys os fuel report path item s hs hv hfuel
  | missing path item =>
    have hp : ¬ ∃ e ∈ s.database.entries, e.path = path := by
      rintro ⟨e, he, hpe⟩
      obtain ⟨st, d, hst, -⟩ := hs.2.2 e he
      rw [hpe, hv.2] at hst
      cases hst
    refine ⟨s, by simp [fim_run_visit, fim_db_get_path_none_of_not_mem _ _ hp], ?_⟩
    refine fim_visit_effect_marks sys os report _ s s hs hs.1 rfl rfl rfl trivial
      (fun _ h => h) ?_
    intro p item1 h
    cases h

/-- A settled visit stays settled when the store grows. -/
theorem fim_visit_settled_mono (sys : syscheck_t) (os : os_t) (s s1 : fim_state)
    (extra : List fim_entry)
    (hmap : s1.database.entries.map fim_unscan = s.database.entries.map fim_unscan ++ extra)
    (v : fim_visit) (h : fim_visit_settled sys os s v) : fim_visit_settled sys os s1 v := by
  cases v with
  | missing path item => trivial
  | file path item =>
    rcases h with h | h | h
    · left
      obtain ⟨e, he, hpe⟩ := h
      have : fim_unscan e ∈ s1.database.entries.map fim_unscan := by
        rw [hmap]
        exact List.mem_append_left _ (List.mem_map_of_mem _ he)
      obtain ⟨e1, he1, hee⟩ := List.mem_map.mp this
      exact ⟨e1, he1, (congrArg (fun x => x.path) hee).trans hpe⟩
    · exact Or.inr (Or.inl h)
    · right
      right
      refine ⟨h.1, ?_⟩
      have hl := congrArg List.length hmap
      simp only [List.length_map, List.length_append] at hl
      have h2 := h.2
      omega

/-- The effect of the visits of a traversal, run in order on a store that
agrees with the file system, with fuel for the stored entries and the
visits: the run returns; the store still agrees; the entries are the same up
to their scanned flags except for new entries of visited files, none if all
visits were settled; nothing is sent unless an entry is added with the
baseline set and `report` true; every visit is settled afterwards; and the
entries that were scanned or whose file is visited are scanned. -/
theorem fim_run_visits_effect (sys : syscheck_t) (os : os_t) (fuel : Nat) (report : Bool) :
    ∀ (vs : List fim_visit) (s : fim_state), fim_store_fresh sys os s →
      (∀ v ∈ vs, fim_visit_ok sys os v) → s.database.entries.length + vs.length ≤ fuel →
      ∃ s3, fim_run_visits (fim_resolve_db_collision sys os fuel) sys os none report vs s
          = .ok s3
        ∧ fim_store_fresh sys os s3
        ∧ s3._base_line = s._base_line
        ∧ (∃ extra,
            s3.database.entries.map fim_unscan = s.database.entries.map fim_unscan ++ extra
            ∧ extra.length ≤ vs.length
            ∧ (∀ x ∈ extra, ∃ item, fim_visit.file x.path item ∈ vs)
            ∧ ((∀ v ∈ vs, fim_visit_settled sys os s v) → extra = [])
            ∧ ((extra = [] ∨ s._base_line = false ∨ report = false) → s3.sent = s.sent))
        ∧ (∀ v ∈ vs, fim_visit_settled sys os s3 v)
        ∧ (∀ q, (fim_scanned_at s q ∨ ∃ item, fim_visit.file q item ∈ vs) →
            fim_scanned_at s3 q) := by
  intro vs
  induction vs with
  | nil =>
    intro s hs _ _
    refine ⟨s, rfl, hs, rfl, ⟨[], by simp, by simp, by simp, fun _ => rfl, fun _ => rfl⟩,
      by simp, ?_⟩
    intro q hq
    rcases hq with hq | ⟨item, hq⟩
    · exact hq
    · cases hq
  | cons v rest ih =>
    intro s hs hok hfuel
    simp only [List.length_cons] at hfuel
    obtain ⟨s1, hrun1, hfresh1, hb1, ⟨extra1, hmap1, hlen1, horig1, hset1, hsent1⟩, hsettled1,
      hmono1, hsc1⟩ := fim_run_visit_effect sys os fuel report v s hs
        (hok v (List.mem_cons_self _ _)) (by omega)
    have hl1 := congrArg List.length hmap1
    simp only [List.length_map, List.length_append] at hl1
    obtain ⟨s3, hrun3, hfresh3, hb3, ⟨extra2, hmap3, hlen3, horig3, hset3, hsent3⟩, hsettled3,
      hsc3⟩ := ih s1 hfresh1 (fun w hw => hok w (List.mem_cons_of_mem _ hw)) (by omega)
    refine ⟨s3, by simp only [fim_run_visits, hrun1, hrun3], hfresh3, hb3.trans hb1,
      ⟨extra1 ++ extra2, ?_, ?_, ?_, ?_, ?_⟩, ?_, ?_⟩
    · rw [hmap3, hmap1, List.append_assoc]
    · simp only [List.length_append, List.length_cons]
      omega
    · intro x hx
      rcases List.mem_append.mp hx with hx | hx
      · obtain ⟨item, hi⟩ := horig1 x hx
        exact ⟨item, by rw [hi]; exact List.mem_cons_self _ _⟩
      · obtain ⟨item, hi⟩ := horig3 x hx
        exact ⟨item, List.mem_cons_of_mem _ hi⟩
    · intro hall
      have e1 := hset1 (hall v (List.mem_cons_self _ _))
      have e2 := hset3 (fun w hw => fim_visit_settled_mono sys os s s1 extra1 hmap1 w
        (hall w (List.mem_cons_of_mem _ hw)))
      rw [e1, e2]
      rfl
    · intro h
      rcases h with h | h | h
      · obtain ⟨e1, e2⟩ := List.append_eq_nil.mp h
        rw [hsent3 (Or.inl e2), hsent1 (Or.inl e1)]
      · rw [hsent3 (Or.inr (Or.inl (hb1.trans h))), hsent1 (Or.inr (Or.inl h))]
      · rw [hsent3 (Or.inr (Or.inr h)), hsent1 (Or.inr (Or.inr h))]
    · intro w hw
      rcases List.mem_cons.mp hw with hw | hw
      · subst hw
        exact fim_visit_settled_mono sys os s1 s3 extra2 hmap3 w hsettled1
      · exact hsettled3 w hw
    · intro q hq
      rcases hq with hq | ⟨item, hq⟩
      · exact hsc3 q (Or.inl (hmono1 q hq))
      · rcases List.mem_cons.mp hq with hq | hq
        · exact hsc3 q (Or.inl (hsc1 q item hq.symm))
        · exact hsc3 q (Or.inr ⟨item, hq⟩)

theorem fim_mark_unscan (e : fim_entry) :
    fim_mark (fun _ => true) (fim_unscan e) = fim_mark (fun _ => true) e := by
  simp [fim_mark, fim_unscan]

theorem fim_unscan_eq_scanned (e1 e2 : fim_entry) (h : fim_unscan e1 = fim_unscan e2)
    (h1 : e1.data.scanned = true) (h2 : e2.data.scanned = true) : e1 = e2 := by
  rw [← fim_mark_scanned (fun _ => true) e1 h1, ← fim_mark_scanned (fun _ => true) e2 h2,
    ← fim_mark_unscan e1, ← fim_mark_unscan e2, h]

/-- Two lists of scanned entries that are equal up to the scanned flags are
equal. -/
theorem fim_unscan_map_eq_scanned :
    ∀ (l1 l2 : List fim_entry), l1.map fim_unscan = l2.map fim_unscan →
      (∀ e ∈ l1, e.data.scanned = true) → (∀ e ∈ l2, e.data.scanned = true) → l1 = l2 := by
  intro l1
  induction l1 with
  | nil =>
    intro l2 h _ _
    cases l2 with
    | nil => rfl
    | cons b l2 => simp at h
  | cons a l1 ih =>
    intro l2 h h1 h2
    cases l2 with
    | nil => simp at h
    | cons b l2 =>
      simp only [List.map_cons, List.cons.injEq] at h
      rw [fim_unscan_eq_scanned a b h.1 (h1 a (List.mem_cons_self _ _))
        (h2 b (List.mem_cons_self _ _)),
        ih l2 h.2 (fun e he => h1 e (List.mem_cons_of_mem _ he))
          (fun e he => h2 e (List.mem_cons_of_mem _ he))]

/-- The start of a scan, the scan bracket sent and the scanned flags cleared,
keeps the entries up to their scanned flags. -/
theorem fim_scan_start_unscan (os : os_t) (s : fim_state) (hf : s.database.failing = []) :
    ({ fim_send_scan_info os true s with
        database := fim_db_set_all_unscanned (fim_send_scan_info os true s).database
      } : fim_state).database.entries.map fim_unscan = s.database.entries.map fim_unscan := by
  have hf1 : (fim_send_scan_info os true s).database.failing = [] := hf
  simp only [fim_db_set_all_unscanned, fim_db_fails_nil _ hf1, Bool.false_eq_true, ↓reduceIte,
    List.map_map]
  rfl

theorem fim_scan_start_failing (os : os_t) (s : fim_state) (hf : s.database.failing = []) :
    ({ fim_send_scan_info os true s with
        database := fim_db_set_all_unscanned (fim_send_scan_info os true s).database
      } : fim_state).database.failing = [] := by
  have hf1 : (fim_send_scan_info os true s).database.failing = [] := hf
  simp only [fim_db_set_all_unscanned, fim_db_fails_nil _ hf1, Bool.false_eq_true, ↓reduceIte]
  exact hf

/-- With every entry scanned, the sweep of the unscanned entries does
nothing. -/
theorem check_deleted_files_scanned (sys : syscheck_t) (os : os_t) (s : fim_state)
    (hf : s.database.failing = []) (h : ∀ e ∈ s.database.entries, e.data.scanned = true) :
    check_deleted_files sys os s = .ok s := by
  have hnil : s.database.entries.filter (fun e => !e.data.scanned) = [] := by
    rw [List.filter_eq_nil_iff]
    intro e he
    simp [h e he]
  simp [check_deleted_files, fim_db_get_not_scanned, fim_db_fails_nil _ hf, hnil]

/-- The capacity check changes neither the store nor what was sent nor the
baseline flag. -/
theorem fim_check_db_state_frame (sys : syscheck_t) (s : fim_state) :
    (fim_check_db_state sys s).database = s.database
      ∧ (fim_check_db_state sys s).sent = s.sent
      ∧ (fim_check_db_state sys s)._base_line = s._base_line := by
  unfold fim_check_db_state
  simp only [send_log_msg]
  split
  · exact ⟨rfl, rfl, rfl⟩
  · split
    all_goals (repeat (first | exact ⟨rfl, rfl, rfl⟩ | split))

/-- The second traversal of a scan, made when the store is at its capacity,
on a store that agrees with the file system in which every entry is scanned
and every visit is settled: it returns and changes neither the entries nor
what was sent. -/
theorem fim_scan_dirs_settled (sys : syscheck_t) (os : os_t) (fuel : Nat) (report stop : Bool)
    (dirs : List Nat) (vs : List fim_visit) (s3 : fim_state)
    (hw : fim_scan_walk sys os fuel dirs = .ok vs)
    (hs : fim_store_fresh sys os s3)
    (hall : ∀ e ∈ s3.database.entries, e.data.scanned = true)
    (hset : ∀ v ∈ vs, fim_visit_settled sys os s3 v)
    (hfuel : s3.database.entries.length ≤ fuel) :
    ∃ s4, fim_scan_dirs (fim_resolve_db_collision sys os fuel) sys os fuel report stop dirs s3
        = .ok s4
      ∧ fim_store_fresh sys os s4 ∧ s4.database.entries = s3.database.entries
      ∧ s4.sent = s3.sent ∧ s4._base_line = s3._base_line := by
  have hok := fim_scan_walk_good sys os fuel dirs vs hw
  have h := fim_scan_dirs_total (fim_resolve_db_collision sys os fuel) sys os fuel report stop
    (fun t => fim_store_fresh sys os t ∧ t.database.entries = s3.database.entries
      ∧ t.sent = s3.sent ∧ t._base_line = s3._base_line) dirs vs hw ?_ s3 ⟨hs, rfl, rfl, rfl⟩
  · exact h
  · intro v hv t ⟨ht, hent, hsent, hb⟩
    obtain ⟨t1, hrun, hfresh1, hb1, ⟨extra, hmap, -, -, hnil, hsent1⟩, -, hmono, -⟩ :=
      fim_run_visit_effect sys os fuel report v t ht (hok v hv) (by rw [hent]; exact hfuel)
    have hsv : fim_visit_settled sys os t v :=
      fim_visit_settled_mono sys os s3 t [] (by rw [hent, List.append_nil]) v (hset v hv)
    have hex := hnil hsv
    subst hex
    rw [List.append_nil] at hmap
    have hall_t : ∀ e ∈ t.database.entries, e.data.scanned = true := by
      rw [hent]
      exact hall
    have hall1 : ∀ e ∈ t1.database.entries, e.data.scanned = true :=
      fun e he => hmono e.path (fun e0 he0 _ => hall_t e0 he0) e he rfl
    have heq := fim_unscan_map_eq_scanned _ _ hmap hall1 hall_t
    exact ⟨t1, hrun, hfresh1, heq.trans hent, (hsent1 (Or.inl rfl)).trans hsent, hb1.trans hb⟩

/-- The effect of a scheduled scan on a store that agrees with the file
system and whose entries are all files of the traversal, with fuel for the
stored entries and the visits: the scan returns with the baseline set; the
store still agrees with the file system and every entry is scanned; the
entries are the same up to their scanned flags except for new entries of
visited files, none if every visit was settled before; if no entry is new or
the baseline was not set, exactly the two scan brackets are sent; and every
visit is settled afterwards. -/
theorem fim_scan_effect (sys : syscheck_t) (os : os_t) (fuel : Nat) (vs : List fim_visit)
    (s : fim_state) (hs : fim_store_fresh sys os s)
    (hw : fim_scan_walk sys os fuel (List.range sys.dir.length) = .ok vs)
    (hcov : ∀ e ∈ s.database.entries, ∃ item, fim_visit.file e.path item ∈ vs)
    (hfuel : s.database.entries.length + vs.length ≤ fuel) :
    ∃ s5, fim_scan sys os fuel s = .ok s5
      ∧ fim_store_fresh sys os s5
      ∧ s5._base_line = true
      ∧ (∀ e ∈ s5.database.entries, e.data.scanned = true)
      ∧ (∃ extra,
          s5.database.entries.map fim_unscan = s.database.entries.map fim_unscan ++ extra
          ∧ extra.length ≤ vs.length
          ∧ (∀ x ∈ extra, ∃ item, fim_visit.file x.path item ∈ vs)
          ∧ ((∀ v ∈ vs, fim_visit_settled sys os s v) → extra = [])
          ∧ ((extra = [] ∨ s._base_line = false) →
              s5.sent = s.sent
                ++ [fim_scan_info_json true os.time, fim_scan_info_json false os.time]))
      ∧ (∀ v ∈ vs, fim_visit_settled sys os s5 v) := by
  have hmap2 := fim_scan_start_unscan os s hs.1
  have hf2 := fim_scan_start_failing os s hs.1
  have hs2 := fim_store_fresh_of_unscan sys os s _ hs hf2 hmap2
  have hlen2 : ({ fim_send_scan_info os true s with
      database := fim_db_set_all_unscanned (fim_send_scan_info os true s).database
    } : fim_state).database.entries.length = s.database.entries.length := by
    have := congrArg List.length hmap2
    simpa using this
  have hok := fim_scan_walk_good sys os fuel _ vs hw
  obtain ⟨s3, hrun, hfresh3, hb3, ⟨extra, hmap3, hlen3, horig3, hset3, hsent3⟩, hsettled3,
    hsc3⟩ := fim_run_visits_effect sys os fuel true vs _ hs2 hok (by omega)
  have hpass1 := (fim_scan_dirs_walk (fim_resolve_db_collision sys os fuel) sys os fuel true
    (List.range sys.dir.length) _ s3).mpr ⟨vs, hw, hrun⟩
  rw [hmap2] at hmap3
  have hall3 : ∀ e ∈ s3.database.entries, e.data.scanned = true := by
    intro e3 he3
    apply hsc3 e3.path _ e3 he3 rfl
    right
    have hm : fim_unscan e3 ∈ s.database.entries.map fim_unscan ++ extra := by
      rw [← hmap3]
      exact List.mem_map_of_mem _ he3
    rcases List.mem_append.mp hm with hm | hm
    · obtain ⟨e, he, hee⟩ := List.mem_map.mp hm
      obtain ⟨item, hi⟩ := hcov e he
      have hp : e.path = e3.path := congrArg (fun x => x.path) hee
      exact ⟨item, hp ▸ hi⟩
    · exact horig3 (fim_unscan e3) hm
  have hcd := check_deleted_files_scanned sys os s3 hfresh3.1 hall3
  have hl3 := congrArg List.length hmap3
  simp only [List.length_map, List.length_append] at hl3
  have hpass2 : ∀ (c : Prop) [Decidable c], ∃ s4,
      (if c then fim_scan_dirs (fim_resolve_db_collision sys os fuel) sys os fuel false true
          (List.range sys.dir.length) s3 else .ok s3) = .ok s4
      ∧ fim_store_fresh sys os s4 ∧ s4.database.entries = s3.database.entries
      ∧ s4.sent = s3.sent ∧ s4._base_line = s3._base_line := by
    intro c _
    by_cases hc : c
    · rw [if_pos hc]
      exact fim_scan_dirs_settled sys os fuel false true _ vs s3 hw hfresh3 hall3 hsettled3
        (by omega)
    · rw [if_neg hc]
      exact ⟨s3, rfl, hfresh3, rfl, rfl, rfl⟩
  obtain ⟨s4, hp2, hfresh4, hent4, hsent4, hb4⟩ := hpass2
    (sys.file_limit_enabled = true
      ∧ (if sys.file_limit_enabled = true then fim_db_get_count_entries s3.database else 0)
        ≥ sys.file_limit)
  have hframe := fim_check_db_state_frame sys s4
  have hdb6 : (if sys.file_limit_enabled = true then fim_check_db_state sys s4 else s4).database
      = s4.database := by
    split
    · exact hframe.1
    · rfl
  have hsent6 : (if sys.file_limit_enabled = true then fim_check_db_state sys s4 else s4).sent
      = s4.sent := by
    split
    · exact hframe.2.1
    · rfl
  refine ⟨fim_send_scan_info os false
    { (if sys.file_limit_enabled = true then fim_check_db_state sys s4 else s4) with
      _base_line := true }, ?_, ?_, rfl, ?_, ⟨extra, ?_, hlen3, horig3, ?_, ?_⟩, ?_⟩
  · unfold fim_scan
    simp only [hpass1, hcd, hp2]
  · exact fim_store_fresh_of_unscan sys os s4 _ hfresh4
      (by show ((if sys.file_limit_enabled = true then fim_check_db_state sys s4
            else s4).database).failing = []
          rw [hdb6]
          exact hfresh4.1)
      (by show ((if sys.file_limit_enabled = true then fim_check_db_state sys s4
            else s4).database).entries.map fim_unscan = _
          rw [hdb6])
  · show ∀ e ∈ ((if sys.file_limit_enabled = true then fim_check_db_state sys s4
        else s4).database).entries, e.data.scanned = true
    rw [hdb6, hent4]
    exact hall3
  · show ((if sys.file_limit_enabled = true then fim_check_db_state sys s4
        else s4).database).entries.map fim_unscan = _
    rw [hdb6, hent4, hmap3]
  · intro hall
    apply hset3
    intro v hv
    exact fim_visit_settled_mono sys os s _ [] (by rw [hmap2, List.append_nil]) v (hall v hv)
  · intro h
    show (if sys.file_limit_enabled = true then fim_check_db_state sys s4 else s4).sent
      ++ [fim_scan_info_json false os.time] = _
    rw [hsent6, hsent4, hsent3 (by
      rcases h with h | h
      · exact Or.inl h
      · exact Or.inr (Or.inl h))]
    simp [fim_send_scan_info, send_syscheck_msg]
  · intro v hv
    refine fim_visit_settled_mono sys os s3 _ [] ?_ v (hsettled3 v hv)
    show ((if sys.file_limit_enabled = true then fim_check_db_state sys s4
        else s4).database).entries.map fim_unscan = _
    rw [hdb6, hent4, List.append_nil]

/-! The time of the scan is read by extraction only, for the time of the
event of the record. -/

/-- C6 (counterexample): from the state at start, a real-time event for the
new file `/m/a` stores it and sends nothing, the baseline not being set; when
the file is removed, the real-time event for it sends a `deleted` event,
although `_base_line` is still false. -/
theorem C6_counterexample :
    ((fim_checker (fim_resolve_db_collision c6_sys sample_os 5) c6_sys sample_os 5 "/m/a" c6_item
        none true initial_state).bind fun r1 =>
      (fim_checker (fim_resolve_db_collision c6_sys c6_os 5) c6_sys c6_os 5 "/m/a" c6_item none
        true r1.2).map fun r2 =>
        (r1.2._base_line, r1.2.sent.map syscheck_msg_kind,
          r1.2.database.entries.map (fun e => e.path),
          r2.2._base_line, r2.2.sent.map syscheck_msg_kind))
      = .ok (false, [], ["/m/a"], false, [("deleted", "/m/a")]) := by
  rfl

/-- C6 (amended): the first scheduled scan, started without baseline from the
empty store on which no operation fails, with fuel for the traversal and its
visits, returns with the baseline set and hands to the transport exactly
`scan_start` and `scan_end`; and `fim_file` hands the event built by
`_fim_file` to the transport exactly when `_base_line` is set and `report` is
true, and nothing else. -/
theorem C6_baseline_gating (sys : syscheck_t) (os : os_t) (fuel : Nat) (vs : List fim_visit)
    (s : fim_state) (he : s.database.entries = []) (hf : s.database.failing = [])
    (hb : s._base_line = false)
    (hw : fim_scan_walk sys os fuel (List.range sys.dir.length) = .ok vs)
    (hfuel : vs.length ≤ fuel) :
    (∃ s1, fim_scan sys os fuel s = .ok s1
        ∧ s1.sent = s.sent
            ++ [fim_scan_info_json true os.time, fim_scan_info_json false os.time]
        ∧ s1._base_line = true)
      ∧ ∀ (resolve : fim_resolver) (file : String) (item : fim_element)
          (w_evt : Option whodata_evt) (report : Bool) (t t1 : fim_state)
          (ev : Option fim_event),
          _fim_file resolve sys os file item w_evt t = .ok (ev, t1) →
          fim_file resolve sys os file item w_evt report t
            = .ok (if t1._base_line = true ∧ report = true then fim_send_event ev t1 else t1) := by
  constructor
  · have hs : fim_store_fresh sys os s := by
      refine ⟨hf, ?_, ?_⟩
      · unfold fim_db_keyed
        rw [he]
        exact List.nodup_nil
      · intro e hmem
        rw [he] at hmem
        cases hmem
    obtain ⟨s1, h1, -, hb1, -, ⟨extra, -, -, -, -, hsent⟩, -⟩ :=
      fim_scan_effect sys os fuel vs s hs hw
        (by
          intro e hmem
          rw [he] at hmem
          cases hmem)
        (by
          rw [he]
          simpa using hfuel)
    exact ⟨s1, h1, hsent (Or.inr hb), hb1⟩
  · intro resolve file item w_evt report t t1 ev h
    unfold fim_file
    rw [h]
    cases ev with
    | none =>
      simp only [fim_send_event]
      split <;> rfl
    | some e =>
      simp only [fim_send_event]
      split <;> rfl

/-- Witness of C6 (amended): the first scan of the sample system. -/
theorem C6_baseline_gating_witness :
    (∃ s1, fim_scan sample_sys sample_os 5 initial_state = .ok s1
        ∧ s1.sent = initial_state.sent
            ++ [fim_scan_info_json true sample_os.time, fim_scan_info_json false sample_os.time]
        ∧ s1._base_line = true)
      ∧ ∀ (resolve : fim_resolver) (file : String) (item : fim_element)
          (w_evt : Option whodata_evt) (report : Bool) (t t1 : fim_state)
          (ev : Option fim_event),
          _fim_file resolve sample_sys sample_os file item w_evt t = .ok (ev, t1) →
          fim_file resolve sample_sys sample_os file item w_evt report t
            = .ok (if t1._base_line = true ∧ report = true then fim_send_event ev t1 else t1) :=
  C6_baseline_gating sample_sys sample_os 5 [.file "/m/a" sample_item] initial_state rfl rfl rfl
    (by rfl) (by decide)

theorem bit_length_aux_zero (fuel : Nat) : bit_length_aux fuel 0 = 0 := by
  cases fuel <;> simp [bit_length_aux]

/-- With enough fuel, `bit_length_aux` is the number of binary digits. -/
theorem bit_length_aux_spec :
    ∀ (fuel n : Nat), n < 2 ^ fuel →
      n < 2 ^ bit_length_aux fuel n ∧ (0 < n → 2 ^ (bit_length_aux fuel n - 1) ≤ n) := by
  intro fuel
  induction fuel with
  | zero =>
    intro n hn
    simp only [pow_zero, Nat.lt_one_iff] at hn
    subst hn
    simp [bit_length_aux]
  | succ k ih =>
    intro n hn
    by_cases h0 : n = 0
    · subst h0
      simp [bit_length_aux]
    · have hhalf : n / 2 < 2 ^ k := by
        rw [pow_succ] at hn
        omega
      obtain ⟨h1, h2⟩ := ih (n / 2) hhalf
      simp only [bit_length_aux, h0, ↓reduceIte, Nat.add_sub_cancel]
      constructor
      · rw [pow_succ]
        omega
      · intro _
        by_cases hq : n / 2 = 0
        · rw [hq, bit_length_aux_zero]
          simp only [pow_zero]
          omega
        · have hpos : 0 < bit_length_aux k (n / 2) := by
            by_contra hc
            have hz : bit_length_aux k (n / 2) = 0 := by omega
            rw [hz] at h1
            simp only [pow_zero, Nat.lt_one_iff] at h1
            exact hq h1
          have h3 := h2 (by omega)
          have hp : 2 ^ bit_length_aux k (n / 2) = 2 * 2 ^ (bit_length_aux k (n / 2) - 1) := by
            conv_lhs => rw [show bit_length_aux k (n / 2)
              = (bit_length_aux k (n / 2) - 1) + 1 by omega]
            rw [pow_succ]
            omega
          omega

theorem bit_length_spec (n : Nat) :
    n < 2 ^ bit_length n ∧ (0 < n → 2 ^ (bit_length n - 1) ≤ n) :=
  bit_length_aux_spec n n (Nat.lt_two_pow n)

/-- The binary64 product is within half a unit in the last place of the exact
product: the distance, scaled by `2 ^ 53`, is at most the exact product. -/
theorem double_mul_nat_near (L m : Nat) :
    double_mul_nat L m * 2 ^ 53 ≤ L * m * 2 ^ 53 + L * m
      ∧ L * m * 2 ^ 53 ≤ double_mul_nat L m * 2 ^ 53 + L * m := by
  unfold double_mul_nat
  generalize L * m = x
  by_cases he : bit_length x - 53 = 0
  · rw [if_pos he]
    omega
  · rw [if_neg he]
    obtain ⟨hlt, hge⟩ := bit_length_spec x
    have hx0 : 0 < x := by
      rcases Nat.eq_zero_or_pos x with h | h
      · subst h
        simp [bit_length, bit_length_aux] at he
      · exact h
    have hge := hge hx0
    generalize hE : bit_length x - 53 = e at he ⊢
    have hP : 2 ^ e = 2 * 2 ^ (e - 1) := by
      conv_lhs => rw [show e = (e - 1) + 1 by omega]
      rw [pow_succ]
      omega
    have hhalf : 2 ^ (e - 1) * 2 ^ 53 ≤ x := by
      rw [← pow_add]
      have : e - 1 + 53 = bit_length x - 1 := by omega
      rw [this]
      exact hge
    have hdm := Nat.div_add_mod x (2 ^ e)
    have hr : x % 2 ^ e < 2 ^ e := Nat.mod_lt _ (by positivity)
    generalize hq : 2 ^ e * (x / 2 ^ e) = qP at hdm
    split
    · rename_i hup
      rw [Nat.add_mul, Nat.mul_comm (x / 2 ^ e), hq, Nat.one_mul]
      omega
    · rename_i hup
      rw [Nat.mul_comm (x / 2 ^ e), hq]
      omega

/-- The binary64 product is the exact product rounded down to `E` when `E` is
a multiple of `2 ^ 53` below the product by less than half a unit in the last
place. -/
theorem double_mul_nat_exact (L m E d : Nat) (hx : L * m = E + d) (hE : 2 ^ 53 ∣ E)
    (hlt : L * m < 2 ^ 106) (hge : 2 ^ 53 ≤ L * m) (hd : d * 2 ^ 54 ≤ L * m) :
    double_mul_nat L m = E := by
  unfold double_mul_nat
  generalize L * m = x at hx hlt hge hd ⊢
  obtain ⟨hblt, hbge⟩ := bit_length_spec x
  have hbge := hbge (by omega)
  have h53 : 53 < bit_length x := by
    by_contra hc
    have := Nat.pow_le_pow_right (by decide : 0 < 2) (by omega : bit_length x ≤ 53)
    omega
  have h106 : bit_length x ≤ 106 := by
    by_contra hc
    have := Nat.pow_le_pow_right (by decide : 0 < 2) (by omega : 106 ≤ bit_length x - 1)
    omega
  generalize hE1 : bit_length x - 53 = e
  have he1 : 1 ≤ e := by omega
  have he2 : e ≤ 53 := by omega
  rw [if_neg (by omega)]
  have hP : 2 ^ e = 2 * 2 ^ (e - 1) := by
    conv_lhs => rw [show e = (e - 1) + 1 by omega]
    rw [pow_succ]
    omega
  obtain ⟨c, hc⟩ : 2 ^ e ∣ E := Dvd.dvd.trans (pow_dvd_pow 2 he2) hE
  have hhalf : x < 2 ^ (e - 1) * 2 ^ 54 := by
    rw [← pow_add]
    have : e - 1 + 54 = bit_length x := by omega
    rw [this]
    exact hblt
  have hdlt : d < 2 ^ (e - 1) := by
    by_contra hcon
    have := Nat.mul_le_mul_right (2 ^ 54) (by omega : 2 ^ (e - 1) ≤ d)
    omega
  have hpos : 0 < 2 ^ e := by positivity
  have hdiv : x / 2 ^ e = c := by
    rw [hx, hc, Nat.mul_add_div hpos, Nat.div_eq_of_lt (by omega)]
    rfl
  have hmod : x % 2 ^ e = d := by
    rw [hx, hc, Nat.mul_add_mod, Nat.mod_eq_of_lt (by omega)]
  rw [hdiv, hmod, if_neg (by omega), hc, Nat.mul_comm]

theorem double_mul_nat_zero (m : Nat) : double_mul_nat 0 m = 0 := by
  simp [double_mul_nat, bit_length, bit_length_aux]

/-- The comparison of a count with the binary64 product `file_limit * 0.8`
is the exact comparison with four fifths of the limit, for a limit in the
range of a non-negative `int`. -/
theorem count_lt_limit_times_0_8 (n L : Int) (h0 : 0 ≤ L) (h1 : L < 2 ^ 31) :
    count_lt_limit_times n L DBL_0_8 = decide (5 * n < 4 * L) := by
  unfold count_lt_limit_times double_mul
  rw [if_neg (by omega)]
  apply decide_eq_decide.mpr
  obtain ⟨k, rfl⟩ := Int.eq_ofNat_of_zero_le h0
  simp only [Int.natAbs_ofNat]
  have hnear := double_mul_nat_near k DBL_0_8
  generalize hT : double_mul_nat k DBL_0_8 = T at hnear
  simp only [DBL_0_8] at hnear hT
  by_cases hD : 5 * n = 4 * (k : Int)
  · rcases Nat.eq_zero_or_pos k with hk | hk
    · subst hk
      rw [double_mul_nat_zero] at hT
      omega
    · obtain ⟨j, rfl⟩ := Int.eq_ofNat_of_zero_le (by omega : 0 ≤ n)
      have hex := double_mul_nat_exact k 7205759403792794 (j * 2 ^ 53)
        (k * 7205759403792794 - j * 2 ^ 53) (by omega) (Dvd.intro_left j rfl) (by omega)
        (by omega) (by omega)
      rw [hT] at hex
      omega
  · omega

/-- The comparison of a count with the binary64 product `file_limit * 0.9`
is the exact comparison with nine tenths of the limit, for a limit in the
range of a non-negative `int`. -/
theorem count_lt_limit_times_0_9 (n L : Int) (h0 : 0 ≤ L) (h1 : L < 2 ^ 31) :
    count_lt_limit_times n L DBL_0_9 = decide (10 * n < 9 * L) := by
  unfold count_lt_limit_times double_mul
  rw [if_neg (by omega)]
  apply decide_eq_decide.mpr
  obtain ⟨k, rfl⟩ := Int.eq_ofNat_of_zero_le h0
  simp only [Int.natAbs_ofNat]
  have hnear := double_mul_nat_near k DBL_0_9
  generalize hT : double_mul_nat k DBL_0_9 = T at hnear
  simp only [DBL_0_9] at hnear hT
  by_cases hD : 10 * n = 9 * (k : Int)
  · rcases Nat.eq_zero_or_pos k with hk | hk
    · subst hk
      rw [double_mul_nat_zero] at hT
      omega
    · obtain ⟨j, rfl⟩ := Int.eq_ofNat_of_zero_le (by omega : 0 ≤ n)
      have hex := double_mul_nat_exact k 8106479329266893 (j * 2 ^ 53)
        (k * 8106479329266893 - j * 2 ^ 53) (by omega) (Dvd.intro_left j rfl) (by omega)
        (by omega) (by omega)
      rw [hT] at hex
      omega
  · omega

/-- C11: capacity scenario. With the capacity 10, starting in state `Empty`,
successive calls of `fim_check_db_state` on stores with 8, 9, 10 and 7
entries emit exactly one alert per call, of type `80_percentage`,
`90_percentage`, `full` and `normal` in that order. -/
theorem C11_capacity_scenario (sys : syscheck_t) (s : fim_state) (db8 db9 db10 db7 : fdb_t)
    (hl : sys.file_limit = 10) (hs : s._db_state = FIM_STATE_DB_EMPTY)
    (h8 : fim_db_get_count_entries db8 = 8) (h9 : fim_db_get_count_entries db9 = 9)
    (h10 : fim_db_get_count_entries db10 = 10) (h7 : fim_db_get_count_entries db7 = 7) :
    (fim_check_db_run sys [db8] s).logged
        = s.logged ++ [{ file_limit := 10, file_count := 8, alert_type := "80_percentage" }]
      ∧ (fim_check_db_run sys [db8, db9] s).logged
        = s.logged ++ [{ file_limit := 10, file_count := 8, alert_type := "80_percentage" },
            { file_limit := 10, file_count := 9, alert_type := "90_percentage" }]
      ∧ (fim_check_db_run sys [db8, db9, db10] s).logged
        = s.logged ++ [{ file_limit := 10, file_count := 8, alert_type := "80_percentage" },
            { file_limit := 10, file_count := 9, alert_type := "90_percentage" },
            { file_limit := 10, file_count := 10, alert_type := "full" }]
      ∧ (fim_check_db_run sys [db8, db9, db10, db7] s).logged
        = s.logged ++ [{ file_limit := 10, file_count := 8, alert_type := "80_percentage" },
            { file_limit := 10, file_count := 9, alert_type := "90_percentage" },
            { file_limit := 10, file_count := 10, alert_type := "full" },
            { file_limit := 10, file_count := 7, alert_type := "normal" }] := by
  have e8 : count_lt_limit_times 8 10 DBL_0_8 = false := by decide
  have e9 : count_lt_limit_times 9 10 DBL_0_9 = false := by decide
  have e89 : count_lt_limit_times 8 10 DBL_0_9 = true := by decide
  have e78 : count_lt_limit_times 7 10 DBL_0_8 = true := by decide
  have e79 : count_lt_limit_times 7 10 DBL_0_9 = true := by decide
  have s1 : fim_check_db_state sys { s with database := db8 }
      = send_log_msg { file_limit := 10, file_count := 8, alert_type := "80_percentage" }
          { s with database := db8, _db_state := FIM_STATE_DB_80_PERCENTAGE } := by
    simp [fim_check_db_state, hl, hs, h8, e8, e89]
  have s2 : ∀ t : fim_state, t._db_state = FIM_STATE_DB_80_PERCENTAGE →
      fim_check_db_state sys { t with database := db9 }
        = send_log_msg { file_limit := 10, file_count := 9, alert_type := "90_percentage" }
            { t with database := db9, _db_state := FIM_STATE_DB_90_PERCENTAGE } := by
    intro t ht
    simp [fim_check_db_state, hl, h9, e9, ht]
  have s3 : ∀ t : fim_state, t._db_state = FIM_STATE_DB_90_PERCENTAGE →
      fim_check_db_state sys { t with database := db10 }
        = send_log_msg { file_limit := 10, file_count := 10, alert_type := "full" }
            { t with database := db10, _db_state := FIM_STATE_DB_FULL } := by
    intro t ht
    simp [fim_check_db_state, hl, h10, ht]
  have s4 : ∀ t : fim_state, t._db_state = FIM_STATE_DB_FULL →
      fim_check_db_state sys { t with database := db7 }
        = send_log_msg { file_limit := 10, file_count := 7, alert_type := "normal" }
            { t with database := db7, _db_state := FIM_STATE_DB_NORMAL } := by
    intro t ht
    simp [fim_check_db_state, hl, h7, e78, e79, ht]
  refine ⟨?_, ?_, ?_, ?_⟩
  · simp only [fim_check_db_run, s1]
    rfl
  · simp only [fim_check_db_run, s1]
    rw [s2 _ rfl]
    simp [send_log_msg]
  · simp only [fim_check_db_run, s1]
    rw [s2 _ rfl, s3 _ rfl]
    simp [send_log_msg]
  · simp only [fim_check_db_run, s1]
    rw [s2 _ rfl, s3 _ rfl, s4 _ rfl]
    simp [send_log_msg]

/-- Witness of C11: the scenario on the sample configuration with capacity
10, from the state at start. -/
theorem C11_capacity_scenario_witness :
    (fim_check_db_run c11_sys [fim_db_of_count 8] initial_state).logged
        = initial_state.logged
          ++ [{ file_limit := 10, file_count := 8, alert_type := "80_percentage" }]
      ∧ (fim_check_db_run c11_sys [fim_db_of_count 8, fim_db_of_count 9] initial_state).logged
        = initial_state.logged
          ++ [{ file_limit := 10, file_count := 8, alert_type := "80_percentage" },
            { file_limit := 10, file_count := 9, alert_type := "90_percentage" }]
      ∧ (fim_check_db_run c11_sys [fim_db_of_count 8, fim_db_of_count 9, fim_db_of_count 10]
          initial_state).logged
        = initial_state.logged
          ++ [{ file_limit := 10, file_count := 8, alert_type := "80_percentage" },
            { file_limit := 10, file_count := 9, alert_type := "90_percentage" },
            { file_limit := 10, file_count := 10, alert_type := "full" }]
      ∧ (fim_check_db_run c11_sys
          [fim_db_of_count 8, fim_db_of_count 9, fim_db_of_count 10, fim_db_of_count 7]
          initial_state).logged
        = initial_state.logged
          ++ [{ file_limit := 10, file_count := 8, alert_type := "80_percentage" },
            { file_limit := 10, file_count := 9, alert_type := "90_percentage" },
            { file_limit := 10, file_count := 10, alert_type := "full" },
            { file_limit := 10, file_count := 7, alert_type := "normal" }] :=
  C11_capacity_scenario c11_sys initial_state (fim_db_of_count 8) (fim_db_of_count 9)
    (fim_db_of_count 10) (fim_db_of_count 7) rfl rfl (by decide) (by decide) (by decide)
    (by decide)

/-- C13 (counterexample): with the capacity 10, the call in state `Empty`
with one entry moves to `Normal` and the call in state `Normal` with no entry
moves to `Empty`, and neither emits an alert. -/
theorem C13_counterexample :
    (fim_check_db_state c11_sys
        { initial_state with database := fim_db_of_count 1 })
      = { initial_state with database := fim_db_of_count 1, _db_state := FIM_STATE_DB_NORMAL }
    ∧ (fim_check_db_state c11_sys
        { initial_state with database := fim_db_of_count 1 }).logged = []
    ∧ (fim_check_db_state c11_sys
        { initial_state with database := fim_db_of_count 0, _db_state := FIM_STATE_DB_NORMAL })
      = { initial_state with database := fim_db_of_count 0, _db_state := FIM_STATE_DB_EMPTY }
    ∧ (fim_check_db_state c11_sys
        { initial_state with database := fim_db_of_count 0,
                             _db_state := FIM_STATE_DB_NORMAL }).logged = [] := by
  decide

/-- C13 (amended): for a capacity in the range of a non-negative `int`, when
`fim_check_db_state` runs in state `Empty` with a count `0 < N < 0.8 * C` the
state becomes `Normal`, and when it runs in state `Normal` with `N = 0` the
state becomes `Empty`; in both cases nothing else changes: no alert is
emitted. -/
theorem C13_empty_normal_silent (sys : syscheck_t) (s : fim_state)
    (h0 : 0 ≤ sys.file_limit) (h1 : sys.file_limit < 2 ^ 31) :
    (s._db_state = FIM_STATE_DB_EMPTY → 0 < fim_db_get_count_entries s.database →
      5 * fim_db_get_count_entries s.database < 4 * sys.file_limit →
      fim_check_db_state sys s = { s with _db_state := FIM_STATE_DB_NORMAL })
    ∧ (s._db_state = FIM_STATE_DB_NORMAL → fim_db_get_count_entries s.database = 0 →
      fim_check_db_state sys s = { s with _db_state := FIM_STATE_DB_EMPTY }) := by
  constructor
  · intro hs hpos hlt
    have h80 := count_lt_limit_times_0_8 (fim_db_get_count_entries s.database) sys.file_limit
      h0 h1
    rw [decide_eq_true hlt] at h80
    unfold fim_check_db_state
    simp only [hs, h80]
    rw [if_neg (by omega), if_neg (by omega)]
    simp
  · intro hs hz
    unfold fim_check_db_state
    simp [hs, hz]

/-- Witness of C13 (amended): the two silent transitions at capacity 10. -/
theorem C13_empty_normal_silent_witness :
    fim_check_db_state c11_sys { initial_state with database := fim_db_of_count 1 }
        = { initial_state with database := fim_db_of_count 1,
                               _db_state := FIM_STATE_DB_NORMAL }
      ∧ fim_check_db_state c11_sys
          { initial_state with database := fim_db_of_count 0, _db_state := FIM_STATE_DB_NORMAL }
        = { initial_state with database := fim_db_of_count 0,
                               _db_state := FIM_STATE_DB_EMPTY } :=
  ⟨(C13_empty_normal_silent c11_sys { initial_state with database := fim_db_of_count 1 }
      (by decide) (by decide)).1 rfl (by decide) (by decide),
    (C13_empty_normal_silent c11_sys
      { initial_state with database := fim_db_of_count 0, _db_state := FIM_STATE_DB_NORMAL }
      (by decide) (by decide)).2 rfl (by decide)⟩

/-- The capacity check with the comparisons against the binary64 products
replaced by the exact comparisons, for a capacity in the range of a
non-negative `int`. -/
theorem fim_check_db_state_exact (sys : syscheck_t) (s : fim_state)
    (h0 : 0 ≤ sys.file_limit) (h1 : sys.file_limit < 2 ^ 31) :
    count_lt_limit_times (fim_db_get_count_entries s.database) sys.file_limit DBL_0_9
        = decide (10 * fim_db_get_count_entries s.database < 9 * sys.file_limit)
      ∧ count_lt_limit_times (fim_db_get_count_entries s.database) sys.file_limit DBL_0_8
        = decide (5 * fim_db_get_count_entries s.database < 4 * sys.file_limit) :=
  ⟨count_lt_limit_times_0_9 _ _ h0 h1, count_lt_limit_times_0_8 _ _ h0 h1⟩

theorem fim_state_set_db_state (s : fim_state) (st : fim_state_db) (h : s._db_state = st) :
    s = { s with _db_state := st } := by
  cases s
  simp only at h
  subst h
  rfl

/-- The capacity check is the transition table in exact arithmetic, for a
capacity in the range of a non-negative `int`: the comparisons with the
binary64 products `file_limit * 0.9` and `file_limit * 0.8` decide the exact
comparisons with nine tenths and four fifths of the capacity. -/
theorem fim_check_db_state_table (sys : syscheck_t) (s : fim_state)
    (h0 : 0 ≤ sys.file_limit) (h1 : sys.file_limit < 2 ^ 31) :
    fim_check_db_state sys s = fim_db_table sys s := by
  obtain ⟨e9, e8⟩ := fim_check_db_state_exact sys s h0 h1
  unfold fim_check_db_state fim_db_table
  simp only [e9, e8]
  clear e9 e8 h0 h1
  generalize fim_db_get_count_entries s.database = n
  generalize sys.file_limit = c
  by_cases hn : n < 0
  · rw [if_pos hn, if_pos hn]
  · rw [if_neg hn, if_neg hn]
    have hband : (if n ≥ c then
          send_log_msg { file_limit := c, file_count := n, alert_type := "full" }
            { s with _db_state := FIM_STATE_DB_FULL }
        else if (!decide (10 * n < 9 * c)) = true then
          send_log_msg { file_limit := c, file_count := n, alert_type := "90_percentage" }
            { s with _db_state := FIM_STATE_DB_90_PERCENTAGE }
        else if (!decide (5 * n < 4 * c)) = true then
          send_log_msg { file_limit := c, file_count := n, alert_type := "80_percentage" }
            { s with _db_state := FIM_STATE_DB_80_PERCENTAGE }
        else if n > 0 then
          send_log_msg { file_limit := c, file_count := n, alert_type := "normal" }
            { s with _db_state := FIM_STATE_DB_NORMAL }
        else
          send_log_msg { file_limit := c, file_count := n, alert_type := "normal" }
            { s with _db_state := FIM_STATE_DB_EMPTY })
        = send_log_msg
            { file_limit := c, file_count := n,
              alert_type := fim_db_alert_type (fim_db_band_of c n) }
            { s with _db_state := fim_db_band_of c n } := by
      unfold fim_db_band_of
      by_cases a1 : c ≤ n
      · rw [if_pos a1, if_pos a1]
        rfl
      · rw [if_neg a1, if_neg a1]
        by_cases a2 : 9 * c ≤ 10 * n
        · rw [if_pos a2, if_pos (by simpa using a2)]
          rfl
        · rw [if_neg a2, if_neg (by simpa using a2)]
          by_cases a3 : 4 * c ≤ 5 * n
          · rw [if_pos a3, if_pos (by simpa using a3)]
            rfl
          · rw [if_neg a3, if_neg (by simpa using a3)]
            by_cases a4 : 0 < n
            · rw [if_pos a4, if_pos a4]
              rfl
            · rw [if_neg a4, if_neg a4]
              rfl
    rw [hband]
    clear hband
    cases hst : s._db_state
    · -- Empty
      simp only [fim_db_quiet]
      by_cases b1 : n = 0
      · simp [b1]
        exact fim_state_set_db_state s _ hst
      · by_cases b2 : 5 * n < 4 * c
        · simp [b1, b2]
        · simp [b1, b2]
    · -- Normal
      simp only [fim_db_quiet]
      by_cases b1 : n = 0
      · simp [b1]
      · by_cases b2 : 5 * n < 4 * c
        · simp [b1, b2]
          exact fim_state_set_db_state s _ hst
        · simp [b1, b2]
    · -- Warn80
      simp only [fim_db_quiet]
      by_cases b1 : 10 * n < 9 * c ∧ 4 * c ≤ 5 * n
      · have b2 : ¬ 5 * n < 4 * c := by omega
        simp [b1, b2]
        exact fim_state_set_db_state s _ hst
      · rw [if_neg b1]
        rw [if_neg]
        intro hc
        apply b1
        simp only [Bool.not_eq_true', decide_eq_false_iff_not, decide_eq_true_eq] at hc
        omega
    · -- Warn90
      simp only [fim_db_quiet]
      by_cases b1 : n < c ∧ 9 * c ≤ 10 * n
      · have b2 : ¬ 10 * n < 9 * c := by omega
        simp [b1, b2]
        exact fim_state_set_db_state s _ hst
      · rw [if_neg b1]
        rw [if_neg]
        intro hc
        apply b1
        simp only [Bool.not_eq_true', decide_eq_false_iff_not] at hc
        omega
    · -- Full
      simp only [fim_db_quiet]
      by_cases b1 : c ≤ n
      · simp [b1]
        exact fim_state_set_db_state s _ hst
      · simp [b1]

/-- The state after the capacity check, per the transition table. -/
theorem fim_db_table_state (sys : syscheck_t) (s : fim_state) :
    (fim_db_table sys s)._db_state
      = if fim_db_get_count_entries s.database < 0 then s._db_state
        else (fim_db_quiet sys.file_limit (fim_db_get_count_entries s.database)
          s._db_state).getD
            (fim_db_band_of sys.file_limit (fim_db_get_count_entries s.database)) := by
  unfold fim_db_table
  split
  · rfl
  · split
    · rename_i h
      rw [h]
      rfl
    · rename_i h
      rw [h]
      rfl

/-- C14: thresholds of the capacity state machine. For every capacity `C` in
the range of a non-negative `int` and every count `N`, `fim_check_db_state`
moves to `Warn80` only when `N ≥ 0.8 * C`, to `Warn90` only when
`N ≥ 0.9 * C` and to `Full` only when `N ≥ C`; it leaves `Full` only when
`N < C`, leaves `Warn90` for a lower state only when `N < 0.9 * C`, and
leaves `Warn80` for a lower state only when `N < 0.8 * C`. -/
theorem C14_thresholds (sys : syscheck_t) (s : fim_state)
    (h0 : 0 ≤ sys.file_limit) (h1 : sys.file_limit < 2 ^ 31) :
    (s._db_state ≠ FIM_STATE_DB_80_PERCENTAGE →
        (fim_check_db_state sys s)._db_state = FIM_STATE_DB_80_PERCENTAGE →
        4 * sys.file_limit ≤ 5 * fim_db_get_count_entries s.database)
      ∧ (s._db_state ≠ FIM_STATE_DB_90_PERCENTAGE →
        (fim_check_db_state sys s)._db_state = FIM_STATE_DB_90_PERCENTAGE →
        9 * sys.file_limit ≤ 10 * fim_db_get_count_entries s.database)
      ∧ (s._db_state ≠ FIM_STATE_DB_FULL →
        (fim_check_db_state sys s)._db_state = FIM_STATE_DB_FULL →
        sys.file_limit ≤ fim_db_get_count_entries s.database)
      ∧ (s._db_state = FIM_STATE_DB_FULL →
        (fim_check_db_state sys s)._db_state ≠ FIM_STATE_DB_FULL →
        fim_db_get_count_entries s.database < sys.file_limit)
      ∧ (s._db_state = FIM_STATE_DB_90_PERCENTAGE →
        ((fim_check_db_state sys s)._db_state = FIM_STATE_DB_80_PERCENTAGE
          ∨ (fim_check_db_state sys s)._db_state = FIM_STATE_DB_NORMAL
          ∨ (fim_check_db_state sys s)._db_state = FIM_STATE_DB_EMPTY) →
        10 * fim_db_get_count_entries s.database < 9 * sys.file_limit)
      ∧ (s._db_state = FIM_STATE_DB_80_PERCENTAGE →
        ((fim_check_db_state sys s)._db_state = FIM_STATE_DB_NORMAL
          ∨ (fim_check_db_state sys s)._db_state = FIM_STATE_DB_EMPTY) →
        5 * fim_db_get_count_entries s.database < 4 * sys.file_limit) := by
  rw [fim_check_db_state_table sys s h0 h1, fim_db_table_state]
  clear h0 h1
  generalize fim_db_get_count_entries s.database = n
  generalize sys.file_limit = c
  generalize s._db_state = st
  unfold fim_db_band_of
  refine ⟨?_, ?_, ?_, ?_, ?_, ?_⟩
  all_goals
    intro hs
    cases st <;> (try simp at hs) <;> simp only [fim_db_quiet] <;> split_ifs <;> simp <;> omega

theorem fim_db_quiet_band (c n : Int) (hn : 0 ≤ n) :
    fim_db_quiet c n (fim_db_band_of c n) = some (fim_db_band_of c n) := by
  unfold fim_db_band_of
  split_ifs <;> simp only [fim_db_quiet] <;> split_ifs <;> first | rfl | omega

theorem fim_db_quiet_idem (c n : Int) (st st1 : fim_state_db)
    (h : fim_db_quiet c n st = some st1) : fim_db_quiet c n st1 = some st1 := by
  cases st <;> simp only [fim_db_quiet] at h <;> split_ifs at h <;> cases h <;>
    simp only [fim_db_quiet] <;> split_ifs <;> rfl

theorem fim_db_quiet_in_band (c n : Int) (st : fim_state_db) (h : fim_db_in_band c n st) :
    fim_db_quiet c n st = some st := by
  cases st <;> simp only [fim_db_in_band] at h <;> simp only [fim_db_quiet] <;> split_ifs <;>
    first | rfl | omega

/-- On a quiet row the table changes the state only. -/
theorem fim_db_table_quiet (sys : syscheck_t) (s : fim_state) (st : fim_state_db)
    (hn : 0 ≤ fim_db_get_count_entries s.database)
    (h : fim_db_quiet sys.file_limit (fim_db_get_count_entries s.database) s._db_state
      = some st) :
    fim_db_table sys s = { s with _db_state := st } := by
  unfold fim_db_table
  rw [if_neg (by omega), h]

/-- On a row with an alert the table moves to the band of the count and logs
one alert for it. -/
theorem fim_db_table_alert (sys : syscheck_t) (s : fim_state)
    (hn : 0 ≤ fim_db_get_count_entries s.database)
    (h : fim_db_quiet sys.file_limit (fim_db_get_count_entries s.database) s._db_state = none) :
    fim_db_table sys s
      = send_log_msg
          { file_limit := sys.file_limit, file_count := fim_db_get_count_entries s.database,
            alert_type := fim_db_alert_type
              (fim_db_band_of sys.file_limit (fim_db_get_count_entries s.database)) }
          { s with _db_state :=
              fim_db_band_of sys.file_limit (fim_db_get_count_entries s.database) } := by
  unfold fim_db_table
  rw [if_neg (by omega), h]

/-- C15: no repeated capacity alert. For a capacity in the range of a
non-negative `int`: when the current state already is the band of the count,
`fim_check_db_state` emits no alert and leaves the state unchanged; and for
every start state, a second consecutive call with the same store changes
nothing: it emits no alert. -/
theorem C15_no_repeated_alert (sys : syscheck_t) (s : fim_state)
    (h0 : 0 ≤ sys.file_limit) (h1 : sys.file_limit < 2 ^ 31) :
    (fim_db_in_band sys.file_limit (fim_db_get_count_entries s.database) s._db_state →
        fim_check_db_state sys s = s)
      ∧ fim_check_db_state sys (fim_check_db_state sys s) = fim_check_db_state sys s := by
  constructor
  · intro hb
    rw [fim_check_db_state_table sys s h0 h1]
    by_cases hn : fim_db_get_count_entries s.database < 0
    · unfold fim_db_table
      rw [if_pos hn]
    · rw [fim_db_table_quiet sys s _ (by omega) (fim_db_quiet_in_band _ _ _ hb)]
  · rw [fim_check_db_state_table sys s h0 h1, fim_check_db_state_table sys _ h0 h1]
    by_cases hn : fim_db_get_count_entries s.database < 0
    · have : fim_db_table sys s = s := by
        unfold fim_db_table
        rw [if_pos hn]
      rw [this, this]
    · cases hq : fim_db_quiet sys.file_limit (fim_db_get_count_entries s.database) s._db_state
        with
      | some st =>
        rw [fim_db_table_quiet sys s st (by omega) hq]
        rw [fim_db_table_quiet sys _ st
          (by show 0 ≤ fim_db_get_count_entries s.database; omega)
          (fim_db_quiet_idem _ _ _ _ hq)]
      | none =>
        rw [fim_db_table_alert sys s (by omega) hq]
        rw [fim_db_table_quiet sys _ _
          (by show 0 ≤ fim_db_get_count_entries s.database; omega)
          (fim_db_quiet_band sys.file_limit (fim_db_get_count_entries s.database) (by omega))]
        rfl

/-- Along a rising sequence of counts, a quiet row keeps the alerts that can
still come and the lower bound for the later counts. -/
theorem fim_db_up_quiet (c n m : Int) (st st1 : fim_state_db)
    (hfn : fim_db_floor c st n) (hfm : fim_db_floor c st m)
    (h : fim_db_quiet c n st = some st1) :
    fim_db_floor c st1 m ∧ fim_db_alerts_up st1 = fim_db_alerts_up st := by
  cases st <;> simp only [fim_db_quiet] at h <;> split_ifs at h <;> cases h <;>
    simp only [fim_db_floor] at hfn hfm ⊢ <;> (try simp only [fim_db_alerts_up]) <;>
    constructor <;> trivial

/-- Along a rising sequence of counts, a row with an alert announces a band
that was still to come, and the later counts stay at or above it. -/
theorem fim_db_up_alert (c n m : Int) (st : fim_state_db) (hnm : n ≤ m)
    (hfn : fim_db_floor c st n) (h : fim_db_quiet c n st = none) :
    fim_db_floor c (fim_db_band_of c n) m
      ∧ (fim_db_alert_type (fim_db_band_of c n) :: fim_db_alerts_up (fim_db_band_of c n)).Sublist
          (fim_db_alerts_up st) := by
  unfold fim_db_band_of
  cases st <;> simp only [fim_db_quiet] at h <;> split_ifs at h <;>
    simp only [fim_db_floor] at hfn <;> split_ifs <;>
    simp only [fim_db_floor, fim_db_alert_type, fim_db_alerts_up] <;>
    first
      | omega
      | (constructor
         · first | trivial | omega
         · decide)

/-- Along a falling sequence of counts, a quiet row keeps the alerts that can
still come and the upper bound for the later counts. -/
theorem fim_db_down_quiet (c n m : Int) (st st1 : fim_state_db) (hm : m ≤ n)
    (hfn : fim_db_ceil c st n) (hfm : fim_db_ceil c st m)
    (h : fim_db_quiet c n st = some st1) :
    fim_db_ceil c st1 m ∧ fim_db_alerts_down st1 = fim_db_alerts_down st := by
  cases st <;> simp only [fim_db_quiet] at h <;> split_ifs at h <;> cases h <;>
    simp only [fim_db_ceil] at hfn hfm ⊢ <;> (try simp only [fim_db_alerts_down]) <;>
    constructor <;> first | trivial | omega

/-- Along a falling sequence of counts, a row with an alert announces a band
that was still to come, and the later counts stay below its upper bound. -/
theorem fim_db_down_alert (c n m : Int) (st : fim_state_db) (hn : 0 ≤ n) (hm : m ≤ n) (hfn : fim_db_ceil c st n) (h : fim_db_quiet c n st = none) :
    fim_db_ceil c (fim_db_band_of c n) m
      ∧ (fim_db_alert_type (fim_db_band_of c n)
          :: fim_db_alerts_down (fim_db_band_of c n)).Sublist (fim_db_alerts_down st) := by
  unfold fim_db_band_of
  cases st <;> simp only [fim_db_quiet] at h <;> split_ifs at h <;>
    simp only [fim_db_ceil] at hfn <;> split_ifs <;>
    simp only [fim_db_ceil, fim_db_alert_type, fim_db_alerts_down] <;>
    first
      | omega
      | (constructor
         · first | trivial | omega
         · decide)

theorem fim_check_db_run_table (sys : syscheck_t) (h0 : 0 ≤ sys.file_limit)
    (h1 : sys.file_limit < 2 ^ 31) (db : fdb_t) (rest : List fdb_t) (s : fim_state) :
    fim_check_db_run sys (db :: rest) s
      = fim_check_db_run sys rest (fim_db_table sys { s with database := db }) := by
  simp only [fim_check_db_run, fim_check_db_state_table sys _ h0 h1]

/-- Rising counts: from a state whose lower bound the counts respect, the
alerts emitted by the successive calls are, in order, among those that can
still come. -/
theorem fim_check_db_run_up (sys : syscheck_t) (h0 : 0 ≤ sys.file_limit)
    (h1 : sys.file_limit < 2 ^ 31) :
    ∀ (dbs : List fdb_t) (s : fim_state),
      (dbs.map fim_db_get_count_entries).Pairwise (fun a b => a ≤ b) →
      (∀ m ∈ dbs.map fim_db_get_count_entries, 0 ≤ m → fim_db_floor sys.file_limit s._db_state m) →
      ∃ new, (fim_check_db_run sys dbs s).logged = s.logged ++ new
        ∧ (new.map (fun a => a.alert_type)).Sublist (fim_db_alerts_up s._db_state) := by
  intro dbs
  induction dbs with
  | nil =>
    intro s _ _
    exact ⟨[], by simp [fim_check_db_run], by simp⟩
  | cons db rest ih =>
    intro s hp hf
    simp only [List.map_cons, List.pairwise_cons] at hp
    rw [fim_check_db_run_table sys h0 h1]
    have hfrest : ∀ m ∈ rest.map fim_db_get_count_entries, 0 ≤ m →
        fim_db_floor sys.file_limit s._db_state m :=
      fun m hm => hf m (List.mem_cons_of_mem _ hm)
    by_cases hn : fim_db_get_count_entries db < 0
    · have ht : fim_db_table sys { s with database := db } = { s with database := db } := by
        unfold fim_db_table
        rw [if_pos hn]
      rw [ht]
      exact ih _ hp.2 hfrest
    · have hfn := hf _ (List.mem_cons_self _ _) (by omega)
      cases hq : fim_db_quiet sys.file_limit (fim_db_get_count_entries db) s._db_state with
      | some st =>
        rw [fim_db_table_quiet sys { s with database := db } st (by show 0 ≤ fim_db_get_count_entries db; omega) hq]
        obtain ⟨new, hlog, hsub⟩ := ih { s with database := db, _db_state := st } hp.2
          (fun m hm hm0 => (fim_db_up_quiet _ _ m _ _ hfn (hfrest m hm hm0) hq).1)
        refine ⟨new, hlog, ?_⟩
        have hal : fim_db_alerts_up st = fim_db_alerts_up s._db_state := by
          rcases rest with _ | ⟨d, r⟩
          · exact (fim_db_up_quiet _ _ _ _ _ hfn hfn hq).2
          · exact (fim_db_up_quiet _ _ _ _ _ hfn hfn hq).2
        rw [← hal]
        exact hsub
      | none =>
        rw [fim_db_table_alert sys { s with database := db } (by show 0 ≤ fim_db_get_count_entries db; omega) hq]
        obtain ⟨new, hlog, hsub⟩ := ih
          (send_log_msg
            { file_limit := sys.file_limit, file_count := fim_db_get_count_entries db,
              alert_type := fim_db_alert_type
                (fim_db_band_of sys.file_limit (fim_db_get_count_entries db)) }
            { s with database := db,
                     _db_state := fim_db_band_of sys.file_limit (fim_db_get_count_entries db) })
          hp.2
          (fun m hm _ => (fim_db_up_alert _ _ m _ (hp.1 m hm) hfn hq).1)
        refine ⟨(⟨sys.file_limit, fim_db_get_count_entries db, fim_db_alert_type
          (fim_db_band_of sys.file_limit (fim_db_get_count_entries db))⟩ : fim_db_alert) :: new,
          ?_, ?_⟩
        · exact hlog.trans (by simp [send_log_msg])
        · exact List.Sublist.trans (List.Sublist.cons₂ _ hsub)
            (fim_db_up_alert _ _ _ _ (Int.le_refl _) hfn hq).2

/-- Falling counts: from a state whose upper bound the counts respect, the
alerts emitted by the successive calls are, in order, among those that can
still come. -/
theorem fim_check_db_run_down (sys : syscheck_t) (h0 : 0 ≤ sys.file_limit)
    (h1 : sys.file_limit < 2 ^ 31) :
    ∀ (dbs : List fdb_t) (s : fim_state),
      (dbs.map fim_db_get_count_entries).Pairwise (fun a b => b ≤ a) →
      (∀ m ∈ dbs.map fim_db_get_count_entries, 0 ≤ m → fim_db_ceil sys.file_limit s._db_state m) →
      ∃ new, (fim_check_db_run sys dbs s).logged = s.logged ++ new
        ∧ (new.map (fun a => a.alert_type)).Sublist (fim_db_alerts_down s._db_state) := by
  intro dbs
  induction dbs with
  | nil =>
    intro s _ _
    exact ⟨[], by simp [fim_check_db_run], by simp⟩
  | cons db rest ih =>
    intro s hp hf
    simp only [List.map_cons, List.pairwise_cons] at hp
    rw [fim_check_db_run_table sys h0 h1]
    have hfrest : ∀ m ∈ rest.map fim_db_get_count_entries, 0 ≤ m →
        fim_db_ceil sys.file_limit s._db_state m :=
      fun m hm => hf m (List.mem_cons_of_mem _ hm)
    by_cases hn : fim_db_get_count_entries db < 0
    · have ht : fim_db_table sys { s with database := db } = { s with database := db } := by
        unfold fim_db_table
        rw [if_pos hn]
      rw [ht]
      exact ih _ hp.2 hfrest
    · have hfn := hf _ (List.mem_cons_self _ _) (by omega)
      cases hq : fim_db_quiet sys.file_limit (fim_db_get_count_entries db) s._db_state with
      | some st =>
        rw [fim_db_table_quiet sys { s with database := db } st (by show 0 ≤ fim_db_get_count_entries db; omega) hq]
        obtain ⟨new, hlog, hsub⟩ := ih { s with database := db, _db_state := st } hp.2
          (fun m hm hm0 =>
            (fim_db_down_quiet _ _ m _ _ (hp.1 m hm) hfn (hfrest m hm hm0) hq).1)
        refine ⟨new, hlog, ?_⟩
        rw [← (fim_db_down_quiet _ _ _ _ _ (Int.le_refl _) hfn hfn hq).2]
        exact hsub
      | none =>
        rw [fim_db_table_alert sys { s with database := db } (by show 0 ≤ fim_db_get_count_entries db; omega) hq]
        obtain ⟨new, hlog, hsub⟩ := ih
          (send_log_msg
            { file_limit := sys.file_limit, file_count := fim_db_get_count_entries db,
              alert_type := fim_db_alert_type
                (fim_db_band_of sys.file_limit (fim_db_get_count_entries db)) }
            { s with database := db,
                     _db_state := fim_db_band_of sys.file_limit (fim_db_get_count_entries db) })
          hp.2
          (fun m hm _ => (fim_db_down_alert _ _ m _ (by omega) (hp.1 m hm) hfn hq).1)
        refine ⟨(⟨sys.file_limit, fim_db_get_count_entries db, fim_db_alert_type
          (fim_db_band_of sys.file_limit (fim_db_get_count_entries db))⟩ : fim_db_alert) :: new,
          ?_, ?_⟩
        · exact hlog.trans (by simp [send_log_msg])
        · exact List.Sublist.trans (List.Sublist.cons₂ _ hsub)
            (fim_db_down_alert _ _ _ _ (by omega) (Int.le_refl _) hfn hq).2

/-- Witness of C14: at capacity 10, the call in state `Normal` with 8 entries
moves to `Warn80`, and 8 is four fifths of 10. -/
theorem C14_thresholds_witness :
    4 * c11_sys.file_limit ≤ 5 * fim_db_get_count_entries
        ({ initial_state with database := fim_db_of_count 8,
                              _db_state := FIM_STATE_DB_NORMAL } : fim_state).database :=
  (C14_thresholds c11_sys
    { initial_state with database := fim_db_of_count 8, _db_state := FIM_STATE_DB_NORMAL }
    (by decide) (by decide)).1 (by decide) (by decide)

/-- Witness of C15: at capacity 10, the call in state `Warn80` with 8 entries
changes nothing, and neither does a second call after the call in state
`Empty` with 9 entries. -/
theorem C15_no_repeated_alert_witness :
    fim_check_db_state c11_sys
        { initial_state with database := fim_db_of_count 8,
                             _db_state := FIM_STATE_DB_80_PERCENTAGE }
      = { initial_state with database := fim_db_of_count 8,
                             _db_state := FIM_STATE_DB_80_PERCENTAGE }
    ∧ fim_check_db_state c11_sys
        (fim_check_db_state c11_sys { initial_state with database := fim_db_of_count 9 })
      = fim_check_db_state c11_sys { initial_state with database := fim_db_of_count 9 } :=
  ⟨(C15_no_repeated_alert c11_sys
      { initial_state with database := fim_db_of_count 8,
                           _db_state := FIM_STATE_DB_80_PERCENTAGE }
      (by decide) (by decide)).1 (by decide),
    (C15_no_repeated_alert c11_sys { initial_state with database := fim_db_of_count 9 }
      (by decide) (by decide)).2⟩

theorem trail_path_separator_empty (dest src : String) (h : src.data = []) :
    trail_path_separator dest src = dest := by
  simp [trail_path_separator, h]

theorem trail_path_separator_nonempty (dest src : String) (h : src.data ≠ []) :
    trail_path_separator dest src = trail_path_separator "" src
      ∧ (trail_path_separator "" src).data ≠ []
      ∧ (trail_path_separator "" src).data.getLast? = some PATH_SEP := by
  unfold trail_path_separator
  simp only [h, ↓reduceIte]
  refine ⟨trivial, ?_, ?_⟩
  · split
    · exact h
    · simp
  · split
    · rename_i hl
      exact hl
    · simp

theorem w_compare_str_prefix (lhs rhs : String) (h : lhs.data.isPrefixOf rhs.data = true) :
    w_compare_str lhs rhs = (lhs.data.length : Int) := by
  simp [w_compare_str, h]

theorem w_compare_str_not_prefix (lhs rhs : String) (h : ¬ lhs.data.isPrefixOf rhs.data = true) :
    w_compare_str lhs rhs = -1 := by
  simp [w_compare_str, h]

/-- A prefix that ends with a character puts that character in the list at
its last position. -/
theorem get_last_of_prefix (l1 l2 : List Char) (c : Char) (hp : l1.isPrefixOf l2 = true)
    (hl : l1.getLast? = some c) : l2.get? (l1.length - 1) = some c := by
  rw [List.isPrefixOf_iff_prefix] at hp
  obtain ⟨t, rfl⟩ := hp
  have hne : l1 ≠ [] := by
    intro h
    subst h
    simp at hl
  have hlen : l1.length - 1 < l1.length := by
    have := List.length_pos.mpr hne
    omega
  rw [List.get?_eq_getElem?, List.getElem?_append_left hlen]
  rw [List.getLast?_eq_getElem?] at hl
  exact hl

theorem fim_dir_loop_inv_top (sys : syscheck_t) (os : os_t) (path : String) (k : Nat)
    (acc : String × Int × Int) (h : fim_dir_loop_inv sys os path k acc) : 0 ≤ acc.2.1 := by
  rcases h.2 with ⟨-, h0, -⟩ | ⟨i, -, -, -, ht, -⟩
  · omega
  · omega

theorem fim_configuration_directory_step_inv (sys : syscheck_t) (os : os_t) (path : String)
    (k : Nat) (acc : String × Int × Int) (h : fim_dir_loop_inv sys os path k acc) :
    fim_dir_loop_inv sys os path (k + 1)
      (fim_configuration_directory_step sys os (trail_path_separator "" path) acc k) := by
  have htop := fim_dir_loop_inv_top sys os path k acc h
  obtain ⟨hbuf, hres⟩ := h
  by_cases hrp : (fim_get_real_path sys os k).data = []
  · -- an empty real path leaves the buffer as it was
    have hnm : ¬ fim_dir_match sys os path k := by
      intro hm
      apply hm.1
      unfold fim_dir_entry
      rw [trail_path_separator_empty _ _ hrp]
    have hstep : fim_configuration_directory_step sys os (trail_path_separator "" path) acc k
        = acc := by
      unfold fim_configuration_directory_step
      simp only [trail_path_separator_empty _ _ hrp]
      rw [if_neg]
      intro hc
      simp only [Bool.and_eq_true, decide_eq_true_eq] at hc
      omega
    rw [hstep]
    refine ⟨hbuf, ?_⟩
    rcases hres with ⟨h1, h2, h3⟩ | ⟨i, hi, h1, h2, h3, h4, h5⟩
    · left
      refine ⟨h1, h2, ?_⟩
      intro j hj
      rcases Nat.lt_succ_iff_lt_or_eq.mp hj with hj | hj
      · exact h3 j hj
      · rw [hj]
        exact hnm
    · right
      refine ⟨i, by omega, h1, h2, h3, ?_, h5⟩
      intro j hj hm
      rcases Nat.lt_succ_iff_lt_or_eq.mp hj with hj | hj
      · exact h4 j hj hm
      · rw [hj] at hm
        exact absurd hm hnm
  · obtain ⟨he, hne, hlast⟩ := trail_path_separator_nonempty acc.1 _ hrp
    have hentry : trail_path_separator acc.1 (fim_get_real_path sys os k)
        = fim_dir_entry sys os k := he
    by_cases hpre : (fim_dir_entry sys os k).data.isPrefixOf
        (trail_path_separator "" path).data = true
    · -- the directory claims the path
      have hm : fim_dir_match sys os path k := ⟨hne, hpre⟩
      have hcmp := w_compare_str_prefix _ _ hpre
      have hpos : 0 < (fim_dir_entry sys os k).data.length := List.length_pos.mpr hne
      have hsep : (trail_path_separator "" path).data.get?
          (((fim_dir_entry sys os k).data.length : Int) - 1).toNat = some PATH_SEP := by
        have : (((fim_dir_entry sys os k).data.length : Int) - 1).toNat
            = (fim_dir_entry sys os k).data.length - 1 := by omega
        rw [this]
        exact get_last_of_prefix _ _ _ hpre hlast
      by_cases hlt : acc.2.1 < ((fim_dir_entry sys os k).data.length : Int)
      · have hstep : fim_configuration_directory_step sys os (trail_path_separator "" path) acc k
            = (fim_dir_entry sys os k, ((fim_dir_entry sys os k).data.length : Int),
                (k : Int)) := by
          unfold fim_configuration_directory_step
          simp only [hentry, hcmp, hsep]
          rw [if_pos]
          rw [Bool.and_eq_true]
          exact ⟨decide_eq_true hlt, beq_self_eq_true _⟩
        rw [hstep]
        refine ⟨by dsimp only; rw [hcmp], ?_⟩
        right
        refine ⟨k, by omega, rfl, hm, rfl, ?_, ?_⟩
        · intro j hj hmj
          rcases Nat.lt_succ_iff_lt_or_eq.mp hj with hj | hj
          · rcases hres with ⟨-, -, h3⟩ | ⟨i, hi, -, -, h3, h4, -⟩
            · exact absurd hmj (h3 j hj)
            · have := h4 j hj hmj
              omega
          · rw [hj]
        · intro j hj hmj
          rcases hres with ⟨-, -, h3⟩ | ⟨i, hi, -, -, h3, h4, -⟩
          · exact absurd hmj (h3 j hj)
          · have := h4 j hj hmj
            omega
      · have hstep : fim_configuration_directory_step sys os (trail_path_separator "" path) acc k
            = (fim_dir_entry sys os k, acc.2.1, acc.2.2) := by
          unfold fim_configuration_directory_step
          simp only [hentry, hcmp]
          rw [if_neg]
          intro hc
          simp only [Bool.and_eq_true, decide_eq_true_eq] at hc
          exact hlt hc.1
        rw [hstep]
        refine ⟨by dsimp only; rw [hcmp]; omega, ?_⟩
        rcases hres with ⟨h1, h2, h3⟩ | ⟨i, hi, h1, h2, h3, h4, h5⟩
        · exfalso
          omega
        · right
          refine ⟨i, by omega, h1, h2, h3, ?_, h5⟩
          intro j hj hmj
          rcases Nat.lt_succ_iff_lt_or_eq.mp hj with hj | hj
          · exact h4 j hj hmj
          · rw [hj]
            omega
    · -- the directory does not claim the path
      have hnm : ¬ fim_dir_match sys os path k := fun hm => hpre hm.2
      have hcmp := w_compare_str_not_prefix _ _ hpre
      have hstep : fim_configuration_directory_step sys os (trail_path_separator "" path) acc k
          = (fim_dir_entry sys os k, acc.2.1, acc.2.2) := by
        unfold fim_configuration_directory_step
        simp only [hentry, hcmp]
        rw [if_neg]
        intro hc
        simp only [Bool.and_eq_true, decide_eq_true_eq] at hc
        omega
      rw [hstep]
      refine ⟨by dsimp only; rw [hcmp]; omega, ?_⟩
      rcases hres with ⟨h1, h2, h3⟩ | ⟨i, hi, h1, h2, h3, h4, h5⟩
      · left
        refine ⟨h1, h2, ?_⟩
        intro j hj
        rcases Nat.lt_succ_iff_lt_or_eq.mp hj with hj | hj
        · exact h3 j hj
        · rw [hj]
          exact hnm
      · right
        refine ⟨i, by omega, h1, h2, h3, ?_, h5⟩
        intro j hj hmj
        rcases Nat.lt_succ_iff_lt_or_eq.mp hj with hj | hj
        · exact h4 j hj hmj
        · rw [hj] at hmj
          exact absurd hmj hnm

theorem fim_configuration_directory_loop_inv (sys : syscheck_t) (os : os_t) (path : String) :
    ∀ k, fim_dir_loop_inv sys os path k
      ((List.range k).foldl
        (fim_configuration_directory_step sys os (trail_path_separator "" path)) ("", 0, -1)) := by
  intro k
  induction k with
  | zero =>
    refine ⟨?_, Or.inl ⟨rfl, rfl, fun j hj => absurd hj (Nat.not_lt_zero j)⟩⟩
    simp [w_compare_str]
  | succ n ih =>
    rw [List.range_succ, List.foldl_append]
    exact fim_configuration_directory_step_inv sys os path n _ ih

/-- C16: ConfigResolver. `fim_configuration_directory` returns `-1` for the
empty path. For a non-empty path, either it returns `-1` and no configured
directory claims the path, or it returns the index of a configured directory
whose real path, completed with a trailing separator, is a prefix of the path
completed with a trailing separator and ends on a path separator there, is
the longest such prefix, and is the first directory of that length. -/
theorem C16_configuration_directory (sys : syscheck_t) (os : os_t) (path : String) :
    (path.data = [] → fim_configuration_directory sys os path = -1)
      ∧ (path.data ≠ [] →
        (fim_configuration_directory sys os path = -1
            ∧ ∀ j < sys.dir.length, ¬ fim_dir_match sys os path j)
          ∨ ∃ i < sys.dir.length, fim_configuration_directory sys os path = (i : Int)
              ∧ fim_dir_match sys os path i
              ∧ (fim_dir_entry sys os i).data.getLast? = some PATH_SEP
              ∧ (trail_path_separator "" path).data.get?
                  ((fim_dir_entry sys os i).data.length - 1) = some PATH_SEP
              ∧ (∀ j < sys.dir.length, fim_dir_match sys os path j →
                  (fim_dir_entry sys os j).data.length ≤ (fim_dir_entry sys os i).data.length)
              ∧ (∀ j < i, fim_dir_match sys os path j →
                  (fim_dir_entry sys os j).data.length
                    < (fim_dir_entry sys os i).data.length)) := by
  constructor
  · intro h
    simp [fim_configuration_directory, h]
  · intro h
    have hinv := fim_configuration_directory_loop_inv sys os path sys.dir.length
    unfold fim_configuration_directory
    rw [if_neg h]
    rcases hinv.2 with ⟨h1, -, h3⟩ | ⟨i, hi, h1, h2, -, h4, h5⟩
    · exact Or.inl ⟨h1, h3⟩
    · right
      have hlast : (fim_dir_entry sys os i).data.getLast? = some PATH_SEP := by
        by_cases hrp : (fim_get_real_path sys os i).data = []
        · exfalso
          apply h2.1
          unfold fim_dir_entry
          rw [trail_path_separator_empty _ _ hrp]
        · exact (trail_path_separator_nonempty "" _ hrp).2.2
      exact ⟨i, hi, h1, h2, hlast, get_last_of_prefix _ _ _ h2.2 hlast, h4, h5⟩

/-- Witness of C16: the sample configuration attributes `/m/a` to its only
directory, and the empty path to none. -/
theorem C16_configuration_directory_witness :
    fim_configuration_directory sample_sys sample_os "" = -1
      ∧ ((fim_configuration_directory sample_sys sample_os "/m/a" = -1
            ∧ ∀ j < sample_sys.dir.length, ¬ fim_dir_match sample_sys sample_os "/m/a" j)
          ∨ ∃ i < sample_sys.dir.length,
              fim_configuration_directory sample_sys sample_os "/m/a" = (i : Int)
              ∧ fim_dir_match sample_sys sample_os "/m/a" i
              ∧ (fim_dir_entry sample_sys sample_os i).data.getLast? = some PATH_SEP
              ∧ (trail_path_separator "" "/m/a").data.get?
                  ((fim_dir_entry sample_sys sample_os i).data.length - 1) = some PATH_SEP
              ∧ (∀ j < sample_sys.dir.length, fim_dir_match sample_sys sample_os "/m/a" j →
                  (fim_dir_entry sample_sys sample_os j).data.length
                    ≤ (fim_dir_entry sample_sys sample_os i).data.length)
              ∧ (∀ j < i, fim_dir_match sample_sys sample_os "/m/a" j →
                  (fim_dir_entry sample_sys sample_os j).data.length
                    < (fim_dir_entry sample_sys sample_os i).data.length)) :=
  ⟨(C16_configuration_directory sample_sys sample_os "").1 rfl,
    (C16_configuration_directory sample_sys sample_os "/m/a").2 (by decide)⟩

/-- C17 (counterexample): the ConfigResolver attributes the monitored root
`/m` itself to the directory 0, the part of the path below the root is empty
and holds no separator, and `fim_check_depth` returns `-1` for it; and for
`/m/a` the part of the path after the real path of the root is `/a`, which
holds one separator, and `fim_check_depth` returns `0`. -/
theorem C17_counterexample :
    fim_configuration_directory sample_sys sample_os "/m" = 0
      ∧ fim_get_real_path sample_sys sample_os 0 = "/m"
      ∧ fim_count_sep ("/m".data.drop "/m".data.length) = 0
      ∧ fim_check_depth sample_sys sample_os "/m" 0 = -1
      ∧ fim_count_sep ("/m/a".data.drop "/m".data.length) = 1
      ∧ fim_check_depth sample_sys sample_os "/m/a" 0 = 0 := by
  decide

/-- C17 (amended): at an index with a configured directory or symbolic link,
for a path made of the real path of the monitored root, a separator and a
relative part, `fim_check_depth` returns the number of path separators in
the relative part; so it does for a non-empty relative part below the
file-system root `/`; and for the real path itself, when it is not a single
character, it returns `-1`. -/
theorem C17_check_depth (sys : syscheck_t) (os : os_t) (path : String) (idx : Nat)
    (rel : List Char)
    (hcfg : ¬ (sys.dir.get? idx = none ∧ (sys.symbolic_links.get? idx).join = none)) :
    ((fim_get_real_path sys os idx).data.length ≠ 1 →
        path.data = (fim_get_real_path sys os idx).data ++ PATH_SEP :: rel →
        fim_check_depth sys os path idx = fim_count_sep rel)
      ∧ ((fim_get_real_path sys os idx).data = [PATH_SEP] → rel ≠ [] →
        path.data = PATH_SEP :: rel →
        fim_check_depth sys os path idx = fim_count_sep rel)
      ∧ ((fim_get_real_path sys os idx).data.length ≠ 1 →
        path.data = (fim_get_real_path sys os idx).data →
        fim_check_depth sys os path idx = -1) := by
  unfold fim_check_depth fim_count_sep
  rw [if_neg hcfg]
  refine ⟨?_, ?_, ?_⟩
  · intro h1 hp
    simp only [hp, List.length_append, List.length_cons, h1, ↓reduceIte]
    rw [if_neg (by omega), List.drop_left]
    simp only [List.filter_cons, beq_self_eq_true, ↓reduceIte, List.length_cons]
    push_cast
    omega
  · intro h1 _ hp
    simp only [hp, h1, List.length_cons, List.length_nil]
    rw [if_neg (by omega)]
    simp
  · intro h1 hp
    simp only [hp, h1, ↓reduceIte]
    rw [if_neg (by omega), List.drop_length]
    rfl

/-- Witness of C17 (amended): the sample file `/m/a` lies directly below the
root `/m`, and `/f` directly below the file-system root. -/
theorem C17_check_depth_witness :
    fim_check_depth sample_sys sample_os "/m/a" 0 = fim_count_sep ['a']
      ∧ fim_check_depth c19_sys c19_os "/f" 0 = fim_count_sep ['f']
      ∧ fim_check_depth sample_sys sample_os "/m" 0 = -1 :=
  ⟨(C17_check_depth sample_sys sample_os "/m/a" 0 ['a'] (by decide)).1 (by decide) (by decide),
    (C17_check_depth c19_sys c19_os "/f" 0 ['f'] (by decide)).2.1 (by decide) (by decide)
      (by decide),
    (C17_check_depth sample_sys sample_os "/m" 0 [] (by decide)).2.2 (by decide) (by decide)⟩

/-- C18 (counterexample): the real path `/m` of the monitored root is not a
prefix of `/x/y/z`, and `fim_check_depth` returns `1` for it, not the
sentinel. -/
theorem C18_counterexample :
    (fim_get_real_path sample_sys sample_os 0).data.isPrefixOf "/x/y/z".data = false
      ∧ fim_check_depth sample_sys sample_os "/x/y/z" 0 = 1 := by
  decide

/-- C18 (amended): `fim_check_depth` returns the sentinel `-1` for an index
at which neither a directory nor a symbolic link is configured, and for
every path that is shorter than the real path of the monitored root at that
index. -/
theorem C18_check_depth_sentinel (sys : syscheck_t) (os : os_t) (path : String) (idx : Nat) :
    ((sys.dir.get? idx = none ∧ (sys.symbolic_links.get? idx).join = none) →
        fim_check_depth sys os path idx = -1)
      ∧ (path.data.length < (fim_get_real_path sys os idx).data.length →
        fim_check_depth sys os path idx = -1) := by
  unfold fim_check_depth
  constructor
  · intro h
    rw [if_pos h]
  · intro h
    split
    · rfl
    · simp only []
      rw [if_pos (by omega)]

/-- Witness of C18 (amended): no directory is configured at index 3 of the
sample configuration, and `/` is shorter than `/m`. -/
theorem C18_check_depth_sentinel_witness :
    fim_check_depth sample_sys sample_os "/m/a" 3 = -1
      ∧ fim_check_depth sample_sys sample_os "/" 0 = -1 :=
  ⟨(C18_check_depth_sentinel sample_sys sample_os "/m/a" 3).1 (by decide),
    (C18_check_depth_sentinel sample_sys sample_os "/" 0).2 (by decide)⟩

/-- C19 (failing input): with the file-system root `/` monitored at recursion
level 0, the regular file `/f` lies zero directory levels below the root, is
attributed to it and has depth 0, which is within the level; but the root
itself has depth 0 as well, the level, so the traversal does not descend
into it and its visits are none: `/f` does not reach the file pipeline and
the scan stores nothing. With the root `/m` at level 0 the file `/m/a` is
visited, and with the root `/` at level 1 the file `/f` is. -/
theorem C19_root_level_zero :
    fim_configuration_directory c19_sys c19_os "/f" = 0
      ∧ fim_check_depth c19_sys c19_os "/f" 0 = 0
      ∧ fim_check_depth c19_sys c19_os "/" 0 = 0
      ∧ c19_sys.recursion_level = [0]
      ∧ fim_scan_walk c19_sys c19_os 5 [0] = .ok []
      ∧ (fim_scan c19_sys c19_os 5 initial_state).map (fun s => s.database.entries) = .ok []
      ∧ fim_check_depth sample_sys sample_os "/m" 0 = -1
      ∧ fim_scan_walk { sample_sys with recursion_level := [0] } sample_os 5 [0]
          = .ok [.file "/m/a" sample_item]
      ∧ fim_scan_walk { c19_sys with recursion_level := [1] } c19_os 5 [0]
          = .ok [.file "/f" sample_item] := by
  refine ⟨by decide, by decide, by decide, rfl, by rfl, by rfl, by decide, by rfl, by rfl⟩

/-- C20 (counterexample): with only `CHECK_SIZE` set, the record extracted
from the sample file holds the inode of the file, not zero, although
`CHECK_INODE` is clear. -/
theorem C20_counterexample :
    has_opt CHECK_SIZE CHECK_INODE = false
      ∧ (fim_get_data sample_sys sample_os "/m/a"
          { sample_item with configuration := CHECK_SIZE }).map
            (fun d => (d.size, d.mtime, d.inode)) = some (20, 0, 100) := by
  decide

/-- C20 (amended): `fim_get_data` returns a record unless the hashes are to
be computed and the computation fails; the record holds the value of the
file in `size`, `perm`, `mtime`, `uid` and `user_name`, `gid` and
`group_name` when the `CHECK_*` bit of the field is set, and zero (numeric
fields) or no string (string fields) when the bit is clear; `inode` and `dev`
always hold the inode and the device of the file, whatever `CHECK_INODE`
is. -/
theorem C20_option_gated_extraction (sys : syscheck_t) (os : os_t) (file : String)
    (item : fim_element) :
    ((fim_get_data sys os file item = none) ↔
        (((item.statbuf.st_mode &&& S_IFMT == FIM_REGULAR) && decide (item.statbuf.st_size > 0)
            && decide (item.statbuf.st_size < sys.file_max_size)
            && (has_opt item.configuration CHECK_MD5SUM
              || has_opt item.configuration CHECK_SHA1SUM
              || has_opt item.configuration CHECK_SHA256SUM)) = true
          ∧ os.OS_MD5_SHA1_SHA256_File file = none))
      ∧ ∀ d, fim_get_data sys os file item = some d →
          d.size = (if has_opt item.configuration CHECK_SIZE then item.statbuf.st_size else 0)
          ∧ d.perm = (if has_opt item.configuration CHECK_PERM
              then some (os.agent_file_perm item.statbuf.st_mode) else none)
          ∧ d.mtime = (if has_opt item.configuration CHECK_MTIME then item.statbuf.st_mtime
              else 0)
          ∧ d.uid = (if has_opt item.configuration CHECK_OWNER
              then some (toString item.statbuf.st_uid) else none)
          ∧ d.user_name = (if has_opt item.configuration CHECK_OWNER
              then os.get_user item.statbuf.st_uid else none)
          ∧ d.gid = (if has_opt item.configuration CHECK_GROUP
              then some (toString item.statbuf.st_gid) else none)
          ∧ d.group_name = (if has_opt item.configuration CHECK_GROUP
              then os.get_group item.statbuf.st_gid else none)
          ∧ d.inode = item.statbuf.st_ino
          ∧ d.dev = item.statbuf.st_dev := by
  unfold fim_get_data
  simp only []
  constructor
  · split
    · rename_i hh
      constructor
      · intro _
        split at hh
        · rename_i hc
          exact ⟨hc, hh⟩
        · cases hh
      · intro _
        rfl
    · rename_i hh
      constructor
      · intro h
        cases h
      · intro hc
        rw [if_pos hc.1, hc.2] at hh
        cases hh
  · intro d hd
    split at hd
    · cases hd
    · simp only [Option.some.injEq] at hd
      subst hd
      simp [fim_get_checksum]

/-- Witness of C20 (amended): the record extracted from the sample file with
only `CHECK_SIZE` set holds the size, the inode and the device of the file
and nothing else of it. -/
theorem C20_option_gated_extraction_witness :
    c20_new.size = (if has_opt CHECK_SIZE CHECK_SIZE then sample_stat.st_size else 0)
      ∧ c20_new.perm = (if has_opt CHECK_SIZE CHECK_PERM
          then some (sample_os.agent_file_perm sample_stat.st_mode) else none)
      ∧ c20_new.mtime = (if has_opt CHECK_SIZE CHECK_MTIME then sample_stat.st_mtime else 0)
      ∧ c20_new.uid = (if has_opt CHECK_SIZE CHECK_OWNER
          then some (toString sample_stat.st_uid) else none)
      ∧ c20_new.user_name = (if has_opt CHECK_SIZE CHECK_OWNER
          then sample_os.get_user sample_stat.st_uid else none)
      ∧ c20_new.gid = (if has_opt CHECK_SIZE CHECK_GROUP
          then some (toString sample_stat.st_gid) else none)
      ∧ c20_new.group_name = (if has_opt CHECK_SIZE CHECK_GROUP
          then sample_os.get_group sample_stat.st_gid else none)
      ∧ c20_new.inode = sample_stat.st_ino
      ∧ c20_new.dev = sample_stat.st_dev :=
  (C20_option_gated_extraction sample_sys sample_os "/m/a"
    { sample_item with configuration := CHECK_SIZE }).2 c20_new (by decide)

/-- The record built by `fim_get_data` from the three digests in use. -/
theorem fim_get_data_some (sys : syscheck_t) (os : os_t) (file : String) (item : fim_element)
    (d : fim_file_data) (h : fim_get_data sys os file item = some d) :
    d.checksum = os.OS_SHA1_Str (fim_checksum_string d)
      ∧ (has_opt item.configuration CHECK_MD5SUM = false → d.hash_md5 = "")
      ∧ (has_opt item.configuration CHECK_SHA1SUM = false → d.hash_sha1 = "")
      ∧ (has_opt item.configuration CHECK_SHA256SUM = false → d.hash_sha256 = "") := by
  unfold fim_get_data at h
  simp only at h
  split at h
  · cases h
  · rename_i md5 sha1 sha256 _
    simp only [Option.some.injEq] at h
    subst h
    refine ⟨rfl, ?_, ?_, ?_⟩ <;> intro hb <;> simp [fim_get_checksum, hb]

/-- C21: hash policy. When the entry is a regular file with
`0 < size < file_max_size` and one of the three hash options is set, the
result of `fim_get_data` is decided by the file-hash primitive: no record
when it fails, and otherwise each hash whose option bit is set is the digest
it returned. In every other case (among them a symbolic link, an empty file
and a file of size at least `file_max_size`) the primitive is not consulted:
the result is the same whatever the primitive is, a record is returned and
each hash whose option bit is set is the fixed empty-input digest. In every
case a hash whose option bit is clear is the empty string. -/
theorem C21_hash_policy (sys : syscheck_t) (os : os_t) (file : String) (item : fim_element) :
    ((item.statbuf.st_mode &&& S_IFMT = FIM_REGULAR ∧ 0 < item.statbuf.st_size
          ∧ item.statbuf.st_size < sys.file_max_size
          ∧ (has_opt item.configuration CHECK_MD5SUM = true
            ∨ has_opt item.configuration CHECK_SHA1SUM = true
            ∨ has_opt item.configuration CHECK_SHA256SUM = true)) →
        (os.OS_MD5_SHA1_SHA256_File file = none → fim_get_data sys os file item = none)
        ∧ ∀ md5 sha1 sha256, os.OS_MD5_SHA1_SHA256_File file = some (md5, sha1, sha256) →
          ∃ d, fim_get_data sys os file item = some d
            ∧ d.hash_md5 = (if has_opt item.configuration CHECK_MD5SUM then md5 else "")
            ∧ d.hash_sha1 = (if has_opt item.configuration CHECK_SHA1SUM then sha1 else "")
            ∧ d.hash_sha256
                = (if has_opt item.configuration CHECK_SHA256SUM then sha256 else ""))
      ∧ (¬(item.statbuf.st_mode &&& S_IFMT = FIM_REGULAR ∧ 0 < item.statbuf.st_size
          ∧ item.statbuf.st_size < sys.file_max_size
          ∧ (has_opt item.configuration CHECK_MD5SUM = true
            ∨ has_opt item.configuration CHECK_SHA1SUM = true
            ∨ has_opt item.configuration CHECK_SHA256SUM = true)) →
        (∀ f, fim_get_data sys { os with OS_MD5_SHA1_SHA256_File := f } file item
            = fim_get_data sys os file item)
        ∧ ∃ d, fim_get_data sys os file item = some d
            ∧ d.hash_md5 = (if has_opt item.configuration CHECK_MD5SUM
                then "d41d8cd98f00b204e9800998ecf8427e" else "")
            ∧ d.hash_sha1 = (if has_opt item.configuration CHECK_SHA1SUM
                then "da39a3ee5e6b4b0d3255bfef95601890afd80709" else "")
            ∧ d.hash_sha256 = (if has_opt item.configuration CHECK_SHA256SUM
                then "e3b0c44298fc1c149afbf4c8996fb92427ae41e4649b934ca495991b7852b855"
                else ""))
      ∧ ((item.statbuf.st_mode &&& S_IFMT = FIM_LINK ∨ item.statbuf.st_size = 0
          ∨ sys.file_max_size ≤ item.statbuf.st_size) →
        ¬(item.statbuf.st_mode &&& S_IFMT = FIM_REGULAR ∧ 0 < item.statbuf.st_size
          ∧ item.statbuf.st_size < sys.file_max_size
          ∧ (has_opt item.configuration CHECK_MD5SUM = true
            ∨ has_opt item.configuration CHECK_SHA1SUM = true
            ∨ has_opt item.configuration CHECK_SHA256SUM = true)))
      ∧ (∀ d, fim_get_data sys os file item = some d →
          (has_opt item.configuration CHECK_MD5SUM = false → d.hash_md5 = "")
          ∧ (has_opt item.configuration CHECK_SHA1SUM = false → d.hash_sha1 = "")
          ∧ (has_opt item.configuration CHECK_SHA256SUM = false → d.hash_sha256 = "")) := by
  refine ⟨?_, ?_, ?_, ?_⟩
  · rintro ⟨hreg, hpos, hmax, hbits⟩
    have hc : ((item.statbuf.st_mode &&& S_IFMT == FIM_REGULAR)
        && decide (item.statbuf.st_size > 0)
        && decide (item.statbuf.st_size < sys.file_max_size)
        && (has_opt item.configuration CHECK_MD5SUM || has_opt item.configuration CHECK_SHA1SUM
          || has_opt item.configuration CHECK_SHA256SUM)) = true := by
      simp only [Bool.and_eq_true, beq_iff_eq, decide_eq_true_eq, Bool.or_eq_true]
      exact ⟨⟨⟨hreg, hpos⟩, hmax⟩, by tauto⟩
    constructor
    · intro hn
      unfold fim_get_data
      simp only [hc, if_true, hn]
    · intro md5 sha1 sha256 hs
      unfold fim_get_data
      simp only [hc, if_true, hs]
      exact ⟨_, rfl, rfl, rfl, rfl⟩
  · intro hnot
    have hc : ((item.statbuf.st_mode &&& S_IFMT == FIM_REGULAR)
        && decide (item.statbuf.st_size > 0)
        && decide (item.statbuf.st_size < sys.file_max_size)
        && (has_opt item.configuration CHECK_MD5SUM || has_opt item.configuration CHECK_SHA1SUM
          || has_opt item.configuration CHECK_SHA256SUM)) = false := by
      rw [Bool.eq_false_iff]
      intro h
      simp only [Bool.and_eq_true, beq_iff_eq, decide_eq_true_eq, Bool.or_eq_true] at h
      exact hnot ⟨h.1.1.1, h.1.1.2, h.1.2, by tauto⟩
    constructor
    · intro f
      unfold fim_get_data
      simp only [hc, Bool.false_eq_true, if_false]
      rfl
    · unfold fim_get_data
      simp only [hc, Bool.false_eq_true, if_false]
      exact ⟨_, rfl, rfl, rfl, rfl⟩
  · rintro (hl | h0 | hm) ⟨hreg, hpos, hmax, -⟩
    · rw [hl] at hreg
      exact absurd hreg (by decide)
    · omega
    · omega
  · intro d hd
    exact (fim_get_data_some sys os file item d hd).2

/-- Witness of C21: the sample file is a regular file of 20 bytes processed
with every hash option set; the record holds the digests returned by the
primitive. -/
theorem C21_hash_policy_witness :
    ∃ d, fim_get_data sample_sys sample_os "/m/a" sample_item = some d
      ∧ d.hash_md5 = (if has_opt sample_item.configuration CHECK_MD5SUM then "m" else "")
      ∧ d.hash_sha1 = (if has_opt sample_item.configuration CHECK_SHA1SUM then "s1" else "")
      ∧ d.hash_sha256
          = (if has_opt sample_item.configuration CHECK_SHA256SUM then "s256" else "") :=
  ((C21_hash_policy sample_sys sample_os "/m/a" sample_item).1 (by decide)).2 "m" "s1" "s256" rfl

/-- The checksum of every record returned by `fim_get_data` is the SHA-1 of
the string that `fim_get_checksum` formats from the final fields of the
record. -/
theorem fim_get_data_checksum (sys : syscheck_t) (os : os_t) (file : String)
    (item : fim_element) (d : fim_file_data) (h : fim_get_data sys os file item = some d) :
    d.checksum = os.OS_SHA1_Str (fim_checksum_string d) := by
  unfold fim_get_data at h
  simp only at h
  split at h
  · cases h
  · simp only [Option.some.injEq] at h
    subst h
    rfl

theorem fmt_d_decimal (n : Nat) (h : n < 2 ^ 31) : fmt_d n = toString n := by
  unfold fmt_d
  have h1 : n % 2 ^ 32 = n := Nat.mod_eq_of_lt (by omega)
  rw [h1, if_pos h]

theorem fmt_u_decimal (n : Int) (h0 : 0 ≤ n) (h1 : n < 2 ^ 32) : fmt_u n = toString n := by
  unfold fmt_u
  rw [Int.emod_eq_of_lt h0 h1]
  obtain ⟨k, rfl⟩ := Int.eq_ofNat_of_zero_le h0
  rfl

theorem fmt_lu_decimal (n : Nat) (h : n < 2 ^ 64) : fmt_lu n = toString n := by
  unfold fmt_lu
  rw [Nat.mod_eq_of_lt h]

/-- The formatted string is the canonical string of the specification when
the size is below `2 ^ 31` and the time and the inode are in the range of
their conversions. -/
theorem fim_checksum_string_canonical (d : fim_file_data) (hs : d.size < 2 ^ 31)
    (hm0 : 0 ≤ d.mtime) (hm1 : d.mtime < 2 ^ 32) (hi : d.inode < 2 ^ 64) :
    fim_checksum_string d = fim_canonical_string d := by
  unfold fim_checksum_string fim_canonical_string str_or_empty
  rw [fmt_d_decimal _ hs, fmt_u_decimal _ hm0 hm1, fmt_lu_decimal _ hi]

/-- C22: checksum totality, evaluated on a regular file of 3,000,000,000
bytes whose size is monitored. The record returned by `fim_get_data` holds
the size 3000000000, and its checksum is the SHA-1 of a string that starts
with `-1294967296`, the size read as a signed 32-bit integer by the
conversion `%d`, not the SHA-1 of the canonical string of the record, which
starts with the size in decimal. -/
theorem C22_checksum_totality :
    ∃ d, fim_get_data sample_sys sample_os "/m/a" c22_item = some d
      ∧ d.size = 3000000000
      ∧ d.checksum = sample_os.OS_SHA1_Str
          ("-1294967296:rw-r--r--::0:0:root:root:200:100:d41d8cd98f00b204e9800998ecf8427e:"
            ++ "da39a3ee5e6b4b0d3255bfef95601890afd80709:"
            ++ "e3b0c44298fc1c149afbf4c8996fb92427ae41e4649b934ca495991b7852b855")
      ∧ fim_canonical_string d
          = "3000000000:rw-r--r--::0:0:root:root:200:100:d41d8cd98f00b204e9800998ecf8427e:"
            ++ "da39a3ee5e6b4b0d3255bfef95601890afd80709:"
            ++ "e3b0c44298fc1c149afbf4c8996fb92427ae41e4649b934ca495991b7852b855"
      ∧ d.checksum ≠ sample_os.OS_SHA1_Str (fim_canonical_string d) := by
  refine ⟨_, rfl, ?_, ?_, ?_, ?_⟩
  · rfl
  · rfl
  · rfl
  · decide!

/-- The keys of every event built by `fim_json_event`. -/
theorem fim_json_event_fields (sys : syscheck_t) (db : fdb_t) (file_name : String)
    (old_data : Option fim_file_data) (new_data : fim_file_data) (pos : Int)
    (type : fim_event_type) (mode : fim_event_mode) (w_evt : Option whodata_evt)
    (diff : Option String) (ev : fim_event)
    (h : fim_json_event sys db file_name old_data new_data pos type mode w_evt diff
      = .ok (some ev)) :
    ev.hard_links = fim_hard_links db file_name new_data
      ∧ ev.attributes = fim_attributes_json new_data
      ∧ ev.old_attributes = old_data.map fim_attributes_json
      ∧ (ev.changed_attributes.isSome = old_data.isSome)
      ∧ ev.type = FIM_EVENT_TYPE type ∧ ev.path = file_name := by
  unfold fim_json_event at h
  split at h
  · split at h
    · cases h
    · split at h
      · cases h
      · simp only [Except.ok.injEq, Option.some.injEq] at h
        subst h
        exact ⟨rfl, rfl, rfl, rfl, rfl, rfl⟩
  · simp only [Except.ok.injEq, Option.some.injEq] at h
    subst h
    exact ⟨rfl, rfl, rfl, rfl, rfl, rfl⟩

/-- C23: hard links. An event returned by `fim_json_event` has the key
`hard_links` if and only if the store reports at least two paths for the
inode and the device of the new data; the array is then the reported paths
other than the path of the event, in the order of the store. -/
theorem C23_hard_links (sys : syscheck_t) (db : fdb_t) (file_name : String)
    (old_data : Option fim_file_data) (new_data : fim_file_data) (pos : Int)
    (type : fim_event_type) (mode : fim_event_mode) (w_evt : Option whodata_evt)
    (diff : Option String) (ev : fim_event)
    (h : fim_json_event sys db file_name old_data new_data pos type mode w_evt diff
      = .ok (some ev)) :
    (ev.hard_links.isSome = true ↔
        2 ≤ (fim_db_get_paths_from_inode db new_data.inode new_data.dev).length)
      ∧ ∀ hard_links, ev.hard_links = some hard_links →
          hard_links = (fim_db_get_paths_from_inode db new_data.inode new_data.dev).filter
            (fun p => p != file_name) := by
  rw [(fim_json_event_fields sys db file_name old_data new_data pos type mode w_evt diff ev
    h).1]
  unfold fim_hard_links
  rcases hp : fim_db_get_paths_from_inode db new_data.inode new_data.dev with _ | ⟨p0, _ | ⟨p1, rest⟩⟩
  · simp
  · simp
  · constructor
    · simp
    · intro hl hh
      simp only [Option.some.injEq] at hh
      exact hh.symm

/-- Witness of C23: the added event of `/m/a` in a store where `/m/b`, `/m/a`
and `/m/c` share its inode lists `/m/b` and `/m/c`. -/
theorem C23_hard_links_witness :
    ∃ ev, fim_json_event sample_sys c23_db "/m/a" none sample_new 0 FIM_ADD FIM_SCHEDULED none
        none = .ok (some ev)
      ∧ ((ev.hard_links.isSome = true ↔
          2 ≤ (fim_db_get_paths_from_inode c23_db sample_new.inode sample_new.dev).length)
        ∧ ∀ hard_links, ev.hard_links = some hard_links →
            hard_links = (fim_db_get_paths_from_inode c23_db sample_new.inode
              sample_new.dev).filter (fun p => p != "/m/a"))
      ∧ ev.hard_links = some ["/m/b", "/m/c"] :=
  ⟨_, rfl, C23_hard_links sample_sys c23_db "/m/a" none sample_new 0 FIM_ADD FIM_SCHEDULED none
    none _ rfl, by decide⟩

/-- C27: extraction failure. When `fim_get_data` returns no record, `_fim_file`
returns no event and the state unchanged, in every mode, and `fim_file`
sends nothing and leaves the state unchanged. -/
theorem C27_extraction_failure (resolve : fim_resolver) (sys : syscheck_t) (os : os_t)
    (path : String) (item : fim_element) (w_evt : Option whodata_evt) (s : fim_state)
    (h : fim_get_data sys os path item = none) :
    _fim_file resolve sys os path item w_evt s = .ok (none, s)
      ∧ ∀ report, fim_file resolve sys os path item w_evt report s = .ok s := by
  have h1 : _fim_file resolve sys os path item w_evt s = .ok (none, s) := by
    unfold _fim_file
    split
    · rfl
    · rw [h]
  refine ⟨h1, fun report => ?_⟩
  unfold fim_file
  rw [h1]

/-- Witness of C27: the hash computation of the sample file fails; the
pipeline returns no event and the state is unchanged, here in real-time
mode. -/
theorem C27_extraction_failure_witness :
    fim_get_data sample_sys c27_os "/m/a" { sample_item with mode := FIM_REALTIME } = none
      ∧ (_fim_file (fim_resolve_db_collision sample_sys c27_os 4) sample_sys c27_os "/m/a"
            { sample_item with mode := FIM_REALTIME } none (sample_state []) =
          .ok (none, sample_state [])
        ∧ ∀ report, fim_file (fim_resolve_db_collision sample_sys c27_os 4) sample_sys c27_os
            "/m/a" { sample_item with mode := FIM_REALTIME } none report (sample_state [])
              = .ok (sample_state [])) :=
  ⟨rfl, C27_extraction_failure _ sample_sys c27_os "/m/a" _ none (sample_state []) rfl⟩

/-- The state after the capacity check is the band of the count, for a
capacity of at least one in the range of an `int` and a count that is not
negative. -/
theorem fim_check_db_state_band (sys : syscheck_t) (s : fim_state)
    (h0 : 1 ≤ sys.file_limit) (h1 : sys.file_limit < 2 ^ 31)
    (hn : 0 ≤ fim_db_get_count_entries s.database) :
    (fim_check_db_state sys s)._db_state
      = fim_db_band_of sys.file_limit (fim_db_get_count_entries s.database) := by
  rw [fim_check_db_state_table sys s (by omega) h1, fim_db_table_state, if_neg (by omega)]
  generalize fim_db_get_count_entries s.database = n at hn ⊢
  generalize sys.file_limit = c at h0 h1 ⊢
  generalize s._db_state = st
  cases st <;> simp only [fim_db_quiet, fim_db_band_of] <;> split_ifs <;> first | rfl | omega

/-- C28: the capacity state is memoryless. For every capacity `C` of at
least one (in the range of an `int`), every count `N` that is not negative
and every previous state, the state after `fim_check_db_state` is `Empty` if
`N = 0`, `Normal` if `0 < N < 0.8 C`, `Warn80` if `0.8 C ≤ N < 0.9 C`,
`Warn90` if `0.9 C ≤ N < C` and `Full` if `N ≥ C`; when the count is negative
the state is unchanged and no alert is emitted. -/
theorem C28_capacity_memoryless (sys : syscheck_t) (s : fim_state)
    (h0 : 1 ≤ sys.file_limit) (h1 : sys.file_limit < 2 ^ 31) :
    (0 ≤ fim_db_get_count_entries s.database →
        (fim_db_get_count_entries s.database = 0 →
          (fim_check_db_state sys s)._db_state = FIM_STATE_DB_EMPTY)
        ∧ (0 < fim_db_get_count_entries s.database
            ∧ 5 * fim_db_get_count_entries s.database < 4 * sys.file_limit →
          (fim_check_db_state sys s)._db_state = FIM_STATE_DB_NORMAL)
        ∧ (4 * sys.file_limit ≤ 5 * fim_db_get_count_entries s.database
            ∧ 10 * fim_db_get_count_entries s.database < 9 * sys.file_limit →
          (fim_check_db_state sys s)._db_state = FIM_STATE_DB_80_PERCENTAGE)
        ∧ (9 * sys.file_limit ≤ 10 * fim_db_get_count_entries s.database
            ∧ fim_db_get_count_entries s.database < sys.file_limit →
          (fim_check_db_state sys s)._db_state = FIM_STATE_DB_90_PERCENTAGE)
        ∧ (sys.file_limit ≤ fim_db_get_count_entries s.database →
          (fim_check_db_state sys s)._db_state = FIM_STATE_DB_FULL))
      ∧ (fim_db_get_count_entries s.database < 0 → fim_check_db_state sys s = s) := by
  constructor
  · intro hn
    rw [fim_check_db_state_band sys s h0 h1 hn]
    generalize fim_db_get_count_entries s.database = n at hn ⊢
    generalize sys.file_limit = c at h0 h1 ⊢
    unfold fim_db_band_of
    refine ⟨?_, ?_, ?_, ?_, ?_⟩ <;> intro h <;> split_ifs <;> first | rfl | omega
  · intro hn
    unfold fim_check_db_state
    simp only [hn, if_true]

/-- Witness of C28: with the capacity 10 and three entries, the state after
the check is `Normal` although the previous state was `Full`. -/
theorem C28_capacity_memoryless_witness :
    (fim_check_db_state c11_sys
      { sample_state [] with database := fim_db_of_count 3, _db_state := FIM_STATE_DB_FULL }
      )._db_state = FIM_STATE_DB_NORMAL :=
  ((C28_capacity_memoryless c11_sys
    { sample_state [] with database := fim_db_of_count 3, _db_state := FIM_STATE_DB_FULL }
    (by decide) (by decide)).1 (by decide)).2.1 ⟨by decide, by decide⟩

/-- Without old data `fim_json_event` returns an event. -/
theorem fim_json_event_none (sys : syscheck_t) (db : fdb_t) (file_name : String)
    (new_data : fim_file_data) (pos : Int) (type : fim_event_type) (mode : fim_event_mode)
    (w_evt : Option whodata_evt) (diff : Option String) :
    ∃ ev, fim_json_event sys db file_name none new_data pos type mode w_evt diff = .ok (some ev)
      ∧ ev.path = file_name ∧ ev.type = FIM_EVENT_TYPE type ∧ ev.mode = FIM_EVENT_MODE mode
      ∧ ev.attributes = fim_attributes_json new_data
      ∧ ev.old_attributes = none ∧ ev.changed_attributes = none :=
  ⟨_, rfl, rfl, rfl, rfl, rfl, rfl, rfl⟩

/-- After `fim_db_remove_path` the path has no entry unless the removal
failed. -/
theorem fim_db_remove_path_absent (db : fdb_t) (path : String)
    (h : (fim_db_remove_path db path).1 ≠ .Err) :
    ∀ e ∈ (fim_db_remove_path db path).2.entries, e.path ≠ path := by
  unfold fim_db_remove_path at h ⊢
  split_ifs with h1 h2
  · simp [h1] at h
  · intro e he
    simp only [List.mem_filter, bne_iff_ne, ne_eq] at he
    exact he.2
  · intro e he heq
    apply h2
    rw [List.any_eq_true]
    exact ⟨e, he, by simp [heq]⟩

/-- What the deletion handler does once past its filters: nothing when the
removal fails; otherwise the store is the store after the removal, and one
deleted event for the entry is sent if an alert is asked for. -/
theorem fim_delete_file_event_run (sys : syscheck_t) (os : os_t) (entry : fim_entry)
    (alert : Bool) (mode : fim_event_mode) (w_evt : Option whodata_evt) (s : fim_state)
    (hpos : fim_configuration_directory sys os entry.path ≠ -1)
    (hrt : ¬(mode = FIM_REALTIME ∧ has_opt (sys.opts.getD
      (fim_configuration_directory sys os entry.path).toNat 0) REALTIME_ACTIVE = false))
    (hwd : ¬(mode = FIM_WHODATA ∧ has_opt (sys.opts.getD
      (fim_configuration_directory sys os entry.path).toNat 0) WHODATA_ACTIVE = false)) :
    ((fim_db_remove_path s.database entry.path).1 = .Err →
        fim_delete_file_event sys os entry alert mode w_evt s = .ok s)
      ∧ ((fim_db_remove_path s.database entry.path).1 ≠ .Err →
        ∃ s1, fim_delete_file_event sys os entry alert mode w_evt s = .ok s1
          ∧ s1.database = (fim_db_remove_path s.database entry.path).2
          ∧ s1._base_line = s._base_line ∧ s1._db_state = s._db_state ∧ s1.logged = s.logged
          ∧ (alert = false → s1.sent = s.sent)
          ∧ (alert = true → ∃ ev, s1.sent = s.sent ++ [.event ev]
              ∧ ev.path = entry.path ∧ ev.type = FIM_EVENT_TYPE FIM_DELETE
              ∧ ev.mode = FIM_EVENT_MODE mode
              ∧ ev.attributes = fim_attributes_json entry.data
              ∧ ev.old_attributes = none ∧ ev.changed_attributes = none)) := by
  have hrt1 : ¬(mode = FIM_REALTIME ∧ (!has_opt (sys.opts.getD
      (fim_configuration_directory sys os entry.path).toNat 0) REALTIME_ACTIVE) = true) := by
    simpa using hrt
  have hwd1 : ¬(mode = FIM_WHODATA ∧ (!has_opt (sys.opts.getD
      (fim_configuration_directory sys os entry.path).toNat 0) WHODATA_ACTIVE) = true) := by
    simpa using hwd
  unfold fim_delete_file_event
  simp only [if_neg hpos, if_neg hrt1, if_neg hwd1]
  rcases hr : fim_db_remove_path s.database entry.path with ⟨res, db⟩
  constructor
  · intro he
    simp only at he
    subst he
    rfl
  · intro hne
    simp only [ne_eq] at hne
    cases alert
    · cases res
      · exact ⟨_, rfl, rfl, rfl, rfl, rfl, fun _ => rfl, fun h => by cases h⟩
      · exact ⟨_, rfl, rfl, rfl, rfl, rfl, fun _ => rfl, fun h => by cases h⟩
      · exact absurd rfl hne
    · cases res
      · exact ⟨_, rfl, rfl, rfl, rfl, rfl, (fun h => by cases h),
          fun _ => ⟨_, rfl, rfl, rfl, rfl, rfl, rfl, rfl⟩⟩
      · exact ⟨_, rfl, rfl, rfl, rfl, rfl, (fun h => by cases h),
          fun _ => ⟨_, rfl, rfl, rfl, rfl, rfl, rfl, rfl⟩⟩
      · exact absurd rfl hne

/-- The deletion handler always returns; it leaves the state unchanged or
replaces the store by the store after the removal and sends at most one
event. -/
theorem fim_delete_file_event_cases (sys : syscheck_t) (os : os_t) (entry : fim_entry)
    (alert : Bool) (mode : fim_event_mode) (w_evt : Option whodata_evt) (s : fim_state) :
    fim_delete_file_event sys os entry alert mode w_evt s = .ok s
      ∨ (fim_configuration_directory sys os entry.path ≠ -1
        ∧ (fim_db_remove_path s.database entry.path).1 ≠ .Err
        ∧ ∃ s1, fim_delete_file_event sys os entry alert mode w_evt s = .ok s1
          ∧ s1.database = (fim_db_remove_path s.database entry.path).2
          ∧ s1._base_line = s._base_line ∧ s1._db_state = s._db_state ∧ s1.logged = s.logged
          ∧ (alert = false → s1.sent = s.sent)
          ∧ (alert = true → ∃ ev, s1.sent = s.sent ++ [.event ev]
              ∧ ev.path = entry.path ∧ ev.type = FIM_EVENT_TYPE FIM_DELETE
              ∧ ev.mode = FIM_EVENT_MODE mode
              ∧ ev.attributes = fim_attributes_json entry.data
              ∧ ev.old_attributes = none ∧ ev.changed_attributes = none)) := by
  by_cases hpos : fim_configuration_directory sys os entry.path = -1
  · left
    unfold fim_delete_file_event
    simp only [hpos, if_true]
  by_cases hrt : mode = FIM_REALTIME ∧ has_opt (sys.opts.getD
      (fim_configuration_directory sys os entry.path).toNat 0) REALTIME_ACTIVE = false
  · left
    unfold fim_delete_file_event
    simp only [if_neg hpos]
    rw [if_pos (by simpa using hrt)]
  by_cases hwd : mode = FIM_WHODATA ∧ has_opt (sys.opts.getD
      (fim_configuration_directory sys os entry.path).toNat 0) WHODATA_ACTIVE = false
  · left
    unfold fim_delete_file_event
    simp only [if_neg hpos]
    rw [if_neg (by simpa using hrt), if_pos (by simpa using hwd)]
  have h := fim_delete_file_event_run sys os entry alert mode w_evt s hpos hrt hwd
  by_cases he : (fim_db_remove_path s.database entry.path).1 = .Err
  · exact Or.inl (h.1 he)
  · exact Or.inr ⟨hpos, he, h.2 he⟩

/-- An added event returned by `_fim_file` carries the attributes of the
record just extracted and nothing of an old record. -/
theorem _fim_file_added (resolve : fim_resolver) (sys : syscheck_t) (os : os_t) (path : String)
    (item : fim_element) (w_evt : Option whodata_evt) (s s1 : fim_state) (ev : fim_event)
    (h : _fim_file resolve sys os path item w_evt s = .ok (some ev, s1))
    (ht : ev.type = FIM_EVENT_TYPE FIM_ADD) :
    ∃ new, fim_get_data sys os path item = some new
      ∧ ev.attributes = fim_attributes_json new
      ∧ ev.old_attributes = none ∧ ev.changed_attributes = none := by
  unfold _fim_file at h
  split at h
  · cases h
  · cases hg : fim_get_data sys os path item with
    | none =>
      rw [hg] at h
      cases h
    | some new =>
      rw [hg] at h
      simp only at h
      cases hu : fim_update_db_data resolve sys path new item.mode s with
      | error e =>
        rw [hu] at h
        cases h
      | ok r =>
        obtain ⟨⟨rc, saved⟩, s2⟩ := r
        rw [hu] at h
        simp only at h
        split at h
        · cases h
        · split at h
          · cases h
          · rename_i json_event hj
            simp only [Except.ok.injEq, Prod.mk.injEq] at h
            obtain ⟨hev, -⟩ := h
            subst hev
            obtain ⟨-, hattr, hold, hch, hty, -⟩ :=
              fim_json_event_fields sys _ _ _ _ _ _ _ _ _ ev hj
            cases saved with
            | none =>
              refine ⟨new, rfl, hattr, by simpa using hold, ?_⟩
              simpa using hch
            | some sv =>
              rw [hty] at ht
              simp at ht
              exact absurd ht (by decide)

/-- C24: serialized attribute sets. An event returned by `fim_json_event` has
the keys `old_attributes` and `changed_attributes` if and only if old data
was supplied, and its `attributes` are those of the new data; an added event
returned by the file pipeline carries the attributes of the record just
extracted, with neither `old_attributes` nor `changed_attributes`; and an
event sent by the deletion handler is a deleted event that carries the
attributes of the record of the entry it was given, with neither
`old_attributes` nor `changed_attributes`. -/
theorem C24_attribute_sets (resolve : fim_resolver) (sys : syscheck_t) (os : os_t) :
    (∀ db file_name old_data new_data pos type mode w_evt diff ev,
        fim_json_event sys db file_name old_data new_data pos type mode w_evt diff
          = .ok (some ev) →
        (ev.old_attributes.isSome = true ↔ old_data.isSome = true)
          ∧ (ev.changed_attributes.isSome = true ↔ old_data.isSome = true)
          ∧ ev.attributes = fim_attributes_json new_data
          ∧ ev.old_attributes = old_data.map fim_attributes_json)
      ∧ (∀ path item w_evt s s1 ev,
          _fim_file resolve sys os path item w_evt s = .ok (some ev, s1) →
          ev.type = FIM_EVENT_TYPE FIM_ADD →
          ∃ new, fim_get_data sys os path item = some new
            ∧ ev.attributes = fim_attributes_json new
            ∧ ev.old_attributes = none ∧ ev.changed_attributes = none)
      ∧ (∀ entry alert mode w_evt s,
          ∃ s1, fim_delete_file_event sys os entry alert mode w_evt s = .ok s1
            ∧ (s1.sent = s.sent
              ∨ ∃ ev, s1.sent = s.sent ++ [.event ev]
                ∧ ev.type = FIM_EVENT_TYPE FIM_DELETE
                ∧ ev.attributes = fim_attributes_json entry.data
                ∧ ev.old_attributes = none ∧ ev.changed_attributes = none)) := by
  refine ⟨?_, ?_, ?_⟩
  · intro db file_name old_data new_data pos type mode w_evt diff ev h
    obtain ⟨-, hattr, hold, hch, -, -⟩ :=
      fim_json_event_fields sys db file_name old_data new_data pos type mode w_evt diff ev h
    refine ⟨?_, ?_, hattr, hold⟩
    · rw [hold]
      cases old_data <;> simp
    · rw [hch]
  · intro path item w_evt s s1 ev h ht
    exact _fim_file_added resolve sys os path item w_evt s s1 ev h ht
  · intro entry alert mode w_evt s
    rcases fim_delete_file_event_cases sys os entry alert mode w_evt s with h | ⟨-, -, s1, h, -, -, -, -, hno, hyes⟩
    · exact ⟨s, h, Or.inl rfl⟩
    · refine ⟨s1, h, ?_⟩
      cases alert
      · exact Or.inl (hno rfl)
      · obtain ⟨ev, hs, -, hty, -, hattr, hold, hch⟩ := hyes rfl
        exact Or.inr ⟨ev, hs, hty, hattr, hold, hch⟩

/-- Witness of C24: the sample file is added to the empty store; the event
carries the attributes of the extracted record only. -/
theorem C24_attribute_sets_witness :
    ∃ new, fim_get_data sample_sys sample_os "/m/a" sample_item = some new
      ∧ c24_event.attributes = fim_attributes_json new
      ∧ c24_event.old_attributes = none ∧ c24_event.changed_attributes = none :=
  (C24_attribute_sets (fim_resolve_db_collision sample_sys sample_os 4) sample_sys
    sample_os).2.1 "/m/a" sample_item none (sample_state [])
    { sample_state [] with database := { empty_db with
        entries := [{ path := "/m/a", data := sample_new }] } }
    c24_event rfl rfl

/-- C25: deletion mode alignment. `fim_delete_file_event` called in real-time
mode for an entry whose configured directory lacks `REALTIME_ACTIVE`, or in
whodata mode for one lacking `WHODATA_ACTIVE`, returns the state unchanged:
the store is untouched and nothing is sent. Called in scheduled mode for an
entry under a configured directory it processes the deletion whatever those
two bits are: unless the removal fails, the store is the store after the
removal, the path has no entry left, and with an alert asked for one deleted
event for the path is sent. -/
theorem C25_deletion_mode_alignment (sys : syscheck_t) (os : os_t) (entry : fim_entry)
    (alert : Bool) (w_evt : Option whodata_evt) (s : fim_state) :
    (has_opt (sys.opts.getD (fim_configuration_directory sys os entry.path).toNat 0)
          REALTIME_ACTIVE = false →
        fim_delete_file_event sys os entry alert FIM_REALTIME w_evt s = .ok s)
      ∧ (has_opt (sys.opts.getD (fim_configuration_directory sys os entry.path).toNat 0)
          WHODATA_ACTIVE = false →
        fim_delete_file_event sys os entry alert FIM_WHODATA w_evt s = .ok s)
      ∧ (fim_configuration_directory sys os entry.path ≠ -1 →
        (fim_db_remove_path s.database entry.path).1 ≠ .Err →
        ∃ s1, fim_delete_file_event sys os entry alert FIM_SCHEDULED w_evt s = .ok s1
          ∧ s1.database = (fim_db_remove_path s.database entry.path).2
          ∧ (∀ e ∈ s1.database.entries, e.path ≠ entry.path)
          ∧ (alert = false → s1.sent = s.sent)
          ∧ (alert = true → ∃ ev, s1.sent = s.sent ++ [.event ev]
              ∧ ev.path = entry.path ∧ ev.type = FIM_EVENT_TYPE FIM_DELETE
              ∧ ev.mode = FIM_EVENT_MODE FIM_SCHEDULED)) := by
  refine ⟨?_, ?_, ?_⟩
  · intro h
    by_cases hpos : fim_configuration_directory sys os entry.path = -1
    · unfold fim_delete_file_event
      simp only [hpos, if_true]
    · unfold fim_delete_file_event
      simp only [if_neg hpos]
      simp only [List.getD_eq_getElem?_getD] at h
      simp [h]
  · intro h
    by_cases hpos : fim_configuration_directory sys os entry.path = -1
    · unfold fim_delete_file_event
      simp only [hpos, if_true]
    · unfold fim_delete_file_event
      simp only [if_neg hpos]
      simp only [List.getD_eq_getElem?_getD] at h
      simp [h]
  · intro hpos hrm
    obtain ⟨s1, h, hdb, -, -, -, hno, hyes⟩ :=
      (fim_delete_file_event_run sys os entry alert FIM_SCHEDULED w_evt s hpos
        (fun h => by cases h.1) (fun h => by cases h.1)).2 hrm
    refine ⟨s1, h, hdb, ?_, hno, ?_⟩
    · rw [hdb]
      exact fim_db_remove_path_absent _ _ hrm
    · intro ha
      obtain ⟨ev, hs, hp, hty, hm, -⟩ := hyes ha
      exact ⟨ev, hs, hp, hty, hm⟩

/-- Witness of C25: the directory `/m` of the sample configuration has neither
`REALTIME_ACTIVE` nor `WHODATA_ACTIVE`. A deletion of `/m/a` reported in
real-time mode is dropped; in scheduled mode the entry is removed and one
deleted event is sent. -/
theorem C25_deletion_mode_alignment_witness :
    fim_delete_file_event sample_sys sample_os c25_entry true FIM_REALTIME none
        (sample_state [c25_entry]) = .ok (sample_state [c25_entry])
      ∧ ∃ s1, fim_delete_file_event sample_sys sample_os c25_entry true FIM_SCHEDULED none
          (sample_state [c25_entry]) = .ok s1
        ∧ s1.database = (fim_db_remove_path (sample_state [c25_entry]).database
            c25_entry.path).2
        ∧ (∀ e ∈ s1.database.entries, e.path ≠ c25_entry.path)
        ∧ (true = false → s1.sent = (sample_state [c25_entry]).sent)
        ∧ (true = true → ∃ ev, s1.sent = (sample_state [c25_entry]).sent ++ [.event ev]
            ∧ ev.path = c25_entry.path ∧ ev.type = FIM_EVENT_TYPE FIM_DELETE
            ∧ ev.mode = FIM_EVENT_MODE FIM_SCHEDULED) :=
  ⟨(C25_deletion_mode_alignment sample_sys sample_os c25_entry true none
      (sample_state [c25_entry])).1 (by decide),
   (C25_deletion_mode_alignment sample_sys sample_os c25_entry true none
      (sample_state [c25_entry])).2.2 (by decide) (by decide)⟩

/-- When `fim_append_paths` pushes nothing, the stack and the visited set are
unchanged. -/
theorem fim_append_paths_zero (ps stack tree : List String)
    (h : (fim_append_paths ps stack tree).1 = 0) :
    fim_append_paths ps stack tree = (0, stack, tree) := by
  obtain ⟨new, h1, -, -⟩ := fim_append_paths_spec ps stack tree
  rw [h1] at h ⊢
  simp only at h
  have hnil : new = [] := List.length_eq_zero.mp h
  subst hnil
  simp

/-- In the branch of the unresolvable loop `fim_process_file_from_db` is the
forced update of the path, with the outcome `FIM_FILE_UPDATED` and the stack
and the visited set unchanged. -/
theorem fim_process_file_from_db_forced (resolve : fim_resolver) (sys : syscheck_t) (os : os_t)
    (path : String) (stack tree : List String) (s : fim_state) (entry : fim_entry) (st : stat_t)
    (hget : fim_db_get_path s.database path = some entry)
    (hstat : os.w_stat entry.path = .ok st)
    (hdiff : ¬(entry.data.dev = st.st_dev ∧ entry.data.inode = st.st_ino))
    (hex : fim_db_data_exists s.database st.st_ino st.st_dev = 1)
    (happ : (fim_db_append_paths_from_inode s.database st.st_ino st.st_dev stack tree).1 = 0)
    (hidx : fim_configuration_directory sys os entry.path ≠ -1) :
    fim_process_file_from_db resolve sys os path stack tree s
      = match _fim_file_force_update sys os path
            (fim_db_item sys st (fim_configuration_directory sys os entry.path)) entry s with
        | .error h => .error h
        | .ok (event, s1) => .ok ((FIM_FILE_UPDATED, stack, tree, event), s1) := by
  have hz : fim_db_append_paths_from_inode s.database st.st_ino st.st_dev stack tree
      = (0, stack, tree) := fim_append_paths_zero _ _ _ happ
  unfold fim_process_file_from_db
  simp only [hget, hstat, hex]
  rw [if_neg (by
    rintro (h | ⟨-, h⟩)
    · exact hdiff h
    · exact absurd h (by decide)), if_neg (by decide)]
  simp only [hz, if_true, if_neg hidx]

/-- The forced update: nothing when extraction fails, nothing but the return
without event when the store refuses the insert; otherwise the extracted
record replaces the stored one, with no test of the capacity and no search
for a collision, and the event is the one `fim_json_event` builds from the
stored record as old data. -/
theorem _fim_file_force_update_cases (sys : syscheck_t) (os : os_t) (path : String)
    (item : fim_element) (saved : fim_entry) (s : fim_state) :
    (fim_get_data sys os path item = none →
        _fim_file_force_update sys os path item saved s = .ok (none, s))
      ∧ ∀ new, fim_get_data sys os path item = some new →
          (fim_db_fails s.database .op_insert = true →
            _fim_file_force_update sys os path item saved s = .ok (none, s))
          ∧ (fim_db_fails s.database .op_insert = false →
            _fim_file_force_update sys os path item saved s
              = match fim_json_event sys
                    { s.database with entries := fim_db_upsert s.database.entries path new }
                    path (some saved.data) new item.index FIM_MODIFICATION item.mode none
                    (if has_opt item.configuration CHECK_SEECHANGES then os.fim_file_diff path
                      else none) with
                | .error h => .error h
                | .ok event => .ok (event, { s with database :=
                    { s.database with entries := fim_db_upsert s.database.entries path new } }))
    := by
  constructor
  · intro h
    unfold _fim_file_force_update
    rw [h]
  · intro new h
    constructor
    · intro hf
      unfold _fim_file_force_update
      rw [h]
      simp [fim_state_insert, fim_db_insert, hf, FIMDB_ERR]
    · intro hf
      unfold _fim_file_force_update
      rw [h]
      simp only [fim_state_insert, fim_db_insert, hf, Bool.false_eq_true, if_false,
        Option.isNone_some, Bool.false_and, FIMDB_OK, ne_eq, not_true_eq_false]

theorem fim_db_get_path_not_failing (db : fdb_t) (path : String) (e : fim_entry)
    (h : fim_db_get_path db path = some e) : fim_db_fails db .op_get_path = false := by
  unfold fim_db_get_path at h
  split at h
  · cases h
  · rename_i hf
    simpa using hf

/-- C30 counterexample: two runs of `fim_process_file_from_db` on `/m/a` in
the branch of the unresolvable loop (the stored inode 5 differs from the inode
100 on disk, the inode 100 is held by `/m/b`, and every path at that inode is
already in the visited set). In the first the hash computation fails: nothing
is inserted and no event is returned. In the second only the size and the
modification time are monitored and neither has changed: the record is
replaced and no event is returned. Both return `FIM_FILE_UPDATED`. -/
theorem C30_counterexample :
    (¬(c30_old.dev = sample_stat.st_dev ∧ c30_old.inode = sample_stat.st_ino)
        ∧ fim_db_data_exists c30_state.database sample_stat.st_ino sample_stat.st_dev = 1
        ∧ (fim_db_append_paths_from_inode c30_state.database sample_stat.st_ino
            sample_stat.st_dev ["/m/b", "/m/a"] ["/m/b", "/m/a"]).1 = 0
        ∧ fim_process_file_from_db (fim_resolve_db_collision sample_sys c27_os 4) sample_sys
            c27_os "/m/a" ["/m/b", "/m/a"] ["/m/b", "/m/a"] c30_state
          = .ok ((FIM_FILE_UPDATED, ["/m/b", "/m/a"], ["/m/b", "/m/a"], none), c30_state))
      ∧ (¬(c30_old_size.dev = sample_stat.st_dev ∧ c30_old_size.inode = sample_stat.st_ino)
        ∧ fim_db_data_exists c30_state_size.database sample_stat.st_ino sample_stat.st_dev = 1
        ∧ (fim_db_append_paths_from_inode c30_state_size.database sample_stat.st_ino
            sample_stat.st_dev ["/m/b", "/m/a"] ["/m/b", "/m/a"]).1 = 0
        ∧ fim_process_file_from_db (fim_resolve_db_collision c30_sys sample_os 4) c30_sys
            sample_os "/m/a" ["/m/b", "/m/a"] ["/m/b", "/m/a"] c30_state_size
          = .ok ((FIM_FILE_UPDATED, ["/m/b", "/m/a"], ["/m/b", "/m/a"], none),
              sample_state [{ path := "/m/a", data :=
                  { c30_old_size with inode := 100, last_event := 1000, scanned := true,
                                      checksum := "20:::::::200:100:::" } },
                { path := "/m/b", data := { c30_old_size with inode := 100 } }])) := by
  refine ⟨⟨by decide, by decide, by decide, rfl⟩, by decide, by decide, by decide, rfl⟩

/-- C30 (amended): the unresolvable collision loop. In
`fim_process_file_from_db`, when the inode and device of path `Q` on disk
differ from the stored ones, that identity is occupied in the store,
`append_paths_from_inode` adds zero paths and `Q` lies under a configured
directory, `Q` is handed to `_fim_file_force_update` and the outcome is
`FIM_FILE_UPDATED` with the stack and the visited set unchanged. If
extraction fails, the state is unchanged and there is no event. If extraction
succeeds and the store does not fail the insert, the extracted record
replaces the stored one with no further check, and a modification event,
carrying the stored record as old attributes, is returned exactly when an
attribute monitored by the stored options differs. In the resolver the
outcome pops `Q` from the stack, and the event, if any, is sent. -/
theorem C30_forced_update (resolve : fim_resolver) (sys : syscheck_t) (os : os_t)
    (path : String) (stack tree : List String) (s : fim_state) (entry : fim_entry) (st : stat_t)
    (hget : fim_db_get_path s.database path = some entry)
    (hstat : os.w_stat entry.path = .ok st)
    (hdiff : ¬(entry.data.dev = st.st_dev ∧ entry.data.inode = st.st_ino))
    (hex : fim_db_data_exists s.database st.st_ino st.st_dev = 1)
    (happ : (fim_db_append_paths_from_inode s.database st.st_ino st.st_dev stack tree).1 = 0)
    (hidx : fim_configuration_directory sys os entry.path ≠ -1) :
    (fim_get_data sys os path
          (fim_db_item sys st (fim_configuration_directory sys os entry.path)) = none →
        fim_process_file_from_db resolve sys os path stack tree s
          = .ok ((FIM_FILE_UPDATED, stack, tree, none), s))
      ∧ (∀ new changed,
          fim_get_data sys os path
            (fim_db_item sys st (fim_configuration_directory sys os entry.path)) = some new →
          fim_db_fails s.database .op_insert = false →
          fim_json_compare_attrs entry.data new = .ok changed →
          ∃ event, fim_process_file_from_db resolve sys os path stack tree s
              = .ok ((FIM_FILE_UPDATED, stack, tree, event),
                  { s with database :=
                    { s.database with entries := fim_db_upsert s.database.entries path new } })
            ∧ fim_db_get_path
                { s.database with entries := fim_db_upsert s.database.entries path new } path
              = some { path := path, data := new }
            ∧ (changed = [] → event = none)
            ∧ (changed ≠ [] → ∃ ev, event = some ev ∧ ev.path = path
                ∧ ev.type = FIM_EVENT_TYPE FIM_MODIFICATION
                ∧ ev.changed_attributes = some changed
                ∧ ev.old_attributes = some (fim_attributes_json entry.data)
                ∧ ev.attributes = fim_attributes_json new))
      ∧ (∀ fuel event s1, stack.getLast? = some path →
          _fim_file_force_update sys os path
            (fim_db_item sys st (fim_configuration_directory sys os entry.path)) entry s
              = .ok (event, s1) →
          fim_resolve_loop sys os (fuel + 1) stack tree s
              = fim_resolve_loop sys os fuel stack.dropLast tree (fim_send_event event s1)
            ∧ stack.dropLast ++ [path] = stack) := by
  have hproc := fun r => fim_process_file_from_db_forced r sys os path stack tree s entry st hget
    hstat hdiff hex happ hidx
  have hfu := _fim_file_force_update_cases sys os path
    (fim_db_item sys st (fim_configuration_directory sys os entry.path)) entry s
  refine ⟨?_, ?_, ?_⟩
  · intro hnone
    rw [hproc resolve, hfu.1 hnone]
  · intro new changed hnew hins hcmp
    rw [hproc resolve, ((hfu.2 new hnew).2 hins)]
    have hgp : fim_db_get_path
        { s.database with entries := fim_db_upsert s.database.entries path new } path
        = some { path := path, data := new } := by
      have hnf := fim_db_get_path_not_failing _ _ _ hget
      unfold fim_db_get_path
      rw [show fim_db_fails { s.database with
        entries := fim_db_upsert s.database.entries path new } .op_get_path = false from hnf]
      simp only [Bool.false_eq_true, if_false]
      exact find_upsert_of_mem _ _ _ (any_of_get_path _ _ _ hget)
    by_cases hch : changed = []
    · subst hch
      refine ⟨none, ?_, hgp, fun _ => rfl, fun h => absurd rfl h⟩
      simp [fim_json_event, hcmp]
    · obtain ⟨ev, hev, hp, hty, -, hcha, hold, hattr⟩ :=
        fim_json_event_modified sys
          { s.database with entries := fim_db_upsert s.database.entries path new } path
          entry.data new
          (fim_db_item sys st (fim_configuration_directory sys os entry.path)).index
          FIM_MODIFICATION
          (fim_db_item sys st (fim_configuration_directory sys os entry.path)).mode none
          (if has_opt (fim_db_item sys st
              (fim_configuration_directory sys os entry.path)).configuration CHECK_SEECHANGES
            then os.fim_file_diff path else none) changed hcmp hch
      refine ⟨some ev, ?_, hgp, fun h => absurd h hch,
        fun _ => ⟨ev, rfl, hp, hty, hcha, hold, hattr⟩⟩
      rw [hev]
  · intro fuel event s1 hlast hforce
    constructor
    · rw [fim_resolve_loop]
      simp only [hlast]
      rw [hproc, hforce]
    · exact List.dropLast_append_getLast? path hlast

/-- Witness of C30 (amended): `/m/a` is stored under the inode 5 with every
check, its inode on disk is 100, held by `/m/b` in the store, and both paths
are in the visited set. The record of `/m/a` is replaced and a modification
event for the inode is returned. -/
theorem C30_forced_update_witness :
    ∃ event, fim_process_file_from_db (fim_resolve_db_collision sample_sys sample_os 4)
          sample_sys sample_os "/m/a" ["/m/b", "/m/a"] ["/m/b", "/m/a"] c30_state
        = .ok ((FIM_FILE_UPDATED, ["/m/b", "/m/a"], ["/m/b", "/m/a"], event),
            { c30_state with database := { c30_state.database with
                entries := fim_db_upsert c30_state.database.entries "/m/a" sample_new } })
      ∧ fim_db_get_path { c30_state.database with
            entries := fim_db_upsert c30_state.database.entries "/m/a" sample_new } "/m/a"
          = some { path := "/m/a", data := sample_new }
      ∧ (["inode"] = [] → event = none)
      ∧ (["inode"] ≠ [] → ∃ ev, event = some ev ∧ ev.path = "/m/a"
          ∧ ev.type = FIM_EVENT_TYPE FIM_MODIFICATION
          ∧ ev.changed_attributes = some ["inode"]
          ∧ ev.old_attributes = some (fim_attributes_json c30_old)
          ∧ ev.attributes = fim_attributes_json sample_new) :=
  (C30_forced_update (fim_resolve_db_collision sample_sys sample_os 4) sample_sys sample_os
    "/m/a" ["/m/b", "/m/a"] ["/m/b", "/m/a"] c30_state { path := "/m/a", data := c30_old }
    sample_stat rfl rfl (by decide) (by decide) (by decide) (by decide)).2.1 sample_new
    ["inode"] rfl rfl rfl

/-- A traversal that stops when the store is full does nothing on a store
that is marked full. -/
theorem fim_scan_dirs_full (resolve : fim_resolver) (sys : syscheck_t) (os : os_t) (fuel : Nat)
    (report : Bool) (dirs : List Nat) (s : fim_state) (h : s.database.full = true) :
    fim_scan_dirs resolve sys os fuel report true dirs s = .ok s := by
  cases dirs with
  | nil => rfl
  | cons it rest =>
    unfold fim_scan_dirs
    rw [if_pos ⟨rfl, h⟩]

/-- A traversal that stops when the store is full traverses its first
directory when the store is not marked full. -/
theorem fim_scan_dirs_not_full (resolve : fim_resolver) (sys : syscheck_t) (os : os_t)
    (fuel : Nat) (report : Bool) (it : Nat) (rest : List Nat) (s s5 : fim_state)
    (h : s.database.full = false)
    (hr : fim_scan_dirs resolve sys os fuel report true (it :: rest) s = .ok s5) :
    ∃ item t, fim_checker resolve sys os fuel (fim_get_real_path sys os it)
          { fim_element_zero with mode := FIM_SCHEDULED, index := (it : Int) } none report s
        = .ok (item, t)
      ∧ fim_scan_dirs resolve sys os fuel report true rest t = .ok s5 := by
  unfold fim_scan_dirs at hr
  rw [if_neg (by simp [h])] at hr
  split at hr
  · cases hr
  · rename_i item t hchk
    exact ⟨item, t, hchk, hr⟩

/-- The refill traversal on a store that agrees with the file system, with
the capacity limit enabled and fuel for the stored entries and the capacity:
it returns, the store still agrees with the file system, and nothing is
sent. -/
theorem fim_scan_dirs_refill (sys : syscheck_t) (os : os_t) (fuel : Nat) (stop : Bool)
    (dirs : List Nat) (vs : List fim_visit) (s4 : fim_state)
    (hw : fim_scan_walk sys os fuel dirs = .ok vs)
    (hs : fim_store_fresh sys os s4)
    (hen : sys.file_limit_enabled = true)
    (hfuel : s4.database.entries.length ≤ fuel) (hlim : sys.file_limit ≤ (fuel : Int)) :
    ∃ s5, fim_scan_dirs (fim_resolve_db_collision sys os fuel) sys os fuel false stop dirs s4
        = .ok s5
      ∧ fim_store_fresh sys os s5 ∧ s5.sent = s4.sent ∧ s5._base_line = s4._base_line := by
  have hok := fim_scan_walk_good sys os fuel dirs vs hw
  have h :=
    fim_scan_dirs_total (fim_resolve_db_collision sys os fuel) sys os fuel false stop
      (fun t => fim_store_fresh sys os t ∧ t.sent = s4.sent ∧ t._base_line = s4._base_line
        ∧ t.database.entries.length ≤ fuel) dirs vs hw ?_ s4 ⟨hs, rfl, rfl, hfuel⟩
  · obtain ⟨s5, h5, hf5, hsent5, hb5, -⟩ := h
    exact ⟨s5, h5, hf5, hsent5, hb5⟩
  · intro v hv t ⟨ht, hsent, hb, hlen⟩
    obtain ⟨t1, hrun, hfresh1, hb1, ⟨extra, hmap, hlen1, -, hnil, hsent1⟩, -, -, -⟩ :=
      fim_run_visit_effect sys os fuel false v t ht (hok v hv) hlen
    refine ⟨t1, hrun, hfresh1, (hsent1 (Or.inr (Or.inr rfl))).trans hsent, hb1.trans hb, ?_⟩
    have hl := congrArg List.length hmap
    simp only [List.length_map, List.length_append] at hl
    by_cases hset : fim_visit_settled sys os t v
    · rw [hnil hset] at hl
      simp only [List.length_nil, Nat.add_zero] at hl
      omega
    · have hcap : ¬((t.database.entries.length : Int) ≥ sys.file_limit) := by
        intro hge
        apply hset
        cases v with
        | file path item => exact Or.inr (Or.inr ⟨hen, hge⟩)
        | missing path item => trivial
      omega

theorem cut_at_last_snoc (c : Char) (str : List Char) :
    cut_at_last c (str ++ [c]) = str := by
  simp [cut_at_last]

theorem int32_wrap_id (x : Int) (h0 : -(2 ^ 31) ≤ x) (h1 : x < 2 ^ 31) : int32_wrap x = x := by
  unfold int32_wrap
  rw [Int.emod_eq_of_lt (by omega) (by omega)]
  omega

/-- A continuation line that arrives while a message is saved and has room is
appended to it after one space as it was read, its leading spaces and tabs
included. -/
theorem read_mssql_log_line_continuation (drop_it : Int) (st : mssql_state) (str : List Char)
    (hlen : 2 < (str ++ ['\n']).length) (hmax : (str ++ ['\n']).length < OS_MAXSTR + 1 - 2)
    (hhead : mssql_header str (str ++ ['\n']).length = false)
    (hclear : st.need_clear = false) (hbuf : st.buffer ≠ [])
    (hroom : OS_MAXSTR + 1 - st.buffer.length > (str ++ ['\n']).length + 256) :
    (read_mssql_log_line drop_it st (str ++ ['\n'])).buffer = st.buffer ++ [' '] ++ str := by
  have hc : (str ++ ['\n']).contains '\n' = true := by simp
  have htake : str.take ((str ++ ['\n']).length + 3) = str := by
    apply List.take_of_length_le
    simp only [List.length_append, List.length_singleton]
    omega
  unfold read_mssql_log_line
  simp only [hc, if_true, cut_at_last_snoc, if_neg (Nat.not_le.mpr hmax), hclear,
    Bool.false_eq_true, and_false, if_false, hhead, hlen, hbuf, ne_eq, not_false_eq_true,
    and_self, hroom, htake]

/-- C37: MS SQL multi-line messages, evaluated on a message of two lines
whose second line starts with a tab. The continuation line is appended to the
saved message after a single space with its leading tab kept: the message
pushed is not the one in which the leading spaces and tabs of the line are
removed. -/
theorem C37_mssql_continuation :
    read_mssql_log 0 0 ["2009-03-25 04:47:30.01 Server  SELECT a\n", "\tFROM t\n"]
        = ["2009-03-25 04:47:30.01 Server  SELECT a \tFROM t"]
      ∧ String.mk ("2009-03-25 04:47:30.01 Server  SELECT a".data ++ [' ']
          ++ mssql_strip "\tFROM t".data) = "2009-03-25 04:47:30.01 Server  SELECT a FROM t"
      ∧ read_mssql_log 0 0 ["2009-03-25 04:47:30.01 Server  SELECT a\n", "\tFROM t\n"]
        ≠ ["2009-03-25 04:47:30.01 Server  SELECT a FROM t"] := by
  refine ⟨by decide, by decide, by decide⟩

/-- When one hundred times the free memory fits in an `int`, `getMemory`
reports the usage `100 - floor(100 * MemFree / ram_total)`, a value between 0
and 100. -/
theorem getMemory_exact (systemInfo : List (String × String)) (vt vf : String) (T F : Int)
    (ht : systemInfo.lookup "MemTotal" = some vt) (hf : systemInfo.lookup "MemFree" = some vf)
    (hT : stoi vt = some T) (hF : stoi vf = some F)
    (h0 : 0 ≤ F) (h1 : F ≤ T) (h3 : 100 * F < 2 ^ 31) :
    getMemory systemInfo
        = some (if T = 0 then 1 else T, F, 100 - 100 * F / (if T = 0 then 1 else T))
      ∧ 0 ≤ 100 - 100 * F / (if T = 0 then 1 else T)
      ∧ 100 - 100 * F / (if T = 0 then 1 else T) ≤ 100 := by
  have hR : 0 < (if T = 0 then 1 else T) := by
    split <;> omega
  have hq0 : 0 ≤ 100 * F / (if T = 0 then 1 else T) := Int.ediv_nonneg (by omega) (by omega)
  have hq1 : 100 * F / (if T = 0 then 1 else T) ≤ 100 := by
    apply Int.ediv_le_of_le_mul hR
    split <;> omega
  refine ⟨?_, by omega, by omega⟩
  unfold getMemory
  simp only [ht, hf, hT, hF]
  have e1 := int32_wrap_id (100 * F) (by omega) h3
  have e2 : Int.tdiv (100 * F) (if T = 0 then 1 else T) = 100 * F / (if T = 0 then 1 else T) :=
    Int.tdiv_eq_ediv (by omega) (by omega)
  have e3 := int32_wrap_id (100 * F / (if T = 0 then 1 else T)) (by omega) (by omega)
  have e4 := int32_wrap_id (100 - 100 * F / (if T = 0 then 1 else T)) (by omega) (by omega)
  rw [e1, e2, e3, e4]

/-- C38: memory usage percentage, evaluated on a machine with 64 GiB of
memory of which 30,000,000 kB are free. The product `100 * memFree` does not
fit in an `int` and wraps to a negative value: `getMemory` reports the usage
119, not `100 - floor(100 * MemFree / ram_total) = 56`. -/
theorem C38_memory_usage :
    getMemory [("MemTotal", "67108864 kB"), ("MemFree", "30000000 kB")]
        = some (67108864, 30000000, 119)
      ∧ (0 : Int) ≤ 30000000 ∧ (30000000 : Int) ≤ 67108864
      ∧ (100 : Int) - 100 * 30000000 / 67108864 = 56
      ∧ int32_wrap (100 * 30000000) = -1294967296 := by
  refine ⟨by decide, by decide, by decide, by decide, by decide⟩

/-- C32: nested configurations in scheduled mode. `fim_checker` returns at
once, with the item and the state unchanged (no store access, no event), for
every path whose configured directory, the result of
`fim_configuration_directory`, is not the directory index being traversed;
so a call that changes the state was made for a path whose configured
directory is the index being traversed. -/
theorem C32_nested_configurations (resolve : fim_resolver) (sys : syscheck_t) (os : os_t)
    (fuel : Nat) (path : String) (item : fim_element) (w_evt : Option whodata_evt)
    (report : Bool) (s : fim_state) (hmode : item.mode = FIM_SCHEDULED) :
    (fim_configuration_directory sys os path ≠ item.index →
        fim_checker resolve sys os fuel path item w_evt report s = .ok (item, s))
      ∧ (∀ item1 s1, fim_checker resolve sys os fuel path item w_evt report s = .ok (item1, s1) →
          s1 ≠ s →
          fim_configuration_directory sys os path = item.index ∧ 0 ≤ item.index) := by
  obtain ⟨checker, hc⟩ := fim_checker_eq_body resolve sys os fuel
  have hskip : (fim_configuration_directory sys os path < 0
      ∨ item.index ≠ fim_configuration_directory sys os path) →
      fim_checker resolve sys os fuel path item w_evt report s = .ok (item, s) := by
    intro h
    rw [hc]
    unfold fim_checker_body
    simp only
    rw [if_pos ⟨hmode, h⟩]
  constructor
  · intro hne
    exact hskip (Or.inr (fun h => hne h.symm))
  · intro item1 s1 h hs
    by_cases hn : fim_configuration_directory sys os path < 0
        ∨ item.index ≠ fim_configuration_directory sys os path
    · rw [hskip hn] at h
      simp only [Except.ok.injEq, Prod.mk.injEq] at h
      exact absurd h.2.symm hs
    · have h1 : ¬fim_configuration_directory sys os path < 0 := fun h0 => hn (Or.inl h0)
      have h2 : item.index = fim_configuration_directory sys os path := by
        by_contra h0
        exact hn (Or.inr h0)
      exact ⟨h2.symm, by omega⟩

/-- Witness of C32: `/m/a` is configured separately inside `/m`; during the
traversal of `/m` (index 0) the checker skips `/m/a`. -/
theorem C32_nested_configurations_witness :
    fim_checker (fim_resolve_db_collision c32_sys sample_os 4) c32_sys sample_os 4 "/m/a"
        { fim_element_zero with index := 0 } none true (sample_state [])
      = .ok ({ fim_element_zero with index := 0 }, sample_state []) :=
  (C32_nested_configurations (fim_resolve_db_collision c32_sys sample_os 4) c32_sys sample_os 4
    "/m/a" { fim_element_zero with index := 0 } none true (sample_state []) rfl).1 (by decide)

/-- C33: already-scanned short-circuit. In scheduled mode, when the store
reports the path as scanned or the query fails, `_fim_file` returns no event
and the state unchanged, whatever extraction would yield. In real-time and
whodata modes the answer of the store is not consulted: the result is that of
the pipeline after the test, extraction followed by the update of the store
and the event. -/
theorem C33_scanned_short_circuit (resolve : fim_resolver) (sys : syscheck_t) (os : os_t)
    (path : String) (item : fim_element) (w_evt : Option whodata_evt) (s : fim_state) :
    (item.mode = FIM_SCHEDULED →
        (fim_db_file_is_scanned s.database path = 1
          ∨ fim_db_file_is_scanned s.database path = FIMDB_ERR) →
        _fim_file resolve sys os path item w_evt s = .ok (none, s))
      ∧ (item.mode ≠ FIM_SCHEDULED →
        (fim_get_data sys os path item = none →
          _fim_file resolve sys os path item w_evt s = .ok (none, s))
        ∧ ∀ new, fim_get_data sys os path item = some new →
          ((fim_state_insert sys path new
              ((fim_db_get_path s.database path).map (fun e => e.data)) s).1 ≠ 0 →
            _fim_file resolve sys os path item w_evt s
              = .ok (none, (fim_state_insert sys path new
                  ((fim_db_get_path s.database path).map (fun e => e.data)) s).2))
          ∧ ((fim_state_insert sys path new
              ((fim_db_get_path s.database path).map (fun e => e.data)) s).1 = 0 →
            _fim_file resolve sys os path item w_evt s
              = (fim_json_event sys
                  (fim_state_insert sys path new
                    ((fim_db_get_path s.database path).map (fun e => e.data)) s).2.database
                  path ((fim_db_get_path s.database path).map (fun e => e.data)) new item.index
                  (if (fim_db_get_path s.database path).isNone then FIM_ADD
                    else FIM_MODIFICATION)
                  item.mode w_evt
                  (if has_opt item.configuration CHECK_SEECHANGES then os.fim_file_diff path
                    else none)).map
                fun ev => (ev, (fim_state_insert sys path new
                  ((fim_db_get_path s.database path).map (fun e => e.data)) s).2))) := by
  constructor
  · intro hmode h
    unfold _fim_file
    rw [if_pos ⟨hmode, h.symm⟩]
  · intro hmode
    have hnot : ¬(item.mode = FIM_SCHEDULED ∧
        (fim_db_file_is_scanned s.database path = FIMDB_ERR
          ∨ fim_db_file_is_scanned s.database path = 1)) := fun h => hmode h.1
    constructor
    · intro hnone
      unfold _fim_file
      rw [if_neg hnot, hnone]
    · intro new hnew
      have hupd : fim_update_db_data resolve sys path new item.mode s
          = .ok (((fim_state_insert sys path new
                ((fim_db_get_path s.database path).map (fun e => e.data)) s).1,
              fim_db_get_path s.database path),
            (fim_state_insert sys path new
              ((fim_db_get_path s.database path).map (fun e => e.data)) s).2) := by
        unfold fim_update_db_data
        simp only [if_pos hmode]
      constructor
      · intro hrc
        unfold _fim_file
        rw [if_neg hnot, hnew]
        simp only [hupd, if_pos hrc]
      · intro hrc
        unfold _fim_file
        rw [if_neg hnot, hnew]
        simp only [hupd, hrc, ne_eq, not_true_eq_false, if_false, Option.isNone_map']
        cases fim_json_event sys _ path _ new item.index _ item.mode w_evt _ <;> rfl

/-- Witness of C33: in scheduled mode the entry of `/m/a` is already marked
scanned; the pipeline returns no event and the state unchanged. -/
theorem C33_scanned_short_circuit_witness :
    _fim_file (fim_resolve_db_collision sample_sys sample_os 4) sample_sys sample_os "/m/a"
        sample_item none (sample_state [{ path := "/m/a", data := sample_new }])
      = .ok (none, sample_state [{ path := "/m/a", data := sample_new }]) :=
  (C33_scanned_short_circuit (fim_resolve_db_collision sample_sys sample_os 4) sample_sys
    sample_os "/m/a" sample_item none
    (sample_state [{ path := "/m/a", data := sample_new }])).1 rfl (Or.inl (by decide))

/-- C36: mode filter. For a real-time or whodata trigger `fim_checker`
returns at once, with the item and the state unchanged (no stat, no store
access, no event), for every path whose configured directory is configured
for another mode than the triggering one. A scheduled trigger is not rejected
on account of the mode of the directory: whatever that mode is, a file of the
directory being traversed that is within the recursion level, is on no
skipped file system and is neither ignored nor restricted is handed to the
file pipeline. -/
theorem C36_mode_filter (resolve : fim_resolver) (sys : syscheck_t) (os : os_t) (fuel : Nat)
    (path : String) (item : fim_element) (w_evt : Option whodata_evt) (report : Bool)
    (s : fim_state) :
    (item.mode ≠ FIM_SCHEDULED →
        item.mode ≠ FIM_MODE
          (sys.opts.getD (fim_configuration_directory sys os path).toNat 0) →
        fim_checker resolve sys os fuel path item w_evt report s = .ok (item, s))
      ∧ (item.mode = FIM_SCHEDULED →
        0 ≤ fim_configuration_directory sys os path →
        item.index = fim_configuration_directory sys os path →
        fim_check_depth sys os path (fim_configuration_directory sys os path).toNat
          ≤ sys.recursion_level.getD (fim_configuration_directory sys os path).toNat 0 →
        ∀ st, os.w_stat path = .ok st →
        os.HasFilesystem path = false →
        (st.st_mode &&& S_IFMT = FIM_LINK ∨ st.st_mode &&& S_IFMT = FIM_REGULAR) →
        fim_check_ignore sys path ≠ 1 →
        fim_check_restrict path
          ((sys.filerestrict.get? (fim_configuration_directory sys os path).toNat).join) ≠ 1 →
        fim_checker resolve sys os fuel path item w_evt report s
          = (fim_file resolve sys os path
              { item with
                index := fim_configuration_directory sys os path,
                configuration :=
                  sys.opts.getD (fim_configuration_directory sys os path).toNat 0,
                statbuf := st } w_evt report s).map
            fun s1 =>
              ({ item with
                  index := fim_configuration_directory sys os path,
                  configuration :=
                    sys.opts.getD (fim_configuration_directory sys os path).toNat 0,
                  statbuf := st }, s1)) := by
  obtain ⟨checker, hc⟩ := fim_checker_eq_body resolve sys os fuel
  constructor
  · intro hmode hne
    rw [hc]
    unfold fim_checker_body
    simp only
    rw [if_neg (fun h => hmode h.1)]
    by_cases hn : fim_configuration_directory sys os path < 0
    · rw [if_pos ⟨hmode, hn⟩]
    · rw [if_neg (fun h => hn h.2), if_pos ⟨hmode, hne⟩]
  · intro hmode hnode hindex hdepth st hstat hfs hkind hign hres
    rw [hc]
    unfold fim_checker_body
    simp only
    rw [if_neg (by
      rintro ⟨-, h | h⟩
      · omega
      · exact h hindex), if_neg (fun h => h.1 hmode), if_neg (fun h => h.1 hmode),
      if_neg (by omega)]
    simp only [hstat, hfs, Bool.false_eq_true, if_false, if_pos hkind, if_neg hign, if_neg hres]
    cases fim_file resolve sys os path _ w_evt report s <;> rfl

/-- Witness of C36: the directory `/m` is configured for real-time
monitoring. A whodata trigger for `/m/a` is rejected; a scheduled trigger for
it reaches the file pipeline. -/
theorem C36_mode_filter_witness :
    fim_checker (fim_resolve_db_collision c6_sys sample_os 4) c6_sys sample_os 4 "/m/a"
        { fim_element_zero with mode := FIM_WHODATA } none true (sample_state [])
      = .ok ({ fim_element_zero with mode := FIM_WHODATA }, sample_state [])
    ∧ fim_checker (fim_resolve_db_collision c6_sys sample_os 4) c6_sys sample_os 4 "/m/a"
        fim_element_zero none true (sample_state [])
      = (fim_file (fim_resolve_db_collision c6_sys sample_os 4) c6_sys sample_os "/m/a"
          { fim_element_zero with
            index := fim_configuration_directory c6_sys sample_os "/m/a",
            configuration :=
              c6_sys.opts.getD (fim_configuration_directory c6_sys sample_os "/m/a").toNat 0,
            statbuf := sample_stat } none true (sample_state [])).map
        fun s1 =>
          ({ fim_element_zero with
              index := fim_configuration_directory c6_sys sample_os "/m/a",
              configuration :=
                c6_sys.opts.getD (fim_configuration_directory c6_sys sample_os "/m/a").toNat 0,
              statbuf := sample_stat }, s1) :=
  ⟨(C36_mode_filter (fim_resolve_db_collision c6_sys sample_os 4) c6_sys sample_os 4 "/m/a"
      { fim_element_zero with mode := FIM_WHODATA } none true (sample_state [])).1
      (by decide) (by decide),
   (C36_mode_filter (fim_resolve_db_collision c6_sys sample_os 4) c6_sys sample_os 4 "/m/a"
      fim_element_zero none true (sample_state [])).2 rfl (by decide) (by decide) (by decide)
      sample_stat rfl rfl (by decide) (by decide) (by decide)⟩

/-- The string hashed by `fim_get_checksum` is a function of the attributes
that enter the checksum. -/
theorem fim_checksum_string_fields (a b : fim_file_data)
    (h : fim_checksum_fields a = fim_checksum_fields b) :
    fim_checksum_string a = fim_checksum_string b := by
  simp only [fim_checksum_fields, Prod.mk.injEq] at h
  obtain ⟨h1, h2, h3, h4, h5, h6, h7, h8, h9, h10, h11, h12⟩ := h
  simp only [fim_checksum_string, h1, h2, h3, h4, h5, h6, h7, h8, h9, h10, h11, h12]

/-- Marking a path scanned replaces no record: the entries are the same up to
their scanned flags. -/
theorem fim_db_set_scanned_unscan (db : fdb_t) (path : String) :
    (fim_db_set_scanned db path).entries.map fim_unscan = db.entries.map fim_unscan := by
  unfold fim_db_set_scanned
  split
  · rfl
  · simp only [List.map_map]
    apply List.map_congr_left
    intro e _
    simp only [Function.comp]
    split <;> rfl

/-- Two records that agree on the attributes that enter the checksum, the
permission being present when it is monitored, show no changed attribute. -/
theorem fim_json_compare_attrs_fields (od nd : fim_file_data)
    (h : fim_checksum_fields nd = fim_checksum_fields od)
    (hperm : has_opt od.options CHECK_PERM = true → od.perm ≠ none) :
    fim_json_compare_attrs od nd = .ok [] := by
  simp only [fim_checksum_fields, Prod.mk.injEq] at h
  obtain ⟨h1, h2, -, h4, h5, h6, h7, h8, h9, h10, h11, h12⟩ := h
  unfold fim_json_compare_attrs
  simp only [h1, h2, h4, h5, h6, h7, h8, h9, h10, h11, h12, both_differ_self, bne_self_eq_false,
    Bool.and_false, changed_if, Bool.false_eq_true, if_false, List.append_nil]
  by_cases hp : has_opt od.options CHECK_PERM = true
  · rw [if_pos hp, strcmp_ne_some _ _ (hperm hp) (hperm hp)]
    simp [Except.map]
  · rw [if_neg hp]
    simp [Except.map]

/-- In scheduled mode a prior entry with the checksum of the new data is only
marked scanned, whatever the resolver and the inode index are. -/
theorem fim_update_db_data_up_to_date (resolve : fim_resolver) (sys : syscheck_t)
    (path : String) (data : fim_file_data) (s : fim_state) (sv : fim_entry)
    (hget : fim_db_get_path s.database path = some sv)
    (hck : data.checksum = sv.data.checksum) :
    fim_update_db_data resolve sys path data FIM_SCHEDULED s
      = .ok ((0, some sv), { s with database := fim_db_set_scanned s.database path }) := by
  unfold fim_update_db_data
  simp only [hget, ne_eq, not_true_eq_false, if_false, if_pos hck]

/-- C34 (amended): up-to-date entry. In scheduled mode, when a prior entry
exists for the path and the checksum of the new data equals the stored
checksum, `fim_update_db_data` only marks the path scanned: it returns
success with the store in which the path is marked, in which no record is
replaced, whatever the collision resolver and the inode index would answer.
`_fim_file` then returns no event and sends nothing when the attributes that
enter the checksum are equal as well (no collision of the checksum), the
stored permission being present when it is monitored. -/
theorem C34_up_to_date (resolve : fim_resolver) (sys : syscheck_t) (os : os_t) (path : String)
    (item : fim_element) (w_evt : Option whodata_evt) (s : fim_state) (sv : fim_entry)
    (new : fim_file_data)
    (hmode : item.mode = FIM_SCHEDULED)
    (hget : fim_db_get_path s.database path = some sv)
    (hnew : fim_get_data sys os path item = some new)
    (hck : new.checksum = sv.data.checksum) :
    fim_update_db_data resolve sys path new FIM_SCHEDULED s
        = .ok ((0, some sv), { s with database := fim_db_set_scanned s.database path })
      ∧ (fim_db_set_scanned s.database path).entries.map fim_unscan
          = s.database.entries.map fim_unscan
      ∧ (fim_checksum_fields new = fim_checksum_fields sv.data →
          (has_opt sv.data.options CHECK_PERM = true → sv.data.perm ≠ none) →
          ∃ s1, _fim_file resolve sys os path item w_evt s = .ok (none, s1)
            ∧ s1.database.entries.map fim_unscan = s.database.entries.map fim_unscan
            ∧ s1.sent = s.sent
            ∧ (fim_db_file_is_scanned s.database path = 0 →
              s1 = { s with database := fim_db_set_scanned s.database path })) := by
  have hupd := fim_update_db_data_up_to_date resolve sys path new s sv hget hck
  refine ⟨hupd, fim_db_set_scanned_unscan _ _, ?_⟩
  intro hfields hperm
  by_cases hsc : item.mode = FIM_SCHEDULED ∧
      (fim_db_file_is_scanned s.database path = FIMDB_ERR
        ∨ fim_db_file_is_scanned s.database path = 1)
  · refine ⟨s, ?_, rfl, rfl, ?_⟩
    · unfold _fim_file
      rw [if_pos hsc]
    · intro h0
      rcases hsc.2 with h | h <;> rw [h0] at h <;> exact absurd h (by decide)
  · refine ⟨{ s with database := fim_db_set_scanned s.database path }, ?_,
      fim_db_set_scanned_unscan _ _, rfl, fun _ => rfl⟩
    unfold _fim_file
    rw [if_neg hsc, hnew]
    simp only [hmode, hupd, ne_eq, not_true_eq_false, if_false, Option.map_some']
    simp [fim_json_event, fim_json_compare_attrs_fields sv.data new hfields hperm]

/-- Witness of C34: the sample file is stored as it is on disk, not yet
scanned in this cycle; the pipeline marks it scanned and returns no event. -/
theorem C34_up_to_date_witness :
    ∃ s1, _fim_file (fim_resolve_db_collision sample_sys sample_os 4) sample_sys sample_os "/m/a"
          sample_item none c34_state = .ok (none, s1)
      ∧ s1.database.entries.map fim_unscan = c34_state.database.entries.map fim_unscan
      ∧ s1.sent = c34_state.sent
      ∧ (fim_db_file_is_scanned c34_state.database "/m/a" = 0 →
          s1 = { c34_state with database := fim_db_set_scanned c34_state.database "/m/a" }) :=
  (C34_up_to_date (fim_resolve_db_collision sample_sys sample_os 4) sample_sys sample_os "/m/a"
    sample_item none c34_state { path := "/m/a", data := { sample_new with scanned := false } }
    sample_new rfl rfl rfl rfl).2.2 rfl (fun _ => by decide)

/-- C35: the checksum computed by `fim_get_checksum` does not depend on
`dev`, `options`, `mode`, `last_event` or `scanned`: two records that differ
only in those fields get the same checksum. So in scheduled mode a stored
entry that carries the checksum of its record and whose file differs on disk
only by its device number (and by what a scan rewrites) is treated as up to
date: the path is marked scanned, the stored record is not replaced and keeps
the old device number. -/
theorem C35_checksum_independent (resolve : fim_resolver) (sys : syscheck_t) (os : os_t)
    (path : String) (item : fim_element) (s : fim_state) (sv : fim_entry) (new : fim_file_data) :
    (∀ (d : fim_file_data) dev options mode last_event scanned,
        (fim_get_checksum os
          { d with dev := dev, options := options, mode := mode, last_event := last_event,
                   scanned := scanned }).checksum = (fim_get_checksum os d).checksum)
      ∧ (fim_db_get_path s.database path = some sv →
        sv.data.checksum = os.OS_SHA1_Str (fim_checksum_string sv.data) →
        fim_get_data sys os path item = some new →
        fim_checksum_fields new = fim_checksum_fields sv.data →
        new.dev ≠ sv.data.dev →
        fim_update_db_data resolve sys path new FIM_SCHEDULED s
            = .ok ((0, some sv), { s with database := fim_db_set_scanned s.database path })
          ∧ (fim_db_set_scanned s.database path).entries.map fim_unscan
              = s.database.entries.map fim_unscan
          ∧ ∀ e ∈ (fim_db_set_scanned s.database path).entries, e.path = path →
              ∃ e0 ∈ s.database.entries, e0.path = path ∧ e.data.dev = e0.data.dev) := by
  constructor
  · intro d dev options mode last_event scanned
    rfl
  · intro hget hstored hnew hfields _
    have hck : new.checksum = sv.data.checksum := by
      rw [fim_get_data_checksum sys os path item new hnew, hstored,
        fim_checksum_string_fields new sv.data hfields]
    refine ⟨fim_update_db_data_up_to_date resolve sys path new s sv hget hck,
      fim_db_set_scanned_unscan _ _, ?_⟩
    intro e he hp
    have hm : fim_unscan e ∈ s.database.entries.map fim_unscan := by
      rw [← fim_db_set_scanned_unscan s.database path]
      exact List.mem_map_of_mem _ he
    obtain ⟨e0, he0, heq⟩ := List.mem_map.mp hm
    refine ⟨e0, he0, ?_, ?_⟩
    · have := congrArg (fun x => x.path) heq
      simp only [fim_unscan] at this
      rw [this, hp]
    · have := congrArg (fun x => x.data.dev) heq
      simp only [fim_unscan] at this
      exact this.symm

/-- Witness of C35: `/m/a` was stored on the device 2 and is now on the
device 1 with nothing else changed; the scan marks it scanned and the store
keeps the device 2. -/
theorem C35_checksum_independent_witness :
    fim_update_db_data (fim_resolve_db_collision sample_sys sample_os 4) sample_sys "/m/a"
          sample_new FIM_SCHEDULED c35_state
        = .ok ((0, some { path := "/m/a", data := c35_old }),
            { c35_state with database := fim_db_set_scanned c35_state.database "/m/a" })
      ∧ (fim_db_set_scanned c35_state.database "/m/a").entries.map fim_unscan
          = c35_state.database.entries.map fim_unscan
      ∧ ∀ e ∈ (fim_db_set_scanned c35_state.database "/m/a").entries, e.path = "/m/a" →
          ∃ e0 ∈ c35_state.database.entries, e0.path = "/m/a" ∧ e.data.dev = e0.data.dev :=
  (C35_checksum_independent (fim_resolve_db_collision sample_sys sample_os 4) sample_sys
    sample_os "/m/a" sample_item c35_state { path := "/m/a", data := c35_old } sample_new).2
    rfl rfl rfl rfl (by decide)

/-- C31 counterexample: `/m/a` has a prior entry under another device, its
inode and device on disk are held in the store by `/m/b`, and its checksum is
the stored one (the device does not enter the checksum). `fim_update_db_data`
does not run the collision resolver, here one that would halt, and inserts
nothing: it marks the path scanned and the stored record keeps the device
2. -/
theorem C31_counterexample :
    fim_db_get_path c31_state.database "/m/a" = some { path := "/m/a", data := c35_old }
      ∧ ¬(sample_new.dev = c35_old.dev ∧ sample_new.inode = c35_old.inode)
      ∧ fim_db_data_exists c31_state.database sample_new.inode sample_new.dev = 1
      ∧ fim_update_db_data (fun _ _ _ => .error .out_of_fuel) sample_sys "/m/a" sample_new
          FIM_SCHEDULED c31_state
        = .ok ((0, some { path := "/m/a", data := c35_old }),
            sample_state [{ path := "/m/a", data := { c35_old with scanned := true } },
              { path := "/m/b", data := sample_new }]) := by
  refine ⟨rfl, by decide, by decide, rfl⟩

/-- Once `fim_update_db_data` returns a failure, `_fim_file` returns no
event. -/
theorem _fim_file_update_failed (resolve : fim_resolver) (sys : syscheck_t) (os : os_t)
    (path : String) (item : fim_element) (w_evt : Option whodata_evt) (s s1 : fim_state)
    (new : fim_file_data) (rc : Int) (saved : Option fim_entry)
    (hsc : ¬(item.mode = FIM_SCHEDULED ∧
      (fim_db_file_is_scanned s.database path = FIMDB_ERR
        ∨ fim_db_file_is_scanned s.database path = 1)))
    (hnew : fim_get_data sys os path item = some new)
    (hupd : fim_update_db_data resolve sys path new item.mode s = .ok ((rc, saved), s1))
    (hrc : rc ≠ 0) :
    _fim_file resolve sys os path item w_evt s = .ok (none, s1) := by
  unfold _fim_file
  rw [if_neg hsc, hnew]
  simp only [hupd, if_pos hrc]

/-- What `fim_update_db_data` does in scheduled mode once the probe of the
inode index has found the inode and device of the new data in the store: the
resolver runs first; on its failure the call fails with the state the
resolver left, and on its success the result is that of the insert applied to
that state. -/
theorem fim_update_db_data_resolve (resolve : fim_resolver) (sys : syscheck_t) (path : String)
    (data : fim_file_data) (s : fim_state)
    (hcase : fim_db_get_path s.database path = none
      ∨ ∃ sv, fim_db_get_path s.database path = some sv ∧ data.checksum ≠ sv.data.checksum
          ∧ ¬(data.dev = sv.data.dev ∧ data.inode = sv.data.inode))
    (hex : fim_db_data_exists s.database data.inode data.dev = 1) :
    fim_update_db_data resolve sys path data FIM_SCHEDULED s
      = match resolve data.inode data.dev s with
        | .error h => .error h
        | .ok (rc, s1) =>
          if rc ≠ 0 then .ok ((-1, fim_db_get_path s.database path), s1)
          else .ok (((fim_state_insert sys path data
              ((fim_db_get_path s.database path).map (fun e => e.data)) s1).1,
            fim_db_get_path s.database path),
            (fim_state_insert sys path data
              ((fim_db_get_path s.database path).map (fun e => e.data)) s1).2) := by
  rcases hcase with hnone | ⟨sv, hsv, hck, hid⟩
  · unfold fim_update_db_data
    simp only [hnone, ne_eq, not_true_eq_false, if_false, hex, Option.map_none']
    rw [if_neg (by decide)]
    simp only [if_true]
  · unfold fim_update_db_data
    simp only [hsv, ne_eq, not_true_eq_false, if_false, hex, if_neg hck, if_neg hid,
      Option.map_some']
    rw [if_neg (by decide), if_neg (by decide)]

/-- When the probe of the inode index fails, `fim_update_db_data` fails and
leaves the state unchanged. -/
theorem fim_update_db_data_probe_failed (resolve : fim_resolver) (sys : syscheck_t)
    (path : String) (data : fim_file_data) (s : fim_state)
    (hcase : fim_db_get_path s.database path = none
      ∨ ∃ sv, fim_db_get_path s.database path = some sv ∧ data.checksum ≠ sv.data.checksum
          ∧ ¬(data.dev = sv.data.dev ∧ data.inode = sv.data.inode))
    (hex : fim_db_data_exists s.database data.inode data.dev = FIMDB_ERR) :
    fim_update_db_data resolve sys path data FIM_SCHEDULED s
      = .ok ((-1, fim_db_get_path s.database path), s) := by
  rcases hcase with hnone | ⟨sv, hsv, hck, hid⟩
  · unfold fim_update_db_data
    simp only [hnone, ne_eq, not_true_eq_false, if_false, hex, if_true]
  · unfold fim_update_db_data
    simp only [hsv, ne_eq, not_true_eq_false, if_false, hex, if_neg hck, if_neg hid, if_true]

/-- C31 (amended): collision handling before insert, in scheduled mode. When
the inode and device of the new data are already present in the store, for a
path with no prior entry or for a path whose prior entry has another inode or
device and another checksum, `fim_update_db_data` runs the collision resolver
before it inserts: if the resolver succeeds, the result is that of the insert
of the path into the state the resolver left; if the resolver fails, the call
fails with the state the resolver left, with no insert of its own. If the
probe of the inode index fails, the call fails and leaves the state
unchanged. On each failure `_fim_file` returns no event. -/
theorem C31_collision_before_insert (resolve : fim_resolver) (sys : syscheck_t) (os : os_t)
    (path : String) (item : fim_element) (w_evt : Option whodata_evt) (new : fim_file_data)
    (s : fim_state)
    (hmode : item.mode = FIM_SCHEDULED)
    (hsc : fim_db_file_is_scanned s.database path = 0)
    (hnew : fim_get_data sys os path item = some new)
    (hcase : fim_db_get_path s.database path = none
      ∨ ∃ sv, fim_db_get_path s.database path = some sv ∧ new.checksum ≠ sv.data.checksum
          ∧ ¬(new.dev = sv.data.dev ∧ new.inode = sv.data.inode)) :
    (fim_db_data_exists s.database new.inode new.dev = 1 →
        (∀ s1, resolve new.inode new.dev s = .ok (0, s1) →
          fim_update_db_data resolve sys path new FIM_SCHEDULED s
            = .ok (((fim_state_insert sys path new
                ((fim_db_get_path s.database path).map (fun e => e.data)) s1).1,
              fim_db_get_path s.database path),
              (fim_state_insert sys path new
                ((fim_db_get_path s.database path).map (fun e => e.data)) s1).2))
        ∧ (∀ rc s1, resolve new.inode new.dev s = .ok (rc, s1) → rc ≠ 0 →
          fim_update_db_data resolve sys path new FIM_SCHEDULED s
              = .ok ((-1, fim_db_get_path s.database path), s1)
            ∧ _fim_file resolve sys os path item w_evt s = .ok (none, s1)))
      ∧ (fim_db_data_exists s.database new.inode new.dev = FIMDB_ERR →
        fim_update_db_data resolve sys path new FIM_SCHEDULED s
            = .ok ((-1, fim_db_get_path s.database path), s)
          ∧ _fim_file resolve sys os path item w_evt s = .ok (none, s)) := by
  have hnsc : ¬(item.mode = FIM_SCHEDULED ∧
      (fim_db_file_is_scanned s.database path = FIMDB_ERR
        ∨ fim_db_file_is_scanned s.database path = 1)) := by
    rintro ⟨-, h | h⟩ <;> rw [hsc] at h <;> exact absurd h (by decide)
  constructor
  · intro hex
    have hres := fim_update_db_data_resolve resolve sys path new s hcase hex
    constructor
    · intro s1 hr
      rw [hres, hr]
      rfl
    · intro rc s1 hr hrc
      have hupd : fim_update_db_data resolve sys path new FIM_SCHEDULED s
          = .ok ((-1, fim_db_get_path s.database path), s1) := by
        rw [hres, hr]
        simp only [if_pos hrc]
      refine ⟨hupd, ?_⟩
      exact _fim_file_update_failed resolve sys os path item w_evt s s1 new (-1) _ hnsc hnew
        (by rw [hmode]; exact hupd) (by decide)
  · intro hex
    have hupd := fim_update_db_data_probe_failed resolve sys path new s hcase hex
    exact ⟨hupd, _fim_file_update_failed resolve sys os path item w_evt s s new (-1) _ hnsc hnew
      (by rw [hmode]; exact hupd) (by decide)⟩

/-- Witness of C31 (amended): `/m/a` has no entry and its inode and device
are held in the store by `/m/b`, a file no longer on disk. The resolver runs
first and removes `/m/b`; `/m/a` is then inserted into the state it left. -/
theorem C31_collision_before_insert_witness :
    fim_update_db_data (fim_resolve_db_collision sample_sys sample_os 4) sample_sys "/m/a"
        sample_new FIM_SCHEDULED c31_state_new
      = .ok (((fim_state_insert sample_sys "/m/a" sample_new
            ((fim_db_get_path c31_state_new.database "/m/a").map (fun e => e.data))
            c31_resolved).1,
          fim_db_get_path c31_state_new.database "/m/a"),
          (fim_state_insert sample_sys "/m/a" sample_new
            ((fim_db_get_path c31_state_new.database "/m/a").map (fun e => e.data))
            c31_resolved).2) :=
  ((C31_collision_before_insert (fim_resolve_db_collision sample_sys sample_os 4) sample_sys
    sample_os "/m/a" sample_item none sample_new c31_state_new rfl (by decide) rfl
    (Or.inl rfl)).1 (by decide)).1 c31_resolved rfl

/-! ## Equal checksums with changed attributes, and the store at capacity -/

/-- Counterexample to C3 as stated, in five runs of `_fim_file` on a path
whose stored record monitors the size and the modification time and whose
size and time on disk differ from the stored ones, inode and device
unchanged. First, the file grows from 10 bytes to 10 + 2^32 bytes and its
time advances from 100 to 100 + 2^32: the checksum of the new data is the
stored one, `fim_update_db_data` takes the entry as up to date and the
stored record is left as it was, only marked scanned, although the
`modified` event is returned. Second, the file grows from 10 to 20 bytes
under a string hash that gives the old and the new checksum string the same
digest: the stored record is again left as it was. Third, the entry is
already marked scanned: nothing is returned and nothing is stored. Fourth,
the hash primitive fails: nothing is returned and nothing is stored. Fifth,
the path is processed with the modification time monitored only, while the
record was stored, for the empty file, with the size monitored as well: the
event does not list `size` among the changed attributes. -/
theorem C3_counterexample :
    (fim_db_get_path c3_state.database "/m/a" = some { path := "/m/a", data := c3_old }
    ∧ c3_item.mode = FIM_SCHEDULED
    ∧ has_opt c3_old.options CHECK_SIZE = true ∧ has_opt c3_old.options CHECK_MTIME = true
    ∧ c3_item.statbuf.st_size ≠ c3_old.size ∧ c3_item.statbuf.st_mtime ≠ c3_old.mtime
    ∧ c3_item.statbuf.st_ino = c3_old.inode ∧ c3_item.statbuf.st_dev = c3_old.dev
    ∧ c3_os.w_stat "/m/a" = .ok c3_item.statbuf
    ∧ fim_get_data c30_sys c3_os "/m/a" c3_item = some c3_new
    ∧ c3_new.checksum = c3_old.checksum
    ∧ (∃ ev, _fim_file (fim_resolve_db_collision c30_sys c3_os 1) c30_sys c3_os "/m/a" c3_item
          none c3_state
        = .ok (some ev, sample_state [{ path := "/m/a", data := { c3_old with scanned := true } }])
        ∧ ev.type = "modified")
    ∧ fim_db_get_path
        (sample_state [{ path := "/m/a", data := { c3_old with scanned := true } }]).database
        "/m/a" ≠ some { path := "/m/a", data := c3_new })
    ∧ (sample_item.statbuf.st_size ≠ sample_data.size
      ∧ sample_item.statbuf.st_mtime ≠ sample_data.mtime
      ∧ sample_item.statbuf.st_ino = sample_data.inode
      ∧ sample_item.statbuf.st_dev = sample_data.dev
      ∧ fim_get_data sample_sys c3_os_collide "/m/a" sample_item
          = some { sample_new with checksum := "0" }
      ∧ ∃ ev, _fim_file (fim_resolve_db_collision sample_sys c3_os_collide 1) sample_sys
            c3_os_collide "/m/a" sample_item none c3_state_collide
          = .ok (some ev, sample_state
              [{ path := "/m/a", data := { sample_data with checksum := "0", scanned := true } }])
          ∧ ev.type = "modified")
    ∧ (fim_db_get_path c3_state_scanned.database "/m/a"
          = some { path := "/m/a", data := { sample_data with scanned := true } }
      ∧ _fim_file (fim_resolve_db_collision sample_sys sample_os 1) sample_sys sample_os "/m/a"
          sample_item none c3_state_scanned = .ok (none, c3_state_scanned))
    ∧ (fim_get_data sample_sys c27_os "/m/a" sample_item = none
      ∧ _fim_file (fim_resolve_db_collision sample_sys c27_os 1) sample_sys c27_os "/m/a"
          sample_item none (sample_state [{ path := "/m/a", data := sample_data }])
        = .ok (none, sample_state [{ path := "/m/a", data := sample_data }]))
    ∧ (has_opt c3_old_empty.options CHECK_SIZE = true
      ∧ has_opt c3_old_empty.options CHECK_MTIME = true
      ∧ c3_item_mtime.statbuf.st_size ≠ c3_old_empty.size
      ∧ c3_item_mtime.statbuf.st_mtime ≠ c3_old_empty.mtime
      ∧ ∃ ev s1, _fim_file (fim_resolve_db_collision sample_sys sample_os 1) sample_sys sample_os
            "/m/a" c3_item_mtime none c3_state_empty_file = .ok (some ev, s1)
          ∧ ev.type = "modified" ∧ ev.changed_attributes = some ["mtime"]) := by
  refine ⟨⟨rfl, rfl, by decide, by decide, by decide, by decide, rfl, rfl, rfl, rfl, rfl,
    ⟨_, rfl, rfl⟩, by decide⟩, ⟨by decide, by decide, rfl, rfl, rfl, ⟨_, rfl, rfl⟩⟩,
    ⟨rfl, rfl⟩, ⟨rfl, rfl⟩, by decide, by decide, by decide, by decide, ⟨_, _, rfl, rfl, rfl⟩⟩

/-- Counterexample to C34 as stated. First, the size and the modification
time are monitored; the file grows from 10 bytes to 10 + 2^32 bytes. The
checksum of the new data equals the stored one and `fim_update_db_data` only
marks the path scanned, yet `_fim_file` returns a `modified` event, since
`fim_json_event` compares the attributes themselves. Second, the same
happens when the file grows from 10 to 20 bytes under a string hash that
gives the old and the new checksum string the same digest. -/
theorem C34_counterexample :
    (fim_db_get_path c3_state.database "/m/a" = some { path := "/m/a", data := c3_old }
    ∧ c34_item.mode = FIM_SCHEDULED
    ∧ fim_get_data c30_sys c34_os "/m/a" c34_item = some c34_new
    ∧ c34_new.checksum = c3_old.checksum
    ∧ fim_update_db_data (fim_resolve_db_collision c30_sys c34_os 1) c30_sys "/m/a" c34_new
        FIM_SCHEDULED c3_state
      = .ok ((0, some { path := "/m/a", data := c3_old }),
          sample_state [{ path := "/m/a", data := { c3_old with scanned := true } }])
    ∧ ∃ ev, _fim_file (fim_resolve_db_collision c30_sys c34_os 1) c30_sys c34_os "/m/a" c34_item
          none c3_state
        = .ok (some ev, sample_state [{ path := "/m/a", data := { c3_old with scanned := true } }])
        ∧ ev.type = "modified" ∧ ev.changed_attributes = some ["size"])
    ∧ (fim_get_data sample_sys c3_os_collide "/m/a" sample_item
          = some { sample_new with checksum := "0" }
      ∧ ({ sample_new with checksum := "0" } : fim_file_data).checksum
          = ({ sample_data with checksum := "0" } : fim_file_data).checksum
      ∧ ∃ ev, _fim_file (fim_resolve_db_collision sample_sys c3_os_collide 1) sample_sys
            c3_os_collide "/m/a" sample_item none c3_state_collide
          = .ok (some ev, sample_state
              [{ path := "/m/a", data := { sample_data with checksum := "0", scanned := true } }])
          ∧ ev.type = "modified") := by
  refine ⟨⟨rfl, rfl, rfl, rfl, rfl, ⟨_, rfl, rfl, rfl⟩⟩, rfl, rfl, ⟨_, rfl, rfl⟩⟩

/-- Counterexample to C4 as stated. First, with the capacity 1 and one
entry stored for another file, the new file `/m/a` (on disk, no stored entry,
inode and device unclaimed) is refused by the store: nothing is inserted,
nothing is sent and the store is marked full. Second, when the hash
primitive fails on `/m/a`, the extraction fails and the empty store is left
as it was, nothing sent. -/
theorem C4_counterexample :
    (sample_item.mode = FIM_SCHEDULED ∧ c4_state_one._base_line = true
      ∧ sample_os.w_stat "/m/a" = .ok sample_item.statbuf
      ∧ fim_db_get_path c4_state_one.database "/m/a" = none
      ∧ fim_db_data_exists c4_state_one.database sample_item.statbuf.st_ino
          sample_item.statbuf.st_dev = 0
      ∧ fim_file (fim_resolve_db_collision c29_sys sample_os 1) c29_sys sample_os "/m/a"
          sample_item none true c4_state_one
        = .ok { c4_state_one with database := { c4_state_one.database with full := true } })
    ∧ (c27_os.w_stat "/m/a" = .ok sample_item.statbuf
      ∧ fim_get_data sample_sys c27_os "/m/a" sample_item = none
      ∧ fim_file (fim_resolve_db_collision sample_sys c27_os 1) sample_sys c27_os "/m/a"
          sample_item none true (sample_state []) = .ok (sample_state [])) := by
  refine ⟨⟨rfl, rfl, rfl, rfl, rfl, rfl⟩, rfl, rfl, rfl⟩

/-! ## Capacity alerts along a monotone sequence of counts -/

/-- The bands seen in a sequence of counts, one count at a time. -/
theorem fim_db_seen_cons (c n : Int) (rest : List Int) :
    fim_db_seen_80 c (n :: rest)
        = (decide (4 * c ≤ 5 * n ∧ 10 * n < 9 * c) || fim_db_seen_80 c rest)
    ∧ fim_db_seen_90 c (n :: rest) = (decide (9 * c ≤ 10 * n ∧ n < c) || fim_db_seen_90 c rest)
    ∧ fim_db_seen_full c (n :: rest) = (decide (c ≤ n ∧ 0 < n) || fim_db_seen_full c rest)
    ∧ fim_db_seen_normal c (n :: rest)
        = (decide (0 ≤ n ∧ 5 * n < 4 * c) || fim_db_seen_normal c rest) :=
  ⟨rfl, rfl, rfl, rfl⟩

/-- Along a rising sequence no later count lies in a band below a count
already seen. -/
theorem fim_db_seen_rising (c n : Int) (rest : List Int) (h : ∀ m ∈ rest, n ≤ m) :
    (4 * c ≤ 5 * n → 9 * c ≤ 10 * n → fim_db_seen_80 c rest = false)
    ∧ (c ≤ n → fim_db_seen_80 c rest = false)
    ∧ (c ≤ n → fim_db_seen_90 c rest = false) := by
  refine ⟨fun _ h9 => ?_, fun hc => ?_, fun hc => ?_⟩ <;>
    · simp only [fim_db_seen_80, fim_db_seen_90, List.any_eq_false, decide_eq_true_eq]
      intro m hm hb
      have := h m hm
      omega

/-- Along a falling sequence no later count lies in a band above a count
already seen. -/
theorem fim_db_seen_falling (c n : Int) (rest : List Int) (h : ∀ m ∈ rest, m ≤ n) :
    (10 * n < 9 * c → fim_db_seen_90 c rest = false)
    ∧ (5 * n < 4 * c → fim_db_seen_90 c rest = false)
    ∧ (5 * n < 4 * c → fim_db_seen_80 c rest = false) := by
  refine ⟨fun _ => ?_, fun hc => ?_, fun hc => ?_⟩ <;>
    · simp only [fim_db_seen_80, fim_db_seen_90, List.any_eq_false, decide_eq_true_eq]
      intro m hm hb
      have := h m hm
      omega

/-- A negative count lies in no band. -/
theorem fim_db_alerts_from_neg (c n : Int) (rest : List Int) (st : fim_state_db) (h0 : 0 ≤ c)
    (hn : n < 0) :
    fim_db_alerts_rising_from c (n :: rest) st = fim_db_alerts_rising_from c rest st
    ∧ fim_db_alerts_falling_from c (n :: rest) st = fim_db_alerts_falling_from c rest st := by
  obtain ⟨e8, e9, ef, en⟩ := fim_db_seen_cons c n rest
  have d8 : decide (4 * c ≤ 5 * n ∧ 10 * n < 9 * c) = false := decide_eq_false (by omega)
  have d9 : decide (9 * c ≤ 10 * n ∧ n < c) = false := decide_eq_false (by omega)
  have df : decide (c ≤ n ∧ 0 < n) = false := decide_eq_false (by omega)
  have dn : decide (0 ≤ n ∧ 5 * n < 4 * c) = false := decide_eq_false (by omega)
  rw [d8, Bool.false_or] at e8
  rw [d9, Bool.false_or] at e9
  rw [df, Bool.false_or] at ef
  rw [dn, Bool.false_or] at en
  constructor <;> cases st <;>
    simp only [fim_db_alerts_rising_from, fim_db_alerts_falling_from, e8, e9, ef, en]

/-- A quiet row keeps the state among those a run can be in. -/
theorem fim_db_quiet_ok (c n : Int) (st st1 : fim_state_db)
    (hn : 0 ≤ n) (hok : fim_db_state_ok c st) (h : fim_db_quiet c n st = some st1) :
    fim_db_state_ok c st1 := by
  unfold fim_db_state_ok at hok ⊢
  cases st <;> simp only [fim_db_quiet] at h <;> split_ifs at h <;> cases h <;>
    first
    | exact Or.inr (Or.inl rfl)
    | exact Or.inr (Or.inr rfl)
    | (left; rcases hok with hok | hok | hok <;> first | exact hok | omega)

/-- The band of a count is a state a run can be in. -/
theorem fim_db_band_ok (c n : Int) (h0 : 0 ≤ c) :
    fim_db_state_ok c (fim_db_band_of c n) := by
  unfold fim_db_state_ok fim_db_band_of
  split_ifs <;> first | exact Or.inr (Or.inr rfl) | exact Or.inr (Or.inl rfl) | (left; omega)

/-- On a quiet row of a rising run the expected alerts are those of the
next state for the remaining counts. -/
theorem fim_db_rising_quiet (c n : Int) (rest : List Int) (st st1 : fim_state_db) (hfn : fim_db_floor c st n)
    (h : fim_db_quiet c n st = some st1) :
    fim_db_alerts_rising_from c (n :: rest) st = fim_db_alerts_rising_from c rest st1 := by
  obtain ⟨e8, e9, ef, en⟩ := fim_db_seen_cons c n rest
  cases st <;> simp only [fim_db_quiet] at h <;> simp only [fim_db_floor] at hfn <;>
    split_ifs at h <;> cases h <;>
    simp only [fim_db_alerts_rising_from, e8, e9, ef] <;>
    first
    | (have d8 : decide (4 * c ≤ 5 * n ∧ 10 * n < 9 * c) = false := decide_eq_false (by omega)
       have d9 : decide (9 * c ≤ 10 * n ∧ n < c) = false := decide_eq_false (by omega)
       have df : decide (c ≤ n ∧ 0 < n) = false := decide_eq_false (by omega)
       simp only [d8, d9, df, Bool.false_or])
    | (have d9 : decide (9 * c ≤ 10 * n ∧ n < c) = false := decide_eq_false (by omega)
       have df : decide (c ≤ n ∧ 0 < n) = false := decide_eq_false (by omega)
       simp only [d9, df, Bool.false_or])
    | (have df : decide (c ≤ n ∧ 0 < n) = false := decide_eq_false (by omega)
       simp only [df, Bool.false_or])

/-- On a quiet row of a falling run the expected alerts are those of the
next state for the remaining counts. -/
theorem fim_db_falling_quiet (c n : Int) (rest : List Int) (st st1 : fim_state_db)
    (hn : 0 ≤ n) (hfn : fim_db_ceil c st n)
    (h : fim_db_quiet c n st = some st1) :
    fim_db_alerts_falling_from c (n :: rest) st = fim_db_alerts_falling_from c rest st1 := by
  obtain ⟨e8, e9, ef, en⟩ := fim_db_seen_cons c n rest
  cases st <;> simp only [fim_db_quiet] at h <;> simp only [fim_db_ceil] at hfn <;>
    split_ifs at h <;> cases h <;>
    simp only [fim_db_alerts_falling_from, e8, e9, en] <;>
    first
    | (have d8 : decide (4 * c ≤ 5 * n ∧ 10 * n < 9 * c) = false := decide_eq_false (by omega)
       have d9 : decide (9 * c ≤ 10 * n ∧ n < c) = false := decide_eq_false (by omega)
       have dn : decide (0 ≤ n ∧ 5 * n < 4 * c) = false := decide_eq_false (by omega)
       simp only [d8, d9, dn, Bool.false_or])
    | (have d8 : decide (4 * c ≤ 5 * n ∧ 10 * n < 9 * c) = false := decide_eq_false (by omega)
       have dn : decide (0 ≤ n ∧ 5 * n < 4 * c) = false := decide_eq_false (by omega)
       simp only [d8, dn, Bool.false_or])
    | (have dn : decide (0 ≤ n ∧ 5 * n < 4 * c) = false := decide_eq_false (by omega)
       simp only [dn, Bool.false_or])

/-- On a row with an alert of a rising run the expected alerts are the alert
of the band of the count, then those of that band for the remaining counts. -/
theorem fim_db_rising_alert (c n : Int) (rest : List Int) (st : fim_state_db)
    (hn : 0 ≤ n) (hok : fim_db_state_ok c st) (hfn : fim_db_floor c st n)
    (hr : ∀ m ∈ rest, n ≤ m) (h : fim_db_quiet c n st = none) :
    fim_db_alerts_rising_from c (n :: rest) st
      = fim_db_alert_type (fim_db_band_of c n)
        :: fim_db_alerts_rising_from c rest (fim_db_band_of c n) := by
  obtain ⟨e8, e9, ef, en⟩ := fim_db_seen_cons c n rest
  obtain ⟨r1, r2, r3⟩ := fim_db_seen_rising c n rest hr
  unfold fim_db_state_ok at hok
  by_cases hF : c ≤ n
  · have hb : fim_db_band_of c n = FIM_STATE_DB_FULL := by
      unfold fim_db_band_of
      rw [if_pos hF]
    have d8 : decide (4 * c ≤ 5 * n ∧ 10 * n < 9 * c) = false := decide_eq_false (by omega)
    have d9 : decide (9 * c ≤ 10 * n ∧ n < c) = false := decide_eq_false (by omega)
    rw [hb]
    cases st <;> simp only [fim_db_quiet] at h <;> simp only [fim_db_floor] at hfn <;>
      split_ifs at h <;>
      first
      | omega
      | (have df : decide (c ≤ n ∧ 0 < n) = true := decide_eq_true (by
           rcases hok with hok | hok | hok <;> first | omega | cases hok)
         simp only [fim_db_alerts_rising_from, e8, e9, ef, d8, d9, df, r2 hF, r3 hF,
           fim_db_alert_type, fim_db_alert_if, Bool.false_or, Bool.true_or, Bool.or_self,
           if_true, if_false, Bool.false_eq_true, List.nil_append, List.append_nil])
  · by_cases h9 : 9 * c ≤ 10 * n
    · have hb : fim_db_band_of c n = FIM_STATE_DB_90_PERCENTAGE := by
        unfold fim_db_band_of
        rw [if_neg hF, if_pos h9]
      have d8 : decide (4 * c ≤ 5 * n ∧ 10 * n < 9 * c) = false := decide_eq_false (by omega)
      have d9 : decide (9 * c ≤ 10 * n ∧ n < c) = true := decide_eq_true (by omega)
      have df : decide (c ≤ n ∧ 0 < n) = false := decide_eq_false (by omega)
      rw [hb]
      cases st <;> simp only [fim_db_quiet] at h <;> simp only [fim_db_floor] at hfn <;>
        split_ifs at h <;>
        first
        | omega
        | simp only [fim_db_alerts_rising_from, e8, e9, ef, d8, d9, df, r1 (by omega) h9,
           fim_db_alert_type, fim_db_alert_if, Bool.false_or, Bool.true_or, Bool.or_self,
           if_true, if_false, Bool.false_eq_true, List.nil_append, List.append_nil,
           List.singleton_append, List.cons_append]
    · by_cases h8 : 4 * c ≤ 5 * n
      · have hb : fim_db_band_of c n = FIM_STATE_DB_80_PERCENTAGE := by
          unfold fim_db_band_of
          rw [if_neg hF, if_neg h9, if_pos h8]
        have d8 : decide (4 * c ≤ 5 * n ∧ 10 * n < 9 * c) = true := decide_eq_true (by omega)
        have d9 : decide (9 * c ≤ 10 * n ∧ n < c) = false := decide_eq_false (by omega)
        have df : decide (c ≤ n ∧ 0 < n) = false := decide_eq_false (by omega)
        rw [hb]
        cases st <;> simp only [fim_db_quiet] at h <;> simp only [fim_db_floor] at hfn <;>
          split_ifs at h <;>
          first
          | omega
          | simp only [fim_db_alerts_rising_from, e8, e9, ef, d8, d9, df,
             fim_db_alert_type, fim_db_alert_if, Bool.false_or, Bool.true_or, Bool.or_self,
             if_true, if_false, Bool.false_eq_true, List.nil_append, List.append_nil,
             List.singleton_append, List.cons_append]
      · exfalso
        cases st <;> simp only [fim_db_quiet] at h <;> simp only [fim_db_floor] at hfn <;>
          split_ifs at h <;> omega

/-- On a row with an alert of a falling run the expected alerts are the
alert of the band of the count, then those of that band for the remaining
counts. -/
theorem fim_db_falling_alert (c n : Int) (rest : List Int) (st : fim_state_db)
    (hn : 0 ≤ n) (hfn : fim_db_ceil c st n)
    (hr : ∀ m ∈ rest, m ≤ n) (h : fim_db_quiet c n st = none) :
    fim_db_alerts_falling_from c (n :: rest) st
      = fim_db_alert_type (fim_db_band_of c n)
        :: fim_db_alerts_falling_from c rest (fim_db_band_of c n) := by
  obtain ⟨e8, e9, ef, en⟩ := fim_db_seen_cons c n rest
  obtain ⟨r1, r2, r3⟩ := fim_db_seen_falling c n rest hr
  by_cases hF : c ≤ n
  · exfalso
    cases st <;> simp only [fim_db_quiet] at h <;> simp only [fim_db_ceil] at hfn <;>
      split_ifs at h <;> omega
  · by_cases h9 : 9 * c ≤ 10 * n
    · have hb : fim_db_band_of c n = FIM_STATE_DB_90_PERCENTAGE := by
        unfold fim_db_band_of
        rw [if_neg hF, if_pos h9]
      have d8 : decide (4 * c ≤ 5 * n ∧ 10 * n < 9 * c) = false := decide_eq_false (by omega)
      have d9 : decide (9 * c ≤ 10 * n ∧ n < c) = true := decide_eq_true (by omega)
      have dn : decide (0 ≤ n ∧ 5 * n < 4 * c) = false := decide_eq_false (by omega)
      rw [hb]
      cases st <;> simp only [fim_db_quiet] at h <;> simp only [fim_db_ceil] at hfn <;>
        split_ifs at h <;>
        first
        | omega
        | simp only [fim_db_alerts_falling_from, e8, e9, en, d8, d9, dn,
           fim_db_alert_type, fim_db_alert_if, Bool.false_or, Bool.true_or, Bool.or_self,
           if_true, if_false, Bool.false_eq_true, List.nil_append, List.append_nil,
           List.singleton_append, List.cons_append]
    · by_cases h8 : 4 * c ≤ 5 * n
      · have hb : fim_db_band_of c n = FIM_STATE_DB_80_PERCENTAGE := by
          unfold fim_db_band_of
          rw [if_neg hF, if_neg h9, if_pos h8]
        have d8 : decide (4 * c ≤ 5 * n ∧ 10 * n < 9 * c) = true := decide_eq_true (by omega)
        have d9 : decide (9 * c ≤ 10 * n ∧ n < c) = false := decide_eq_false (by omega)
        have dn : decide (0 ≤ n ∧ 5 * n < 4 * c) = false := decide_eq_false (by omega)
        rw [hb]
        cases st <;> simp only [fim_db_quiet] at h <;> simp only [fim_db_ceil] at hfn <;>
          split_ifs at h <;>
          first
          | omega
          | simp only [fim_db_alerts_falling_from, e8, e9, en, d8, d9, dn, r1 (by omega),
             fim_db_alert_type, fim_db_alert_if, Bool.false_or, Bool.true_or, Bool.or_self,
             if_true, if_false, Bool.false_eq_true, List.nil_append, List.append_nil,
             List.singleton_append, List.cons_append]
      · have d8 : decide (4 * c ≤ 5 * n ∧ 10 * n < 9 * c) = false := decide_eq_false (by omega)
        have d9 : decide (9 * c ≤ 10 * n ∧ n < c) = false := decide_eq_false (by omega)
        have dn : decide (0 ≤ n ∧ 5 * n < 4 * c) = true := decide_eq_true (by omega)
        have hb : fim_db_band_of c n = FIM_STATE_DB_NORMAL
            ∨ fim_db_band_of c n = FIM_STATE_DB_EMPTY := by
          unfold fim_db_band_of
          rw [if_neg hF, if_neg h9, if_neg h8]
          split_ifs
          · exact Or.inl rfl
          · exact Or.inr rfl
        rcases hb with hb | hb <;> rw [hb] <;>
          cases st <;> simp only [fim_db_quiet] at h <;> simp only [fim_db_ceil] at hfn <;>
          split_ifs at h <;>
          first
          | omega
          | simp only [fim_db_alerts_falling_from, e8, e9, en, d8, d9, dn, r2 (by omega),
             r3 (by omega),
             fim_db_alert_type, fim_db_alert_if, Bool.false_or, Bool.true_or, Bool.or_self,
             if_true, if_false, Bool.false_eq_true, List.nil_append, List.append_nil,
             List.singleton_append, List.cons_append]

/-- The floor of the band of a count holds for every later count of a rising
sequence, and the ceiling for every later count of a falling one. -/
theorem fim_db_band_floor_ceil (c n m : Int) :
    (n ≤ m → fim_db_floor c (fim_db_band_of c n) m)
    ∧ (m ≤ n → 0 ≤ n → fim_db_ceil c (fim_db_band_of c n) m) := by
  unfold fim_db_band_of
  constructor <;> intro h <;> split_ifs <;> simp only [fim_db_floor, fim_db_ceil] <;>
    first | trivial | omega | (intro _; trivial)

/-- Rising counts, exactly: from a state whose lower bound the counts
respect, the alerts emitted by the successive calls are those of the bands
above the state that contain a count, in rising order. -/
theorem fim_check_db_run_rising (sys : syscheck_t) (h0 : 0 ≤ sys.file_limit)
    (h1 : sys.file_limit < 2 ^ 31) :
    ∀ (dbs : List fdb_t) (s : fim_state),
      (dbs.map fim_db_get_count_entries).Pairwise (fun a b => a ≤ b) →
      fim_db_state_ok sys.file_limit s._db_state →
      (∀ m ∈ dbs.map fim_db_get_count_entries, 0 ≤ m → fim_db_floor sys.file_limit s._db_state m) →
      ∃ new, (fim_check_db_run sys dbs s).logged = s.logged ++ new
        ∧ new.map (fun a => a.alert_type)
          = fim_db_alerts_rising_from sys.file_limit (dbs.map fim_db_get_count_entries)
              s._db_state := by
  intro dbs
  induction dbs with
  | nil =>
    intro s _ _ _
    refine ⟨[], by simp [fim_check_db_run], ?_⟩
    cases s._db_state <;> rfl
  | cons db rest ih =>
    intro s hp hok hf
    simp only [List.map_cons, List.pairwise_cons] at hp
    rw [fim_check_db_run_table sys h0 h1]
    have hfrest : ∀ m ∈ rest.map fim_db_get_count_entries, 0 ≤ m →
        fim_db_floor sys.file_limit s._db_state m :=
      fun m hm => hf m (List.mem_cons_of_mem _ hm)
    by_cases hn : fim_db_get_count_entries db < 0
    · have ht : fim_db_table sys { s with database := db } = { s with database := db } := by
        unfold fim_db_table
        rw [if_pos hn]
      rw [ht, List.map_cons, (fim_db_alerts_from_neg _ _ _ _ h0 hn).1]
      exact ih _ hp.2 hok hfrest
    · have hfn := hf _ (List.mem_cons_self _ _) (by omega)
      cases hq : fim_db_quiet sys.file_limit (fim_db_get_count_entries db) s._db_state with
      | some st =>
        rw [fim_db_table_quiet sys { s with database := db } st
          (by show 0 ≤ fim_db_get_count_entries db; omega) hq, List.map_cons,
          fim_db_rising_quiet _ _ _ _ _ hfn hq]
        exact ih { s with database := db, _db_state := st } hp.2
          (fim_db_quiet_ok _ _ _ _ (by omega) hok hq)
          (fun m hm hm0 => (fim_db_up_quiet _ _ m _ _ hfn (hfrest m hm hm0) hq).1)
      | none =>
        rw [fim_db_table_alert sys { s with database := db }
          (by show 0 ≤ fim_db_get_count_entries db; omega) hq, List.map_cons,
          fim_db_rising_alert _ _ _ _ (by omega) hok hfn hp.1 hq]
        obtain ⟨new, hlog, heq⟩ := ih
          (send_log_msg
            { file_limit := sys.file_limit, file_count := fim_db_get_count_entries db,
              alert_type := fim_db_alert_type
                (fim_db_band_of sys.file_limit (fim_db_get_count_entries db)) }
            { s with database := db,
                     _db_state := fim_db_band_of sys.file_limit (fim_db_get_count_entries db) })
          hp.2 (fim_db_band_ok _ _ h0)
          (fun m hm _ => (fim_db_band_floor_ceil _ _ m).1 (hp.1 m hm))
        refine ⟨(⟨sys.file_limit, fim_db_get_count_entries db, fim_db_alert_type
          (fim_db_band_of sys.file_limit (fim_db_get_count_entries db))⟩ : fim_db_alert) :: new,
          ?_, ?_⟩
        · exact hlog.trans (by simp [send_log_msg])
        · rw [List.map_cons, heq]
          rfl

/-- Falling counts, exactly: from a state whose upper bound the counts
respect, the alerts emitted by the successive calls are those of the bands
below the state that contain a count, in falling order. -/
theorem fim_check_db_run_falling (sys : syscheck_t) (h0 : 0 ≤ sys.file_limit)
    (h1 : sys.file_limit < 2 ^ 31) :
    ∀ (dbs : List fdb_t) (s : fim_state),
      (dbs.map fim_db_get_count_entries).Pairwise (fun a b => b ≤ a) →
      (∀ m ∈ dbs.map fim_db_get_count_entries, 0 ≤ m → fim_db_ceil sys.file_limit s._db_state m) →
      ∃ new, (fim_check_db_run sys dbs s).logged = s.logged ++ new
        ∧ new.map (fun a => a.alert_type)
          = fim_db_alerts_falling_from sys.file_limit (dbs.map fim_db_get_count_entries)
              s._db_state := by
  intro dbs
  induction dbs with
  | nil =>
    intro s _ _
    refine ⟨[], by simp [fim_check_db_run], ?_⟩
    cases s._db_state <;> rfl
  | cons db rest ih =>
    intro s hp hf
    simp only [List.map_cons, List.pairwise_cons] at hp
    rw [fim_check_db_run_table sys h0 h1]
    have hfrest : ∀ m ∈ rest.map fim_db_get_count_entries, 0 ≤ m →
        fim_db_ceil sys.file_limit s._db_state m :=
      fun m hm => hf m (List.mem_cons_of_mem _ hm)
    by_cases hn : fim_db_get_count_entries db < 0
    · have ht : fim_db_table sys { s with database := db } = { s with database := db } := by
        unfold fim_db_table
        rw [if_pos hn]
      rw [ht, List.map_cons, (fim_db_alerts_from_neg _ _ _ _ h0 hn).2]
      exact ih _ hp.2 hfrest
    · have hfn := hf _ (List.mem_cons_self _ _) (by omega)
      cases hq : fim_db_quiet sys.file_limit (fim_db_get_count_entries db) s._db_state with
      | some st =>
        rw [fim_db_table_quiet sys { s with database := db } st
          (by show 0 ≤ fim_db_get_count_entries db; omega) hq, List.map_cons,
          fim_db_falling_quiet _ _ _ _ _ (by omega) hfn hq]
        exact ih { s with database := db, _db_state := st } hp.2
          (fun m hm hm0 => (fim_db_down_quiet _ _ m _ _ (hp.1 m hm) hfn (hfrest m hm hm0) hq).1)
      | none =>
        rw [fim_db_table_alert sys { s with database := db }
          (by show 0 ≤ fim_db_get_count_entries db; omega) hq, List.map_cons,
          fim_db_falling_alert _ _ _ _ (by omega) hfn hp.1 hq]
        obtain ⟨new, hlog, heq⟩ := ih
          (send_log_msg
            { file_limit := sys.file_limit, file_count := fim_db_get_count_entries db,
              alert_type := fim_db_alert_type
                (fim_db_band_of sys.file_limit (fim_db_get_count_entries db)) }
            { s with database := db,
                     _db_state := fim_db_band_of sys.file_limit (fim_db_get_count_entries db) })
          hp.2
          (fun m hm _ => (fim_db_band_floor_ceil _ _ m).2 (hp.1 m hm) (by omega))
        refine ⟨(⟨sys.file_limit, fim_db_get_count_entries db, fim_db_alert_type
          (fim_db_band_of sys.file_limit (fim_db_get_count_entries db))⟩ : fim_db_alert) :: new,
          ?_, ?_⟩
        · exact hlog.trans (by simp [send_log_msg])
        · rw [List.map_cons, heq]
          rfl

/-- C12 (counterexample): with the capacity 10, from state `Empty`, the
counts 0, 1, ..., 10 make the successive calls emit `80_percentage`,
`90_percentage` and `full`, with no `normal` alert on the way up, and the
rising counts 0, 10 make them emit `full` only; from state `Full`, the
falling counts 10, 0 make them emit `normal` only. A band that holds no
count of the sequence is not alerted. -/
theorem C12_counterexample :
    (fim_check_db_run c11_sys ((List.range 11).map fim_db_of_count) initial_state).logged.map
        (fun a => a.alert_type)
      = ["80_percentage", "90_percentage", "full"]
    ∧ (fim_check_db_run c11_sys ([0, 10].map fim_db_of_count) initial_state).logged.map
        (fun a => a.alert_type) = ["full"]
    ∧ (fim_check_db_run c11_sys ([10, 0].map fim_db_of_count)
        { initial_state with _db_state := FIM_STATE_DB_FULL }).logged.map
        (fun a => a.alert_type) = ["normal"] := by
  decide

/-- C12 (amended): for a capacity in the range of a non-negative `int`, for
every rising sequence of counts fed to successive calls of
`fim_check_db_state` starting in `Empty`, the alerts emitted are exactly, in
this order, `80_percentage` if some count lies in the band `Warn80`,
`90_percentage` if some count lies in the band `Warn90` and `full` if some
positive count is at or above the capacity; for every falling sequence of
counts starting in `Full`, the alerts emitted are exactly, in this order,
`90_percentage` if some count lies in the band `Warn90`, `80_percentage` if
some count lies in the band `Warn80` and `normal` if some count lies below
four fifths of the capacity. In both cases no alert is emitted twice. A
failed count is skipped. -/
theorem C12_hysteresis (sys : syscheck_t) (dbs : List fdb_t) (s : fim_state)
    (h0 : 0 ≤ sys.file_limit) (h1 : sys.file_limit < 2 ^ 31) :
    (s._db_state = FIM_STATE_DB_EMPTY →
        (dbs.map fim_db_get_count_entries).Pairwise (fun a b => a ≤ b) →
        ∃ new, (fim_check_db_run sys dbs s).logged = s.logged ++ new
          ∧ new.map (fun a => a.alert_type)
            = fim_db_alert_if
                (fim_db_seen_80 sys.file_limit (dbs.map fim_db_get_count_entries))
                "80_percentage"
              ++ fim_db_alert_if
                (fim_db_seen_90 sys.file_limit (dbs.map fim_db_get_count_entries))
                "90_percentage"
              ++ fim_db_alert_if
                (fim_db_seen_full sys.file_limit (dbs.map fim_db_get_count_entries)) "full"
          ∧ (new.map (fun a => a.alert_type)).Nodup)
      ∧ (s._db_state = FIM_STATE_DB_FULL →
        (dbs.map fim_db_get_count_entries).Pairwise (fun a b => b ≤ a) →
        ∃ new, (fim_check_db_run sys dbs s).logged = s.logged ++ new
          ∧ new.map (fun a => a.alert_type)
            = fim_db_alert_if
                (fim_db_seen_90 sys.file_limit (dbs.map fim_db_get_count_entries))
                "90_percentage"
              ++ fim_db_alert_if
                (fim_db_seen_80 sys.file_limit (dbs.map fim_db_get_count_entries))
                "80_percentage"
              ++ fim_db_alert_if
                (fim_db_seen_normal sys.file_limit (dbs.map fim_db_get_count_entries)) "normal"
          ∧ (new.map (fun a => a.alert_type)).Nodup) := by
  constructor
  · intro hs hp
    obtain ⟨new, hlog, heq⟩ := fim_check_db_run_rising sys h0 h1 dbs s hp
      (Or.inr (Or.inl hs)) (by
        intro m _ _
        rw [hs]
        trivial)
    rw [hs] at heq
    refine ⟨new, hlog, heq, ?_⟩
    rw [heq]
    simp only [fim_db_alerts_rising_from]
    cases fim_db_seen_80 sys.file_limit (dbs.map fim_db_get_count_entries) <;>
      cases fim_db_seen_90 sys.file_limit (dbs.map fim_db_get_count_entries) <;>
      cases fim_db_seen_full sys.file_limit (dbs.map fim_db_get_count_entries) <;> decide
  · intro hs hp
    obtain ⟨new, hlog, heq⟩ := fim_check_db_run_falling sys h0 h1 dbs s hp (by
        intro m _ _
        rw [hs]
        trivial)
    rw [hs] at heq
    refine ⟨new, hlog, heq, ?_⟩
    rw [heq]
    simp only [fim_db_alerts_falling_from]
    cases fim_db_seen_90 sys.file_limit (dbs.map fim_db_get_count_entries) <;>
      cases fim_db_seen_80 sys.file_limit (dbs.map fim_db_get_count_entries) <;>
      cases fim_db_seen_normal sys.file_limit (dbs.map fim_db_get_count_entries) <;> decide

/-- Witness of C12 (amended): at capacity 10, the rising counts 0, 5, 8, 10
from `Empty` skip the band `Warn90` and give `80_percentage` and `full`; the
falling counts 10, 9, 8, 7, 0 from `Full` give `90_percentage`,
`80_percentage` and `normal`. -/
theorem C12_hysteresis_witness :
    (∃ new, (fim_check_db_run c11_sys ([0, 5, 8, 10].map fim_db_of_count)
          initial_state).logged = initial_state.logged ++ new
        ∧ new.map (fun a => a.alert_type) = ["80_percentage", "full"])
      ∧ (∃ new, (fim_check_db_run c11_sys ([10, 9, 8, 7, 0].map fim_db_of_count)
          { initial_state with _db_state := FIM_STATE_DB_FULL }).logged
          = ({ initial_state with _db_state := FIM_STATE_DB_FULL } : fim_state).logged ++ new
        ∧ new.map (fun a => a.alert_type) = ["90_percentage", "80_percentage", "normal"]) :=
  ⟨(fun ⟨new, h, e, _⟩ => ⟨new, h, e⟩)
      ((C12_hysteresis c11_sys ([0, 5, 8, 10].map fim_db_of_count) initial_state (by decide)
        (by decide)).1 rfl (by decide)),
    (fun ⟨new, h, e, _⟩ => ⟨new, h, e⟩)
      ((C12_hysteresis c11_sys ([10, 9, 8, 7, 0].map fim_db_of_count)
        { initial_state with _db_state := FIM_STATE_DB_FULL } (by decide) (by decide)).2 rfl
        (by decide))⟩

/-! ## The refill pass of the scan -/

/-- With `report` false, `fim_file` sends nothing itself: it runs `_fim_file`
and drops the event. -/
theorem fim_file_no_report (resolve : fim_resolver) (sys : syscheck_t) (os : os_t)
    (path : String) (item : fim_element) (w_evt : Option whodata_evt) (s : fim_state) :
    fim_file resolve sys os path item w_evt false s
      = (_fim_file resolve sys os path item w_evt s).map Prod.snd := by
  unfold fim_file
  rcases _fim_file resolve sys os path item w_evt s with h | ⟨_ | ev, s1⟩
  · rfl
  · rfl
  · simp [Except.map]

/-- A traversal that stops when the store is full, on a store that is not
marked full: the first directory is handed to `fim_checker`, then the other
directories are traversed. -/
theorem fim_scan_dirs_cons (resolve : fim_resolver) (sys : syscheck_t) (os : os_t)
    (fuel : Nat) (report : Bool) (it : Nat) (rest : List Nat) (s : fim_state)
    (h : s.database.full = false) :
    fim_scan_dirs resolve sys os fuel report true (it :: rest) s
      = (fim_checker resolve sys os fuel (fim_get_real_path sys os it)
          { fim_element_zero with mode := FIM_SCHEDULED, index := (it : Int) } none report s).bind
        (fun r => fim_scan_dirs resolve sys os fuel report true rest r.2) := by
  rw [fim_scan_dirs, if_neg (by simp [h])]
  rcases fim_checker resolve sys os fuel (fim_get_real_path sys os it)
      { fim_element_zero with mode := FIM_SCHEDULED, index := (it : Int) } none report s
    with e | ⟨i, t⟩
  · rfl
  · rfl

/-- Counterexample to C29 as stated. First, a scan with the capacity 1 on a
store that holds the entry of a file no longer on disk, while the new file
`/m/a` is on disk: the first traversal refuses `/m/a` and marks the store
full; the count read before the sweep is at the capacity; the sweep removes
the old entry and the store is no longer marked full; the traversal is
repeated all the same, and `/m/a` is in the store at the end of the scan.
Second, a scan with the capacity 3 in which the stored record of `/m/a`
passed for up to date in the first traversal because its checksum wrapped
around: in the repeated traversal the new file `/m/b` collides with the
stale entry of `/m/a`, the collision resolver updates that entry and sends
its `modified` event. -/
theorem C29_counterexample :
    (fim_scan_dirs (fim_resolve_db_collision c29_sys sample_os 5) c29_sys sample_os 5 true false
        (List.range c29_sys.dir.length)
        { fim_send_scan_info sample_os true c29_state with
          database := fim_db_set_all_unscanned
            (fim_send_scan_info sample_os true c29_state).database } = .ok c29_pass1
      ∧ c29_sys.file_limit_enabled = true
      ∧ fim_db_get_count_entries c29_pass1.database ≥ c29_sys.file_limit
      ∧ check_deleted_files c29_sys sample_os c29_pass1 = .ok c29_swept
      ∧ c29_swept.database.full = false
      ∧ c29_swept.database.entries = []
      ∧ (fim_scan c29_sys sample_os 5 c29_state).toOption.map
          (fun s => (s.database.entries.map (fun e => e.path), s.sent.length))
        = some (["/m/a"], 3))
    ∧ (fim_scan_dirs (fim_resolve_db_collision c29_sys_wrap c29_os_wrap 5) c29_sys_wrap
          c29_os_wrap 5 true false (List.range c29_sys_wrap.dir.length)
          { fim_send_scan_info c29_os_wrap true c29_state_wrap with
            database := fim_db_set_all_unscanned
              (fim_send_scan_info c29_os_wrap true c29_state_wrap).database }
          = .ok c29_pass1_wrap
        ∧ fim_db_get_count_entries c29_pass1_wrap.database ≥ c29_sys_wrap.file_limit
        ∧ check_deleted_files c29_sys_wrap c29_os_wrap c29_pass1_wrap = .ok c29_swept_wrap
        ∧ c29_swept_wrap.database.full = false
        ∧ fim_scan_dirs (fim_resolve_db_collision c29_sys_wrap c29_os_wrap 5) c29_sys_wrap
            c29_os_wrap 5 false true (List.range c29_sys_wrap.dir.length) c29_swept_wrap
          = .ok c29_refilled_wrap
        ∧ c29_refilled_wrap.sent
          = c29_swept_wrap.sent ++ [.event (c29_event_wrap (some ["/m/c"]))]
        ∧ (c29_event_wrap (some ["/m/c"])).type = "modified") := by
  refine ⟨⟨rfl, rfl, by decide, rfl, rfl, rfl, by decide!⟩, rfl, by decide, rfl, rfl, rfl, rfl,
    rfl⟩

/-- C29 (amended): the refill pass of `fim_scan`. Let the first traversal
leave the state `s3` and the sweep of the deleted files the state `s4`. For
every such state: the traversal of the monitored directories is repeated
with `report = false` exactly when the capacity limit is enabled and the
entry count read before the sweep is at or above the capacity, and the scan
ends with the closing steps applied to its result; it traverses a directory
only while the store is not marked full, so that nothing is traversed when
the sweep leaves the store marked full, and the first directory is handed to
`fim_checker` when it does not; with `report = false`, `fim_file` runs
`_fim_file` and sends nothing itself. When moreover the store left by the
sweep agrees with the file system, with fuel for its entries and for the
capacity, the scan returns and no event at all is emitted in that pass. -/
theorem C29_refill_pass (sys : syscheck_t) (os : os_t) (fuel : Nat) (s s3 s4 : fim_state)
    (h1 : fim_scan_dirs (fim_resolve_db_collision sys os fuel) sys os fuel true false
        (List.range sys.dir.length)
        { fim_send_scan_info os true s with
          database := fim_db_set_all_unscanned (fim_send_scan_info os true s).database }
      = .ok s3)
    (h2 : check_deleted_files sys os s3 = .ok s4) :
    (sys.file_limit_enabled = true → fim_db_get_count_entries s3.database ≥ sys.file_limit →
      fim_scan sys os fuel s
        = (fim_scan_dirs (fim_resolve_db_collision sys os fuel) sys os fuel false true
            (List.range sys.dir.length) s4).map
          (fun s5 => fim_send_scan_info os false
            { fim_check_db_state sys s5 with _base_line := true }))
    ∧ ((sys.file_limit_enabled = false
          ∨ fim_db_get_count_entries s3.database < sys.file_limit) →
      fim_scan sys os fuel s
        = .ok (fim_send_scan_info os false
            { (if sys.file_limit_enabled then fim_check_db_state sys s4 else s4) with
              _base_line := true }))
    ∧ (s4.database.full = true →
      fim_scan_dirs (fim_resolve_db_collision sys os fuel) sys os fuel false true
        (List.range sys.dir.length) s4 = .ok s4)
    ∧ (s4.database.full = false → ∀ it rest, List.range sys.dir.length = it :: rest →
      fim_scan_dirs (fim_resolve_db_collision sys os fuel) sys os fuel false true
          (List.range sys.dir.length) s4
        = (fim_checker (fim_resolve_db_collision sys os fuel) sys os fuel
            (fim_get_real_path sys os it)
            { fim_element_zero with mode := FIM_SCHEDULED, index := (it : Int) } none false
            s4).bind
          (fun r => fim_scan_dirs (fim_resolve_db_collision sys os fuel) sys os fuel false true
            rest r.2))
    ∧ (∀ (r : fim_resolver) (p : String) (it : fim_element) (w : Option whodata_evt)
        (t : fim_state),
      fim_file r sys os p it w false t = (_fim_file r sys os p it w t).map Prod.snd)
    ∧ (fim_store_fresh sys os s4 → s4.database.entries.length ≤ fuel →
      sys.file_limit ≤ (fuel : Int) →
      ∃ s5,
        fim_scan sys os fuel s
            = .ok (fim_send_scan_info os false
                { (if sys.file_limit_enabled then fim_check_db_state sys s5 else s5) with
                  _base_line := true })
          ∧ ((sys.file_limit_enabled = false
              ∨ fim_db_get_count_entries s3.database < sys.file_limit) → s5 = s4)
          ∧ (sys.file_limit_enabled = true →
              fim_db_get_count_entries s3.database ≥ sys.file_limit →
              fim_scan_dirs (fim_resolve_db_collision sys os fuel) sys os fuel false true
                (List.range sys.dir.length) s4 = .ok s5)
          ∧ s5.sent = s4.sent) := by
  have hrun : sys.file_limit_enabled = true →
      fim_db_get_count_entries s3.database ≥ sys.file_limit →
      fim_scan sys os fuel s
        = (fim_scan_dirs (fim_resolve_db_collision sys os fuel) sys os fuel false true
            (List.range sys.dir.length) s4).map
          (fun s5 => fim_send_scan_info os false
            { fim_check_db_state sys s5 with _base_line := true }) := by
    intro hen hcount
    unfold fim_scan
    simp only [h1, h2, hen, if_true]
    rw [if_pos ⟨trivial, hcount⟩]
    rcases fim_scan_dirs (fim_resolve_db_collision sys os fuel) sys os fuel false true
        (List.range sys.dir.length) s4 with e | s5
    · rfl
    · rfl
  have hskip : (sys.file_limit_enabled = false
        ∨ fim_db_get_count_entries s3.database < sys.file_limit) →
      fim_scan sys os fuel s
        = .ok (fim_send_scan_info os false
            { (if sys.file_limit_enabled then fim_check_db_state sys s4 else s4) with
              _base_line := true }) := by
    intro hc
    unfold fim_scan
    simp only [h1, h2]
    rw [if_neg (by
      rintro ⟨he, hge⟩
      rw [if_pos he] at hge
      rcases hc with hc | hc
      · rw [he] at hc
        cases hc
      · omega)]
  refine ⟨hrun, hskip,
    fim_scan_dirs_full (fim_resolve_db_collision sys os fuel) sys os fuel false _ s4,
    fun hnf it rest hd => ?_, fun r p it w t => fim_file_no_report r sys os p it w t,
    fun hfresh hfuel hlim => ?_⟩
  · rw [hd]
    exact fim_scan_dirs_cons _ sys os fuel false it rest s4 hnf
  · obtain ⟨vs, hw, -⟩ := (fim_scan_dirs_walk (fim_resolve_db_collision sys os fuel) sys os
      fuel true (List.range sys.dir.length) _ s3).mp h1
    by_cases hc : sys.file_limit_enabled = true
        ∧ fim_db_get_count_entries s3.database ≥ sys.file_limit
    · obtain ⟨hen, hcount⟩ := hc
      obtain ⟨s5, h5, -, hsent5, -⟩ := fim_scan_dirs_refill sys os fuel true
        (List.range sys.dir.length) vs s4 hw hfresh hen hfuel hlim
      refine ⟨s5, ?_, ?_, fun _ _ => h5, hsent5⟩
      · rw [hrun hen hcount, h5, if_pos hen]
        rfl
      · rintro (h | h)
        · rw [hen] at h
          cases h
        · omega
    · refine ⟨s4, hskip ?_, fun _ => rfl, fun hen hcount => absurd ⟨hen, hcount⟩ hc, rfl⟩
      by_cases hen : sys.file_limit_enabled = true
      · right
        have : ¬ fim_db_get_count_entries s3.database ≥ sys.file_limit := fun h => hc ⟨hen, h⟩
        omega
      · left
        simpa using hen

/-- Witness of C29 (amended): a scan with the capacity 2 on a store that
holds `/m/a` as it is on disk and the entry of a file no longer on disk,
while the new file `/m/c` is on disk. The first traversal refuses `/m/c`,
the sweep removes the old entry and leaves a store that agrees with the file
system; the traversal is repeated, the scan returns and the repeated
traversal sends nothing. -/
theorem C29_refill_pass_witness :
    fim_scan c29_sys_two c29_os_two 5 c29_state_two
        = (fim_scan_dirs (fim_resolve_db_collision c29_sys_two c29_os_two 5) c29_sys_two
            c29_os_two 5 false true (List.range c29_sys_two.dir.length) c29_swept_two).map
          (fun s5 => fim_send_scan_info c29_os_two false
            { fim_check_db_state c29_sys_two s5 with _base_line := true })
      ∧ ∃ s5, fim_scan_dirs (fim_resolve_db_collision c29_sys_two c29_os_two 5) c29_sys_two
            c29_os_two 5 false true (List.range c29_sys_two.dir.length) c29_swept_two = .ok s5
          ∧ s5.sent = c29_swept_two.sent :=
  ⟨(C29_refill_pass c29_sys_two c29_os_two 5 c29_state_two c29_pass1_two c29_swept_two rfl
      rfl).1 rfl (by decide),
    ((C29_refill_pass c29_sys_two c29_os_two 5 c29_state_two c29_pass1_two c29_swept_two rfl
      rfl).2.2.2.2.2
      ⟨rfl, by decide, fun e he => by
        rw [List.mem_singleton.mp he]
        exact ⟨sample_stat, sample_new, rfl, by decide, rfl, rfl⟩⟩
      (by decide) (by decide)).imp fun _ h => ⟨h.2.2.1 rfl (by decide), h.2.2.2⟩⟩

/-! ## Inode uniqueness through the collision resolver -/

theorem fim_inode_unique_ids (os : os_t) (db : fdb_t) :
    fim_inode_unique os db ↔ fim_ids_unique os (fim_db_ids db) :=
  fim_inode_unique_iff_ids os db

/-- Popping the top of the stack keeps the invariant when the popped path is
on disk under its stored inode and device. -/
theorem fim_resolve_inv_pop (os : os_t) (x : Nat × Nat) (stack tree : List String)
    (ids : List (String × Nat × Nat)) (p : String)
    (h : fim_resolve_inv os x stack tree ids) (htop : stack.getLast? = some p)
    (hp : ∀ a ∈ ids, a.1 = p → fim_on_disk os a.1 a.2.1 a.2.2 = true) :
    fim_resolve_inv os x stack.dropLast tree ids := by
  obtain ⟨hn, ht, h1, h2, h3, h4⟩ := h
  have hst : stack = stack.dropLast ++ [p] := (List.dropLast_append_getLast? p htop).symm
  refine ⟨hn.sublist (List.dropLast_sublist _), ht,
    fun q hq => h1 q ((List.dropLast_sublist _).subset hq), fun a ha hat has => ?_, h3, h4⟩
  by_cases hap : a.1 = p
  · exact hp a ha hap
  · refine h2 a ha hat ?_
    rw [hst, List.mem_append]
    rintro (h | h)
    · exact has h
    · exact hap (List.mem_singleton.mp h)

/-- Storing the top of the stack under the inode and device it has on disk
keeps the invariant when every path stored under them is visited. -/
theorem fim_resolve_inv_upsert (os : os_t) (x : Nat × Nat) (stack tree : List String)
    (ids ids1 : List (String × Nat × Nat)) (p : String) (y : Nat × Nat)
    (h : fim_resolve_inv os x stack tree ids) (hps : p ∈ stack)
    (hu : fim_ids_upsert ids ids1 p y) (hd : fim_on_disk os p y.1 y.2 = true)
    (hy : ∀ a ∈ ids, a.2 = y → a.1 ∈ tree) :
    fim_resolve_inv os x stack tree ids1 := by
  obtain ⟨hn, ht, h1, h2, h3, h4⟩ := h
  obtain ⟨u1, u2, u3⟩ := hu
  refine ⟨hn, ht, fun q hq => ⟨(h1 q hq).1, ?_⟩, fun a ha hat has => ?_,
    fun a ha hfa hat b hb hba hbe => ?_, fun a ha hax => ?_⟩
  · obtain ⟨a, ha, haq⟩ := (h1 q hq).2
    by_cases hqp : q = p
    · exact ⟨(p, y), u3, hqp.symm⟩
    · exact ⟨a, u2 a ha (by rw [haq]; exact hqp), haq⟩
  · rcases u1 a ha with ⟨hai, -⟩ | rfl
    · exact h2 a hai hat has
    · exact absurd hps has
  · rcases u1 a ha with ⟨hai, -⟩ | rfl
    · rcases u1 b hb with ⟨hbi, -⟩ | rfl
      · exact h3 a hai hfa hat b hbi hba hbe
      · exact absurd (hy a hai hbe.symm) hat
    · rw [hd] at hfa
      cases hfa
  · rcases u1 a ha with ⟨hai, -⟩ | rfl
    · exact h4 a hai hax
    · exact Or.inr hd

/-- Removing the top of the stack from the store and popping it keeps the
invariant. -/
theorem fim_resolve_inv_remove (os : os_t) (x : Nat × Nat) (stack tree : List String)
    (ids ids1 : List (String × Nat × Nat)) (p : String)
    (h : fim_resolve_inv os x stack tree ids) (htop : stack.getLast? = some p)
    (hr : ∀ a, a ∈ ids1 ↔ a ∈ ids ∧ a.1 ≠ p) :
    fim_resolve_inv os x stack.dropLast tree ids1 := by
  obtain ⟨hn, ht, h1, h2, h3, h4⟩ := h
  have hst : stack = stack.dropLast ++ [p] := (List.dropLast_append_getLast? p htop).symm
  have hnd : p ∉ stack.dropLast := by
    rw [hst] at hn
    intro hp
    exact (List.nodup_append.mp hn).2.2 hp (List.mem_singleton_self p)
  refine ⟨hn.sublist (List.dropLast_sublist _), ht, fun q hq => ?_, fun a ha hat has => ?_,
    fun a ha hfa hat b hb hba hbe => ?_, fun a ha hax => h4 a ((hr a).mp ha).1 hax⟩
  · have hqs := (List.dropLast_sublist _).subset hq
    obtain ⟨a, ha, haq⟩ := (h1 q hqs).2
    refine ⟨(h1 q hqs).1, a, (hr a).mpr ⟨ha, ?_⟩, haq⟩
    rw [haq]
    rintro rfl
    exact hnd hq
  · obtain ⟨hai, hap⟩ := (hr a).mp ha
    refine h2 a hai hat ?_
    rw [hst, List.mem_append]
    rintro (h | h)
    · exact has h
    · exact hap (List.mem_singleton.mp h)
  · exact h3 a ((hr a).mp ha).1 hfa hat b ((hr b).mp hb).1 hba hbe

/-- Pushing stored paths that were not visited keeps the invariant. -/
theorem fim_resolve_inv_push (os : os_t) (x : Nat × Nat) (stack tree new : List String)
    (ids : List (String × Nat × Nat))
    (h : fim_resolve_inv os x stack tree ids)
    (hnew : ∀ q ∈ new, (∃ a ∈ ids, a.1 = q) ∧ q ∉ tree) (hnd : (tree ++ new).Nodup) :
    fim_resolve_inv os x (stack ++ new) (tree ++ new) ids := by
  obtain ⟨hn, ht, h1, h2, h3, h4⟩ := h
  obtain ⟨-, hnn, -⟩ := List.nodup_append.mp hnd
  refine ⟨List.nodup_append.mpr ⟨hn, hnn, fun q hq hqn => (hnew q hqn).2 (h1 q hq).1⟩, hnd,
    fun q hq => ?_, fun a ha hat has => ?_, fun a ha hfa hat => ?_, fun a ha hax => ?_⟩
  · rcases List.mem_append.mp hq with hq | hq
    · exact ⟨List.mem_append_left _ (h1 q hq).1, (h1 q hq).2⟩
    · exact ⟨List.mem_append_right _ hq, (hnew q hq).1⟩
  · rcases List.mem_append.mp hat with hat | hat
    · exact h2 a ha hat (fun h => has (List.mem_append_left _ h))
    · exact absurd (List.mem_append_right _ hat) has
  · exact h3 a ha hfa (fun h => hat (List.mem_append_left _ h))
  · rcases h4 a ha hax with h | h
    · exact Or.inl (List.mem_append_left _ h)
    · exact Or.inr h

/-- The invariant holds at the start of the resolver on a store with I2,
the stack and the tree holding the paths stored under the inode and device. -/
theorem fim_resolve_inv_seed (os : os_t) (x : Nat × Nat) (seeds : List String)
    (ids : List (String × Nat × Nat)) (hi : fim_ids_unique os ids) (hn : seeds.Nodup)
    (hs : ∀ q ∈ seeds, ∃ a ∈ ids, a.1 = q) (hx : ∀ a ∈ ids, a.2 = x → a.1 ∈ seeds) :
    fim_resolve_inv os x seeds seeds ids := by
  refine ⟨hn, hn, fun q hq => ⟨hq, hs q hq⟩, fun a _ hat has => absurd hat has,
    fun a ha hfa _ b hb hba hbe => ?_, fun a ha hax => Or.inl (hx a ha hax)⟩
  by_contra h0
  have := hi a ha b hb (fun h => hba h.symm) hbe.symm h0 a ha rfl
  rw [this] at hfa
  cases hfa

/-- When the stack is empty the invariant gives I2, and every path stored
under the inode and device of the run is on disk under them. -/
theorem fim_resolve_inv_final (os : os_t) (x : Nat × Nat) (tree : List String)
    (ids : List (String × Nat × Nat)) (h : fim_resolve_inv os x [] tree ids) :
    fim_ids_unique os ids ∧ ∀ a ∈ ids, a.2 = x → fim_on_disk os a.1 a.2.1 a.2.2 = true := by
  obtain ⟨-, -, -, h2, h3, h4⟩ := h
  constructor
  · intro a ha b hb hab he h0 c hc hca
    by_contra hf
    have hf' : fim_on_disk os c.1 c.2.1 c.2.2 = false := by
      simpa using hf
    have hct : c.1 ∉ tree := fun hct => hf (h2 c hc hct (List.not_mem_nil _))
    have hc0 : c.2.1 = 0 := by
      by_cases hac : a.1 = c.1
      · exact h3 c hc hf' hct b hb (fun h => hab (hac.trans h.symm)) (he.symm.trans hca.symm)
      · exact h3 c hc hf' hct a ha hac hca.symm
    rw [hca] at hc0
    exact h0 hc0
  · intro a ha hax
    rcases h4 a ha hax with h | h
    · exact h2 a ha h (List.not_mem_nil _)
    · exact h

/-- Storing a path under the inode and device it has on disk keeps I2 when
every path already stored under them is on disk under them. -/
theorem fim_ids_unique_upsert (os : os_t) (ids ids1 : List (String × Nat × Nat)) (p : String)
    (y : Nat × Nat) (hi : fim_ids_unique os ids) (hu : fim_ids_upsert ids ids1 p y)
    (hd : fim_on_disk os p y.1 y.2 = true)
    (hy : ∀ a ∈ ids, a.2 = y → fim_on_disk os a.1 a.2.1 a.2.2 = true) :
    fim_ids_unique os ids1 := by
  obtain ⟨u1, -, -⟩ := hu
  intro a ha b hb hab he h0 c hc hca
  rcases u1 c hc with ⟨hci, -⟩ | rfl
  · by_cases hcy : c.2 = y
    · exact hy c hci hcy
    · have hay : a.2 ≠ y := fun h => hcy (hca.trans h)
      rcases u1 a ha with ⟨hai, -⟩ | rfl
      · rcases u1 b hb with ⟨hbi, -⟩ | rfl
        · exact hi a hai b hbi hab he h0 c hci hca
        · exact absurd he hay
      · exact absurd rfl hay
  · exact hd

/-! ### Store operations and the list of paths, inodes and devices -/

theorem fim_db_ids_mem (db : fdb_t) (a : String × Nat × Nat) :
    a ∈ fim_db_ids db ↔ ∃ e ∈ db.entries, a = (e.path, e.data.inode, e.data.dev) := by
  unfold fim_db_ids
  rw [List.mem_map]
  constructor
  · rintro ⟨e, he, rfl⟩
    exact ⟨e, he, rfl⟩
  · rintro ⟨e, he, rfl⟩
    exact ⟨e, he, rfl⟩

theorem fim_db_upsert_mem_old (entries : List fim_entry) (path : String) (data : fim_file_data)
    (e : fim_entry) (he : e ∈ entries) (hp : e.path ≠ path) :
    e ∈ fim_db_upsert entries path data := by
  unfold fim_db_upsert
  split
  · rw [List.mem_map]
    exact ⟨e, he, by simp [hp]⟩
  · exact List.mem_append_left _ he

theorem fim_db_upsert_mem_new (entries : List fim_entry) (path : String) (data : fim_file_data) :
    ({ path := path, data := data } : fim_entry) ∈ fim_db_upsert entries path data := by
  unfold fim_db_upsert
  split
  · rename_i hany
    rw [List.any_eq_true] at hany
    obtain ⟨e, he, hep⟩ := hany
    rw [List.mem_map]
    refine ⟨e, he, ?_⟩
    rw [if_pos hep]
    have : e.path = path := by simpa using hep
    rw [← this]
  · exact List.mem_append_right _ (List.mem_singleton_self _)

/-- The paths, inodes and devices of a store after a path was stored. -/
theorem fim_db_ids_upsert (db : fdb_t) (path : String) (data : fim_file_data) :
    fim_ids_upsert (fim_db_ids db)
      (fim_db_ids { db with entries := fim_db_upsert db.entries path data }) path
      (data.inode, data.dev) := by
  refine ⟨fun a ha => ?_, fun a ha hap => ?_, ?_⟩
  · obtain ⟨e, he, rfl⟩ := (fim_db_ids_mem _ a).mp ha
    rcases fim_db_upsert_mem _ _ _ _ he with ⟨h1, h2⟩ | ⟨h1, h2⟩
    · exact Or.inl ⟨(fim_db_ids_mem _ _).mpr ⟨e, h1, rfl⟩, h2⟩
    · right
      rw [h1, h2]
  · obtain ⟨e, he, rfl⟩ := (fim_db_ids_mem _ a).mp ha
    exact (fim_db_ids_mem _ _).mpr ⟨e, fim_db_upsert_mem_old _ _ _ e he hap, rfl⟩
  · exact (fim_db_ids_mem _ _).mpr ⟨_, fim_db_upsert_mem_new db.entries path data, rfl⟩

/-- The paths, inodes and devices of a store after a path was removed. -/
theorem fim_db_ids_remove (db : fdb_t) (path : String) (hf : db.failing = [])
    (a : String × Nat × Nat) :
    a ∈ fim_db_ids (fim_db_remove_path db path).2 ↔ a ∈ fim_db_ids db ∧ a.1 ≠ path := by
  unfold fim_db_remove_path
  rw [fim_db_fails_nil db hf]
  simp only [Bool.false_eq_true, ↓reduceIte]
  split
  · simp only [fim_db_ids_mem, List.mem_filter, bne_iff_ne, ne_eq]
    constructor
    · rintro ⟨e, ⟨he, hp⟩, rfl⟩
      exact ⟨⟨e, he, rfl⟩, hp⟩
    · rintro ⟨⟨e, he, rfl⟩, hp⟩
      exact ⟨e, ⟨he, hp⟩, rfl⟩
  · rename_i hany
    constructor
    · intro ha
      refine ⟨ha, fun hp => hany ?_⟩
      obtain ⟨e, he, rfl⟩ := (fim_db_ids_mem _ a).mp ha
      rw [List.any_eq_true]
      exact ⟨e, he, by simpa using hp⟩
    · exact fun h => h.1

/-! ### Stores the resolver can rely on -/

/-- The entry of a path with the record just extracted from it can be relied
on. -/
theorem fim_entry_sound_new (sys : syscheck_t) (os : os_t) (path : String) (st : stat_t)
    (d : fim_file_data) (hstat : os.w_stat path = .ok st)
    (hconf : fim_configuration_directory sys os path ≠ -1)
    (hd : fim_get_data sys os path
      (fim_db_item sys st (fim_configuration_directory sys os path)) = some d) :
    fim_entry_sound sys os { path := path, data := d }
      ∧ fim_on_disk os path d.inode d.dev = true := by
  obtain ⟨-, -, -, fino, fdev, -, -, -, -⟩ := fim_get_data_fields sys os path _ d hd
  have hon : fim_on_disk os path d.inode d.dev = true := by
    unfold fim_on_disk
    rw [hstat, fino, fdev]
    simp [fim_db_item]
  refine ⟨⟨hconf, fun _ => hon, fun st1 h1 => ?_⟩, hon⟩
  have hst : st1 = st := by
    have := h1.symm.trans hstat
    cases this
    rfl
  subst hst
  exact ⟨d, hd, fun _ => ⟨fino, fdev⟩⟩

theorem fim_db_sound_upsert (sys : syscheck_t) (os : os_t) (db : fdb_t) (path : String)
    (d : fim_file_data) (hs : fim_db_sound sys os db)
    (he : fim_entry_sound sys os { path := path, data := d }) :
    fim_db_sound sys os { db with entries := fim_db_upsert db.entries path d } := by
  refine ⟨hs.1, fim_db_upsert_keyed _ _ _ hs.2.1, fun e hm => ?_⟩
  rcases fim_db_upsert_mem _ _ _ _ hm with ⟨h1, -⟩ | ⟨h1, h2⟩
  · exact hs.2.2 e h1
  · have : e = { path := path, data := d } := by
      cases e
      simp only at h1 h2
      rw [h1, h2]
    rw [this]
    exact he

theorem fim_db_sound_full (sys : syscheck_t) (os : os_t) (db : fdb_t) (b : Bool)
    (hs : fim_db_sound sys os db) : fim_db_sound sys os { db with full := b } :=
  hs

theorem fim_db_sound_remove (sys : syscheck_t) (os : os_t) (db : fdb_t) (path : String)
    (hs : fim_db_sound sys os db) : fim_db_sound sys os (fim_db_remove_path db path).2 := by
  unfold fim_db_remove_path
  split
  · exact hs
  · split
    · refine ⟨hs.1, ?_, fun e he => hs.2.2 e (List.mem_filter.mp he).1⟩
      have hk := hs.2.1
      unfold fim_db_keyed at hk ⊢
      exact hk.sublist ((List.filter_sublist _).map _)
    · exact hs

theorem fim_db_sound_set_scanned (sys : syscheck_t) (os : os_t) (db : fdb_t) (path : String)
    (hs : fim_db_sound sys os db)
    (hp : ∀ e ∈ db.entries, e.path = path →
      fim_on_disk os e.path e.data.inode e.data.dev = true) :
    fim_db_sound sys os (fim_db_set_scanned db path) := by
  refine ⟨?_, fim_db_keyed_of_ids _ _ (fim_db_ids_set_scanned _ _) hs.2.1, ?_⟩
  · unfold fim_db_set_scanned
    split
    · exact hs.1
    · exact hs.1
  · unfold fim_db_set_scanned
    rw [fim_db_fails_nil db hs.1]
    simp only [Bool.false_eq_true, ↓reduceIte, List.mem_map]
    rintro e1 ⟨e, he, rfl⟩
    obtain ⟨c, sc, g⟩ := hs.2.2 e he
    split
    · rename_i hep
      have hep1 : e.path = path := by simpa using hep
      exact ⟨c, fun _ => hp e he hep1, g⟩
    · exact ⟨c, sc, g⟩

/-! ### The paths pushed by the resolver -/

/-- Every listed path is in the visited tree after the push. -/
theorem fim_append_paths_complete (ps : List String) :
    ∀ (stack tree : List String), ∀ p, p ∈ ps ∨ p ∈ tree →
      p ∈ (fim_append_paths ps stack tree).2.2 := by
  induction ps with
  | nil =>
    intro stack tree p hp
    rcases hp with hp | hp
    · cases hp
    · exact hp
  | cons q qs ih =>
    intro stack tree p hp
    unfold fim_append_paths
    split
    · rename_i hc
      apply ih
      rcases hp with hp | hp
      · rcases List.mem_cons.mp hp with rfl | hp
        · right
          simpa using hc
        · exact Or.inl hp
      · exact Or.inr hp
    · apply ih
      rcases hp with hp | hp
      · rcases List.mem_cons.mp hp with rfl | hp
        · right
          simp
        · exact Or.inl hp
      · right
        exact List.mem_append_left _ hp

/-- On a store without failing operation, the paths listed for an inode and
device are those of the entries stored under them. -/
theorem fim_db_get_paths_from_inode_mem (db : fdb_t) (inode dev : Nat) (hf : db.failing = [])
    (p : String) :
    p ∈ fim_db_get_paths_from_inode db inode dev
      ↔ ∃ e ∈ db.entries, e.data.inode = inode ∧ e.data.dev = dev ∧ e.path = p := by
  unfold fim_db_get_paths_from_inode
  rw [fim_db_fails_nil db hf]
  simp only [Bool.false_eq_true, ↓reduceIte, List.mem_map, List.mem_filter, Bool.and_eq_true,
    beq_iff_eq]
  constructor
  · rintro ⟨e, ⟨he, hi, hd⟩, rfl⟩
    exact ⟨e, he, hi, hd, rfl⟩
  · rintro ⟨e, he, hi, hd, rfl⟩
    exact ⟨e, ⟨he, hi, hd⟩, rfl⟩

/-! ### The pipeline on a stored path -/

/-- What `_fim_file` leaves: the state as it was when the path is already
scanned or the extraction fails, otherwise the state left by
`fim_update_db_data`. -/
theorem _fim_file_state (r : fim_resolver) (sys : syscheck_t) (os : os_t) (path : String)
    (item : fim_element) (w_evt : Option whodata_evt) (s s1 : fim_state) (ev : Option fim_event)
    (hrun : _fim_file r sys os path item w_evt s = .ok (ev, s1)) :
    (item.mode = FIM_SCHEDULED ∧ (fim_db_file_is_scanned s.database path = FIMDB_ERR
        ∨ fim_db_file_is_scanned s.database path = 1) ∧ s1 = s)
      ∨ (fim_get_data sys os path item = none ∧ s1 = s)
      ∨ ∃ new rc saved, fim_get_data sys os path item = some new
          ∧ fim_update_db_data r sys path new item.mode s = .ok ((rc, saved), s1) := by
  unfold _fim_file at hrun
  split at hrun
  · rename_i hsc
    simp only [Except.ok.injEq, Prod.mk.injEq] at hrun
    exact Or.inl ⟨hsc.1, hsc.2, hrun.2.symm⟩
  · cases hnew : fim_get_data sys os path item with
    | none =>
      simp only [hnew, Except.ok.injEq, Prod.mk.injEq] at hrun
      exact Or.inr (Or.inl ⟨rfl, hrun.2.symm⟩)
    | some new =>
      simp only [hnew] at hrun
      cases hupd : fim_update_db_data r sys path new item.mode s with
      | error e => simp [hupd] at hrun
      | ok res =>
        obtain ⟨⟨rc, saved⟩, s2⟩ := res
        simp only [hupd] at hrun
        refine Or.inr (Or.inr ⟨new, rc, saved, rfl, ?_⟩)
        split at hrun
        · simp only [Except.ok.injEq, Prod.mk.injEq] at hrun
          rw [← hrun.2]
          exact hupd
        · split at hrun
          · cases hrun
          · simp only [Except.ok.injEq, Prod.mk.injEq] at hrun
            rw [← hrun.2]
            exact hupd

/-- In scheduled mode, a stored record whose checksum changed is replaced
without any collision resolution when the inode and device are unchanged or
claimed by no entry. -/
theorem fim_update_db_data_replace (r : fim_resolver) (sys : syscheck_t) (path : String)
    (d : fim_file_data) (s : fim_state) (sv : fim_entry) (hf : s.database.failing = [])
    (hget : fim_db_get_path s.database path = some sv)
    (hck : d.checksum ≠ sv.data.checksum)
    (hid : (d.dev = sv.data.dev ∧ d.inode = sv.data.inode)
      ∨ fim_db_data_exists s.database d.inode d.dev = 0) :
    fim_update_db_data r sys path d FIM_SCHEDULED s
      = .ok ((0, some sv), { s with database :=
          { s.database with entries := fim_db_upsert s.database.entries path d } }) := by
  unfold fim_update_db_data
  simp only [hget, ne_eq, not_true_eq_false, if_false, if_neg hck]
  by_cases hsame : d.dev = sv.data.dev ∧ d.inode = sv.data.inode
  · rw [if_pos hsame, fim_state_insert_saved sys path d sv.data s hf]
  · rw [if_neg hsame]
    have hex : fim_db_data_exists s.database d.inode d.dev = 0 := by
      rcases hid with h | h
      · exact absurd h hsame
      · exact h
    simp only [hex, FIMDB_ERR]
    rw [fim_state_insert_saved sys path d sv.data s hf]
    rfl

/-- The pipeline run by the resolver on a stored path that is on disk, when
the path is stored under the inode and device it has on disk or these are
claimed by no entry: the store can still be relied on, and either the paths,
inodes and devices are as before and the path is stored as it is on disk, or
the inode and device on disk were claimed by no entry and the path is now
stored under them. -/
theorem _fim_file_end (r : fim_resolver) (sys : syscheck_t) (os : os_t) (path : String)
    (s s1 : fim_state) (entry : fim_entry) (st : stat_t) (ev : Option fim_event)
    (hs : fim_db_sound sys os s.database)
    (hget : fim_db_get_path s.database path = some entry)
    (hstat : os.w_stat path = .ok st)
    (hid : (entry.data.dev = st.st_dev ∧ entry.data.inode = st.st_ino)
      ∨ fim_db_data_exists s.database st.st_ino st.st_dev = 0)
    (hrun : _fim_file r sys os path
      (fim_db_item sys st (fim_configuration_directory sys os path)) none s = .ok (ev, s1)) :
    fim_db_sound sys os s1.database
      ∧ ((fim_db_ids s1.database = fim_db_ids s.database
          ∧ fim_on_disk os path entry.data.inode entry.data.dev = true)
        ∨ (fim_db_data_exists s.database st.st_ino st.st_dev = 0
          ∧ fim_ids_upsert (fim_db_ids s.database) (fim_db_ids s1.database) path
              (st.st_ino, st.st_dev))) := by
  have hmem := fim_db_get_path_mem _ _ _ hget
  have hpath := fim_db_get_path_path _ _ _ hget
  obtain ⟨hconf, hsc, hext⟩ := hs.2.2 entry hmem
  rw [hpath] at hconf hsc hext
  obtain ⟨d, hd, hckid⟩ := hext st hstat
  obtain ⟨-, -, -, fino, fdev, -, -, -, -⟩ := fim_get_data_fields sys os path _ d hd
  simp only [fim_db_item] at fino fdev
  have hon : entry.data.dev = st.st_dev ∧ entry.data.inode = st.st_ino →
      fim_on_disk os path entry.data.inode entry.data.dev = true := by
    intro h
    unfold fim_on_disk
    rw [hstat, h.1, h.2]
    simp
  have honly : ∀ e ∈ s.database.entries, e.path = path → e = entry := fun e he hep =>
    fim_db_keyed_unique _ hs.2.1 e entry he hmem (hep.trans hpath.symm)
  rcases _fim_file_state r sys os path _ none s s1 ev hrun with
    ⟨-, hscan, rfl⟩ | ⟨hnone, -⟩ | ⟨new, rc, saved, hnew, hupd⟩
  · rw [fim_db_file_is_scanned_of_get _ _ _ hs.1 hget] at hscan
    have hsct : entry.data.scanned = true := by
      rcases hscan with h | h
      · split at h <;> simp [FIMDB_ERR] at h
      · split at h
        · assumption
        · simp at h
    exact ⟨hs, Or.inl ⟨rfl, hsc hsct⟩⟩
  · rw [hd] at hnone
    cases hnone
  · rw [hd] at hnew
    cases hnew
    have hmode : (fim_db_item sys st (fim_configuration_directory sys os path)).mode
        = FIM_SCHEDULED := rfl
    rw [hmode] at hupd
    by_cases hck : d.checksum = entry.data.checksum
    · rw [fim_update_db_data_up_to_date r sys path d s entry hget hck] at hupd
      simp only [Except.ok.injEq, Prod.mk.injEq] at hupd
      rw [← hupd.2]
      obtain ⟨hi, hdv⟩ := hckid hck
      have hfresh := hon ⟨hdv, hi⟩
      refine ⟨fim_db_sound_set_scanned sys os _ path hs (fun e he hep => ?_),
        Or.inl ⟨fim_db_ids_set_scanned _ _, hfresh⟩⟩
      rw [honly e he hep, hpath]
      exact hfresh
    · obtain ⟨hsound, hdisk⟩ := fim_entry_sound_new sys os path st d hstat hconf hd
      by_cases hsame : entry.data.dev = st.st_dev ∧ entry.data.inode = st.st_ino
      · rw [fim_update_db_data_replace r sys path d s entry hs.1 hget hck
          (Or.inl ⟨fdev.trans hsame.1.symm, fino.trans hsame.2.symm⟩)] at hupd
        simp only [Except.ok.injEq, Prod.mk.injEq] at hupd
        rw [← hupd.2]
        refine ⟨fim_db_sound_upsert sys os _ path d hs hsound, Or.inl ⟨?_, hon hsame⟩⟩
        exact fim_db_ids_upsert_same _ path d entry hs.2.1 hget (fino.trans hsame.2.symm)
          (fdev.trans hsame.1.symm)
      · have hex : fim_db_data_exists s.database st.st_ino st.st_dev = 0 := by
          rcases hid with h | h
          · exact absurd h hsame
          · exact h
        rw [fim_update_db_data_replace r sys path d s entry hs.1 hget hck
          (Or.inr (by rw [fino, fdev]; exact hex))] at hupd
        simp only [Except.ok.injEq, Prod.mk.injEq] at hupd
        rw [← hupd.2]
        refine ⟨fim_db_sound_upsert sys os _ path d hs hsound, Or.inr ⟨hex, ?_⟩⟩
        have := fim_db_ids_upsert s.database path d
        rw [fino, fdev] at this
        exact this

/-! ### One step of the resolver -/

/-- One call of `fim_process_file_from_db` on the top of the stack, on a
store the resolver can rely on, when `stat` fails only for missing files: the
call does not fail, the store can still be relied on and the invariant of the
loop holds for the stack and the tree of the next iteration. -/
theorem fim_process_file_from_db_inv (r : fim_resolver) (sys : syscheck_t) (os : os_t)
    (x : Nat × Nat) (path : String) (stack tree stack1 tree1 : List String) (s s1 : fim_state)
    (st : fim_sanitize_state_t) (ev : Option fim_event)
    (henv : ∀ p errno, os.w_stat p = .error errno → errno = ENOENT)
    (hs : fim_db_sound sys os s.database)
    (hinv : fim_resolve_inv os x stack tree (fim_db_ids s.database))
    (htop : stack.getLast? = some path)
    (h : fim_process_file_from_db r sys os path stack tree s
      = .ok ((st, stack1, tree1, ev), s1)) :
    st ≠ FIM_FILE_ERROR ∧ fim_db_sound sys os s1.database
      ∧ fim_resolve_inv os x (if st = FIM_FILE_ADDED_PATHS then stack1 else stack1.dropLast)
          tree1 (fim_db_ids s1.database) := by
  have hps : path ∈ stack := List.mem_of_getLast?_eq_some htop
  obtain ⟨a, ha, hap⟩ := (hinv.2.2.1 path hps).2
  obtain ⟨e0, he0, rfl⟩ := (fim_db_ids_mem _ a).mp ha
  obtain ⟨entry, hget, hmem, hpath⟩ := fim_db_get_path_of_mem _ _ hs.1 ⟨e0, he0, hap⟩
  obtain ⟨hconf, hsc, hext⟩ := hs.2.2 entry hmem
  have honly : ∀ e ∈ s.database.entries, e.path = path → e = entry := fun e he hep =>
    fim_db_keyed_unique _ hs.2.1 e entry he hmem (hep.trans hpath.symm)
  cases hstat : os.w_stat entry.path with
  | error errno =>
    have herr := henv _ _ hstat
    subst herr
    unfold fim_process_file_from_db at h
    simp only [hget, hstat, ne_eq, not_true_eq_false, if_false] at h
    rw [← hpath] at h
    rw [if_neg hconf] at h
    have hrem : (fim_db_remove_path s.database entry.path).1 ≠ .Err := by
      unfold fim_db_remove_path
      rw [fim_db_fails_nil _ hs.1]
      simp only [Bool.false_eq_true, ↓reduceIte]
      split <;> simp
    rcases hr : fim_db_remove_path s.database entry.path with ⟨res, db⟩
    rw [hr] at h hrem
    have hdb : db = (fim_db_remove_path s.database entry.path).2 := by rw [hr]
    cases res with
    | Err => exact absurd rfl hrem
    | Ok =>
      simp only at h
      split at h
      · cases h
      · simp only [Except.ok.injEq, Prod.mk.injEq] at h
        obtain ⟨⟨rfl, rfl, rfl, -⟩, rfl⟩ := h
        refine ⟨by decide, ?_, ?_⟩
        · rw [hdb]
          exact fim_db_sound_remove sys os _ _ hs
        · rw [if_neg (by decide)]
          refine fim_resolve_inv_remove os x stack tree _ _ entry.path hinv
            (by rw [hpath]; exact htop) (fun a => ?_)
          show a ∈ fim_db_ids db ↔ _
          rw [hdb]
          exact fim_db_ids_remove _ _ hs.1 a
    | NotFound =>
      simp only at h
      split at h
      · cases h
      · simp only [Except.ok.injEq, Prod.mk.injEq] at h
        obtain ⟨⟨rfl, rfl, rfl, -⟩, rfl⟩ := h
        refine ⟨by decide, ?_, ?_⟩
        · rw [hdb]
          exact fim_db_sound_remove sys os _ _ hs
        · rw [if_neg (by decide)]
          refine fim_resolve_inv_remove os x stack tree _ _ entry.path hinv
            (by rw [hpath]; exact htop) (fun a => ?_)
          show a ∈ fim_db_ids db ↔ _
          rw [hdb]
          exact fim_db_ids_remove _ _ hs.1 a
  | ok sb =>
    obtain ⟨d, hd, hckid⟩ := hext sb hstat
    obtain ⟨-, -, -, fino, fdev, -, -, -, -⟩ := fim_get_data_fields sys os _ _ d hd
    simp only [fim_db_item] at fino fdev
    have hdisk : fim_on_disk os path sb.st_ino sb.st_dev = true := by
      unfold fim_on_disk
      rw [← hpath, hstat]
      simp
    have hexok := fim_db_data_exists_of_ok s.database sb.st_ino sb.st_dev hs.1
    by_cases hcond : (entry.data.dev = sb.st_dev ∧ entry.data.inode = sb.st_ino)
        ∨ fim_db_data_exists s.database sb.st_ino sb.st_dev = 0
    · -- label `end`
      unfold fim_process_file_from_db at h
      simp only [hget, hstat] at h
      rw [if_pos (by
        rcases hcond with hc | hc
        · exact Or.inl hc
        · exact Or.inr ⟨by rw [hc]; decide, hc⟩), if_neg hconf] at h
      split at h
      · cases h
      · rename_i event s2 hfile
        simp only [Except.ok.injEq, Prod.mk.injEq] at h
        obtain ⟨⟨rfl, rfl, rfl, -⟩, rfl⟩ := h
        rw [hpath] at hfile hstat
        obtain ⟨hs2, hcase⟩ := _fim_file_end r sys os path s s2 entry sb event hs hget hstat
          hcond hfile
        refine ⟨by decide, hs2, ?_⟩
        rw [if_neg (by decide)]
        rcases hcase with ⟨hids, hfresh⟩ | ⟨hex, hu⟩
        · rw [hids]
          refine fim_resolve_inv_pop os x stack tree _ path hinv htop (fun a ha hap => ?_)
          obtain ⟨e, he, rfl⟩ := (fim_db_ids_mem _ a).mp ha
          rw [honly e he hap]
          rw [hpath]
          exact hfresh
        · have hinv2 := fim_resolve_inv_upsert os x stack tree _ _ path (sb.st_ino, sb.st_dev)
            hinv hps hu hdisk (fun a ha hay => by
              exfalso
              obtain ⟨e, he, rfl⟩ := (fim_db_ids_mem _ a).mp ha
              simp only [Prod.mk.injEq] at hay
              exact fim_db_data_exists_zero _ _ _ hex e he hay)
          refine fim_resolve_inv_pop os x stack tree _ path hinv2 htop (fun a ha hap => ?_)
          rcases hu.1 a ha with ⟨-, hne⟩ | rfl
          · exact absurd hap hne
          · exact hdisk
    · have hdiff : ¬(entry.data.dev = sb.st_dev ∧ entry.data.inode = sb.st_ino) :=
        fun hc => hcond (Or.inl hc)
      have hex : fim_db_data_exists s.database sb.st_ino sb.st_dev = 1 := by
        rcases hexok with h0 | h1
        · exact absurd (Or.inr h0) hcond
        · exact h1
      by_cases happ : (fim_db_append_paths_from_inode s.database sb.st_ino sb.st_dev
          stack tree).1 = 0
      · -- forced update
        rw [fim_process_file_from_db_forced r sys os path stack tree s entry sb hget hstat hdiff
          hex happ hconf] at h
        rw [hpath] at hd hstat hconf h
        rw [((_fim_file_force_update_cases sys os path _ entry s).2 d hd).2
          (fim_db_fails_nil _ hs.1 _)] at h
        split at h
        · cases h
        · rename_i event s2 hforce
          simp only [Except.ok.injEq, Prod.mk.injEq] at h
          obtain ⟨⟨rfl, rfl, rfl, -⟩, rfl⟩ := h
          split at hforce
          · cases hforce
          · simp only [Except.ok.injEq, Prod.mk.injEq] at hforce
            obtain ⟨-, rfl⟩ := hforce
            obtain ⟨hsound, -⟩ := fim_entry_sound_new sys os path sb d hstat hconf hd
            have hu := fim_db_ids_upsert s.database path d
            rw [fino, fdev] at hu
            refine ⟨by decide, fim_db_sound_upsert sys os _ path d hs hsound, ?_⟩
            rw [if_neg (by decide)]
            have hz := fim_append_paths_zero _ _ _ happ
            have hinv2 := fim_resolve_inv_upsert os x stack tree _ _ path
              (sb.st_ino, sb.st_dev) hinv hps hu hdisk (fun a ha hay => by
                obtain ⟨e, he, rfl⟩ := (fim_db_ids_mem _ a).mp ha
                simp only [Prod.mk.injEq] at hay
                have hc := fim_append_paths_complete
                  (fim_db_get_paths_from_inode s.database sb.st_ino sb.st_dev) stack tree
                  e.path (Or.inl ((fim_db_get_paths_from_inode_mem _ _ _ hs.1 _).mpr
                    ⟨e, he, hay.1, hay.2, rfl⟩))
                rw [hz] at hc
                exact hc)
            refine fim_resolve_inv_pop os x stack tree _ path hinv2 htop (fun a ha hap => ?_)
            rcases hu.1 a ha with ⟨-, hne⟩ | rfl
            · exact absurd hap hne
            · exact hdisk
      · -- paths added
        unfold fim_process_file_from_db at h
        simp only [hget, hstat, hex] at h
        rw [if_neg (by
          rintro (hc | ⟨-, hc⟩)
          · exact hdiff hc
          · exact absurd hc (by decide)), if_neg (by decide), if_neg happ] at h
        simp only [Except.ok.injEq, Prod.mk.injEq] at h
        obtain ⟨⟨rfl, rfl, rfl, -⟩, rfl⟩ := h
        refine ⟨by decide, hs, ?_⟩
        rw [if_pos rfl]
        obtain ⟨new, hnew, hsub, hnd⟩ := fim_append_paths_spec
          (fim_db_get_paths_from_inode s.database sb.st_ino sb.st_dev) stack tree
        unfold fim_db_append_paths_from_inode
        rw [hnew]
        refine fim_resolve_inv_push os x stack tree new _ hinv (fun q hq => ⟨?_, (hsub q hq).2⟩)
          (hnd hinv.2.1)
        obtain ⟨e, he, -, -, rfl⟩ := (fim_db_get_paths_from_inode_mem _ _ _ hs.1 q).mp
          (hsub q hq).1
        exact ⟨_, (fim_db_ids_mem _ _).mpr ⟨e, he, rfl⟩, rfl⟩

/-! ### The loop of the resolver -/

/-- The loop of the resolver on a store it can rely on, when `stat` fails
only for missing files: if it returns, it returns `0`, the store can still be
relied on and the invariant holds with the empty stack. -/
theorem fim_resolve_loop_inv (sys : syscheck_t) (os : os_t) (x : Nat × Nat)
    (henv : ∀ p errno, os.w_stat p = .error errno → errno = ENOENT) :
    ∀ (fuel : Nat) (stack tree : List String) (s s1 : fim_state) (rc : Int),
      fim_db_sound sys os s.database →
      fim_resolve_inv os x stack tree (fim_db_ids s.database) →
      fim_resolve_loop sys os fuel stack tree s = .ok (rc, s1) →
      rc = 0 ∧ fim_db_sound sys os s1.database
        ∧ ∃ tree1, fim_resolve_inv os x [] tree1 (fim_db_ids s1.database) := by
  intro fuel
  induction fuel with
  | zero =>
    intro stack tree s s1 rc hs hinv h
    unfold fim_resolve_loop at h
    split at h
    · rename_i hnil
      simp only [Except.ok.injEq, Prod.mk.injEq] at h
      obtain ⟨rfl, rfl⟩ := h
      rw [hnil] at hinv
      exact ⟨rfl, hs, tree, hinv⟩
    · cases h
  | succ n ih =>
    intro stack tree s s1 rc hs hinv h
    unfold fim_resolve_loop at h
    cases hlast : stack.getLast? with
    | none =>
      simp only [hlast, Except.ok.injEq, Prod.mk.injEq] at h
      obtain ⟨rfl, rfl⟩ := h
      rw [List.getLast?_eq_none_iff.mp hlast] at hinv
      exact ⟨rfl, hs, tree, hinv⟩
    | some current_path =>
      simp only [hlast] at h
      cases hproc : fim_process_file_from_db
          (fun inode dev s0 =>
            fim_resolve_loop sys os n
              (fim_db_append_paths_from_inode s0.database inode dev [] []).2.1
              (fim_db_append_paths_from_inode s0.database inode dev [] []).2.2 s0)
          sys os current_path stack tree s with
      | error e =>
        rw [hproc] at h
        cases h
      | ok res =>
        obtain ⟨⟨st, stack1, tree1, ev⟩, s2⟩ := res
        rw [hproc] at h
        obtain ⟨hne, hs2, hinv2⟩ := fim_process_file_from_db_inv _ sys os x current_path stack
          tree stack1 tree1 s s2 st ev henv hs hinv hlast hproc
        have hdb := fim_send_event_paths ev s2
        cases st with
        | FIM_FILE_UPDATED =>
          rw [if_neg (by decide)] at hinv2
          exact ih _ _ _ _ _ (by rw [hdb]; exact hs2) (by rw [hdb]; exact hinv2) h
        | FIM_FILE_DELETED =>
          rw [if_neg (by decide)] at hinv2
          exact ih _ _ _ _ _ (by rw [hdb]; exact hs2) (by rw [hdb]; exact hinv2) h
        | FIM_FILE_ADDED_PATHS =>
          rw [if_pos rfl] at hinv2
          exact ih _ _ _ _ _ (by rw [hdb]; exact hs2) (by rw [hdb]; exact hinv2) h
        | FIM_FILE_ERROR => exact absurd rfl hne

/-- The collision resolver run for an inode and device on a store it can
rely on and that has I2, when `stat` fails only for missing files: if it
returns, it returns `0`, the store can still be relied on and has I2, and
every path stored under the inode and device is on disk under them. -/
theorem fim_resolve_db_collision_inv (sys : syscheck_t) (os : os_t) (fuel : Nat)
    (inode dev : Nat) (s s1 : fim_state) (rc : Int)
    (henv : ∀ p errno, os.w_stat p = .error errno → errno = ENOENT)
    (hs : fim_db_sound sys os s.database) (hi : fim_inode_unique os s.database)
    (h : fim_resolve_db_collision sys os fuel inode dev s = .ok (rc, s1)) :
    rc = 0 ∧ fim_db_sound sys os s1.database ∧ fim_inode_unique os s1.database
      ∧ ∀ e ∈ s1.database.entries, e.data.inode = inode → e.data.dev = dev →
          fim_on_disk os e.path e.data.inode e.data.dev = true := by
  unfold fim_resolve_db_collision at h
  obtain ⟨new, hnew, hsub, hnd⟩ := fim_append_paths_spec
    (fim_db_get_paths_from_inode s.database inode dev) [] []
  have hcomp := fim_append_paths_complete
    (fim_db_get_paths_from_inode s.database inode dev) [] []
  unfold fim_db_append_paths_from_inode at h
  rw [hnew] at h hcomp
  simp only [List.nil_append] at h hcomp hnd
  have hseed : fim_resolve_inv os (inode, dev) new new (fim_db_ids s.database) := by
    refine fim_resolve_inv_seed os (inode, dev) new _ ((fim_inode_unique_ids os _).mp hi)
      (hnd List.nodup_nil) (fun q hq => ?_) (fun a ha hax => ?_)
    · obtain ⟨e, he, -, -, rfl⟩ := (fim_db_get_paths_from_inode_mem _ _ _ hs.1 q).mp
        (hsub q hq).1
      exact ⟨_, (fim_db_ids_mem _ _).mpr ⟨e, he, rfl⟩, rfl⟩
    · obtain ⟨e, he, rfl⟩ := (fim_db_ids_mem _ a).mp ha
      simp only [Prod.mk.injEq] at hax
      exact hcomp e.path (Or.inl ((fim_db_get_paths_from_inode_mem _ _ _ hs.1 _).mpr
        ⟨e, he, hax.1, hax.2, rfl⟩))
  obtain ⟨hrc, hs1, tree1, hinv1⟩ := fim_resolve_loop_inv sys os (inode, dev) henv fuel new new
    s s1 rc hs hseed h
  obtain ⟨hu, hx⟩ := fim_resolve_inv_final os (inode, dev) tree1 _ hinv1
  refine ⟨hrc, hs1, (fim_inode_unique_ids os _).mpr hu, fun e he hi hd => ?_⟩
  exact hx (e.path, e.data.inode, e.data.dev) ((fim_db_ids_mem _ _).mpr ⟨e, he, rfl⟩)
    (by rw [hi, hd])

/-! ### The pipeline with the resolver -/

/-- Storing a path under the inode and device it has on disk, on a store
that can be relied on and has I2, when every path already stored under them
is on disk under them: the store can still be relied on and has I2, whether
the path is stored or refused because the store is at its capacity. -/
theorem fim_state_insert_inv (sys : syscheck_t) (os : os_t) (path : String)
    (new : fim_file_data) (saved : Option fim_file_data) (t : fim_state)
    (hs : fim_db_sound sys os t.database) (hi : fim_inode_unique os t.database)
    (hsn : fim_entry_sound sys os { path := path, data := new })
    (hd : fim_on_disk os path new.inode new.dev = true)
    (hx : ∀ e ∈ t.database.entries, e.data.inode = new.inode → e.data.dev = new.dev →
      fim_on_disk os e.path e.data.inode e.data.dev = true) :
    fim_db_sound sys os (fim_state_insert sys path new saved t).2.database
      ∧ fim_inode_unique os (fim_state_insert sys path new saved t).2.database := by
  unfold fim_state_insert fim_db_insert
  rw [fim_db_fails_nil _ hs.1]
  simp only [Bool.false_eq_true, ↓reduceIte]
  split
  · exact ⟨fim_db_sound_full sys os _ true hs, fim_inode_unique_of_ids os _ _ rfl hi⟩
  · refine ⟨fim_db_sound_upsert sys os _ path new hs hsn, ?_⟩
    rw [fim_inode_unique_ids] at hi ⊢
    refine fim_ids_unique_upsert os _ _ path (new.inode, new.dev) hi
      (fim_db_ids_upsert t.database path new) hd (fun a ha hay => ?_)
    obtain ⟨e, he, rfl⟩ := (fim_db_ids_mem _ a).mp ha
    simp only [Prod.mk.injEq] at hay
    exact hx e he hay.1 hay.2

/-- C10 (amended, inode uniqueness): in scheduled mode, `_fim_file` with
`fim_update_db_data` and the collision resolver `fim_resolve_db_collision`
preserves invariant I2 together with the conditions the resolver relies on.
Let `stat` fail only for missing files, let the path be processed with its
stat result and the options of its configured directory, and let the store
be one on which no operation fails, keyed by path, in which every entry lies
under a configured directory, is on disk under its stored inode and device
if it is marked scanned, and, if its path is on disk, has attributes that can
be extracted and whose checksum equals the stored one only if the stored
inode and device are those on disk. If the store has I2 (whenever two
different paths are stored under one non-zero inode and device, all paths
stored under them exist on disk with that inode and device) and `_fim_file`
returns, then the store it leaves has I2 and satisfies the same conditions,
whatever collision resolution was run. -/
theorem C10_inode_unique_preserved (sys : syscheck_t) (os : os_t) (fuel : Nat)
    (path : String) (item : fim_element) (w_evt : Option whodata_evt) (s s1 : fim_state)
    (ev : Option fim_event)
    (henv : ∀ p errno, os.w_stat p = .error errno → errno = ENOENT)
    (hv : fim_visit_ok sys os (.file path item))
    (hs : fim_db_sound sys os s.database) (hi : fim_inode_unique os s.database)
    (hrun : _fim_file (fim_resolve_db_collision sys os fuel) sys os path item w_evt s
      = .ok (ev, s1)) :
    fim_db_sound sys os s1.database ∧ fim_inode_unique os s1.database := by
  obtain ⟨hstat, hconf0, hitem⟩ := hv
  have hconf : fim_configuration_directory sys os path ≠ -1 := by omega
  have hmode : item.mode = FIM_SCHEDULED := by
    rw [hitem]
    rfl
  rcases _fim_file_state _ sys os path item w_evt s s1 ev hrun with
    ⟨-, -, rfl⟩ | ⟨-, rfl⟩ | ⟨new, rc, saved, hnew, hupd⟩
  · exact ⟨hs, hi⟩
  · exact ⟨hs, hi⟩
  · rw [hmode] at hupd
    have hnew1 : fim_get_data sys os path
        (fim_db_item sys item.statbuf (fim_configuration_directory sys os path)) = some new := by
      rw [← hitem]
      exact hnew
    obtain ⟨hsn, hd⟩ := fim_entry_sound_new sys os path item.statbuf new hstat hconf hnew1
    obtain ⟨-, -, -, fino, fdev, -, -, -, -⟩ := fim_get_data_fields sys os path item new hnew
    -- the update after a run of the resolver
    have hres : ∀ sv0 : Option fim_entry,
        fim_update_db_data (fim_resolve_db_collision sys os fuel) sys path new FIM_SCHEDULED s
          = (match fim_resolve_db_collision sys os fuel new.inode new.dev s with
            | .error h => .error h
            | .ok (rc, s1) =>
              if rc ≠ 0 then .ok ((-1, sv0), s1)
              else .ok (((fim_state_insert sys path new (sv0.map (fun e => e.data)) s1).1, sv0),
                (fim_state_insert sys path new (sv0.map (fun e => e.data)) s1).2)) →
        fim_db_sound sys os s1.database ∧ fim_inode_unique os s1.database := by
      intro sv0 heq
      rw [heq] at hupd
      cases hr : fim_resolve_db_collision sys os fuel new.inode new.dev s with
      | error e =>
        rw [hr] at hupd
        cases hupd
      | ok res =>
        obtain ⟨rc1, s2⟩ := res
        rw [hr] at hupd
        obtain ⟨hrc, hs2, hi2, hx2⟩ := fim_resolve_db_collision_inv sys os fuel new.inode
          new.dev s s2 rc1 henv hs hi hr
        subst hrc
        simp only [ne_eq, not_true_eq_false, if_false, Except.ok.injEq, Prod.mk.injEq] at hupd
        rw [← hupd.2]
        exact fim_state_insert_inv sys os path new _ s2 hs2 hi2 hsn hd hx2
    rcases fim_db_data_exists_of_ok s.database new.inode new.dev hs.1 with hex | hex
    · -- the inode and device are claimed by no entry
      have hnone : ∀ e ∈ s.database.entries, e.data.inode = new.inode →
          e.data.dev = new.dev → fim_on_disk os e.path e.data.inode e.data.dev = true :=
        fun e he h1 h2 => absurd ⟨h1, h2⟩ (fim_db_data_exists_zero _ _ _ hex e he)
      cases hget : fim_db_get_path s.database path with
      | none =>
        unfold fim_update_db_data at hupd
        simp only [hget, ne_eq, not_true_eq_false, if_false, hex, FIMDB_ERR] at hupd
        simp only [Int.reduceNeg, zero_eq_neg, one_ne_zero, ↓reduceIte, zero_ne_one,
          Except.ok.injEq, Prod.mk.injEq] at hupd
        rw [← hupd.2]
        exact fim_state_insert_inv sys os path new none s hs hi hsn hd hnone
      | some sv =>
        by_cases hck : new.checksum = sv.data.checksum
        · rw [fim_update_db_data_up_to_date _ sys path new s sv hget hck] at hupd
          simp only [Except.ok.injEq, Prod.mk.injEq] at hupd
          rw [← hupd.2]
          have hmem := fim_db_get_path_mem _ _ _ hget
          have hpath := fim_db_get_path_path _ _ _ hget
          obtain ⟨-, -, hext⟩ := hs.2.2 sv hmem
          rw [hpath] at hext
          obtain ⟨d, hdd, hckid⟩ := hext item.statbuf hstat
          rw [hnew1] at hdd
          cases hdd
          obtain ⟨h1, h2⟩ := hckid hck
          refine ⟨fim_db_sound_set_scanned sys os _ path hs (fun e he hep => ?_),
            fim_inode_unique_of_ids os _ _ (fim_db_ids_set_scanned _ _) hi⟩
          rw [fim_db_keyed_unique _ hs.2.1 e sv he hmem (hep.trans hpath.symm), hpath, h1, h2,
            ← fino, ← fdev]
          exact hd
        · rw [fim_update_db_data_replace _ sys path new s sv hs.1 hget hck (Or.inr hex)] at hupd
          simp only [Except.ok.injEq, Prod.mk.injEq] at hupd
          rw [← hupd.2]
          have hins := fim_state_insert_inv sys os path new (some sv.data) s hs hi hsn hd hnone
          rw [fim_state_insert_saved sys path new sv.data s hs.1] at hins
          exact hins
    · -- the inode and device are claimed
      cases hget : fim_db_get_path s.database path with
      | none =>
        refine hres none ?_
        rw [fim_update_db_data_resolve _ sys path new s (Or.inl hget) hex, hget]
      | some sv =>
        have hmem := fim_db_get_path_mem _ _ _ hget
        have hpath := fim_db_get_path_path _ _ _ hget
        by_cases hck : new.checksum = sv.data.checksum
        · rw [fim_update_db_data_up_to_date _ sys path new s sv hget hck] at hupd
          simp only [Except.ok.injEq, Prod.mk.injEq] at hupd
          rw [← hupd.2]
          obtain ⟨-, -, hext⟩ := hs.2.2 sv hmem
          rw [hpath] at hext
          obtain ⟨d, hdd, hckid⟩ := hext item.statbuf hstat
          rw [hnew1] at hdd
          cases hdd
          obtain ⟨h1, h2⟩ := hckid hck
          refine ⟨fim_db_sound_set_scanned sys os _ path hs (fun e he hep => ?_),
            fim_inode_unique_of_ids os _ _ (fim_db_ids_set_scanned _ _) hi⟩
          rw [fim_db_keyed_unique _ hs.2.1 e sv he hmem (hep.trans hpath.symm), hpath, h1, h2,
            ← fino, ← fdev]
          exact hd
        · by_cases hsame : new.dev = sv.data.dev ∧ new.inode = sv.data.inode
          · rw [fim_update_db_data_replace _ sys path new s sv hs.1 hget hck (Or.inl hsame)]
              at hupd
            simp only [Except.ok.injEq, Prod.mk.injEq] at hupd
            rw [← hupd.2]
            exact ⟨fim_db_sound_upsert sys os _ path new hs hsn,
              fim_inode_unique_of_ids os _ _
                (fim_db_ids_upsert_same _ path new sv hs.2.1 hget hsame.2 hsame.1) hi⟩
          · refine hres (some sv) ?_
            rw [fim_update_db_data_resolve _ sys path new s
              (Or.inr ⟨sv, hget, hck, hsame⟩) hex, hget]

/-- C10 (counterexample). In realtime mode, with `/m/y` stored at inode 200
and only `/m/x` on disk at inode 200, processing `/m/x` stores it next to
`/m/y` under the same inode and device although `/m/y` does not exist: the
invariant held before and fails after. In scheduled mode the invariant is
lost as well in each of these runs: with `/m/q` stored at inode 5 of
device 1 but on disk at device 2 with an unchanged checksum, the resolver
only marks `/m/q` scanned and the new file `/m/p` is stored under the same
inode and device; with `/m/q` stored at inode 5 and marked scanned while it
has the inode 6 on disk, the resolver skips `/m/q`; when the hash primitive
fails on `/m/q`, the resolver leaves its entry as it was; and with `/x/w`
stored outside the monitored directory, the resolver gives up after it
stored `/m/p` under the inode and device claimed by `/x/w`. -/
theorem C10_counterexample :
    (fim_inode_unique c8_os
        (sample_state [{ path := "/m/y", data := { sample_data with inode := 200 } }]).database
      ∧ ((_fim_file (fim_resolve_db_collision sample_sys c8_os 4) sample_sys c8_os "/m/x"
            { c8_item with configuration := 0o777, mode := FIM_REALTIME } none
            (sample_state [{ path := "/m/y", data := { sample_data with inode := 200 } }])).map
          (fun r => (fim_db_ids r.2.database, decide (fim_inode_unique c8_os r.2.database))))
        = .ok ([("/m/y", 200, 1), ("/m/x", 200, 1)], false))
    ∧ (fim_inode_unique c10_os c10_state.database
      ∧ ((_fim_file (fim_resolve_db_collision sample_sys c10_os 4) sample_sys c10_os "/m/p"
            { sample_item with statbuf := { sample_stat with st_ino := 5, st_dev := 1 } } none
            c10_state).map
          (fun r => (fim_db_ids r.2.database, decide (fim_inode_unique c10_os r.2.database))))
        = .ok ([("/m/q", 5, 1), ("/m/p", 5, 1)], false))
    ∧ (fim_inode_unique c10_os_swap c10_state_scanned.database
      ∧ ((_fim_file (fim_resolve_db_collision sample_sys c10_os_swap 4) sample_sys c10_os_swap
            "/m/p" c10_item none c10_state_scanned).map
          (fun r => (fim_db_ids r.2.database,
            decide (fim_inode_unique c10_os_swap r.2.database))))
        = .ok ([("/m/q", 5, 1), ("/m/p", 5, 1)], false))
    ∧ (fim_inode_unique c10_os_hash c10_state_stale.database
      ∧ ((_fim_file (fim_resolve_db_collision sample_sys c10_os_hash 4) sample_sys c10_os_hash
            "/m/p" c10_item none c10_state_stale).map
          (fun r => (fim_db_ids r.2.database,
            decide (fim_inode_unique c10_os_hash r.2.database))))
        = .ok ([("/m/q", 5, 1), ("/m/p", 5, 1)], false))
    ∧ (fim_inode_unique c10_os_outside c10_state_outside.database
      ∧ ((_fim_file (fim_resolve_db_collision sample_sys c10_os_outside 6) sample_sys
            c10_os_outside "/m/f" c10_item none c10_state_outside).map
          (fun r => (fim_db_ids r.2.database,
            decide (fim_inode_unique c10_os_outside r.2.database))))
        = .ok ([("/m/u", 5, 1), ("/x/w", 6, 1), ("/m/p", 6, 1)], false)) := by
  refine ⟨⟨by decide, by rfl⟩, ⟨by decide, by rfl⟩, ⟨by decide, by rfl⟩, ⟨by decide, by rfl⟩,
    ⟨by decide, by rfl⟩⟩

/-- Witness of C10 (amended): `/m/q` and `/m/r` are stored under the inode
of each other and the new file `/m/p` is a hard link of `/m/r`. The resolver
run for the inode of `/m/p` visits `/m/q`, pushes `/m/r`, updates `/m/r` by
force and then `/m/q`; `/m/p` is stored next to `/m/r` under the inode 5, and
the store has I2. -/
theorem C10_inode_unique_preserved_witness :
    fim_db_ids c10_result_swap.2.database = [("/m/q", 6, 1), ("/m/r", 5, 1), ("/m/p", 5, 1)]
      ∧ fim_db_sound sample_sys c10_os_swap c10_result_swap.2.database
      ∧ fim_inode_unique c10_os_swap c10_result_swap.2.database :=
  ⟨by rfl,
    C10_inode_unique_preserved sample_sys c10_os_swap 4 "/m/p" c10_item none c10_state_swap
      c10_result_swap.2 c10_result_swap.1
      (fun p errno h => by
        simp only [c10_os_swap] at h
        split_ifs at h
        cases h
        rfl)
      ⟨rfl, by decide, rfl⟩
      ⟨rfl, by decide, fun e he => by
        simp only [c10_state_swap, sample_state, List.mem_cons, List.mem_singleton,
          List.not_mem_nil, or_false] at he
        rcases he with rfl | rfl
        · refine ⟨by decide, (fun h => by cases h), fun st hst => ?_⟩
          have h0 : c10_os_swap.w_stat "/m/q" = .ok { sample_stat with st_ino := 6 } := rfl
          rw [h0] at hst
          cases hst
          exact ⟨c10_record 6 "20:rw-r--r--::0:0:root:root:200:6:m:s1:s256", rfl,
            fun hck => absurd hck (by decide)⟩
        · refine ⟨by decide, (fun h => by cases h), fun st hst => ?_⟩
          have h0 : c10_os_swap.w_stat "/m/r" = .ok { sample_stat with st_ino := 5 } := rfl
          rw [h0] at hst
          cases hst
          exact ⟨c10_record 5 "20:rw-r--r--::0:0:root:root:200:5:m:s1:s256", rfl,
            fun hck => absurd hck (by decide)⟩⟩
      (by decide) (by rfl)⟩

end Wazuh
